import Mathlib

/-!
# mesh_navigation: wave-front planner and mesh controller

A shallow embedding of `mesh_planner/src/mesh_planner.cpp` and
`mesh_controller/src/mesh_controller.cpp`.

Conventions of the embedding

* `float`/`double` values are modelled by `FP R`: a finite value of an ordered
  field `R`, or one of the IEEE special values `+inf`, `-inf`, `NaN`.  The
  special values follow the IEEE rules, finite arithmetic is exact: rounding,
  overflow of finite results and the sign of zero are not modelled, and the
  conversions between `float` and `double` are the identity.
* The C library functions (`sqrt`, `acos`, ...) are a parameter `Libm R`.
* The mesh (`lvr2::HalfEdgeMesh`) and the map (`mesh_map::MeshMap`) are
  external collaborators: their queries are the fields of `MeshMap R`.
* A `PanicException` of lvr2 and undefined behaviour of C++ are explicit
  results (`Fault`).
* Loops that the code bounds only by its data take a fuel argument; the
  result `Fault.outOfFuel` means that the fuel ran out.
* Another thread may call `MeshPlanner::cancel` during a planning call: a
  function `cancelAt` tells for each read of `cancel_planning` whether the
  call came since the read before.
-/

set_option linter.unusedVariables false

namespace MeshNav

/-! ## Floating point values -/

/-- A `float`/`double`: a finite value or an IEEE special value. -/
inductive FP (R : Type) where
  | fin (x : R)
  | pinf
  | ninf
  | nan
deriving DecidableEq, Repr

/-- The functions of the C math library and its constants (`M_PI`, `E`),
on finite arguments inside their domain. -/
structure Libm (R : Type) where
  sqrt : R → R
  acos : R → R
  exp : R → R
  pi : R

namespace FP

variable {R : Type} [LinearOrderedField R]

/-- The value of `std::isfinite`. -/
def isfinite : FP R → Bool
  | fin _ => true
  | _ => false

/-- Unary minus. -/
def neg : FP R → FP R
  | fin x => fin (-x)
  | pinf => ninf
  | ninf => pinf
  | nan => nan

/-- Addition, `inf + (-inf) = NaN`. -/
def add : FP R → FP R → FP R
  | fin x, fin y => fin (x + y)
  | nan, _ => nan
  | _, nan => nan
  | pinf, ninf => nan
  | ninf, pinf => nan
  | pinf, _ => pinf
  | _, pinf => pinf
  | ninf, _ => ninf
  | _, ninf => ninf

/-- Subtraction. -/
def sub (a b : FP R) : FP R := add a (neg b)

/-- The infinity with the sign of `s` times `positive`; `NaN` for `s = 0`. -/
def signedInf (s : R) (positive : Bool) : FP R :=
  if s = 0 then nan else if (decide (0 < s)) = positive then pinf else ninf

/-- Multiplication, `0 * inf = NaN`. -/
def mul : FP R → FP R → FP R
  | fin x, fin y => fin (x * y)
  | nan, _ => nan
  | _, nan => nan
  | fin x, pinf => signedInf x true
  | fin x, ninf => signedInf x false
  | pinf, fin y => signedInf y true
  | ninf, fin y => signedInf y false
  | pinf, pinf => pinf
  | ninf, ninf => pinf
  | pinf, ninf => ninf
  | ninf, pinf => ninf

/-- Division: `x / 0` is an infinity for `x ≠ 0` and `NaN` for `x = 0`
(the zero divisor is taken as `+0`), `x / inf = 0`, `inf / inf = NaN`. -/
def div : FP R → FP R → FP R
  | fin x, fin y => if y = 0 then signedInf x true else fin (x / y)
  | nan, _ => nan
  | _, nan => nan
  | fin _, pinf => fin 0
  | fin _, ninf => fin 0
  | pinf, fin y => if 0 ≤ y then pinf else ninf
  | ninf, fin y => if 0 ≤ y then ninf else pinf
  | pinf, pinf => nan
  | pinf, ninf => nan
  | ninf, pinf => nan
  | ninf, ninf => nan

/-- The comparison `a < b`; false when an operand is `NaN`. -/
def lt : FP R → FP R → Bool
  | fin x, fin y => decide (x < y)
  | nan, _ => false
  | _, nan => false
  | ninf, ninf => false
  | ninf, _ => true
  | _, ninf => false
  | pinf, _ => false
  | _, pinf => true

/-- The comparison `a == b`; `NaN` equals nothing. -/
def eq : FP R → FP R → Bool
  | fin x, fin y => decide (x = y)
  | pinf, pinf => true
  | ninf, ninf => true
  | _, _ => false

/-- The comparison `a > b`. -/
def gt (a b : FP R) : Bool := lt b a

/-- The comparison `a <= b`; false when an operand is `NaN`. -/
def le (a b : FP R) : Bool := lt a b || eq a b

/-- The comparison `a >= b`. -/
def ge (a b : FP R) : Bool := le b a

/-- The comparison `a != b`. -/
def ne (a b : FP R) : Bool := !(eq a b)

/-- The value of `std::max(a, b)`, that is `(a < b) ? b : a`. -/
def max (a b : FP R) : FP R := if lt a b then b else a

/-- The value of `sqrt`: `NaN` on negative arguments. -/
def sqrt (m : Libm R) : FP R → FP R
  | fin x => if x < 0 then nan else fin (m.sqrt x)
  | pinf => pinf
  | _ => nan

/-- The value of `acos`: `NaN` outside `[-1, 1]`. -/
def acos (m : Libm R) : FP R → FP R
  | fin x => if x < -1 ∨ 1 < x then nan else fin (m.acos x)
  | _ => nan

/-- The value of `pow(E, a)`. -/
def exp (m : Libm R) : FP R → FP R
  | fin x => fin (m.exp x)
  | pinf => pinf
  | ninf => fin 0
  | nan => nan

/-- The value of `abs`/`fabs`. -/
def abs : FP R → FP R
  | fin x => fin (|x|)
  | pinf => pinf
  | ninf => pinf
  | nan => nan

/-- The value of `pow(a, 2)`. -/
def sq (a : FP R) : FP R := mul a a

/-- A literal. -/
def lit (n : Nat) : FP R := fin (n : R)

/-- The value of `std::numeric_limits<float>::max()`. -/
def fltMax : FP R := fin ((340282346638528859811704183484516925440 : Nat) : R)

instance : Add (FP R) := ⟨add⟩
instance : Sub (FP R) := ⟨sub⟩
instance : Mul (FP R) := ⟨mul⟩
instance : Div (FP R) := ⟨div⟩
instance : Neg (FP R) := ⟨neg⟩

end FP

/-- What stops a call other than a return: an exception that nothing catches
(a `PanicException` of lvr2, `std::out_of_range`), or undefined behaviour of
C++ (an access outside a vector, the read of an uninitialised variable, a
missing `return`).  The last constructor belongs to the model alone. -/
inductive Fault where
  | panic
  | undefinedBehaviour
  /-- Not a behaviour of the code: the fuel of a loop of the model ran out. -/
  | outOfFuel
deriving DecidableEq, Repr

deriving instance DecidableEq for Except

/-- The value of `(int) x`: truncation toward zero, undefined for a value
that is not finite. -/
def toInt {R : Type} [LinearOrderedField R] [FloorRing R] : FP R → Except Fault Int
  | .fin x => .ok (if 0 ≤ x then Int.floor x else Int.ceil x)
  | _ => .error .undefinedBehaviour

/-- The conversion of an `int` to `float`. -/
def ofInt {R : Type} [LinearOrderedField R] (i : Int) : FP R := .fin (i : R)

/-! ## Vectors, poses, time -/

/-- The type `mesh_map::Vector` (`lvr2::BaseVector<float>`), also used for
`tf::Vector3` and `geometry_msgs::Point`. -/
structure Vector (R : Type) where
  x : FP R
  y : FP R
  z : FP R
deriving DecidableEq, Repr

namespace Vector

variable {R : Type} [LinearOrderedField R]

/-- Componentwise difference. -/
def sub (a b : Vector R) : Vector R := ⟨a.x - b.x, a.y - b.y, a.z - b.z⟩

/-- Componentwise sum. -/
def add (a b : Vector R) : Vector R := ⟨a.x + b.x, a.y + b.y, a.z + b.z⟩

/-- Scaling. -/
def smul (a : Vector R) (s : FP R) : Vector R := ⟨a.x * s, a.y * s, a.z * s⟩

/-- The scalar product. -/
def dot (a b : Vector R) : FP R := a.x * b.x + a.y * b.y + a.z * b.z

/-- The vector product. -/
def cross (a b : Vector R) : Vector R :=
  ⟨a.y * b.z - a.z * b.y, a.z * b.x - a.x * b.z, a.x * b.y - a.y * b.x⟩

/-- The squared length. -/
def length2 (a : Vector R) : FP R := dot a a

/-- The length. -/
def length (m : Libm R) (a : Vector R) : FP R := FP.sqrt m (length2 a)

/-- The squared distance, `lvr2::BaseVector::distance2`. -/
def distance2 (a b : Vector R) : FP R := length2 (sub a b)

/-- The distance, `tf::Vector3::distance`. -/
def distance (m : Libm R) (a b : Vector R) : FP R := length m (sub b a)

/-- The angle `tf::Vector3::angle`. -/
def angle (m : Libm R) (a b : Vector R) : FP R :=
  FP.acos m (dot a b / FP.sqrt m (length2 a * length2 b))

end Vector

/-- A `geometry_msgs::Quaternion`. -/
structure Quaternion (R : Type) where
  x : FP R
  y : FP R
  z : FP R
  w : FP R
deriving DecidableEq, Repr

/-- A `std_msgs::Header`: the stamp in nanoseconds and the frame. -/
structure Header where
  stamp : Nat
  frame_id : String
deriving DecidableEq, Repr

/-- A `geometry_msgs::PoseStamped`. -/
structure PoseStamped (R : Type) where
  header : Header
  position : Vector R
  orientation : Quaternion R
deriving DecidableEq, Repr

/-- The seconds of a `ros::Duration` between two `ros::Time` values, both in
nanoseconds. -/
def durationToSec {R : Type} [LinearOrderedField R] (now last : Nat) : FP R :=
  .fin ((((now : Int) - (last : Int) : Int) : R) / 1000000000)

abbrev VertexHandle := Nat
abbrev FaceHandle := Nat
abbrev EdgeHandle := Nat

/-! ## The mesh and the map -/

/-- The map `mesh_map::MeshMap` with its mesh `lvr2::HalfEdgeMesh`, as the
planner and the controller query it.  A query of lvr2 that may throw a
`PanicException` returns an `Option`, as does an lvr2 optional handle. -/
structure MeshMap (R : Type) where
  /-- Result of `mesh.vertices()`. -/
  vertices : List VertexHandle
  /-- Result of `mesh.nextVertexIndex()`. -/
  nextVertexIndex : Nat
  /-- Result of `mesh.getVerticesOfFace(fh)`. -/
  getVerticesOfFace : FaceHandle → VertexHandle × VertexHandle × VertexHandle
  /-- Result of `mesh.getNeighboursOfVertex(vh, out)`, `none` for a panic. -/
  getNeighboursOfVertex : VertexHandle → Option (List VertexHandle)
  /-- Result of `mesh.getFacesOfVertex(vh, out)`, `none` for a panic. -/
  getFacesOfVertex : VertexHandle → Option (List FaceHandle)
  /-- Result of `mesh.getNeighboursOfFace(fh, out)`. -/
  getNeighboursOfFace : FaceHandle → List FaceHandle
  /-- Result of `mesh.getEdgeBetween(a, b)`. -/
  getEdgeBetween : VertexHandle → VertexHandle → Option EdgeHandle
  /-- Result of `mesh.getFaceBetween(a, b, c)`. -/
  getFaceBetween : VertexHandle → VertexHandle → VertexHandle → Option FaceHandle
  /-- Result of `mesh.getFacesOfEdge(e)`. -/
  getFacesOfEdge : EdgeHandle → Option FaceHandle × Option FaceHandle
  /-- Result of `mesh.getVertexPosition(vh)`. -/
  getVertexPosition : VertexHandle → Vector R
  /-- The map `mesh_map->faceNormals()`. -/
  faceNormals : FaceHandle → Vector R
  /-- The map `mesh_map->invalid`. -/
  invalid : VertexHandle → Bool
  /-- The map `mesh_map->edgeDistances()`. -/
  edgeDistances : EdgeHandle → FP R
  /-- The map `mesh_map->vertexCosts()`. -/
  vertexCosts : VertexHandle → FP R
  /-- Result of `mesh_map->mapFrame()`. -/
  mapFrame : String
  /-- Result of `mesh_map->getContainingFace(position, max_dist)`. -/
  getContainingFace : Vector R → FP R → Option FaceHandle
  /-- Result of `mesh_map->getContainingFaceHandle(position)`. -/
  getContainingFaceHandle : Vector R → Option FaceHandle
  /-- Result of `mesh_map->barycentricCoords(p, face, u, v)`: the
  coordinates when the point is inside the face. -/
  barycentricCoords : Vector R → FaceHandle → Option (FP R × FP R)
  /-- Result of `mesh_map->costAtPosition(face, position)`. -/
  costAtPosition : FaceHandle → Vector R → FP R
  /-- Result of `mesh_map->directionAtPosition(face, position)`. -/
  directionAtPosition : FaceHandle → Vector R → Vector R
  /-- Result of `mesh_map->meshAhead(position, face, step_width)` for the
  vector field handed over by `setVectorMap`: the new position and face, or
  `none` when it returns false. -/
  meshAhead : (VertexHandle → Option (Vector R)) → Vector R → FaceHandle → FP R →
    Option (Vector R × FaceHandle)
  /-- Result of `mesh_map::calculatePoseFromPosition(current, next, normal)`. -/
  calculatePoseFromPosition : Vector R → Vector R → Vector R →
    Vector R × Quaternion R
  /-- Result of `v.rotated(normal, angle)`. -/
  rotated : Vector R → Vector R → FP R → Vector R
  /-- Result of `v.normalized()`. -/
  normalized : Vector R → Vector R

/-- The outcome codes `mbf_msgs::GetPathResult`, which both source files
return.  The message package is not among the source files, so the codes are
a parameter of the functions; the default values are those of the action
definition `GetPath.action` of move_base_flex. -/
structure GetPathResult where
  SUCCESS : Nat := 0
  FAILURE : Nat := 50
  CANCELED : Nat := 51
  INVALID_START : Nat := 52
  INVALID_GOAL : Nat := 53
  NO_PATH_FOUND : Nat := 54
  PAT_EXCEEDED : Nat := 55
  EMPTY_PATH : Nat := 56
  TF_ERROR : Nat := 57
  NOT_INITIALIZED : Nat := 58
  INVALID_PLUGIN : Nat := 59
  INTERNAL_ERROR : Nat := 60

/-! ## The controller: `mesh_controller.cpp` -/

/-- The parameters `mesh_controller::MeshControllerConfig`. -/
structure MeshControllerConfig (R : Type) where
  prop_dis_gain : FP R
  int_dis_gain : FP R
  deriv_dis_gain : FP R
  prop_dir_gain : FP R
  int_dir_gain : FP R
  deriv_dir_gain : FP R
  useMeshGradient : Bool
  max_lin_velocity : FP R
  max_ang_velocity : FP R
  fading : FP R
  int_time : FP R
  control_type : Int
  off_plan : FP R
  ahead_amount : FP R
deriving DecidableEq

/-- The member variables of `MeshController`. -/
structure MeshController (R : Type) where
  current_plan : List (PoseStamped R)
  goal : PoseStamped R
  goalSet : Bool
  plan_position : PoseStamped R
  plan_iter : Int
  current_face : Option FaceHandle
  ahead_face : Option FaceHandle
  haveStartFace : Bool
  last_call : Nat
  last_lookahead_call : Nat
  set_linear_velocity : FP R
  initial_dist : FP R
  last_fading : FP R
  angle : FP R
  int_dis_error : FP R
  int_dir_error : FP R
  prev_dis_error : FP R
  prev_dir_error : FP R
  name : String
  first_config : Bool
  config : MeshControllerConfig R
deriving DecidableEq

/-- The velocity command: `cmd_vel.twist.angular.z` and
`cmd_vel.twist.linear.x`. -/
structure CmdVel (R : Type) where
  angular_z : FP R
  linear_x : FP R
deriving DecidableEq

section Controller

variable {R : Type} [LinearOrderedField R] [FloorRing R]

/-- The element `v[i]` of a `std::vector` for an `int` index; undefined
behaviour outside the vector. -/
def vecIndex {α : Type} (v : List α) (i : Int) : Except Fault α :=
  if i < 0 then .error .undefinedBehaviour
  else match v.get? i.toNat with
    | some a => .ok a
    | none => .error .undefinedBehaviour

/-- The function `MeshController::poseToPositionVector`. -/
def poseToPositionVector (pose : PoseStamped R) : Vector R := pose.position

/-- The function `MeshController::poseToDirectionVector`: the first column
of the rotation matrix that tf builds from the orientation. -/
def poseToDirectionVector (pose : PoseStamped R) : Vector R :=
  let q := pose.orientation
  let d := q.x * q.x + q.y * q.y + q.z * q.z + q.w * q.w
  let s := FP.lit 2 / d
  ⟨FP.lit 1 - (q.y * (q.y * s) + q.z * (q.z * s)),
   q.x * (q.y * s) + q.w * (q.z * s),
   q.x * (q.z * s) - q.w * (q.y * s)⟩

/-- The function `MeshController::angleBetweenVectors`. -/
def angleBetweenVectors (m : Libm R) (robot_heading planned_heading : Vector R) : FP R :=
  Vector.angle m robot_heading planned_heading

/-- The function `MeshController::linValue`; `abs` is read as the overload
for floating point values. -/
def linValue (max_hight x_axis max_width value : FP R) : FP R :=
  if FP.gt value (max_width / FP.lit 2) then max_hight
  else if FP.lt value (-max_width / FP.lit 2) then -max_hight
  else
    let incline := max_hight / (max_width / FP.lit 2)
    FP.abs (incline * (value + x_axis))

/-- The function `MeshController::gaussValue`. -/
def gaussValue (m : Libm R) (max_hight max_width value : FP R) : FP R :=
  if FP.gt value (max_width / FP.lit 2) then FP.lit 0
  else
    let std_dev := FP.sq (-max_width / FP.lit 6)
    max_hight * FP.lit 1 / FP.sqrt m (FP.lit 2 * FP.fin m.pi * std_dev) *
      FP.exp m (-(FP.sq value) * FP.sq (FP.lit 2 * std_dev))

/-- The function `MeshController::direction`. -/
def direction (robot_heading planned_heading : Vector R) : FP R :=
  let tf_cross_prod := Vector.cross robot_heading planned_heading
  let tf_up : Vector R := ⟨FP.lit 0, FP.lit 0, -FP.lit 1⟩
  let tf_dot_prod := Vector.dot tf_cross_prod tf_up
  if FP.lt tf_dot_prod (FP.lit 0) then FP.lit 1 else -FP.lit 1

/-- The function `MeshController::offPlan`. -/
def offPlan (m : Libm R) (c : MeshController R) (robot_pose : PoseStamped R) : Bool :=
  let tf_robot_vec := poseToPositionVector robot_pose
  let tf_plan_vec := poseToPositionVector c.plan_position
  if FP.gt (Vector.distance m tf_robot_vec tf_plan_vec) c.config.off_plan then true
  else false

/-- The function `MeshController::euclideanDistance` on two vectors. -/
def euclideanDistanceVec (m : Libm R) (current planned : Vector R) : FP R :=
  FP.sqrt m (FP.sq (planned.x - current.x) + FP.sq (planned.y - current.y) +
    FP.sq (planned.z - current.z))

/-- The function `MeshController::euclideanDistance` on a pose. -/
def euclideanDistance (m : Libm R) (c : MeshController R) (pose : PoseStamped R) : FP R :=
  euclideanDistanceVec m pose.position c.plan_position.position

/-- The function `MeshController::isGoalReached`. -/
def isGoalReached (m : Libm R) (c : MeshController R) (dist_tolerance angle_tolerance : FP R) :
    Bool :=
  let dist := Vector.distance m c.plan_position.position c.goal.position
  if FP.le dist dist_tolerance && FP.le c.angle angle_tolerance then true else false

/-- The function `MeshController::setPlan`.  `current_plan.back()` on an
empty vector is undefined behaviour. -/
def setPlan (c : MeshController R) (plan : List (PoseStamped R)) :
    Except Fault (Bool × MeshController R) :=
  if !plan.isEmpty then
    let current_plan := plan.eraseIdx 0
    match current_plan.getLast? with
    | none => .error .undefinedBehaviour
    | some back =>
      .ok (true, { c with current_plan := current_plan, goal := back, initial_dist := FP.fltMax })
  else
    .ok (false, c)

/-- The function `MeshController::cancel`. -/
def MeshController.cancel (c : MeshController R) : Bool × MeshController R := (false, c)

/-- The sum of the distances between consecutive poses, starting from the
position `start`: the loops of `fadingFactor`. -/
def pathLength (m : Libm R) : Vector R → List (PoseStamped R) → FP R → FP R
  | _, [], acc => acc
  | start, p :: rest, acc =>
    pathLength m (poseToPositionVector p) rest
      (acc + Vector.distance m start (poseToPositionVector p))

/-- The function `MeshController::fadingFactor`.  `current_plan.at(0)` throws
on an empty plan. -/
def fadingFactor (m : Libm R) (c : MeshController R) : Except Fault (FP R × MeshController R) :=
  match c.current_plan with
  | [] => .error .panic
  | start_pose :: rest =>
    let c1 : MeshController R :=
      if FP.eq c.initial_dist FP.fltMax then
        { c with initial_dist := pathLength m (poseToPositionVector start_pose) rest (FP.lit 0) }
      else c
    let dist := pathLength m (poseToPositionVector start_pose)
      (rest.take c.plan_iter.toNat) (FP.lit 0)
    if FP.lt dist c1.config.fading then
      if FP.eq dist (FP.lit 0) then
        let f := c1.config.max_lin_velocity / FP.lit 10
        .ok (f, { c1 with last_fading := f })
      else .ok (dist / c1.config.fading, c1)
    else if FP.lt (c1.initial_dist - dist) c1.config.fading then
      let f := (c1.initial_dist - dist) / c1.config.fading
      .ok (f, { c1 with last_fading := f })
    else .ok (FP.lit 1, { c1 with last_fading := FP.lit 1 })

/-- One of the two `do ... while` loops of `updatePlanPos` over the poses
still to visit, `iter` being the index of the first of them and `step` the
change of the index (`1` looking ahead, `-1` looking back).  The state is
`(min_dist, ret_iter)`, with `ret_iter` absent while it is uninitialised. -/
def searchPlan (m : Libm R) (robot : Vector R) (max_dist : FP R) (step : Int) :
    List (PoseStamped R) → Int → FP R × Option Int → FP R × Option Int
  | [], _, acc => acc
  | p :: rest, iter, (min_dist, ret_iter) =>
    let dist := Vector.distance m robot (poseToPositionVector p)
    let acc := if FP.lt dist min_dist then (dist, some iter) else (min_dist, ret_iter)
    if FP.gt dist max_dist then searchPlan m robot max_dist step rest (iter + step) acc
    else acc

/-- The function `MeshController::updatePlanPos`; `now` is the value of
`ros::Time::now()`. -/
def updatePlanPos (m : Libm R) (now : Nat) (c : MeshController R) (pose : PoseStamped R)
    (velocity : FP R) : Except Fault (MeshController R) :=
  if c.last_call = 0 then
    .ok { c with last_call := now, plan_iter := 0 }
  else
    let max_dist := velocity * durationToSec now c.last_call
    let min_dist : FP R := FP.fltMax
    let robot := poseToPositionVector pose
    -- the first body of each loop reads `current_plan[plan_iter]`
    match vecIndex c.current_plan c.plan_iter with
    | .error e => .error e
    | .ok _ =>
      let ahead := searchPlan m robot max_dist 1 (c.current_plan.drop c.plan_iter.toNat)
        c.plan_iter (min_dist, none)
      let back := searchPlan m robot max_dist (-1)
        ((c.current_plan.take (c.plan_iter.toNat + 1)).reverse) c.plan_iter ahead
      match back.2 with
      | none => .error .undefinedBehaviour
      | some ret_iter =>
        match vecIndex c.current_plan ret_iter with
        | .error e => .error e
        | .ok p => .ok { c with plan_iter := ret_iter, plan_position := p, last_call := now }

/-- The function `MeshController::searchNeighbourFaces`: the loop runs while
`current` is inside `possible_faces` and `max != cnt++`; `remaining` counts
the iterations left of the 40.  The iterator `current` is not advanced. -/
def searchNeighbourFacesLoop (env : MeshMap R) (pose_vec : Vector R) :
    Nat → List FaceHandle → Nat → Option FaceHandle
  | 0, _, _ => none
  | remaining + 1, possible_faces, current =>
    match possible_faces.get? current with
    | none => none
    | some work_face =>
      match env.barycentricCoords pose_vec work_face with
      | some _ => some work_face
      | none =>
        searchNeighbourFacesLoop env pose_vec remaining
          (possible_faces ++ env.getNeighboursOfFace work_face) current

/-- The function `MeshController::searchNeighbourFaces`. -/
def searchNeighbourFaces (env : MeshMap R) (pose_vec : Vector R) (face : FaceHandle) :
    Option FaceHandle :=
  searchNeighbourFacesLoop env pose_vec 40 [face] 0

/-- The function `MeshController::setCurrentFace`, with the depth of the
recursion bounded by `depth`: `none` when the bound is reached. -/
def setCurrentFaceRec (env : MeshMap R) (position_vec : Vector R) :
    Nat → MeshController R → Option (MeshController R)
  | 0, _ => none
  | depth + 1, c =>
    match c.current_face with
    | none => some { c with current_face := env.getContainingFaceHandle position_vec }
    | some f =>
      let c1 := { c with current_face := searchNeighbourFaces env position_vec f }
      if c1.current_face.isNone then setCurrentFaceRec env position_vec depth c1
      else some c1

/-- The function `MeshController::setCurrentFace`: two levels of the
recursion are all it ever uses (`setCurrentFaceRec_depth`). -/
def setCurrentFace (env : MeshMap R) (position_vec : Vector R) (c : MeshController R) :
    MeshController R :=
  (setCurrentFaceRec env position_vec 2 c).getD c

/-- The function `MeshController::setAheadFace`.  On the paths that do not
reach a `return` statement the result is undefined. -/
def setAheadFace (env : MeshMap R) (face : Option FaceHandle) (position_vec : Vector R) :
    Except Fault (Option FaceHandle) :=
  match face with
  | none =>
    match env.getContainingFaceHandle position_vec with
    | none => .error .undefinedBehaviour
    | some f => .ok (some f)
  | some f =>
    match searchNeighbourFaces env position_vec f with
    | none => .error .undefinedBehaviour
    | some f1 => .ok (some f1)

/-- The function `MeshController::cost` on a face; `unwrap` panics on an
absent face. -/
def costOfFace (env : MeshMap R) (face : Option FaceHandle) (position_vec : Vector R) :
    Except Fault (FP R) :=
  match face with
  | none => .error .panic
  | some f => .ok (env.costAtPosition f position_vec)

/-- The function `MeshController::cost` on the current face. -/
def cost (env : MeshMap R) (c : MeshController R) (pose_vec : Vector R) : Except Fault (FP R) :=
  costOfFace env c.current_face pose_vec

/-- The state of the loop of `lookAhead`. -/
structure LookAheadAcc (R : Type) where
  steps : Int
  missed_steps : Int
  lethal_step : Int
  accum_cost : FP R
  accum_turn : FP R
  future_face : Option FaceHandle

/-- The `for` loop of `lookAhead` from index `i` on, `remaining` being
`steps - i` at its start. -/
def lookAheadLoop (env : MeshMap R) (m : Libm R) (c : MeshController R)
    (robot_heading : Vector R) :
    Nat → Int → LookAheadAcc R → Except Fault (LookAheadAcc R)
  | 0, _, acc => .ok acc
  | remaining + 1, i, acc =>
    if c.plan_iter + i < 0 ∨ (c.current_plan.length : Int) ≤ c.plan_iter + i then
      .ok { acc with steps := i }
    else
      match vecIndex c.current_plan (c.plan_iter + i) with
      | .error e => .error e
      | .ok pose_ahead =>
        let pose_ahead_vec := poseToPositionVector pose_ahead
        match acc.future_face with
        | none => .error .panic
        | some ff =>
          match setAheadFace env (some ff) pose_ahead_vec with
          | .error e => .error e
          | .ok future_face =>
            match costOfFace env future_face pose_ahead_vec with
            | .error e => .error e
            | .ok new_cost =>
              let acc1 : LookAheadAcc R := { acc with future_face := future_face }
              let acc2 : LookAheadAcc R :=
                if FP.eq new_cost FP.pinf && decide (acc1.lethal_step = 0) then
                  { acc1 with lethal_step := i }
                else if FP.eq new_cost (-FP.lit 1) then
                  { acc1 with missed_steps := acc1.missed_steps + 1 }
                else
                  let future_heading := poseToDirectionVector pose_ahead
                  let future_turn := angleBetweenVectors m robot_heading future_heading
                  let leftRight := direction robot_heading future_heading
                  { acc1 with accum_cost := acc1.accum_cost + new_cost,
                              accum_turn := acc1.accum_turn + future_turn * leftRight }
              lookAheadLoop env m c robot_heading remaining (i + 1) acc2

/-- The function `MeshController::lookAhead`, returning `{av_turn, av_cost}`;
`now` is the value of `ros::Time::now()`. -/
def lookAhead (env : MeshMap R) (m : Libm R) (now : Nat) (c : MeshController R)
    (pose : PoseStamped R) (velocity : FP R) :
    Except Fault ((FP R × FP R) × MeshController R) :=
  let robot_heading := poseToDirectionVector pose
  if c.last_lookahead_call = 0 then
    .ok ((FP.fltMax, FP.fltMax), { c with last_lookahead_call := now })
  else
    let time_delta : FP R := durationToSec now c.last_lookahead_call
    let max_travelled_dist := velocity * time_delta
    let max_dist_by_max_vel := c.config.max_lin_velocity * time_delta
    match toInt (linValue (FP.lit 50) (FP.lit 0) (FP.lit 2 * max_dist_by_max_vel)
        max_travelled_dist) with
    | .error e => .error e
    | .ok steps =>
      if steps = 0 then .ok ((FP.fltMax, FP.fltMax), c)
      else
        match lookAheadLoop env m c robot_heading steps.toNat 0
            ⟨steps, 0, 0, FP.lit 0, FP.lit 0, c.current_face⟩ with
        | .error e => .error e
        | .ok acc =>
          let av_cost := acc.accum_cost / ofInt (acc.steps - acc.missed_steps)
          let av_turn := acc.accum_turn / ofInt (acc.steps - acc.missed_steps)
          .ok ((av_turn, av_cost), c)

/-- The cost penalty of `naiveControl` on a linear velocity, with its clamp
to `[0, max_lin_velocity]`. -/
def costPenalty (c : MeshController R) (lin_vel cost_value : FP R) : FP R :=
  if FP.ne cost_value FP.fltMax then
    let lin_factor_by_cost := linValue (c.config.max_lin_velocity / FP.lit 10) (FP.lit 0)
      (FP.lit 2) cost_value
    let v := lin_vel - lin_factor_by_cost
    if FP.lt v (FP.lit 0) then FP.lit 0
    else if FP.gt v c.config.max_lin_velocity then c.config.max_lin_velocity
    else v
  else lin_vel

/-- The function `MeshController::naiveControl`, returning
`{final_ang_vel, final_lin_vel}`. -/
def naiveControl (env : MeshMap R) (m : Libm R) (now : Nat) (c : MeshController R)
    (pose : PoseStamped R) (plan_vec : Vector R) :
    Except Fault ((FP R × FP R) × MeshController R) :=
  let dir_vec := poseToDirectionVector pose
  let position_vec := poseToPositionVector pose
  let angle := angleBetweenVectors m dir_vec plan_vec
  let c1 := { c with angle := angle }
  let leftRight := direction dir_vec plan_vec
  let two_pi : FP R := FP.lit 2 * FP.fin m.pi
  let final_ang_vel := leftRight * linValue c1.config.max_ang_velocity (FP.lit 0) two_pi angle
  let lin_vel_by_ang := gaussValue m c1.config.max_lin_velocity two_pi angle
  let lin :=
    if FP.lt angle (FP.fin (6 / 10)) then
      match cost env c1 position_vec with
      | .error e => Except.error e
      | .ok cost_lin_vel => .ok (costPenalty c1 lin_vel_by_ang cost_lin_vel)
    else .ok lin_vel_by_ang
  match lin with
  | .error e => .error e
  | .ok final_lin_vel =>
    match lookAhead env m now c1 pose c1.set_linear_velocity with
    | .error e => .error e
    | .ok (ahead_values, c2) =>
      let blended : FP R × FP R :=
        if FP.ne ahead_values.2 FP.fltMax then
          let aheadLR := ahead_values.1 / FP.abs ahead_values.1
          let final_ahead_ang_vel := aheadLR *
            linValue c2.config.max_ang_velocity (FP.lit 0) two_pi (FP.abs ahead_values.1)
          let ahead_lin_vel := gaussValue m c2.config.max_lin_velocity two_pi
            (FP.abs ahead_values.1)
          let final_ahead_lin_vel :=
            if FP.lt (FP.abs ahead_values.1) (FP.fin (6 / 10)) then
              costPenalty c2 ahead_lin_vel ahead_values.2
            else ahead_lin_vel
          ((FP.lit 1 - c2.config.ahead_amount) * final_ang_vel +
              c2.config.ahead_amount * final_ahead_ang_vel,
           (FP.lit 1 - c2.config.ahead_amount) * final_lin_vel +
              c2.config.ahead_amount * final_ahead_lin_vel)
        else (final_ang_vel, final_lin_vel)
      match fadingFactor m c2 with
      | .error e => .error e
      | .ok (fade, c3) =>
        let final_lin := blended.2 * fade
        .ok ((blended.1, final_lin), { c3 with set_linear_velocity := final_lin })

/-- The function `MeshController::pidControlDistance`. -/
def pidControlDistance (m : Libm R) (c : MeshController R) (setpoint : PoseStamped R) :
    FP R × MeshController R :=
  let error := euclideanDistance m c setpoint
  let proportional := c.config.prop_dis_gain * error
  let int_dis_error := c.int_dis_error + error * c.config.int_time
  let integral := c.config.int_dis_gain * int_dis_error
  let derivative := c.config.deriv_dis_gain * ((error - c.prev_dis_error) / c.config.int_time)
  let linear := proportional + integral + derivative
  (linear, { c with int_dis_error := int_dis_error, prev_dis_error := error })

/-- The function `MeshController::pidControlDir`. -/
def pidControlDir (m : Libm R) (c : MeshController R) (setpoint pv : Vector R) :
    FP R × MeshController R :=
  let dir_error := angleBetweenVectors m setpoint pv
  let proportional := c.config.prop_dir_gain * dir_error
  let int_dir_error := c.int_dir_error + dir_error * c.config.int_time
  let integral := c.config.int_dir_gain * int_dir_error
  let derivative := c.config.deriv_dir_gain * ((dir_error - c.prev_dir_error) / c.config.int_time)
  let angular := proportional + integral + derivative
  (angular, { c with int_dir_error := int_dir_error, prev_dir_error := dir_error })

/-- The function `MeshController::pidControl`, returning
`{ahead_ang, ahead_lin}`; `velocity` is `velocity.twist.linear.x`. -/
def pidControl (env : MeshMap R) (m : Libm R) (now : Nat) (c : MeshController R)
    (setpoint pv : PoseStamped R) (velocity : FP R) :
    Except Fault ((FP R × FP R) × MeshController R) :=
  let (linear_vel, c1) := pidControlDistance m c setpoint
  let angular_sp := poseToDirectionVector setpoint
  let angular_pv := poseToDirectionVector pv
  let (angular_vel, c2) := pidControlDir m c1 angular_sp angular_pv
  let vel_given_angle := linear_vel - (angular_vel / c2.config.max_ang_velocity) * linear_vel
  match lookAhead env m now c2 pv velocity with
  | .error e => .error e
  | .ok (ahead, c3) =>
    let ahead_ang :=
      if FP.lt ahead.1 (FP.lit 0) then angular_vel - (FP.lit 1 - ahead.1 / angular_vel)
      else if FP.gt ahead.1 (FP.lit 0) then angular_vel + (FP.lit 1 - ahead.1 / angular_vel)
      else angular_vel
    let ahead_lin :=
      if FP.lt ahead.2 (FP.lit 0) then vel_given_angle - (FP.lit 1 - ahead.2 / vel_given_angle)
      else if FP.gt ahead.2 (FP.lit 0) then
        vel_given_angle + (FP.lit 1 - ahead.2 / vel_given_angle)
      else vel_given_angle
    .ok ((ahead_ang, ahead_lin), c3)

/-- The statements of `computeVelocityCommands` on a plan that is not empty,
up to the off-plan check: the goal is set once, the current face is
located and the position on the plan is updated. -/
def trackPlan (env : MeshMap R) (m : Libm R) (now : Nat) (c : MeshController R)
    (pose : PoseStamped R) : Except Fault (MeshController R) :=
  let c0 : Except Fault (MeshController R) :=
    if !c.goalSet then
      match c.current_plan.getLast? with
      | none => .error .undefinedBehaviour
      | some back => .ok { c with goal := back, goalSet := true }
    else .ok c
  match c0 with
  | .error e => .error e
  | .ok c0 =>
    let pos_vec := poseToPositionVector pose
    let c1 := setCurrentFace env pos_vec c0
    updatePlanPos m now c1 pose c1.set_linear_velocity

/-- The function `MeshController::computeVelocityCommands`, returning the
outcome code, the velocity command and the controller; `now` and
`now_ahead` are the values of `ros::Time::now()` in `updatePlanPos` and in
`lookAhead`, `velocity` is `velocity.twist.linear.x`. -/
def computeVelocityCommands (codes : GetPathResult) (env : MeshMap R) (m : Libm R)
    (now now_ahead : Nat) (c : MeshController R) (pose : PoseStamped R) (velocity : FP R)
    (cmd_vel : CmdVel R) : Except Fault (Nat × CmdVel R × MeshController R) :=
  if c.current_plan.isEmpty then
    .ok (codes.EMPTY_PATH, cmd_vel, c)
  else
    match trackPlan env m now c pose with
    | .error e => .error e
    | .ok c2 =>
      if offPlan m c2 pose then
        .ok (codes.FAILURE, cmd_vel, c2)
      else
        -- `plan_vec` is default constructed
        let zero : Vector R := ⟨FP.lit 0, FP.lit 0, FP.lit 0⟩
        let plan_vec : Vector R :=
          if c2.config.useMeshGradient then
            match c2.current_face with
            | some f => env.directionAtPosition f zero
            | none => zero
          else poseToDirectionVector c2.plan_position
        let values : Option (Except Fault ((FP R × FP R) × MeshController R)) :=
          if c2.config.control_type = 0 then some (naiveControl env m now_ahead c2 pose plan_vec)
          else if c2.config.control_type = 1 then
            some (pidControl env m now_ahead c2 pose pose velocity)
          else none
        match values with
        | none => .ok (codes.NOT_INITIALIZED, cmd_vel, c2)
        | some (.error e) => .error e
        | some (.ok (values, c3)) =>
          if FP.eq values.2 FP.fltMax then .ok (codes.FAILURE, cmd_vel, c3)
          else .ok (codes.SUCCESS, ⟨values.1, values.2⟩, c3)

/-- The function `MeshController::reconfigureCallback`. -/
def MeshController.reconfigureCallback (c : MeshController R) (cfg : MeshControllerConfig R) :
    MeshController R :=
  let c1 := if c.first_config then { c with config := cfg, first_config := false } else c
  { c1 with config := cfg }

/-- The function `MeshController::initialize`; the reconfigure server calls
the callback with the configuration `cfg` when it is set. -/
def MeshController.initialize (c : MeshController R) (plugin_name : String)
    (cfg : MeshControllerConfig R) : Bool × MeshController R :=
  let c1 := { c with goalSet := false, name := plugin_name, int_dis_error := FP.lit 0,
                     int_dir_error := FP.lit 0, haveStartFace := false,
                     set_linear_velocity := FP.lit 0 }
  (true, MeshController.reconfigureCallback c1 cfg)

end Controller

/-! ## The planner: `mesh_planner.cpp` -/

/-- An lvr2 attribute map on vertices (`DenseVertexMap`): a value or nothing
for a handle. -/
abbrev VMap (α : Type) := VertexHandle → Option α

/-- The empty map, the state after `clear()`. -/
def VMap.empty {α : Type} : VMap α := fun _ => none

/-- The map after `insert(key, value)`. -/
def VMap.insert {α : Type} (map : VMap α) (key : VertexHandle) (value : α) : VMap α :=
  fun k => if k = key then some value else map k

/-- The map after `map[key] = value`: lvr2 panics when the key has no value. -/
def VMap.assign {α : Type} (map : VMap α) (key : VertexHandle) (value : α) :
    Option (VMap α) :=
  match map key with
  | none => none
  | some _ => some (VMap.insert map key value)

/-- The map `DenseVertexMap<T>(size, value)`. -/
def VMap.dense {α : Type} (size : Nat) (value : α) : VMap α :=
  fun k => if k < size then some value else none

/-- Modelled from the spec: the min-priority queue `lvr2::Meap` keyed by
distance, which is part of lvr2 and not of the source files.  Every key is
in the queue once; `insert` on a key of the queue replaces its value. -/
structure Meap (R : Type) where
  entries : List (VertexHandle × FP R)

namespace Meap

variable {R : Type} [LinearOrderedField R]

/-- Result of `isEmpty()`. -/
def isEmpty (pq : Meap R) : Bool := pq.entries.isEmpty

/-- The keys of the queue. -/
def keys (pq : Meap R) : List VertexHandle := pq.entries.map Prod.fst

/-- The queue after `insert(key, value)`. -/
def insert (pq : Meap R) (key : VertexHandle) (value : FP R) : Meap R :=
  if pq.entries.any (fun e => e.1 == key) then
    ⟨pq.entries.map (fun e => if e.1 = key then (key, value) else e)⟩
  else ⟨pq.entries ++ [(key, value)]⟩

/-- The first entry of least value among `best` and the list. -/
def minEntry : VertexHandle × FP R → List (VertexHandle × FP R) → VertexHandle × FP R
  | best, [] => best
  | best, e :: rest => if FP.lt e.2 best.2 then minEntry e rest else minEntry best rest

/-- Result of `popMin()`: the entry of least value and the queue without
it; nothing on an empty queue. -/
def popMin (pq : Meap R) : Option ((VertexHandle × FP R) × Meap R) :=
  match pq.entries with
  | [] => none
  | e :: rest =>
    let best := minEntry e rest
    some (best, ⟨pq.entries.filter (fun x => x.1 != best.1)⟩)

end Meap

/-- The parameters `mesh_planner::MeshPlannerConfig`. -/
structure MeshPlannerConfig (R : Type) where
  cost_limit : FP R

/-- The member variables of `MeshPlanner`. -/
structure MeshPlanner (R : Type) where
  cancel_planning : Bool
  potential : VMap (FP R)
  predecessors : VMap VertexHandle
  direction : VMap (FP R)
  cutting_faces : VMap FaceHandle
  vector_map : VMap (Vector R)
  publish_vector_field : Bool
  publish_face_vectors : Bool
  name : String
  map_frame : String
  first_config : Bool
  config : MeshPlannerConfig R

/-- A path: the list `std::list<std::pair<Vector, FaceHandle>>`. -/
abbrev Path (R : Type) := List (Vector R × FaceHandle)

section Planner

variable {R : Type} [LinearOrderedField R]

/-- The function `MeshPlanner::cancel`. -/
def MeshPlanner.cancel (p : MeshPlanner R) : Bool × MeshPlanner R :=
  (true, { p with cancel_planning := true })

/-- The function `MeshPlanner::reconfigureCallback`. -/
def MeshPlanner.reconfigureCallback (p : MeshPlanner R) (cfg : MeshPlannerConfig R) :
    MeshPlanner R :=
  if p.first_config then { p with config := cfg, first_config := false }
  else { p with config := cfg }

/-- The function `MeshPlanner::initialize`; `publish_vector_field` and
`publish_face_vectors` are the values of the parameters of the node and
`cfg` the configuration with which the reconfigure server calls back. -/
def MeshPlanner.initialize (env : MeshMap R) (p : MeshPlanner R) (plugin_name : String)
    (publish_vector_field publish_face_vectors : Bool) (cfg : MeshPlannerConfig R) :
    Bool × MeshPlanner R :=
  let p1 := { p with name := plugin_name, map_frame := env.mapFrame,
                     publish_vector_field := publish_vector_field,
                     publish_face_vectors := publish_face_vectors,
                     direction := VMap.dense env.nextVertexIndex (FP.lit 0) }
  (true, MeshPlanner.reconfigureCallback p1 cfg)

/-- The function `MeshPlanner::getVectorMap`. -/
def MeshPlanner.getVectorMap (p : MeshPlanner R) : VMap (Vector R) := p.vector_map

/-- The loop of `MeshPlanner::computeVectorMap` over the vertices. -/
def computeVectorMapLoop (env : MeshMap R) :
    List VertexHandle → MeshPlanner R → Except Fault (MeshPlanner R)
  | [], p => .ok p
  | v3 :: rest, p =>
    match p.predecessors v3 with
    | none => .error .panic
    | some v1 =>
      if v1 = v3 then computeVectorMapLoop env rest p
      else
        match p.cutting_faces v3 with
        | none => computeVectorMapLoop env rest p
        | some fH =>
          match p.direction v3 with
          | none => .error .panic
          | some theta =>
            let vec3 := env.getVertexPosition v3
            let vec1 := env.getVertexPosition v1
            let dirVec := env.rotated (Vector.sub vec1 vec3) (env.faceNormals fH) theta
            computeVectorMapLoop env rest
              { p with vector_map := VMap.insert p.vector_map v3 (env.normalized dirVec) }

/-- The function `MeshPlanner::computeVectorMap`. -/
def computeVectorMap (env : MeshMap R) (p : MeshPlanner R) : Except Fault (MeshPlanner R) :=
  computeVectorMapLoop env env.vertices p

/-- The values that `waveFrontUpdate` computes from the two distances and
the three edge lengths. -/
structure Unfolding (R : Type) where
  a_sq : FP R
  b_sq : FP R
  c_sq : FP R
  sx : FP R
  sx_sq : FP R
  sy : FP R
  sy_sq : FP R
  p : FP R
  hc : FP R
  u3tmp_sq : FP R
  u3tmp : FP R

/-- The arithmetic of `waveFrontUpdate`: the triangle with the edges `a`,
`b`, `c` is unfolded into the plane of the source, which has the distances
`u1` and `u2` from the ends of the edge `c`. -/
def unfoldTriangle (m : Libm R) (u1 u2 a b c : FP R) : Unfolding R :=
  let c_sq := c * c
  let b_sq := b * b
  let a_sq := a * a
  let u1sq := u1 * u1
  let u2sq := u2 * u2
  let A := FP.sqrt m (FP.max
    ((-u1 + u2 + c) * (u1 - u2 + c) * (u1 + u2 - c) * (u1 + u2 + c)) (FP.lit 0))
  let B := FP.sqrt m (FP.max
    ((-a + b + c) * (a - b + c) * (a + b - c) * (a + b + c)) (FP.lit 0))
  let sx := (c_sq + u1sq - u2sq) / (FP.lit 2 * c)
  let sx_sq := sx * sx
  let sy := -A / (FP.lit 2 * c)
  let sy_sq := sy * sy
  let p := (-a_sq + b_sq + c_sq) / (FP.lit 2 * c)
  let hc := B / (FP.lit 2 * c)
  let dy := (A + B) / (FP.lit 2 * c)
  let dx := p - sx
  let u3tmp_sq := dx * dx + dy * dy
  let u3tmp := FP.sqrt m u3tmp_sq
  ⟨a_sq, b_sq, c_sq, sx, sx_sq, sy, sy_sq, p, hc, u3tmp_sq, u3tmp⟩

/-- The half-plane value `S` of `waveFrontUpdate`; `near` tells that the
predecessor is `v1`. -/
def halfPlane (g : Unfolding R) (c : FP R) (near : Bool) : FP R :=
  if near then g.sy * g.p - g.sx * g.hc
  else g.sx * g.hc - g.hc * c + g.sy * c - g.sy * g.p

/-- The angle `gamma` of `waveFrontUpdate`. -/
def turnAngle (m : Libm R) (g : Unfolding R) (a b c : FP R) (near : Bool) : FP R :=
  if near then
    -FP.acos m ((g.u3tmp_sq + g.b_sq - g.sx_sq - g.sy_sq) / (FP.lit 2 * g.u3tmp * b))
  else
    FP.acos m ((g.a_sq + g.u3tmp_sq + FP.lit 2 * g.sx * c - g.sx_sq - g.c_sq - g.sy_sq) /
      (FP.lit 2 * a * g.u3tmp))

/-- The choice of the face `f1` of `waveFrontUpdate` among the two faces of
the edge from the predecessor, with the value of `direction[v3]` after it:
at a contour edge the face is `f0` and the angle 0. -/
def otherFace (faces : Option FaceHandle × Option FaceHandle) (f0 : FaceHandle)
    (gamma : FP R) : Option FaceHandle × FP R :=
  match faces.1, faces.2 with
  | some fa, some fb =>
    if fa ≠ f0 then (some fa, gamma)
    else if fb ≠ f0 then (some fb, gamma)
    else (none, gamma)
  | _, _ => (some f0, FP.lit 0)

/-- The last statements of `waveFrontUpdate`: the cutting face and the sign
of the angle are stored by the sign of `S`, and the cost of the vertex is
compared with the limit. -/
def storeCuttingFace (env : MeshMap R) (p : MeshPlanner R) (v3 : VertexHandle)
    (S : FP R) (f0 : FaceHandle) (f1 : Option FaceHandle) (dir1 : FP R) :
    MeshPlanner R × Option Bool :=
  let p4 := { p with direction := VMap.insert p.direction v3 dir1 }
  let ret := FP.le (env.vertexCosts v3) p4.config.cost_limit
  if FP.gt S (FP.lit 0) then
    match f1 with
    | none => (p4, none)
    | some f => ({ p4 with cutting_faces := VMap.insert p4.cutting_faces v3 f }, some ret)
  else if FP.lt S (FP.lit 0) then
    ({ p4 with cutting_faces := VMap.insert p4.cutting_faces v3 f0,
               direction := VMap.insert p4.direction v3 (dir1 * -FP.lit 1) }, some ret)
  else
    ({ p4 with cutting_faces := VMap.insert p4.cutting_faces v3 f0,
               direction := VMap.insert p4.direction v3 (FP.lit 0) }, some ret)

/-- The statements of `waveFrontUpdate` after the new distance of `v3` is
written: the predecessor, the angle and the cutting face. -/
def writePredecessor (env : MeshMap R) (m : Libm R) (p1 : MeshPlanner R)
    (v1 v2 v3 : VertexHandle) (a b c : FP R) (g : Unfolding R) : MeshPlanner R × Option Bool :=
  match env.getFaceBetween v1 v2 v3 with
  | none => (p1, none)
  | some f0 =>
    match p1.potential v1, p1.potential v2 with
    | some d1, some d2 =>
      let near := FP.lt d1 d2
      let pred := if near then v1 else v2
      match VMap.assign p1.predecessors v3 pred with
      | none => (p1, none)
      | some predecessors =>
        let p2 := { p1 with predecessors := predecessors }
        let S := halfPlane g c near
        let gamma := turnAngle m g a b c near
        match env.getEdgeBetween pred v3 with
        | none => (p2, none)
        | some e =>
          let faces := env.getFacesOfEdge e
          match VMap.assign p2.direction v3 gamma with
          | none => (p2, none)
          | some direction =>
            let p3 := { p2 with direction := direction }
            let f1 := otherFace faces f0 gamma
            storeCuttingFace env p3 v3 S f0 f1.1 f1.2
    | _, _ => (p1, none)

/-- The function `MeshPlanner::waveFrontUpdate` on the planner whose
`potential` is the map `distances`.  The second component is the returned
value, or nothing when a `PanicException` left the function; what was
written before the exception stays written. -/
def waveFrontUpdate (env : MeshMap R) (m : Libm R) (edge_weights : EdgeHandle → FP R)
    (p : MeshPlanner R) (v1 v2 v3 : VertexHandle) : MeshPlanner R × Option Bool :=
  match p.potential v1, p.potential v2, p.potential v3 with
  | some u1, some u2, some u3 =>
    match env.getEdgeBetween v1 v2, env.getEdgeBetween v1 v3, env.getEdgeBetween v2 v3 with
    | some e12h, some e13h, some e23h =>
      let c := edge_weights e12h
      let b := edge_weights e13h
      let a := edge_weights e23h
      let g := unfoldTriangle m u1 u2 a b c
      if FP.isfinite g.u3tmp && FP.lt g.u3tmp u3 then
        writePredecessor env m { p with potential := VMap.insert p.potential v3 g.u3tmp }
          v1 v2 v3 a b c g
      else (p, some false)
    | _, _, _ => (p, none)
  | _, _, _ => (p, none)

/-- The local variables of the sweep of `waveFrontPropagation` together
with the planner.  `reads` counts the reads of `cancel_planning` so far. -/
structure Sweep (R : Type) where
  planner : MeshPlanner R
  fixed : VertexHandle → Bool
  pq : Meap R
  goal_face_fixed : Bool
  reads : Nat

/-- The planner as a read of `cancel_planning` finds it: `cancelAt k` tells
whether another thread called `cancel()` between the read before the read
number `k` and that read. -/
def observeCancel (cancelAt : Nat → Bool) (reads : Nat) (p : MeshPlanner R) : MeshPlanner R :=
  if cancelAt reads then (MeshPlanner.cancel p).2 else p

/-- The `try` block on a face with the free vertex `v3`: the update and the
insertion into the queue; a `PanicException` is caught. -/
def updateFace (env : MeshMap R) (m : Libm R) (edge_weights : EdgeHandle → FP R)
    (s : Sweep R) (v1 v2 v3 : VertexHandle) : Sweep R :=
  match waveFrontUpdate env m edge_weights s.planner v1 v2 v3 with
  | (p, some true) =>
    match p.potential v3 with
    | some d => { s with planner := p, pq := s.pq.insert v3 d }
    | none => { s with planner := p }
  | (p, _) => { s with planner := p }

/-- The body of the loop over the faces of a neighbour, for the face `fh`.
After `goal_face_fixed` is set the loop is left, so the body does nothing. -/
def processFace (env : MeshMap R) (m : Libm R) (edge_weights : EdgeHandle → FP R)
    (goal_face : FaceHandle) (s : Sweep R) (fh : FaceHandle) : Sweep R :=
  if s.goal_face_fixed then s
  else
    let vertices := env.getVerticesOfFace fh
    let a := vertices.1
    let b := vertices.2.1
    let c := vertices.2.2
    if env.invalid a || env.invalid b || env.invalid c then s
    else if s.fixed a && s.fixed b && s.fixed c then
      if fh = goal_face then { s with goal_face_fixed := true } else s
    else if s.fixed a && s.fixed b && !s.fixed c then updateFace env m edge_weights s a b c
    else if s.fixed a && !s.fixed b && s.fixed c then updateFace env m edge_weights s c a b
    else if !s.fixed a && s.fixed b && s.fixed c then updateFace env m edge_weights s b c a
    else s

/-- The body of the loop over the neighbours of the popped vertex, for the
neighbour `nh`. -/
def processNeighbour (env : MeshMap R) (m : Libm R) (edge_weights : EdgeHandle → FP R)
    (goal_face : FaceHandle) (s : Sweep R) (nh : VertexHandle) : Sweep R :=
  if s.goal_face_fixed then s
  else if env.invalid nh then s
  else
    match env.getFacesOfVertex nh with
    | none => s
    | some faces => faces.foldl (processFace env m edge_weights goal_face) s

/-- The body of the `while` loop of the sweep: pop the vertex of least
distance, fix it, and visit the faces of its neighbours. -/
def sweepStep (env : MeshMap R) (m : Libm R) (edge_weights : EdgeHandle → FP R)
    (goal_face : FaceHandle) (s : Sweep R) : Except Fault (Sweep R) :=
  match s.pq.popMin with
  | none => .error .panic
  | some (entry, pq) =>
    let current_vh := entry.1
    let s1 := { s with pq := pq, fixed := fun v => if v = current_vh then true else s.fixed v }
    match env.getNeighboursOfVertex current_vh with
    | none => .ok s1
    | some neighbours =>
      .ok (neighbours.foldl (processNeighbour env m edge_weights goal_face) s1)

/-- The `while` loop of the sweep, which runs while the queue is not empty,
`cancel_planning` is not set and the goal face is not fixed. -/
def sweepLoop (env : MeshMap R) (m : Libm R) (cancelAt : Nat → Bool)
    (edge_weights : EdgeHandle → FP R) (goal_face : FaceHandle) :
    Nat → Sweep R → Except Fault (Sweep R)
  | 0, _ => .error .outOfFuel
  | fuel + 1, s =>
    if !s.pq.isEmpty then
      let s0 := { s with planner := observeCancel cancelAt s.reads s.planner,
                         reads := s.reads + 1 }
      if !s0.planner.cancel_planning && !s0.goal_face_fixed then
        match sweepStep env m edge_weights goal_face s0 with
        | .error e => .error e
        | .ok s1 => sweepLoop env m cancelAt edge_weights goal_face fuel s1
      else .ok s0
    else .ok s

/-- The seeding loop over the vertices of the start face. -/
def seedLoop (env : MeshMap R) (m : Libm R) (start : Vector R) (start_face : FaceHandle) :
    List VertexHandle → Sweep R → Except Fault (Sweep R)
  | [], s => .ok s
  | vH :: rest, s =>
    let diff := Vector.sub start (env.getVertexPosition vH)
    let dist := Vector.length m diff
    match VMap.assign s.planner.potential vH dist with
    | none => .error .panic
    | some potential =>
      seedLoop env m start start_face rest
        { s with planner := { s.planner with
                   potential := potential,
                   vector_map := VMap.insert s.planner.vector_map vH diff,
                   cutting_faces := VMap.insert s.planner.cutting_faces vH start_face },
                 fixed := fun v => if v = vH then true else s.fixed v,
                 pq := s.pq.insert vH dist }

/-- The loop that initialises the distances with infinity and the
predecessor of each vertex with itself. -/
def initLoop : List VertexHandle → MeshPlanner R → MeshPlanner R
  | [], p => p
  | vH :: rest, p =>
    initLoop rest { p with potential := VMap.insert p.potential vH FP.pinf,
                           predecessors := VMap.insert p.predecessors vH vH }

/-- The loop that looks for a vertex of the goal face whose predecessor is
not itself. -/
def pathExists (p : MeshPlanner R) : List VertexHandle → Except Fault Bool
  | [] => .ok false
  | goal_vertex :: rest =>
    match p.predecessors goal_vertex with
    | none => .error .panic
    | some pred => if goal_vertex ≠ pred then .ok true else pathExists p rest

/-- The three vertices of a face as a list. -/
def faceVertices (env : MeshMap R) (fh : FaceHandle) : List VertexHandle :=
  let vertices := env.getVerticesOfFace fh
  [vertices.1, vertices.2.1, vertices.2.2]

/-- The state of the back-tracking loop. -/
structure Trace (R : Type) where
  planner : MeshPlanner R
  current_pos : Vector R
  current_face : FaceHandle
  path : Path R
  reads : Nat

/-- The back-tracking loop of `waveFrontPropagation`: follow the vector
field in steps of `step_width` while the squared distance to `start` is
above it and `cancel_planning` is not set.  The result is the state at the
end of the loop, or the state at the step that found no face ahead. -/
def traceLoop (env : MeshMap R) (cancelAt : Nat → Bool) (start : Vector R) (step_width : FP R) :
    Nat → Trace R → Except Fault (Trace R ⊕ Trace R)
  | 0, _ => .error .outOfFuel
  | fuel + 1, t =>
    if FP.gt (Vector.distance2 t.current_pos start) step_width then
      let t0 := { t with planner := observeCancel cancelAt t.reads t.planner,
                         reads := t.reads + 1 }
      if !t0.planner.cancel_planning then
        match env.meshAhead t0.planner.vector_map t0.current_pos t0.current_face step_width with
        | some (pos, face) =>
          traceLoop env cancelAt start step_width fuel
            { t0 with current_pos := pos, current_face := face,
                      path := (pos, face) :: t0.path }
        | none => .ok (.inr t0)
      else .ok (.inl t0)
    else .ok (.inl t)

/-- The statements of `waveFrontPropagation` between the test for a common
face and the sweep: the vector field is cleared, the distances and
predecessors are initialised and the vertices of the start face are seeded. -/
def sweepInit (env : MeshMap R) (m : Libm R) (p : MeshPlanner R) (start : Vector R)
    (start_face : FaceHandle) : Except Fault (Sweep R) :=
  let p := { p with vector_map := VMap.empty }
  let p := initLoop env.vertices p
  seedLoop env m start start_face (faceVertices env start_face)
    ⟨p, fun _ => false, ⟨[]⟩, false, 0⟩

/-- The function `MeshPlanner::waveFrontPropagation` with seven arguments;
`distances` and `predecessors` are the members `potential` and
`predecessors` of the planner, as the only caller passes them.  Returns
the outcome code, the path and the planner. -/
def waveFrontPropagation (codes : GetPathResult) (env : MeshMap R) (m : Libm R)
    (cancelAt : Nat → Bool) (fuel : Nat) (p : MeshPlanner R)
    (original_start original_goal : Vector R) (edge_weights : EdgeHandle → FP R)
    (path : Path R) : Except Fault (Nat × Path R × MeshPlanner R) :=
  let start := original_start
  let goal := original_goal
  let start_opt := env.getContainingFace start (FP.fin (2 / 10))
  let goal_opt := env.getContainingFace goal (FP.fin (2 / 10))
  let p := { p with cancel_planning := false }
  match start_opt with
  | none => .ok (codes.INVALID_START, path, p)
  | some start_face =>
  match goal_opt with
  | none => .ok (codes.INVALID_GOAL, path, p)
  | some goal_face =>
    let path : Path R := []
    let p := { p with potential := VMap.empty, predecessors := VMap.empty }
    if goal_face = start_face then
      -- `return true;`
      .ok (1, path, p)
    else
      match sweepInit env m p start start_face with
      | .error e => .error e
      | .ok s =>
      match sweepLoop env m cancelAt edge_weights goal_face fuel s with
      | .error e => .error e
      | .ok s =>
        let s := { s with planner := observeCancel cancelAt s.reads s.planner,
                          reads := s.reads + 1 }
        if s.planner.cancel_planning then .ok (codes.CANCELED, path, s.planner)
        else
          match computeVectorMap env s.planner with
          | .error e => .error e
          | .ok p =>
          match pathExists p (faceVertices env goal_face) with
          | .error e => .error e
          | .ok path_exists =>
            if !path_exists then .ok (codes.NO_PATH_FOUND, path, p)
            else
              let step_width : FP R := FP.fin (3 / 100)
              match traceLoop env cancelAt start step_width fuel
                  ⟨p, goal, goal_face, [(goal, goal_face)], s.reads⟩ with
              | .error e => .error e
              | .ok (.inr t) => .ok (codes.NO_PATH_FOUND, t.path, t.planner)
              | .ok (.inl t) =>
                let path := (start, start_face) :: t.path
                let p := observeCancel cancelAt t.reads t.planner
                if p.cancel_planning then .ok (codes.CANCELED, path, p)
                else .ok (codes.SUCCESS, path, p)

/-- The function `MeshPlanner::waveFrontPropagation` with three arguments. -/
def waveFrontPropagation3 (codes : GetPathResult) (env : MeshMap R) (m : Libm R)
    (cancelAt : Nat → Bool) (fuel : Nat) (p : MeshPlanner R) (start goal : Vector R)
    (path : Path R) : Except Fault (Nat × Path R × MeshPlanner R) :=
  waveFrontPropagation codes env m cancelAt fuel p start goal env.edgeDistances path

/-- The loop of `makePlan` that turns the path into poses. -/
def posesOfPath (env : MeshMap R) (header : Header) :
    Vector R → FaceHandle → Path R → List (PoseStamped R) → List (PoseStamped R)
  | _, _, [], plan => plan
  | vec, fH, next :: rest, plan =>
    let pose := env.calculatePoseFromPosition vec next.1 (env.faceNormals fH)
    posesOfPath env header next.1 next.2 rest (plan ++ [⟨header, pose.1, pose.2⟩])

/-- The function `MeshPlanner::makePlan`, returning the outcome, the plan,
the cost and the planner; `now` is the value of `ros::Time::now()`. -/
def makePlan (codes : GetPathResult) (env : MeshMap R) (m : Libm R) (cancelAt : Nat → Bool)
    (fuel : Nat) (now : Nat) (p : MeshPlanner R) (start goal : PoseStamped R)
    (tolerance : FP R) (plan : List (PoseStamped R)) :
    Except Fault (Nat × List (PoseStamped R) × FP R × MeshPlanner R) :=
  let goal_vec := goal.position
  let start_vec := start.position
  match waveFrontPropagation3 codes env m cancelAt fuel p goal_vec start_vec [] with
  | .error e => .error e
  | .ok (outcome, path, p) =>
    let path := path.reverse
    let header : Header := ⟨now, env.mapFrame⟩
    let cost : FP R := FP.lit 0
    let plan :=
      match path with
      | [] => plan
      | front :: path => posesOfPath env header front.1 front.2 path plan
    .ok (outcome, plan, cost, p)

/-! ### Notions used to state properties of the sweep -/

/-- The state after `k` iterations of the sweep loop in which no read of
`cancel_planning` finds it set; nothing when the loop ends earlier or an
iteration fails. -/
def sweepRun (env : MeshMap R) (m : Libm R) (edge_weights : EdgeHandle → FP R)
    (goal_face : FaceHandle) : Nat → Sweep R → Option (Sweep R)
  | 0, s => some s
  | k + 1, s =>
    if !s.pq.isEmpty && !s.planner.cancel_planning && !s.goal_face_fixed then
      match sweepStep env m edge_weights goal_face { s with reads := s.reads + 1 } with
      | .ok s1 => sweepRun env m edge_weights goal_face k s1
      | .error _ => none
    else none

/-- Two vertices are joined when a face has both of them. -/
def Joined (env : MeshMap R) (v w : VertexHandle) : Prop :=
  ∃ fh, v ∈ faceVertices env fh ∧ w ∈ faceVertices env fh

/-- A chain of faces that share vertices leads from `v` to `w`. -/
def Connected (env : MeshMap R) (v w : VertexHandle) : Prop :=
  Relation.ReflTransGen (Joined env) v w

/-- The vertex `v` is in the connected component of the face. -/
def InComponent (env : MeshMap R) (face : FaceHandle) (v : VertexHandle) : Prop :=
  ∃ u, u ∈ faceVertices env face ∧ Connected env u v

/-- The measure that every iteration of the sweep loop decreases: the size
of the queue and twice the number of vertices that are neither fixed nor in
the queue. -/
def sweepMeasure (env : MeshMap R) (s : Sweep R) : Nat :=
  s.pq.entries.length +
    2 * (env.vertices.countP (fun v => !s.fixed v && !(s.pq.keys.contains v)))

/-- The planner `q` differs from `p` only in the maps at the vertex `v3`,
where no value was removed and no distance added. -/
structure FrameAt (v3 : VertexHandle) (p q : MeshPlanner R) : Prop where
  potential : ∀ v, v ≠ v3 → q.potential v = p.potential v
  predecessors : ∀ v, v ≠ v3 → q.predecessors v = p.predecessors v
  direction : ∀ v, v ≠ v3 → q.direction v = p.direction v
  cutting_faces : ∀ v, v ≠ v3 → q.cutting_faces v = p.cutting_faces v
  vector_map : q.vector_map = p.vector_map
  cancel_planning : q.cancel_planning = p.cancel_planning
  config : q.config = p.config
  potential_some : (q.potential v3).isSome = (p.potential v3).isSome
  predecessors_some : (p.predecessors v3).isSome = true → (q.predecessors v3).isSome = true
  direction_some : (p.direction v3).isSome = true → (q.direction v3).isSome = true

/-- What the sweep keeps true for a set `C` of vertices that no face leaves:
only vertices of `C` are fixed or queued, and a vertex outside keeps the
distance infinity and itself as predecessor. -/
structure SweepInv (env : MeshMap R) (C : VertexHandle → Prop) (s : Sweep R) : Prop where
  fixedC : ∀ v, s.fixed v = true → C v
  keysC : ∀ v, v ∈ s.pq.keys → C v
  keysV : ∀ v, v ∈ s.pq.keys → v ∈ env.vertices
  potV : ∀ v, (s.planner.potential v).isSome = true → v ∈ env.vertices
  outside : ∀ v, ¬ C v → v ∈ env.vertices →
    s.planner.potential v = some FP.pinf ∧ s.planner.predecessors v = some v
  predSome : ∀ v, v ∈ env.vertices → (s.planner.predecessors v).isSome = true
  dirSome : ∀ v, v ∈ env.vertices → (s.planner.direction v).isSome = true
  flag : s.planner.cancel_planning = false
  potSome : ∀ v, v ∈ env.vertices → (s.planner.potential v).isSome = true

/-- A set of vertices that no face leaves. -/
def ClosedUnder (env : MeshMap R) (C : VertexHandle → Prop) : Prop :=
  ∀ v w, C v → Joined env v w → C w

/-- What a part of an iteration of the sweep relates: the invariant holds
after it, the measure did not grow, and the fixed vertices and the count of
reads are the same. -/
structure Step (env : MeshMap R) (C : VertexHandle → Prop) (s s1 : Sweep R) : Prop where
  inv : SweepInv env C s1
  measure : sweepMeasure env s1 ≤ sweepMeasure env s
  fixed : s1.fixed = s.fixed
  reads : s1.reads = s.reads

end Planner

/-! ## Example data -/

/-- A math library on the rationals for the examples: the square root is
exact on squares of rationals and rounded down otherwise. -/
def exLibm : Libm ℚ where
  sqrt := fun x => (Nat.sqrt x.num.toNat : ℚ) / (Nat.sqrt x.den : ℚ)
  acos := fun _ => 0
  exp := fun _ => 1
  pi := 355 / 113

/-- The point `(x, y, 0)`. -/
def exPoint (x y : ℚ) : Vector ℚ := ⟨.fin x, .fin y, .fin 0⟩

/-- The pose at `(x, y, 0)` with the identity orientation. -/
def exPose (x y : ℚ) : PoseStamped ℚ :=
  ⟨⟨0, "map"⟩, exPoint x y, ⟨.fin 0, .fin 0, .fin 0, .fin 1⟩⟩

/-- Whether the face with the corners `a`, `b`, `c` in the plane contains
the point `p`: both barycentric coordinates are at least 0 and their sum is
at most 1. -/
def exInside (a b c p : ℚ × ℚ) : Bool :=
  let d := (b.1 - a.1) * (c.2 - a.2) - (c.1 - a.1) * (b.2 - a.2)
  let u := ((p.1 - a.1) * (c.2 - a.2) - (c.1 - a.1) * (p.2 - a.2)) / d
  let v := ((b.1 - a.1) * (p.2 - a.2) - (p.1 - a.1) * (b.2 - a.2)) / d
  decide (d ≠ 0) && decide (0 ≤ u) && decide (0 ≤ v) && decide (u + v ≤ 1)

/-- Whether the face `f` has the vertex `v`. -/
def exHas (f : Nat × Nat × Nat) (v : Nat) : Bool := v == f.1 || v == f.2.1 || v == f.2.2

/-- The first face that contains a point of the plane `z = 0`. -/
def exLocate (pos : Nat → ℚ × ℚ) (faces : List (Nat × Nat × Nat)) : Vector ℚ → Option FaceHandle
  | ⟨.fin x, .fin y, _⟩ =>
    (List.range faces.length).find? (fun f =>
      let t := faces.getD f (0, 0, 0)
      exInside (pos t.1) (pos t.2.1) (pos t.2.2) (x, y))
  | _ => none

/-- A flat mesh with `n` vertices at the positions `pos` and the given
faces; the edge between `a < b` has the handle `a * n + b`. -/
def exMesh (n : Nat) (pos : Nat → ℚ × ℚ) (faces : List (Nat × Nat × Nat)) : MeshMap ℚ where
  vertices := List.range n
  nextVertexIndex := n
  getVerticesOfFace := fun f => faces.getD f (0, 0, 0)
  getNeighboursOfVertex := fun v =>
    some ((List.range n).filter (fun w => w != v && faces.any (fun f => exHas f v && exHas f w)))
  getFacesOfVertex := fun v =>
    some ((List.range faces.length).filter (fun f => exHas (faces.getD f (0, 0, 0)) v))
  getNeighboursOfFace := fun f =>
    (List.range faces.length).filter (fun g => g != f &&
      decide (2 ≤ ((List.range n).filter (fun v =>
        exHas (faces.getD f (0, 0, 0)) v && exHas (faces.getD g (0, 0, 0)) v)).length))
  getEdgeBetween := fun a b =>
    if a ≠ b ∧ faces.any (fun f => exHas f a && exHas f b) then some (min a b * n + max a b)
    else none
  getFaceBetween := fun a b c =>
    (List.range faces.length).find? (fun f =>
      let t := faces.getD f (0, 0, 0)
      exHas t a && exHas t b && exHas t c)
  getFacesOfEdge := fun e =>
    let fs := (List.range faces.length).filter (fun f =>
      let t := faces.getD f (0, 0, 0)
      exHas t (e / n) && exHas t (e % n))
    (fs.get? 0, fs.get? 1)
  getVertexPosition := fun v => exPoint (pos v).1 (pos v).2
  faceNormals := fun _ => ⟨.fin 0, .fin 0, .fin 1⟩
  invalid := fun _ => false
  edgeDistances := fun e =>
    Vector.distance exLibm (exPoint (pos (e / n)).1 (pos (e / n)).2)
      (exPoint (pos (e % n)).1 (pos (e % n)).2)
  vertexCosts := fun _ => .fin 0
  mapFrame := "map"
  getContainingFace := fun p _ => exLocate pos faces p
  getContainingFaceHandle := exLocate pos faces
  barycentricCoords := fun p f =>
    if exLocate pos faces p = some f then some (.fin (1 / 3), .fin (1 / 3)) else none
  costAtPosition := fun _ _ => .fin 0
  directionAtPosition := fun _ _ => ⟨.fin 1, .fin 0, .fin 0⟩
  meshAhead := fun _ _ _ _ => none
  calculatePoseFromPosition := fun current _ _ => (current, ⟨.fin 0, .fin 0, .fin 0, .fin 1⟩)
  rotated := fun v _ _ => v
  normalized := fun v => v

/-- The positions of the vertices of the examples: a strip of three faces
and a triangle far from it. -/
def exPos : Nat → ℚ × ℚ
  | 0 => (0, 0)
  | 1 => (4, 0)
  | 2 => (0, 3)
  | 3 => (4, 3)
  | 4 => (0, 6)
  | 5 => (10, 0)
  | 6 => (14, 0)
  | _ => (10, 3)

/-- The strip of the faces `0 = (0, 1, 2)`, `1 = (1, 3, 2)` and
`2 = (2, 3, 4)`. -/
def exStrip : MeshMap ℚ := exMesh 5 exPos [(0, 1, 2), (1, 3, 2), (2, 3, 4)]

/-- Two faces without a common vertex, `0 = (0, 1, 2)` and `1 = (5, 6, 7)`;
the vertices 3 and 4 are in no face. -/
def exIslands : MeshMap ℚ := exMesh 8 exPos [(0, 1, 2), (5, 6, 7)]

/-- A planner before `initialize`. -/
def exPlanner0 : MeshPlanner ℚ where
  cancel_planning := false
  potential := VMap.empty
  predecessors := VMap.empty
  direction := VMap.empty
  cutting_faces := VMap.empty
  vector_map := VMap.empty
  publish_vector_field := false
  publish_face_vectors := false
  name := ""
  map_frame := ""
  first_config := true
  config := ⟨.fin 1⟩

/-- The planner after `initialize` on the mesh `env`. -/
def exPlanner (env : MeshMap ℚ) : MeshPlanner ℚ :=
  ( MeshPlanner.initialize env exPlanner0 "planner" false false ⟨.fin 1⟩).2

/-- A controller configuration. -/
def exConfig : MeshControllerConfig ℚ where
  prop_dis_gain := .fin 1
  int_dis_gain := .fin 0
  deriv_dis_gain := .fin 0
  prop_dir_gain := .fin 1
  int_dir_gain := .fin 0
  deriv_dir_gain := .fin 0
  useMeshGradient := false
  max_lin_velocity := .fin 1
  max_ang_velocity := .fin 1
  fading := .fin 1
  int_time := .fin 1
  control_type := 0
  off_plan := .fin 5
  ahead_amount := .fin 0

/-- A controller after `initialize` and before any plan. -/
def exController : MeshController ℚ where
  current_plan := []
  goal := exPose 0 0
  goalSet := false
  plan_position := exPose 0 0
  plan_iter := 0
  current_face := none
  ahead_face := none
  haveStartFace := false
  last_call := 0
  last_lookahead_call := 0
  set_linear_velocity := .fin 0
  initial_dist := .fin 0
  last_fading := .fin 0
  angle := .fin 0
  int_dis_error := .fin 0
  int_dir_error := .fin 0
  prev_dis_error := .fin 0
  prev_dir_error := .fin 0
  name := "controller"
  first_config := false
  config := exConfig

/-- A controller that follows the plan `(0, 0), (5, 0)` and was last called
at the time of one nanosecond. -/
def exTracking : MeshController ℚ :=
  { exController with current_plan := [exPose 0 0, exPose 5 0], goal := exPose 5 0,
                      goalSet := true, last_call := 1 }

/-- The first of two planning calls on the strip, from the seed `(0, 0)` in
the face 0 to `(1, 4)` in the face 2. -/
def exFirstCall : Except Fault (Nat × Path ℚ × MeshPlanner ℚ) :=
  waveFrontPropagation3 {} exStrip exLibm (fun _ => false) 20 (exPlanner exStrip)
    (exPoint 0 0) (exPoint 1 4) []

/-- The planner that the first call leaves. -/
def exAfterFirstCall : MeshPlanner ℚ :=
  match exFirstCall with
  | .ok r => r.2.2
  | .error _ => exPlanner exStrip

/-- The seeding of the sweep on the strip from the seed `(0, 0)`. -/
def exSeeding : Except Fault (Sweep ℚ) :=
  sweepInit exStrip exLibm
    { exPlanner exStrip with cancel_planning := false, potential := VMap.empty,
                             predecessors := VMap.empty } (exPoint 0 0) 0

/-- The state of the sweep on the strip after the seeding. -/
def exSeeded : Sweep ℚ :=
  match exSeeding with
  | .ok s => s
  | .error _ => ⟨exPlanner exStrip, fun _ => false, ⟨[]⟩, false, 0⟩

/-- The state of the sweep on the strip towards the face 2 after the first
iteration. -/
def exAfterOnePop : Sweep ℚ :=
  (sweepRun exStrip exLibm exStrip.edgeDistances 2 1 exSeeded).getD exSeeded

/-! ### Notions used to state properties of the controller -/

/-- The distances between the consecutive points of a list. -/
def segmentLengths {R : Type} [LinearOrderedField R] (m : Libm R) :
    List (Vector R) → List (FP R)
  | a :: b :: rest => Vector.distance m a b :: segmentLengths m (b :: rest)
  | _ => []

/-- The length of the polyline through the points: the sum of the distances
between consecutive points, added up from the first segment on. -/
def polylineLength {R : Type} [LinearOrderedField R] (m : Libm R) (points : List (Vector R)) :
    FP R :=
  (segmentLengths m points).foldl (fun acc d => acc + d) (FP.lit 0)

/-- The number of calls of `barycentricCoords` in the loop of
`searchNeighbourFaces`, counted along the same iterations. -/
def searchNeighbourFacesTests {R : Type} (env : MeshMap R) (pose_vec : Vector R) :
    Nat → List FaceHandle → Nat → Nat
  | 0, _, _ => 0
  | remaining + 1, possible_faces, current =>
    match possible_faces.get? current with
    | none => 0
    | some work_face =>
      match env.barycentricCoords pose_vec work_face with
      | some _ => 1
      | none =>
        1 + searchNeighbourFacesTests env pose_vec remaining
          (possible_faces ++ env.getNeighboursOfFace work_face) current

/-- A controller whose reference waypoint is the goal `(5, 0)` and whose
heading error is 1. -/
def exAtGoal : MeshController ℚ :=
  { exTracking with plan_position := exPose 5 0, angle := .fin 1 }

/-- A controller on the plan `(0, 0), (6, 0), (8, 0)` at the progress index
1, with the fading distance 2 and no cached length. -/
def exFading : MeshController ℚ :=
  { exController with current_plan := [exPose 0 0, exPose 6 0, exPose 8 0], plan_iter := 1,
                      initial_dist := FP.fltMax,
                      config := { exConfig with fading := .fin 2 } }

/-- A controller that follows the plan `(0, 0), (5, 0)` and has the face 0
as its current face. -/
def exLocalised : MeshController ℚ := { exTracking with current_face := some 0 }

/-- The strip with the cost `cost` at a position, whatever the face. -/
def exCostMap (cost : Vector ℚ → FP ℚ) : MeshMap ℚ :=
  { exStrip with costAtPosition := fun _ p => cost p }

/-- The strip with an infinite cost at `(1, 1)` and the cost 1 elsewhere. -/
def exLethalMap : MeshMap ℚ :=
  exCostMap (fun p => if p = exPoint 1 1 then .pinf else .fin 1)

/-- The strip on which `costAtPosition` returns -1 everywhere: no cost can
be resolved. -/
def exMissedMap : MeshMap ℚ := exCostMap (fun _ => -FP.lit 1)

/-- A controller in the face 0 on the plan `(1, 1), (2, 1)`, both in the face
0, at the velocity 1/25 of the maximal velocity 1, after a first call of
`lookAhead` at the time of one nanosecond. -/
def exAhead : MeshController ℚ :=
  { exController with current_plan := [exPose 1 1, exPose 2 1], goal := exPose 2 1,
                      goalSet := true, plan_position := exPose 1 1, current_face := some 0,
                      last_call := 1, last_lookahead_call := 1,
                      set_linear_velocity := .fin (1 / 25) }

/-! ### The parts of `naiveControl` and of `updatePlanPos` -/

/-- The statements of `naiveControl` that compute `final_ang_vel`, the
angular velocity before the look-ahead. -/
def naiveAngVel {R : Type} [LinearOrderedField R] (m : Libm R) (c : MeshController R)
    (pose : PoseStamped R) (plan_vec : Vector R) : FP R :=
  let dir_vec := poseToDirectionVector pose
  let angle := angleBetweenVectors m dir_vec plan_vec
  let leftRight := direction dir_vec plan_vec
  let two_pi : FP R := FP.lit 2 * FP.fin m.pi
  leftRight * linValue c.config.max_ang_velocity (FP.lit 0) two_pi angle

/-- The statements of `naiveControl` that compute `final_lin_vel`, the
linear velocity before the look-ahead. -/
def naiveLinVel {R : Type} [LinearOrderedField R] (env : MeshMap R) (m : Libm R)
    (c : MeshController R) (pose : PoseStamped R) (plan_vec : Vector R) : Except Fault (FP R) :=
  let dir_vec := poseToDirectionVector pose
  let position_vec := poseToPositionVector pose
  let angle := angleBetweenVectors m dir_vec plan_vec
  let two_pi : FP R := FP.lit 2 * FP.fin m.pi
  let lin_vel_by_ang := gaussValue m c.config.max_lin_velocity two_pi angle
  if FP.lt angle (FP.fin (6 / 10)) then
    match cost env c position_vec with
    | .error e => .error e
    | .ok cost_lin_vel => .ok (costPenalty c lin_vel_by_ang cost_lin_vel)
  else .ok lin_vel_by_ang

/-- The poses that a search loop of `updatePlanPos` reads from the poses
still to visit: those up to and including the first whose distance to the
agent is not above `max_dist`. -/
def searchWindow {R : Type} [LinearOrderedField R] (m : Libm R) (robot : Vector R)
    (max_dist : FP R) : List (PoseStamped R) → List (PoseStamped R)
  | [] => []
  | p :: rest =>
    if FP.gt (Vector.distance m robot (poseToPositionVector p)) max_dist then
      p :: searchWindow m robot max_dist rest
    else [p]

/-! ### Further example data -/

/-- The math library of the examples with the arc cosine replaced by
`(1 - x) * pi / 2`, which is 0 at 1 and `pi` at -1. -/
def exLibmTurn : Libm ℚ := { exLibm with acos := fun x => (1 - x) * (355 / 226) }

/-- The pose at `(x, y, 0)` turned by half a turn about the vertical axis:
its heading is `(-1, 0, 0)`. -/
def exPoseBack (x y : ℚ) : PoseStamped ℚ :=
  ⟨⟨0, "map"⟩, exPoint x y, ⟨.fin 0, .fin 0, .fin 1, .fin 0⟩⟩

/-- A controller in PID mode on the plan `(1, 1), (2, 1)` with the headings
`(-1, 0, 0)`, before the first call of `lookAhead`. -/
def exPid : MeshController ℚ :=
  { exController with current_plan := [exPoseBack 1 1, exPoseBack 2 1], goal := exPoseBack 2 1,
                      goalSet := true, plan_position := exPoseBack 1 1, last_call := 1,
                      config := { exConfig with control_type := 1 } }

/-- A controller in PID mode in the face 0 on the plan `(1, 1), (2, 1)`,
one second after the first call of `lookAhead`. -/
def exPidAhead : MeshController ℚ :=
  { exAhead with config := { exConfig with control_type := 1 } }

/-- A controller at the last pose of the plan `(0, 0), (1, 0), (2, 0)`. -/
def exAtEnd : MeshController ℚ :=
  { exController with current_plan := [exPose 0 0, exPose 1 0, exPose 2 0], goal := exPose 2 0,
                      goalSet := true, plan_position := exPose 2 0, plan_iter := 2,
                      current_face := some 0, last_call := 1 }

/-- The state of the back-tracking loop at `(1/10, 0, 0)` in the face 0. -/
def exTrace : Trace ℚ := ⟨exPlanner exStrip, exPoint (1 / 10) 0, 0, [(exPoint (1 / 10) 0, 0)], 0⟩

/-- The distance from the origin to the position of a pose, 0 when it is
not finite. -/
def exDistance (p : PoseStamped ℚ) : ℚ :=
  match Vector.distance exLibm (exPoint 0 0) (poseToPositionVector p) with
  | .fin d => d
  | _ => 0

/-! ### Notions used to state properties of the queue -/

/-- The entries that the first `k` iterations of the sweep loop pop from the
queue, in the order of the pops, when no read of `cancel_planning` finds it
set; the list ends where the loop ends or an iteration fails. -/
def sweepPops {R : Type} [LinearOrderedField R] (env : MeshMap R) (m : Libm R)
    (edge_weights : EdgeHandle → FP R) (goal_face : FaceHandle) :
    Nat → Sweep R → List (VertexHandle × FP R)
  | 0, _ => []
  | k + 1, s =>
    if !s.pq.isEmpty && !s.planner.cancel_planning && !s.goal_face_fixed then
      match s.pq.popMin with
      | none => []
      | some (entry, _) =>
        match sweepStep env m edge_weights goal_face { s with reads := s.reads + 1 } with
        | .ok s1 => entry :: sweepPops env m edge_weights goal_face k s1
        | .error _ => [entry]
    else []

/-- The fixed vertices are the same and have the same distances. -/
def KeepsFixed {R : Type} (s s1 : Sweep R) : Prop :=
  s1.fixed = s.fixed ∧ ∀ v, s.fixed v = true → s1.planner.potential v = s.planner.potential v

/-! ### The kite -/

/-- The search of the integer square root of `n` by bisection between `lo`
and `hi`, with `lo * lo ≤ n < hi * hi`. -/
def exSqrtLoop (n : Nat) : Nat → Nat → Nat → Nat
  | 0, lo, _ => lo
  | fuel + 1, lo, hi =>
    if hi ≤ lo + 1 then lo
    else
      let mid := (lo + hi) / 2
      if mid * mid ≤ n then exSqrtLoop n fuel mid hi else exSqrtLoop n fuel lo mid

/-- The integer square root, rounded down, by 64 steps of bisection, which
are enough below `2 ^ 63`. -/
def exSqrt (n : Nat) : Nat := exSqrtLoop n 64 0 (n + 1)

/-- The math library of the examples with the square root computed by
bisection. -/
def exLibm2 : Libm ℚ :=
  { exLibm with sqrt := fun x => (exSqrt x.num.toNat : ℚ) / (exSqrt x.den : ℚ) }

/-- The positions of the vertices of the kite. -/
def exKitePos : Nat → ℚ × ℚ
  | 0 => (0, -21)
  | 1 => (-12, 0)
  | 2 => (12, 0)
  | _ => (0, 5)

/-- The kite of the faces `0 = (0, 1, 2)` and `1 = (1, 3, 2)`: the edge from
`(-12, 0)` to `(12, 0)` has the vertex `(0, -21)` below it and the vertex
`(0, 5)` above it. -/
def exKite : MeshMap ℚ :=
  { exMesh 4 exKitePos [(0, 1, 2), (1, 3, 2)] with
    edgeDistances := fun e =>
      Vector.distance exLibm2 (exPoint (exKitePos (e / 4)).1 (exKitePos (e / 4)).2)
        (exPoint (exKitePos (e % 4)).1 (exKitePos (e % 4)).2) }

/-- The seeding of the sweep on the kite from the seed `(0, -5)` in the
face 0. -/
def exKiteSeeding : Except Fault (Sweep ℚ) :=
  sweepInit exKite exLibm2
    { exPlanner exKite with cancel_planning := false, potential := VMap.empty,
                            predecessors := VMap.empty } (exPoint 0 (-5)) 0

/-- The state of the sweep on the kite after the seeding. -/
def exKiteSeeded : Sweep ℚ :=
  match exKiteSeeding with
  | .ok s => s
  | .error _ => ⟨exPlanner exKite, fun _ => false, ⟨[]⟩, false, 0⟩

/-- The state of the sweep on the kite towards the face 1 after the first
iteration. -/
def exKiteAfterOnePop : Sweep ℚ :=
  match sweepStep exKite exLibm2 exKite.edgeDistances 1 exKiteSeeded with
  | .ok s => s
  | .error _ => exKiteSeeded

/-- The state of the sweep on the kite towards the face 1 after the second
iteration. -/
def exKiteAfterTwoPops : Sweep ℚ :=
  (sweepRun exKite exLibm2 exKite.edgeDistances 1 1 exKiteAfterOnePop).getD exKiteAfterOnePop

/-! ### Notions used to state what the cost limit blocks -/

/-- The vertices that the sweep can fix: the vertices of the seed face,
whatever their cost, and every vertex of a cost up to the limit that shares
a face with one of them. -/
inductive Spread {R : Type} [LinearOrderedField R] (env : MeshMap R) (limit : FP R)
    (seed_face : FaceHandle) : VertexHandle → Prop where
  | seed (v : VertexHandle) (h : v ∈ faceVertices env seed_face) : Spread env limit seed_face v
  | step (v w : VertexHandle) (hv : Spread env limit seed_face v) (hj : Joined env v w)
      (hc : FP.le (env.vertexCosts w) limit = true) : Spread env limit seed_face w

/-- The vertices that an update of the sweep can write: the vertices that
the sweep can fix and those that share a face with one of them, whatever
their cost. -/
def Touched {R : Type} [LinearOrderedField R] (env : MeshMap R) (limit : FP R)
    (seed_face : FaceHandle) (w : VertexHandle) : Prop :=
  Spread env limit seed_face w ∨ ∃ v, Spread env limit seed_face v ∧ Joined env v w

/-- Only vertices of the set `S` are fixed or queued, and the cost limit of
the planner is `limit`. -/
structure SweepCore {R : Type} [LinearOrderedField R] (S : VertexHandle → Prop) (limit : FP R)
    (s : Sweep R) : Prop where
  fixedS : ∀ v, s.fixed v = true → S v
  keysS : ∀ v, v ∈ s.pq.keys → S v
  limit : s.planner.config.cost_limit = limit

/-- What a part of an iteration of the sweep relates when the cost limit is
taken into account. -/
structure StepCore {R : Type} [LinearOrderedField R] (env : MeshMap R)
    (S T : VertexHandle → Prop) (limit : FP R) (s s1 : Sweep R) : Prop where
  step : Step env T s s1
  core : SweepCore S limit s1

/-! ### The strip with a cost above the limit -/

/-- The strip with the cost 2 at the vertices 1, 2 and 3, the vertices of
the face 1, and the cost 0 at the vertices 0 and 4; the lengths of the edges
are computed with the square root by bisection. -/
def exLethalStrip : MeshMap ℚ :=
  { exStrip with
    vertexCosts := fun v => if v = 1 ∨ v = 2 ∨ v = 3 then .fin 2 else .fin 0,
    edgeDistances := fun e =>
      Vector.distance exLibm2 (exPoint (exPos (e / 5)).1 (exPos (e / 5)).2)
        (exPoint (exPos (e % 5)).1 (exPos (e % 5)).2) }

/-- The positions of the vertices of a strip of six faces. -/
def exLongPos : Nat → ℚ × ℚ
  | 0 => (0, 0)
  | 1 => (4, 0)
  | 2 => (0, 3)
  | 3 => (4, 3)
  | 4 => (0, 6)
  | 5 => (4, 6)
  | 6 => (0, 9)
  | _ => (4, 9)

/-- The strip of the faces `0 = (0, 1, 2)`, `1 = (1, 3, 2)`, `2 = (2, 3, 4)`,
`3 = (3, 5, 4)`, `4 = (4, 5, 6)` and `5 = (5, 7, 6)` with the cost 2 at the
vertices 3 and 4, which every chain of faces from the face 0 to the face 5
meets, and the cost 0 elsewhere. -/
def exBarrier : MeshMap ℚ :=
  { exMesh 8 exLongPos [(0, 1, 2), (1, 3, 2), (2, 3, 4), (3, 5, 4), (4, 5, 6), (5, 7, 6)] with
    vertexCosts := fun v => if v = 3 ∨ v = 4 then .fin 2 else .fin 0 }

/-! ### Further examples of the sweep and of the progress on the plan -/

/-- Edge lengths on the strip that no triangle has: the edges `(1, 3)` and
`(2, 3)` of the face 1 have the length 1/4 and its edge `(1, 2)` the
length 5. -/
def exThinWeights : EdgeHandle → FP ℚ :=
  fun e => if e = 8 ∨ e = 13 then .fin (1 / 4) else exLethalStrip.edgeDistances e

/-- The values of the update of the vertex 3 from the vertices 2 and 1 at
the distances 3 and 4, with the edge lengths `exThinWeights`. -/
def exThinUnfolding : Unfolding ℚ :=
  unfoldTriangle exLibm2 (.fin 3) (.fin 4) (.fin (1 / 4)) (.fin (1 / 4)) (.fin 5)

/-- A controller that is given a plan of five poses, is called twice by
`updatePlanPos`, the second time at `(3, 0)`, and is then given a plan of
two poses. -/
def exReplanned : Except Fault (MeshController ℚ) :=
  match setPlan exController [exPose 0 0, exPose 1 0, exPose 2 0, exPose 3 0, exPose 4 0] with
  | .error e => .error e
  | .ok r1 =>
    match updatePlanPos exLibm2 1 r1.2 (exPose 1 0) (.fin 0) with
    | .error e => .error e
    | .ok c2 =>
      match updatePlanPos exLibm2 1000000001 c2 (exPose 3 0) (.fin 0) with
      | .error e => .error e
      | .ok c3 =>
        match setPlan c3 [exPose 0 0, exPose 1 0] with
        | .error e => .error e
        | .ok r4 => .ok r4.2

/-! ### Notions used to state what `makePlan` appends -/

/-- The poses along a sequence of points with faces, in the words of the
specification: one pose for every point but the last, at that point,
oriented toward the next point, with the normal of the face of that point. -/
def posesAlong {R : Type} (env : MeshMap R) (header : Header) :
    Path R → List (PoseStamped R)
  | [] => []
  | [_] => []
  | a :: b :: rest =>
    ⟨header, (env.calculatePoseFromPosition a.1 b.1 (env.faceNormals a.2)).1,
      (env.calculatePoseFromPosition a.1 b.1 (env.faceNormals a.2)).2⟩
      :: posesAlong env header (b :: rest)

/-- A planning call on the strip with the cost above the limit at the
vertices of the face 1, for the start pose at `(2, 31/20)` and the goal pose
at `(2, 29/20)`. -/
def exPlanRun : Except Fault (Nat × Path ℚ × MeshPlanner ℚ) :=
  waveFrontPropagation3 {} exLethalStrip exLibm2 (fun _ => false) 20
    (exPlanner exLethalStrip) (exPoint 2 (29 / 20)) (exPoint 2 (31 / 20)) []

/-- The planner that the call `exPlanRun` leaves. -/
def exPlanned : MeshPlanner ℚ :=
  match exPlanRun with
  | .ok r => r.2.2
  | .error _ => exPlanner exLethalStrip

/-- Other costs for the strip with a cost above the limit: 7 at the
vertices 1, 2 and 3, where `exLethalStrip` has the cost 2, and 1/2 at the
vertices 0 and 4, where it has the cost 0. -/
def exOtherCosts : VertexHandle → FP ℚ :=
  fun v => if v = 1 ∨ v = 2 ∨ v = 3 then .fin 7 else .fin (1 / 2)

/-- The math library of the examples with the square root by bisection and
the arccosine `(1 - x) * pi / 2`. -/
def exLibm3 : Libm ℚ := { exLibm2 with acos := fun x => (1 - x) * (355 / 226) }

/-- The values of the update of the vertex 3 of the strip from the vertices
2 and 1 at the distances 3 and 4 from the seed `(0, 0)`. -/
def exUpdate : Unfolding ℚ :=
  unfoldTriangle exLibm3 (.fin 3) (.fin 4) (exLethalStrip.edgeDistances 8)
    (exLethalStrip.edgeDistances 13) (exLethalStrip.edgeDistances 7)

/-- The state of the sweep on the strip with the cost above the limit at the
vertices 1, 2 and 3, after the seeding from the seed `(0, 0)`. -/
def exLethalSeeded : Sweep ℚ :=
  match sweepInit exLethalStrip exLibm3
      { exPlanner exLethalStrip with cancel_planning := false, potential := VMap.empty,
                                     predecessors := VMap.empty } (exPoint 0 0) 0 with
  | .ok s => s
  | .error _ => ⟨exPlanner exLethalStrip, fun _ => false, ⟨[]⟩, false, 0⟩

/-! ### Notions used to state what the sweep keeps of a fixed vertex -/

/-- The vertices that are fixed in the state `s0` are fixed in the state
`s` with the same distance, predecessor, cutting face and angle, and those
of them that are in the queue of `s` were in the queue of `s0`. -/
structure Frozen {R : Type} (s0 s : Sweep R) : Prop where
  fixed : ∀ v, s0.fixed v = true → s.fixed v = true
  potential : ∀ v, s0.fixed v = true → s.planner.potential v = s0.planner.potential v
  predecessors : ∀ v, s0.fixed v = true →
    s.planner.predecessors v = s0.planner.predecessors v
  cutting_faces : ∀ v, s0.fixed v = true →
    s.planner.cutting_faces v = s0.planner.cutting_faces v
  direction : ∀ v, s0.fixed v = true → s.planner.direction v = s0.planner.direction v
  queue : ∀ v, s0.fixed v = true → v ∈ s.pq.keys → v ∈ s0.pq.keys

/-! ### Notions used to state the structure of the predecessors -/

/-- The vertex reached from `v` by following the predecessors `n` times; a
vertex without a predecessor stays. -/
def followPred {R : Type} (p : MeshPlanner R) : Nat → VertexHandle → VertexHandle
  | 0, v => v
  | n + 1, v => followPred p n ((p.predecessors v).getD v)

/-- What the sweep keeps true of the predecessors, with `rank` the order in
which the vertices were fixed: the vertices of the seed face are fixed and
are their own predecessors, a fixed or queued vertex has a finite distance,
a predecessor other than the vertex itself is fixed and, for a fixed vertex,
of lower rank, and a fixed or queued vertex outside the seed face has a
predecessor other than itself. -/
structure PredInv {R : Type} (env : MeshMap R) (start_face : FaceHandle)
    (rank : VertexHandle → Nat) (s : Sweep R) : Prop where
  seedSelf : ∀ v, v ∈ faceVertices env start_face →
    s.planner.predecessors v = some v ∧ s.fixed v = true
  fixedFinite : ∀ v, s.fixed v = true → ∃ x, s.planner.potential v = some (.fin x)
  queuedFinite : ∀ v, v ∈ s.pq.keys → ∃ x, s.planner.potential v = some (.fin x)
  predFixed : ∀ v u, s.planner.predecessors v = some u → u ≠ v → s.fixed u = true
  rankDec : ∀ v u, s.fixed v = true → s.planner.predecessors v = some u → u ≠ v →
    rank u < rank v
  nonseed : ∀ v, s.fixed v = true ∨ v ∈ s.pq.keys → v ∉ faceVertices env start_face →
    ∃ u, s.planner.predecessors v = some u ∧ u ≠ v

/-! ### Notions used to state that the cutting face and the angle are fresh -/

/-- The queries of the mesh agree with the faces: the face between three
vertices has them, a face of the edge between two vertices has them, and the
two faces of an edge are not the same face. -/
structure SaneMesh {R : Type} (env : MeshMap R) : Prop where
  faceBetween : ∀ a b c f, env.getFaceBetween a b c = some f →
    a ∈ faceVertices env f ∧ b ∈ faceVertices env f ∧ c ∈ faceVertices env f
  facesOfEdge : ∀ a b e f, env.getEdgeBetween a b = some e →
    (env.getFacesOfEdge e).1 = some f ∨ (env.getFacesOfEdge e).2 = some f →
    a ∈ faceVertices env f ∧ b ∈ faceVertices env f
  distinct : ∀ e f, env.getFacesOfEdge e ≠ (some f, some f)

/-- The predecessor, the cutting face and the angle stored for the vertex
`v` are those that `waveFrontUpdate` writes for `v` from two fixed vertices
`v1` and `v2` with their distances, whatever the planner held for `v`
before: in every planner `q` with these distances of `v1` and `v2`, the
distance infinity of `v` and entries for `v` in `predecessors` and
`direction`, the update returns and leaves the stored values. -/
def FreshAt {R : Type} [LinearOrderedField R] (env : MeshMap R) (m : Libm R)
    (edge_weights : EdgeHandle → FP R) (s : Sweep R) (v : VertexHandle) : Prop :=
  ∃ v1 v2, s.fixed v1 = true ∧ s.fixed v2 = true ∧ v1 ≠ v ∧ v2 ≠ v ∧
    ∀ q : MeshPlanner R,
      q.potential v1 = s.planner.potential v1 → q.potential v2 = s.planner.potential v2 →
      q.potential v = some FP.pinf → (q.predecessors v).isSome = true →
      (q.direction v).isSome = true →
      (waveFrontUpdate env m edge_weights q v1 v2 v).2.isSome = true ∧
      (waveFrontUpdate env m edge_weights q v1 v2 v).1.predecessors v
        = s.planner.predecessors v ∧
      (waveFrontUpdate env m edge_weights q v1 v2 v).1.cutting_faces v
        = s.planner.cutting_faces v ∧
      (waveFrontUpdate env m edge_weights q v1 v2 v).1.direction v = s.planner.direction v

/-- What the sweep keeps true of the cutting faces: the queries of the mesh
answer for every vertex with a distance, and a vertex whose predecessor is
another vertex has a fresh cutting face and angle, the cutting face having
the vertex and its predecessor among its vertices. -/
structure CutInv {R : Type} [LinearOrderedField R] (env : MeshMap R) (m : Libm R)
    (edge_weights : EdgeHandle → FP R) (s : Sweep R) : Prop where
  inv : SweepInv env (fun _ => True) s
  fresh : ∀ v u, s.planner.predecessors v = some u → u ≠ v → FreshAt env m edge_weights s v
  incident : ∀ v u, s.planner.predecessors v = some u → u ≠ v →
    ∃ f, s.planner.cutting_faces v = some f ∧ v ∈ faceVertices env f ∧
      u ∈ faceVertices env f

/-! ### The window of the search on the plan -/

/-- A controller at the first pose of the plan `(0, 0), (1, 0), (2, 0),
(3, 0), (4, 0)`, last called at the time of one nanosecond. -/
def exAtStart : MeshController ℚ :=
  { exController with
    current_plan := [exPose 0 0, exPose 1 0, exPose 2 0, exPose 3 0, exPose 4 0],
    goal := exPose 4 0, goalSet := true, plan_position := exPose 0 0, plan_iter := 0,
    last_call := 1 }

/-! ## Arithmetic on finite values -/

namespace FP

@[simp] theorem fin_add {R : Type} [LinearOrderedField R] (a b : R) :
    (fin a + fin b : FP R) = fin (a + b) := rfl

@[simp] theorem fin_neg {R : Type} [LinearOrderedField R] (a : R) :
    (-(fin a) : FP R) = fin (-a) := rfl

@[simp] theorem fin_sub {R : Type} [LinearOrderedField R] (a b : R) :
    (fin a - fin b : FP R) = fin (a - b) := by
  show add (fin a) (neg (fin b)) = _
  simp [add, neg, sub_eq_add_neg]

@[simp] theorem fin_mul {R : Type} [LinearOrderedField R] (a b : R) :
    (fin a * fin b : FP R) = fin (a * b) := rfl

theorem fin_div {R : Type} [LinearOrderedField R] (a b : R) (h : b ≠ 0) :
    (fin a / fin b : FP R) = fin (a / b) := by
  show div (fin a) (fin b) = _
  simp [div, h]

@[simp] theorem lt_fin {R : Type} [LinearOrderedField R] (a b : R) :
    lt (fin a) (fin b) = decide (a < b) := rfl

@[simp] theorem gt_fin {R : Type} [LinearOrderedField R] (a b : R) :
    gt (fin a) (fin b) = decide (b < a) := rfl

@[simp] theorem eq_fin {R : Type} [LinearOrderedField R] (a b : R) :
    eq (fin a) (fin b) = decide (a = b) := rfl

theorem sqrt_fin {R : Type} [LinearOrderedField R] (m : Libm R) (a : R) (h : 0 ≤ a) :
    sqrt m (fin a) = fin (m.sqrt a) := by
  simp [sqrt, not_lt.mpr h]

end FP

/-! ## The planner: outcome codes of `makePlan` -/

/-- C1 (what the code does): `makePlan` hands its goal to the propagation as
`start` and its start as `goal`, so a goal position without a containing
face gives `INVALID_START`, and a start position without a containing face
(the goal having one) gives `INVALID_GOAL`; the plan is left as it was. -/
theorem makePlan_invalid_codes_swapped {R : Type} [LinearOrderedField R]
    (codes : GetPathResult) (env : MeshMap R) (m : Libm R) (cancelAt : Nat → Bool)
    (fuel now : Nat) (p : MeshPlanner R) (start goal : PoseStamped R) (tolerance : FP R)
    (plan : List (PoseStamped R)) :
    (env.getContainingFace goal.position (FP.fin (2 / 10)) = none →
      makePlan codes env m cancelAt fuel now p start goal tolerance plan
        = .ok (codes.INVALID_START, plan, FP.lit 0, { p with cancel_planning := false })) ∧
    (env.getContainingFace start.position (FP.fin (2 / 10)) = none →
      (env.getContainingFace goal.position (FP.fin (2 / 10))).isSome = true →
      makePlan codes env m cancelAt fuel now p start goal tolerance plan
        = .ok (codes.INVALID_GOAL, plan, FP.lit 0, { p with cancel_planning := false })) := by
  constructor
  · intro hg
    simp [makePlan, waveFrontPropagation3, waveFrontPropagation, hg]
  · intro hs hg
    obtain ⟨f, hf⟩ := Option.isSome_iff_exists.mp hg
    simp [makePlan, waveFrontPropagation3, waveFrontPropagation, hs, hf]

/-- A goal outside the strip and a start inside: `makePlan` answers 52,
`INVALID_START`; a start outside and a goal inside: 53, `INVALID_GOAL`. -/
theorem makePlan_invalid_codes_swapped_witness :
    (makePlan {} exStrip exLibm (fun _ => false) 20 0 (exPlanner exStrip)
        (exPose 1 1) (exPose 30 2) (.fin 0) []
      = .ok (52, [], FP.lit 0, { exPlanner exStrip with cancel_planning := false })) ∧
    (makePlan {} exStrip exLibm (fun _ => false) 20 0 (exPlanner exStrip)
        (exPose 30 2) (exPose 1 1) (.fin 0) []
      = .ok (53, [], FP.lit 0, { exPlanner exStrip with cancel_planning := false })) :=
  ⟨(makePlan_invalid_codes_swapped {} exStrip exLibm (fun _ => false) 20 0 (exPlanner exStrip)
      (exPose 1 1) (exPose 30 2) (.fin 0) []).1 (by decide!),
   (makePlan_invalid_codes_swapped {} exStrip exLibm (fun _ => false) 20 0 (exPlanner exStrip)
      (exPose 30 2) (exPose 1 1) (.fin 0) []).2 (by decide!) (by decide!)⟩

/-- C2 (what the code does): when start and goal lie in the same face,
`makePlan` returns the number 1, the value of `return true`, which is not
the code `SUCCESS` of move_base_flex, and it appends no pose to the plan:
the path was cleared and is returned empty. -/
theorem makePlan_same_face {R : Type} [LinearOrderedField R]
    (codes : GetPathResult) (env : MeshMap R) (m : Libm R) (cancelAt : Nat → Bool)
    (fuel now : Nat) (p : MeshPlanner R) (start goal : PoseStamped R) (tolerance : FP R)
    (plan : List (PoseStamped R)) (face : FaceHandle)
    (hs : env.getContainingFace start.position (FP.fin (2 / 10)) = some face)
    (hg : env.getContainingFace goal.position (FP.fin (2 / 10)) = some face) :
    makePlan codes env m cancelAt fuel now p start goal tolerance plan
        = .ok (1, plan, FP.lit 0,
            { p with cancel_planning := false, potential := VMap.empty,
                     predecessors := VMap.empty }) ∧
      (1 : Nat) ≠ ({} : GetPathResult).SUCCESS := by
  constructor
  · simp [makePlan, waveFrontPropagation3, waveFrontPropagation, hs, hg]
  · decide

/-- Start `(1, 1)` and goal `(1, 1/2)` in the face 0 of the strip: the
outcome is 1 and the plan stays empty. -/
theorem makePlan_same_face_witness :
    makePlan {} exStrip exLibm (fun _ => false) 20 0 (exPlanner exStrip)
        (exPose 1 1) (exPose 1 (1 / 2)) (.fin 0) []
        = .ok (1, [], FP.lit 0,
            { exPlanner exStrip with cancel_planning := false, potential := VMap.empty,
                                     predecessors := VMap.empty }) ∧
      (1 : Nat) ≠ ({} : GetPathResult).SUCCESS :=
  makePlan_same_face {} exStrip exLibm (fun _ => false) 20 0 (exPlanner exStrip)
    (exPose 1 1) (exPose 1 (1 / 2)) (.fin 0) [] 0 (by decide!) (by decide!)

/-! ## The planner: state across calls -/

/-- C5 (what the code does): the cutting faces are never reset.  After a
first call on the strip that reaches vertex 4, a second call from the seed
`(0, 0)` to `(3, 2)` stops before it updates vertex 4: its distance and
predecessor are fresh (infinity, itself), but its cutting face is still the
face 2 of the first call, where a planner fresh from `initialize` has none. -/
theorem waveFrontPropagation_keeps_cutting_face :
    (exFirstCall.toOption.map (fun r => r.2.2.cutting_faces 4)) = some (some 2) ∧
    ((waveFrontPropagation3 {} exStrip exLibm (fun _ => false) 20 exAfterFirstCall
        (exPoint 0 0) (exPoint 3 2) []).toOption.map
      (fun r => (r.2.2.potential 4, r.2.2.predecessors 4, r.2.2.cutting_faces 4)))
      = some (some FP.pinf, some 4, some 2) ∧
    ((waveFrontPropagation3 {} exStrip exLibm (fun _ => false) 20 (exPlanner exStrip)
        (exPoint 0 0) (exPoint 3 2) []).toOption.map
      (fun r => (r.2.2.potential 4, r.2.2.predecessors 4, r.2.2.cutting_faces 4)))
      = some (some FP.pinf, some 4, none) := by
  refine ⟨?_, ?_, ?_⟩ <;> decide!

/-! ## The controller -/

/-- C6: with an empty stored plan `computeVelocityCommands` returns
`EMPTY_PATH` and leaves the velocity command and the controller as they
were. -/
theorem computeVelocityCommands_empty_plan {R : Type} [LinearOrderedField R] [FloorRing R]
    (codes : GetPathResult) (env : MeshMap R) (m : Libm R) (now now_ahead : Nat)
    (c : MeshController R) (pose : PoseStamped R) (velocity : FP R) (cmd_vel : CmdVel R)
    (h : c.current_plan = []) :
    computeVelocityCommands codes env m now now_ahead c pose velocity cmd_vel
      = .ok (codes.EMPTY_PATH, cmd_vel, c) := by
  simp [computeVelocityCommands, h]

/-- The controller before any plan answers 56, `EMPTY_PATH`. -/
theorem computeVelocityCommands_empty_plan_witness :
    computeVelocityCommands {} exStrip exLibm 5 5 exController (exPose 1 1) (.fin 0)
        ⟨.fin 7, .fin 8⟩
      = .ok (56, ⟨.fin 7, .fin 8⟩, exController) :=
  computeVelocityCommands_empty_plan {} exStrip exLibm 5 5 exController (exPose 1 1) (.fin 0)
    ⟨.fin 7, .fin 8⟩ rfl

/-- C7 as stated fails: the agent at `(0, 12)` is at the distance 12 from
the reference waypoint `(0, 0)`, above the threshold 5, and the outcome is
50, the generic `FAILURE`. -/
theorem computeVelocityCommands_off_plan_is_failure :
    Vector.distance exLibm (exPose 0 12).position (exPose 0 0).position = .fin 12 ∧
    exTracking.config.off_plan = .fin 5 ∧
    ((computeVelocityCommands {} exStrip exLibm 1000000001 1000000001 exTracking
        (exPose 0 12) (.fin 0) ⟨.fin 0, .fin 0⟩).toOption.map
      (fun r => (r.1, r.2.2.plan_position))) = some (50, exPose 0 0) ∧
    ({} : GetPathResult).FAILURE = 50 := by
  refine ⟨?_, ?_, ?_, ?_⟩ <;> decide!

/-- C7 amended: with a plan that is not empty, when the cycle reaches the
off-plan check in the state `c2` and `offPlan` holds there, the outcome is
the generic `FAILURE`; the velocity command is left as it was. -/
theorem computeVelocityCommands_off_plan {R : Type} [LinearOrderedField R] [FloorRing R]
    (codes : GetPathResult) (env : MeshMap R) (m : Libm R) (now now_ahead : Nat)
    (c c2 : MeshController R) (pose : PoseStamped R) (velocity : FP R) (cmd_vel : CmdVel R)
    (hplan : c.current_plan ≠ [])
    (htrack : trackPlan env m now c pose = .ok c2)
    (hoff : offPlan m c2 pose = true) :
    computeVelocityCommands codes env m now now_ahead c pose velocity cmd_vel
      = .ok (codes.FAILURE, cmd_vel, c2) := by
  simp [computeVelocityCommands, hplan, htrack, hoff]

/-- The cycle of the agent at `(0, 12)` on the plan `(0, 0), (5, 0)`. -/
theorem computeVelocityCommands_off_plan_witness :
    computeVelocityCommands {} exStrip exLibm 1000000001 1000000001 exTracking
        (exPose 0 12) (.fin 0) ⟨.fin 0, .fin 0⟩
      = .ok (50, ⟨.fin 0, .fin 0⟩, { exTracking with last_call := 1000000001 }) :=
  computeVelocityCommands_off_plan {} exStrip exLibm 1000000001 1000000001 exTracking
    { exTracking with last_call := 1000000001 } (exPose 0 12) (.fin 0) ⟨.fin 0, .fin 0⟩
    (by decide) (by decide!) (by decide!)

/-- C8: for finite positions and a finite threshold, `offPlan` is true
exactly when the threshold is strictly below the distance, the root of the
sum of the squared coordinate differences; at a distance equal to the
threshold it is false. -/
theorem offPlan_iff_distance_gt {R : Type} [LinearOrderedField R] (m : Libm R)
    (c : MeshController R) (robot_pose : PoseStamped R) (rx ry rz px py pz t : R)
    (hr : robot_pose.position = ⟨.fin rx, .fin ry, .fin rz⟩)
    (hp : c.plan_position.position = ⟨.fin px, .fin py, .fin pz⟩)
    (ht : c.config.off_plan = .fin t) :
    (offPlan m c robot_pose = true ↔
        t < m.sqrt ((px - rx) ^ 2 + (py - ry) ^ 2 + (pz - rz) ^ 2)) ∧
      (m.sqrt ((px - rx) ^ 2 + (py - ry) ^ 2 + (pz - rz) ^ 2) = t →
        offPlan m c robot_pose = false) := by
  have h0 : 0 ≤ (px - rx) * (px - rx) + (py - ry) * (py - ry) + (pz - rz) * (pz - rz) := by
    have h1 := mul_self_nonneg (px - rx)
    have h2 := mul_self_nonneg (py - ry)
    have h3 := mul_self_nonneg (pz - rz)
    linarith
  have hd : Vector.distance m (poseToPositionVector robot_pose)
      (poseToPositionVector c.plan_position)
      = .fin (m.sqrt ((px - rx) ^ 2 + (py - ry) ^ 2 + (pz - rz) ^ 2)) := by
    simp only [poseToPositionVector, hr, hp, Vector.distance, Vector.length, Vector.length2,
      Vector.dot, Vector.sub, FP.fin_sub, FP.fin_mul, FP.fin_add]
    rw [FP.sqrt_fin m _ h0]
    congr 2
    ring
  unfold offPlan
  simp only [hd, ht, FP.gt_fin]
  constructor
  · simp
  · intro h
    simp [h]

/-- The agent at `(3, 4)` with the reference waypoint `(0, 0)` and the
threshold 5. -/
theorem offPlan_iff_distance_gt_witness :
    (offPlan exLibm exTracking (exPose 3 4) = true ↔
        (5 : ℚ) < exLibm.sqrt ((0 - 3) ^ 2 + (0 - 4) ^ 2 + (0 - 0) ^ 2)) ∧
      (exLibm.sqrt ((0 - 3) ^ 2 + (0 - 4) ^ 2 + (0 - 0) ^ 2) = (5 : ℚ) →
        offPlan exLibm exTracking (exPose 3 4) = false) :=
  offPlan_iff_distance_gt exLibm exTracking (exPose 3 4) 3 4 0 0 0 0 5 rfl rfl rfl

/-- C9 as stated fails on the plan of one pose: the only pose is erased and
`back()` is called on the empty vector, so `setPlan` does not return true
with a goal taken from the stored plan. -/
theorem setPlan_one_pose_undefined :
    setPlan exController [exPose 1 1] = .error .undefinedBehaviour ∧
      ¬ ∃ c, setPlan exController [exPose 1 1] = .ok (true, c) := by
  have h : setPlan exController [exPose 1 1] = .error .undefinedBehaviour := by decide!
  refine ⟨h, ?_⟩
  rintro ⟨c, hc⟩
  rw [h] at hc
  cases hc

/-- C9 amended: for a plan of two or more poses `setPlan` returns true,
stores the plan without its first pose, sets the goal to the last stored
pose and resets the cached length to the value that makes `fadingFactor`
compute it again; for the empty plan it returns false and changes nothing. -/
theorem setPlan_stores_tail {R : Type} [LinearOrderedField R] (c : MeshController R)
    (p q : PoseStamped R) (rest : List (PoseStamped R)) :
    setPlan c (p :: q :: rest)
        = .ok (true, { c with current_plan := q :: rest,
                              goal := (q :: rest).getLast (List.cons_ne_nil q rest),
                              initial_dist := FP.fltMax }) ∧
      setPlan c [] = .ok (false, c) := by
  constructor
  · simp [setPlan, List.getLast?_eq_getLast]
  · simp [setPlan]

/-- C10 (what the code does): a plan of exactly one pose passes the
emptiness check, the stored plan is empty after the first pose is erased,
and reading its last pose is undefined. -/
theorem setPlan_singleton {R : Type} [LinearOrderedField R] (c : MeshController R)
    (p : PoseStamped R) :
    ([p].isEmpty = false ∧ [p].eraseIdx 0 = []) ∧
      setPlan c [p] = .error .undefinedBehaviour := by
  simp [setPlan]

/-! ## The sweep: what an update leaves untouched -/

theorem frameAt_refl {R : Type} (v3 : VertexHandle) (p : MeshPlanner R) : FrameAt v3 p p :=
  ⟨fun _ _ => rfl, fun _ _ => rfl, fun _ _ => rfl, fun _ _ => rfl, rfl, rfl, rfl, rfl,
    fun h => h, fun h => h⟩

theorem frameAt_trans {R : Type} {v3 : VertexHandle} {p q r : MeshPlanner R}
    (h1 : FrameAt v3 p q) (h2 : FrameAt v3 q r) : FrameAt v3 p r where
  potential := fun v hv => (h2.potential v hv).trans (h1.potential v hv)
  predecessors := fun v hv => (h2.predecessors v hv).trans (h1.predecessors v hv)
  direction := fun v hv => (h2.direction v hv).trans (h1.direction v hv)
  cutting_faces := fun v hv => (h2.cutting_faces v hv).trans (h1.cutting_faces v hv)
  vector_map := h2.vector_map.trans h1.vector_map
  cancel_planning := h2.cancel_planning.trans h1.cancel_planning
  config := h2.config.trans h1.config
  potential_some := h2.potential_some.trans h1.potential_some
  predecessors_some := fun h => h2.predecessors_some (h1.predecessors_some h)
  direction_some := fun h => h2.direction_some (h1.direction_some h)

theorem vmap_insert_of_ne {α : Type} (map : VMap α) (key : VertexHandle) (value : α)
    (v : VertexHandle) (h : v ≠ key) : VMap.insert map key value v = map v := by
  simp [VMap.insert, h]

theorem vmap_insert_same {α : Type} (map : VMap α) (key : VertexHandle) (value : α) :
    VMap.insert map key value key = some value := by
  simp [VMap.insert]

theorem vmap_assign_eq_some {α : Type} {map map1 : VMap α} {key : VertexHandle} {value : α}
    (h : VMap.assign map key value = some map1) :
    map1 = VMap.insert map key value ∧ (map key).isSome = true := by
  unfold VMap.assign at h
  split at h
  · cases h
  · next x hx =>
    cases h
    simp [hx]

theorem frameAt_set_potential {R : Type} (v3 : VertexHandle) (p : MeshPlanner R) (x : FP R)
    (h : (p.potential v3).isSome = true) :
    FrameAt v3 p { p with potential := VMap.insert p.potential v3 x } where
  potential := fun v hv => vmap_insert_of_ne _ _ _ _ hv
  predecessors := fun _ _ => rfl
  direction := fun _ _ => rfl
  cutting_faces := fun _ _ => rfl
  vector_map := rfl
  cancel_planning := rfl
  config := rfl
  potential_some := by simp [VMap.insert, h]
  predecessors_some := fun h => h
  direction_some := fun h => h

theorem frameAt_set_predecessors {R : Type} (v3 : VertexHandle) (p : MeshPlanner R)
    (x : VertexHandle) :
    FrameAt v3 p { p with predecessors := VMap.insert p.predecessors v3 x } where
  potential := fun _ _ => rfl
  predecessors := fun v hv => vmap_insert_of_ne _ _ _ _ hv
  direction := fun _ _ => rfl
  cutting_faces := fun _ _ => rfl
  vector_map := rfl
  cancel_planning := rfl
  config := rfl
  potential_some := rfl
  predecessors_some := fun _ => by simp [VMap.insert]
  direction_some := fun h => h

theorem frameAt_set_direction {R : Type} (v3 : VertexHandle) (p : MeshPlanner R) (x : FP R) :
    FrameAt v3 p { p with direction := VMap.insert p.direction v3 x } where
  potential := fun _ _ => rfl
  predecessors := fun _ _ => rfl
  direction := fun v hv => vmap_insert_of_ne _ _ _ _ hv
  cutting_faces := fun _ _ => rfl
  vector_map := rfl
  cancel_planning := rfl
  config := rfl
  potential_some := rfl
  predecessors_some := fun h => h
  direction_some := fun _ => by simp [VMap.insert]

theorem frameAt_set_cutting_faces {R : Type} (v3 : VertexHandle) (p : MeshPlanner R)
    (x : FaceHandle) :
    FrameAt v3 p { p with cutting_faces := VMap.insert p.cutting_faces v3 x } where
  potential := fun _ _ => rfl
  predecessors := fun _ _ => rfl
  direction := fun _ _ => rfl
  cutting_faces := fun v hv => vmap_insert_of_ne _ _ _ _ hv
  vector_map := rfl
  cancel_planning := rfl
  config := rfl
  potential_some := rfl
  predecessors_some := fun h => h
  direction_some := fun h => h

theorem storeCuttingFace_frame {R : Type} [LinearOrderedField R] (env : MeshMap R)
    (p : MeshPlanner R) (v3 : VertexHandle) (S : FP R) (f0 : FaceHandle)
    (f1 : Option FaceHandle) (dir1 : FP R) :
    FrameAt v3 p (storeCuttingFace env p v3 S f0 f1 dir1).1 := by
  have h4 := frameAt_set_direction v3 p dir1
  unfold storeCuttingFace
  dsimp only
  split
  · split
    · exact h4
    · exact frameAt_trans h4 (frameAt_set_cutting_faces v3 _ _)
  · split
    · exact frameAt_trans (frameAt_trans h4 (frameAt_set_cutting_faces v3 _ _)) (frameAt_set_direction v3 _ _)
    · exact frameAt_trans (frameAt_trans h4 (frameAt_set_cutting_faces v3 _ _)) (frameAt_set_direction v3 _ _)

theorem writePredecessor_frame {R : Type} [LinearOrderedField R] (env : MeshMap R) (m : Libm R)
    (p1 : MeshPlanner R) (v1 v2 v3 : VertexHandle) (a b c : FP R) (g : Unfolding R) :
    FrameAt v3 p1 (writePredecessor env m p1 v1 v2 v3 a b c g).1 := by
  unfold writePredecessor
  split
  · exact frameAt_refl _ _
  · split
    · dsimp only
      split
      · exact frameAt_refl _ _
      · next preds hpreds =>
        obtain ⟨hp, hsome⟩ := vmap_assign_eq_some hpreds
        subst hp
        have h2 := fun x => frameAt_set_predecessors v3 p1 x
        split
        · exact h2 _
        · split
          · exact h2 _
          · next dir hdir =>
            obtain ⟨hd, hdsome⟩ := vmap_assign_eq_some hdir
            subst hd
            exact frameAt_trans (frameAt_trans (h2 _) (frameAt_set_direction v3 _ _))
              (storeCuttingFace_frame _ _ _ _ _ _ _)
    · exact frameAt_refl _ _

theorem waveFrontUpdate_frame {R : Type} [LinearOrderedField R] (env : MeshMap R) (m : Libm R)
    (edge_weights : EdgeHandle → FP R) (p : MeshPlanner R) (v1 v2 v3 : VertexHandle) :
    FrameAt v3 p (waveFrontUpdate env m edge_weights p v1 v2 v3).1 := by
  unfold waveFrontUpdate
  split
  · next u1 u2 u3 h1 h2 h3 =>
    split
    · dsimp only
      split
      · exact frameAt_trans (frameAt_set_potential v3 p _ (by simp [h3]))
          (writePredecessor_frame _ _ _ _ _ _ _ _ _ _)
      · exact frameAt_refl _ _
    · exact frameAt_refl _ _
  · exact frameAt_refl _ _

/-- When `waveFrontUpdate` returns a value at all, the free vertex had a
distance before. -/
theorem waveFrontUpdate_some {R : Type} [LinearOrderedField R] (env : MeshMap R) (m : Libm R)
    (edge_weights : EdgeHandle → FP R) (p : MeshPlanner R) (v1 v2 v3 : VertexHandle) (r : Bool)
    (h : (waveFrontUpdate env m edge_weights p v1 v2 v3).2 = some r) :
    (p.potential v3).isSome = true := by
  unfold waveFrontUpdate at h
  split at h
  · next u1 u2 u3 h1 h2 h3 => simp [h3]
  · simp at h

/-! ## The queue -/

theorem meap_keys_insert {R : Type} [LinearOrderedField R] (pq : Meap R) (key : VertexHandle)
    (value : FP R) (v : VertexHandle) :
    v ∈ (pq.insert key value).keys ↔ v ∈ pq.keys ∨ v = key := by
  unfold Meap.insert Meap.keys
  split
  · next h =>
    have hk : key ∈ pq.entries.map Prod.fst := by
      simp only [List.any_eq_true, beq_iff_eq] at h
      obtain ⟨e, he, hek⟩ := h
      exact List.mem_map.mpr ⟨e, he, hek⟩
    have hmap : (pq.entries.map (fun e => if e.1 = key then (key, value) else e)).map Prod.fst
        = pq.entries.map Prod.fst := by
      rw [List.map_map]
      apply List.map_congr_left
      intro e _
      by_cases he : e.1 = key <;> simp [he]
    simp only [hmap]
    constructor
    · intro h1
      exact Or.inl h1
    · rintro (h1 | h1)
      · exact h1
      · rw [h1]
        exact hk
  · simp

theorem meap_length_insert {R : Type} [LinearOrderedField R] (pq : Meap R) (key : VertexHandle)
    (value : FP R) :
    (pq.insert key value).entries.length
      = if key ∈ pq.keys then pq.entries.length else pq.entries.length + 1 := by
  unfold Meap.insert Meap.keys
  by_cases h : pq.entries.any (fun e => e.1 == key) = true
  · have hk : key ∈ pq.entries.map Prod.fst := by
      simp only [List.any_eq_true, beq_iff_eq] at h
      obtain ⟨e, he, hek⟩ := h
      exact List.mem_map.mpr ⟨e, he, hek⟩
    simp [h, hk]
  · have hk : key ∉ pq.entries.map Prod.fst := by
      intro hk
      apply h
      obtain ⟨e, he, hek⟩ := List.mem_map.mp hk
      simp only [List.any_eq_true, beq_iff_eq]
      exact ⟨e, he, hek⟩
    simp [h, hk]

theorem meap_minEntry_mem {R : Type} [LinearOrderedField R] (rest : List (VertexHandle × FP R)) :
    ∀ best, Meap.minEntry best rest = best ∨ Meap.minEntry best rest ∈ rest := by
  induction rest with
  | nil => intro best; exact Or.inl rfl
  | cons e rest ih =>
    intro best
    unfold Meap.minEntry
    split
    · rcases ih e with h | h
      · rw [h]; exact Or.inr (List.mem_cons_self _ _)
      · exact Or.inr (List.mem_cons_of_mem _ h)
    · rcases ih best with h | h
      · exact Or.inl h
      · exact Or.inr (List.mem_cons_of_mem _ h)

theorem meap_popMin {R : Type} [LinearOrderedField R] (pq pq1 : Meap R)
    (entry : VertexHandle × FP R) (h : pq.popMin = some (entry, pq1)) :
    entry.1 ∈ pq.keys ∧ (∀ v, v ∈ pq1.keys ↔ v ∈ pq.keys ∧ v ≠ entry.1) ∧
      pq1.entries.length + 1 ≤ pq.entries.length := by
  unfold Meap.popMin at h
  split at h
  · cases h
  · next e rest hent =>
    simp only [Option.some.injEq, Prod.mk.injEq] at h
    obtain ⟨h1, h2⟩ := h
    have hmem : entry ∈ pq.entries := by
      rw [hent, ← h1]
      rcases meap_minEntry_mem rest e with h | h
      · rw [h]; exact List.mem_cons_self _ _
      · exact List.mem_cons_of_mem _ h
    refine ⟨List.mem_map.mpr ⟨entry, hmem, rfl⟩, ?_, ?_⟩
    · intro v
      rw [← h2, h1]
      simp only [Meap.keys, List.mem_map, List.mem_filter, bne_iff_ne, ne_eq]
      constructor
      · rintro ⟨x, ⟨hx, hne⟩, rfl⟩
        exact ⟨⟨x, hx, rfl⟩, hne⟩
      · rintro ⟨⟨x, hx, rfl⟩, hne⟩
        exact ⟨x, ⟨hx, hne⟩, rfl⟩
    · rw [← h2, h1]
      have := List.length_filter_lt_length_iff_exists (l := pq.entries)
        (p := fun x => x.1 != entry.1)
      have hlt : (pq.entries.filter (fun x => x.1 != entry.1)).length < pq.entries.length := by
        rw [this]
        exact ⟨entry, hmem, by simp⟩
      exact hlt

theorem meap_popMin_none {R : Type} [LinearOrderedField R] (pq : Meap R)
    (h : pq.isEmpty = false) : ∃ entry pq1, pq.popMin = some (entry, pq1) := by
  unfold Meap.popMin
  unfold Meap.isEmpty at h
  split
  · next hent => simp [hent] at h
  · exact ⟨_, _, rfl⟩

/-! ## Counting -/

theorem countP_le_of_imp {α : Type} (P Q : α → Bool) (h : ∀ v, Q v = true → P v = true) :
    ∀ l : List α, l.countP Q ≤ l.countP P := by
  intro l
  induction l with
  | nil => simp
  | cons x l ih =>
    by_cases hq : Q x = true
    · simp [List.countP_cons, hq, h x hq, ih]
    · by_cases hp : P x = true
      · simp [List.countP_cons, hq, hp]
        omega
      · simp [List.countP_cons, hq, hp, ih]

theorem countP_lt_of_imp {α : Type} (P Q : α → Bool) (h : ∀ v, Q v = true → P v = true)
    (k : α) (hP : P k = true) (hQ : Q k = false) :
    ∀ l : List α, k ∈ l → l.countP Q + 1 ≤ l.countP P := by
  intro l
  induction l with
  | nil => intro hk; cases hk
  | cons x l ih =>
    intro hk
    have hle := countP_le_of_imp P Q h l
    rcases List.mem_cons.mp hk with hx | hx
    · subst hx
      simp [List.countP_cons, hP, hQ]
      exact hle
    · have := ih hx
      by_cases hq : Q x = true
      · simp [List.countP_cons, hq, h x hq]
        omega
      · by_cases hp : P x = true
        · simp [List.countP_cons, hq, hp]
          omega
        · simp [List.countP_cons, hq, hp]
          omega

/-! ## The measure of the sweep -/

theorem sweepMeasure_insert {R : Type} [LinearOrderedField R] (env : MeshMap R) (s : Sweep R)
    (p : MeshPlanner R) (v3 : VertexHandle) (d : FP R)
    (hfix : s.fixed v3 = false) (hv : v3 ∈ env.vertices) :
    sweepMeasure env { s with planner := p, pq := s.pq.insert v3 d } ≤ sweepMeasure env s := by
  unfold sweepMeasure
  simp only
  rw [meap_length_insert]
  by_cases hk : v3 ∈ s.pq.keys
  · simp only [hk, if_true]
    have : ∀ v, (!s.fixed v && !((s.pq.insert v3 d).keys.contains v)) = true →
        (!s.fixed v && !(s.pq.keys.contains v)) = true := by
      intro v
      simp only [Bool.and_eq_true, Bool.not_eq_true', List.contains_eq_any_beq,
        List.any_eq_false, beq_iff_eq]
      rintro ⟨h1, h2⟩
      refine ⟨h1, fun x hx hxv => h2 x ((meap_keys_insert _ _ _ _).mpr (Or.inl hx)) hxv⟩
    have := countP_le_of_imp _ _ this env.vertices
    omega
  · simp only [hk, if_false]
    have himp : ∀ v, (!s.fixed v && !((s.pq.insert v3 d).keys.contains v)) = true →
        (!s.fixed v && !(s.pq.keys.contains v)) = true := by
      intro v
      simp only [Bool.and_eq_true, Bool.not_eq_true', List.contains_eq_any_beq,
        List.any_eq_false, beq_iff_eq]
      rintro ⟨h1, h2⟩
      refine ⟨h1, fun x hx hxv => h2 x ((meap_keys_insert _ _ _ _).mpr (Or.inl hx)) hxv⟩
    have hP : (!s.fixed v3 && !(s.pq.keys.contains v3)) = true := by
      simp only [Bool.and_eq_true, Bool.not_eq_true', List.contains_eq_any_beq,
        List.any_eq_false, beq_iff_eq]
      refine ⟨hfix, fun x hx hxv => hk (hxv ▸ hx)⟩
    have hQ : (!s.fixed v3 && !((s.pq.insert v3 d).keys.contains v3)) = false := by
      have : (s.pq.insert v3 d).keys.contains v3 = true := by
        simp only [List.contains_eq_any_beq, List.any_eq_true, beq_iff_eq]
        exact ⟨v3, (meap_keys_insert _ _ _ _).mpr (Or.inr rfl), rfl⟩
      rw [this]
      simp
    have := countP_lt_of_imp _ _ himp v3 hP hQ env.vertices hv
    omega

theorem sweepMeasure_pop {R : Type} [LinearOrderedField R] (env : MeshMap R) (s : Sweep R)
    (entry : VertexHandle × FP R) (pq1 : Meap R) (h : s.pq.popMin = some (entry, pq1)) :
    sweepMeasure env { s with pq := pq1,
                              fixed := (fun v => if v = entry.1 then true else s.fixed v) } + 1
      ≤ sweepMeasure env s := by
  obtain ⟨hmem, hkeys, hlen⟩ := meap_popMin _ _ _ h
  unfold sweepMeasure
  simp only
  have himp : ∀ v, (!(if v = entry.1 then true else s.fixed v) && !(pq1.keys.contains v)) = true →
      (!s.fixed v && !(s.pq.keys.contains v)) = true := by
    intro v
    simp only [Bool.and_eq_true, Bool.not_eq_true', List.contains_eq_any_beq,
      List.any_eq_false, beq_iff_eq]
    rintro ⟨h1, h2⟩
    by_cases hv : v = entry.1
    · simp [hv] at h1
    · simp only [hv, if_false] at h1
      refine ⟨h1, fun x hx hxv => ?_⟩
      have hx1 : v ∈ s.pq.keys := hxv ▸ hx
      exact h2 v ((hkeys v).mpr ⟨hx1, hv⟩) rfl
  have := countP_le_of_imp _ _ himp env.vertices
  omega

/-! ## The invariant of the sweep -/

theorem step_refl {R : Type} [LinearOrderedField R] (env : MeshMap R) (C : VertexHandle → Prop)
    (s : Sweep R) (h : SweepInv env C s) : Step env C s s :=
  ⟨h, le_refl _, rfl, rfl⟩

theorem step_trans {R : Type} [LinearOrderedField R] {env : MeshMap R} {C : VertexHandle → Prop}
    {s s1 s2 : Sweep R} (h1 : Step env C s s1) (h2 : Step env C s1 s2) : Step env C s s2 :=
  ⟨h2.inv, le_trans h2.measure h1.measure, h2.fixed.trans h1.fixed, h2.reads.trans h1.reads⟩

theorem sweepInv_planner {R : Type} [LinearOrderedField R] (env : MeshMap R)
    (C : VertexHandle → Prop) (s : Sweep R) (p : MeshPlanner R) (v3 : VertexHandle)
    (h : SweepInv env C s) (hC : C v3) (hf : FrameAt v3 s.planner p) :
    SweepInv env C { s with planner := p } where
  fixedC := h.fixedC
  keysC := h.keysC
  keysV := h.keysV
  potV := by
    intro v hv
    by_cases hv3 : v = v3
    · subst hv3
      exact h.potV v (hf.potential_some ▸ hv)
    · exact h.potV v (hf.potential v hv3 ▸ hv)
  outside := by
    intro v hv hmem
    have hv3 : v ≠ v3 := fun e => hv (e ▸ hC)
    have := h.outside v hv hmem
    exact ⟨(hf.potential v hv3).trans this.1, (hf.predecessors v hv3).trans this.2⟩
  predSome := by
    intro v hv
    by_cases hv3 : v = v3
    · subst hv3
      exact hf.predecessors_some (h.predSome v hv)
    · exact (hf.predecessors v hv3) ▸ h.predSome v hv
  dirSome := by
    intro v hv
    by_cases hv3 : v = v3
    · subst hv3
      exact hf.direction_some (h.dirSome v hv)
    · exact (hf.direction v hv3) ▸ h.dirSome v hv
  flag := hf.cancel_planning.trans h.flag
  potSome := by
    intro v hv
    by_cases hv3 : v = v3
    · subst hv3
      exact hf.potential_some ▸ h.potSome v hv
    · exact (hf.potential v hv3) ▸ h.potSome v hv

theorem sweepMeasure_planner {R : Type} [LinearOrderedField R] (env : MeshMap R) (s : Sweep R)
    (p : MeshPlanner R) : sweepMeasure env { s with planner := p } = sweepMeasure env s := rfl

theorem updateFace_step {R : Type} [LinearOrderedField R] (env : MeshMap R) (m : Libm R)
    (edge_weights : EdgeHandle → FP R) (C : VertexHandle → Prop) (s : Sweep R)
    (v1 v2 v3 : VertexHandle) (h : SweepInv env C s) (hC : C v3) (hfix : s.fixed v3 = false) :
    Step env C s (updateFace env m edge_weights s v1 v2 v3) := by
  have hf := waveFrontUpdate_frame env m edge_weights s.planner v1 v2 v3
  have hinv := sweepInv_planner env C s _ v3 h hC hf
  unfold updateFace
  split
  · next p hr =>
    rw [hr] at hf hinv
    simp only at hf hinv
    split
    · next d hd =>
      have hv3 : v3 ∈ env.vertices := hinv.potV v3 (by simp [hd])
      refine ⟨?_, sweepMeasure_insert env s p v3 d hfix hv3, rfl, rfl⟩
      exact
        { fixedC := hinv.fixedC
          keysC := by
            intro v hv
            rcases (meap_keys_insert _ _ _ _).mp hv with h1 | h1
            · exact h.keysC v h1
            · exact h1 ▸ hC
          keysV := by
            intro v hv
            rcases (meap_keys_insert _ _ _ _).mp hv with h1 | h1
            · exact h.keysV v h1
            · exact h1 ▸ hv3
          potV := hinv.potV
          outside := hinv.outside
          predSome := hinv.predSome
          dirSome := hinv.dirSome
          flag := hinv.flag
          potSome := hinv.potSome }
    · exact ⟨hinv, le_refl _, rfl, rfl⟩
  · next p r hr heq =>
    rw [heq] at hf hinv
    exact ⟨hinv, le_refl _, rfl, rfl⟩

theorem foldl_step {R : Type} [LinearOrderedField R] {α : Type} (env : MeshMap R)
    (C : VertexHandle → Prop) (f : Sweep R → α → Sweep R)
    (hf : ∀ s x, SweepInv env C s → Step env C s (f s x)) :
    ∀ (l : List α) (s : Sweep R), SweepInv env C s → Step env C s (l.foldl f s) := by
  intro l
  induction l with
  | nil => intro s h; exact step_refl env C s h
  | cons x l ih =>
    intro s h
    have h1 := hf s x h
    exact step_trans h1 (ih (f s x) h1.inv)

theorem processFace_step {R : Type} [LinearOrderedField R] (env : MeshMap R) (m : Libm R)
    (edge_weights : EdgeHandle → FP R) (goal_face : FaceHandle) (C : VertexHandle → Prop)
    (hC : ClosedUnder env C) (s : Sweep R) (fh : FaceHandle) (h : SweepInv env C s) :
    Step env C s (processFace env m edge_weights goal_face s fh) := by
  have ha : (env.getVerticesOfFace fh).1 ∈ faceVertices env fh := by simp [faceVertices]
  have hb : (env.getVerticesOfFace fh).2.1 ∈ faceVertices env fh := by simp [faceVertices]
  have hc : (env.getVerticesOfFace fh).2.2 ∈ faceVertices env fh := by simp [faceVertices]
  unfold processFace
  dsimp only
  split
  · exact step_refl env C s h
  · split
    · exact step_refl env C s h
    · split
      · split
        · exact ⟨⟨h.fixedC, h.keysC, h.keysV, h.potV, h.outside, h.predSome, h.dirSome, h.flag, h.potSome⟩,
            le_refl _, rfl, rfl⟩
        · exact step_refl env C s h
      · split
        · next hfix =>
          simp only [Bool.and_eq_true, Bool.not_eq_true'] at hfix
          exact updateFace_step env m edge_weights C s _ _ _ h
            (hC _ _ (h.fixedC _ hfix.1.1) ⟨fh, ha, hc⟩) hfix.2
        · split
          · next hfix =>
            simp only [Bool.and_eq_true, Bool.not_eq_true'] at hfix
            exact updateFace_step env m edge_weights C s _ _ _ h
              (hC _ _ (h.fixedC _ hfix.1.1) ⟨fh, ha, hb⟩) hfix.1.2
          · split
            · next hfix =>
              simp only [Bool.and_eq_true, Bool.not_eq_true'] at hfix
              exact updateFace_step env m edge_weights C s _ _ _ h
                (hC _ _ (h.fixedC _ hfix.2) ⟨fh, hc, ha⟩) hfix.1.1
            · exact step_refl env C s h

theorem processNeighbour_step {R : Type} [LinearOrderedField R] (env : MeshMap R) (m : Libm R)
    (edge_weights : EdgeHandle → FP R) (goal_face : FaceHandle) (C : VertexHandle → Prop)
    (hC : ClosedUnder env C) (s : Sweep R) (nh : VertexHandle) (h : SweepInv env C s) :
    Step env C s (processNeighbour env m edge_weights goal_face s nh) := by
  unfold processNeighbour
  split
  · exact step_refl env C s h
  · split
    · exact step_refl env C s h
    · split
      · exact step_refl env C s h
      · exact foldl_step env C _ (fun s x hs => processFace_step env m edge_weights goal_face C hC
          s x hs) _ s h

/-- One iteration of the sweep keeps the invariant and decreases the
measure, and it does not fail on a queue that is not empty. -/
theorem sweepStep_step {R : Type} [LinearOrderedField R] (env : MeshMap R) (m : Libm R)
    (edge_weights : EdgeHandle → FP R) (goal_face : FaceHandle) (C : VertexHandle → Prop)
    (hC : ClosedUnder env C) (s : Sweep R) (h : SweepInv env C s)
    (hne : s.pq.isEmpty = false) :
    ∃ s1, sweepStep env m edge_weights goal_face s = .ok s1 ∧ SweepInv env C s1 ∧
      sweepMeasure env s1 + 1 ≤ sweepMeasure env s ∧ s1.reads = s.reads := by
  obtain ⟨entry, pq1, hpop⟩ := meap_popMin_none s.pq hne
  obtain ⟨hmem, hkeys, hlen⟩ := meap_popMin _ _ _ hpop
  have hm := sweepMeasure_pop env s entry pq1 hpop
  have hinv : SweepInv env C { s with pq := pq1,
                                      fixed := (fun v => if v = entry.1 then true
                                                         else s.fixed v) } :=
    { fixedC := by
        intro v hv
        by_cases hve : v = entry.1
        · exact hve ▸ h.keysC _ hmem
        · simp only [hve, if_false] at hv
          exact h.fixedC v hv
      keysC := fun v hv => h.keysC v ((hkeys v).mp hv).1
      keysV := fun v hv => h.keysV v ((hkeys v).mp hv).1
      potV := h.potV
      outside := h.outside
      predSome := h.predSome
      dirSome := h.dirSome
      flag := h.flag
      potSome := h.potSome }
  unfold sweepStep
  rw [hpop]
  dsimp only
  split
  · exact ⟨_, rfl, hinv, hm, rfl⟩
  · next neighbours _ =>
    have hs := foldl_step env C _ (fun s x hs => processNeighbour_step env m edge_weights
      goal_face C hC s x hs) neighbours _ hinv
    exact ⟨_, rfl, hs.inv, le_trans (Nat.add_le_add_right hs.measure 1) hm, hs.reads⟩

/-- With no call of `cancel()` the sweep loop ends when the fuel exceeds
the measure, in a state that satisfies the invariant. -/
theorem sweepLoop_terminates {R : Type} [LinearOrderedField R] (env : MeshMap R) (m : Libm R)
    (edge_weights : EdgeHandle → FP R) (goal_face : FaceHandle) (C : VertexHandle → Prop)
    (hC : ClosedUnder env C) :
    ∀ (fuel : Nat) (s : Sweep R), SweepInv env C s → sweepMeasure env s < fuel →
      ∃ s1, sweepLoop env m (fun _ => false) edge_weights goal_face fuel s = .ok s1 ∧
        SweepInv env C s1 := by
  intro fuel
  induction fuel with
  | zero => intro s _ hlt; omega
  | succ fuel ih =>
    intro s h hlt
    unfold sweepLoop
    by_cases hne : s.pq.isEmpty = true
    · simp only [hne, Bool.not_true, Bool.false_eq_true, if_false]
      exact ⟨s, rfl, h⟩
    · have hne1 : s.pq.isEmpty = false := by simpa using hne
      simp only [hne1, Bool.not_false, if_true, observeCancel, Bool.false_eq_true, if_false]
      have h0 : SweepInv env C { s with planner := s.planner, reads := s.reads + 1 } :=
        ⟨h.fixedC, h.keysC, h.keysV, h.potV, h.outside, h.predSome, h.dirSome, h.flag, h.potSome⟩
      by_cases hg : s.goal_face_fixed = true
      · simp only [h.flag, hg, Bool.not_true, Bool.and_false, Bool.false_eq_true, if_false]
        exact ⟨_, rfl, ⟨h.fixedC, h.keysC, h.keysV, h.potV, h.outside, h.predSome, h.dirSome,
          h.flag, h.potSome⟩⟩
      · have hg1 : s.goal_face_fixed = false := by simpa using hg
        simp only [h.flag, hg1, Bool.not_false, Bool.and_self, if_true]
        obtain ⟨s1, hs1, hinv1, hm1, _⟩ := sweepStep_step env m edge_weights goal_face C hC
          { s with planner := s.planner, reads := s.reads + 1 } h0 hne1
        rw [hg1] at hs1
        rw [hs1]
        dsimp only
        have hms : sweepMeasure env { s with planner := s.planner, reads := s.reads + 1 }
            = sweepMeasure env s := rfl
        exact ih s1 hinv1 (by omega)

/-! ## Initialisation, seeding and what follows the sweep -/

theorem initLoop_spec {R : Type} (l : List VertexHandle) :
    ∀ p : MeshPlanner R,
      (∀ v, (initLoop l p).potential v = if v ∈ l then some FP.pinf else p.potential v) ∧
      (∀ v, (initLoop l p).predecessors v = if v ∈ l then some v else p.predecessors v) ∧
      (initLoop l p).direction = p.direction ∧
      (initLoop l p).cancel_planning = p.cancel_planning := by
  induction l with
  | nil => intro p; simp [initLoop]
  | cons x l ih =>
    intro p
    obtain ⟨h1, h2, h3, h4⟩ := ih { p with potential := VMap.insert p.potential x FP.pinf,
                                           predecessors := VMap.insert p.predecessors x x }
    unfold initLoop
    refine ⟨fun v => ?_, fun v => ?_, h3, h4⟩
    · rw [h1 v]
      by_cases hv : v ∈ l
      · simp [hv]
      · by_cases hx : v = x
        · simp [hx, VMap.insert]
        · simp [hv, hx, VMap.insert]
    · rw [h2 v]
      by_cases hv : v ∈ l
      · simp [hv]
      · by_cases hx : v = x
        · simp [hx, VMap.insert]
        · simp [hv, hx, VMap.insert]

theorem seedLoop_spec {R : Type} [LinearOrderedField R] (env : MeshMap R) (m : Libm R)
    (start : Vector R) (start_face : FaceHandle) (C : VertexHandle → Prop)
    (l : List VertexHandle) :
    ∀ s : Sweep R, SweepInv env C s → (∀ v, v ∈ l → C v ∧ v ∈ env.vertices) →
      ∃ s1, seedLoop env m start start_face l s = .ok s1 ∧ SweepInv env C s1 ∧
        s1.pq.entries.length ≤ s.pq.entries.length + l.length ∧ s1.reads = s.reads := by
  induction l with
  | nil => intro s h _; exact ⟨s, rfl, h, by simp, rfl⟩
  | cons x l ih =>
    intro s h hl
    obtain ⟨hCx, hVx⟩ := hl x (List.mem_cons_self _ _)
    have hsome := h.potSome x hVx
    obtain ⟨d, hd⟩ := Option.isSome_iff_exists.mp hsome
    unfold seedLoop
    simp only [VMap.assign, hd]
    have hinv : SweepInv env C
        { s with planner := { s.planner with
                   potential := VMap.insert s.planner.potential x
                     (Vector.length m (Vector.sub start (env.getVertexPosition x))),
                   vector_map := VMap.insert s.planner.vector_map x
                     (Vector.sub start (env.getVertexPosition x)),
                   cutting_faces := VMap.insert s.planner.cutting_faces x start_face },
                 fixed := (fun v => if v = x then true else s.fixed v),
                 pq := s.pq.insert x
                   (Vector.length m (Vector.sub start (env.getVertexPosition x))) } :=
      { fixedC := by
          intro v hv
          by_cases hvx : v = x
          · exact hvx ▸ hCx
          · simp only [hvx, if_false] at hv
            exact h.fixedC v hv
        keysC := by
          intro v hv
          rcases (meap_keys_insert _ _ _ _).mp hv with h1 | h1
          · exact h.keysC v h1
          · exact h1 ▸ hCx
        keysV := by
          intro v hv
          rcases (meap_keys_insert _ _ _ _).mp hv with h1 | h1
          · exact h.keysV v h1
          · exact h1 ▸ hVx
        potV := by
          intro v hv
          by_cases hvx : v = x
          · exact hvx ▸ hVx
          · simp only [VMap.insert, hvx, if_false] at hv
            exact h.potV v hv
        outside := by
          intro v hv hmem
          have hvx : v ≠ x := fun e => hv (e ▸ hCx)
          simp only [VMap.insert, hvx, if_false]
          exact h.outside v hv hmem
        predSome := h.predSome
        dirSome := h.dirSome
        flag := h.flag
        potSome := by
          intro v hv
          by_cases hvx : v = x
          · simp [VMap.insert, hvx]
          · simp only [VMap.insert, hvx, if_false]
            exact h.potSome v hv }
    obtain ⟨s1, hs1, hinv1, hlen1, hreads1⟩ := ih _ hinv
      (fun v hv => hl v (List.mem_cons_of_mem _ hv))
    refine ⟨s1, hs1, hinv1, ?_, hreads1⟩
    have := meap_length_insert s.pq x
      (Vector.length m (Vector.sub start (env.getVertexPosition x)))
    simp only at hlen1
    rw [this] at hlen1
    simp only [List.length_cons]
    split at hlen1 <;> omega

theorem computeVectorMapLoop_spec {R : Type} [LinearOrderedField R] (env : MeshMap R)
    (l : List VertexHandle) :
    ∀ p : MeshPlanner R,
      (∀ v, v ∈ l → (p.predecessors v).isSome = true ∧ (p.direction v).isSome = true) →
      ∃ p1, computeVectorMapLoop env l p = .ok p1 ∧ p1.potential = p.potential ∧
        p1.predecessors = p.predecessors ∧ p1.direction = p.direction ∧
        p1.cutting_faces = p.cutting_faces ∧ p1.cancel_planning = p.cancel_planning := by
  induction l with
  | nil => intro p _; exact ⟨p, rfl, rfl, rfl, rfl, rfl, rfl⟩
  | cons x l ih =>
    intro p hl
    obtain ⟨hp, hd⟩ := hl x (List.mem_cons_self _ _)
    obtain ⟨v1, hv1⟩ := Option.isSome_iff_exists.mp hp
    obtain ⟨theta, htheta⟩ := Option.isSome_iff_exists.mp hd
    have hrest : ∀ v, v ∈ l → (p.predecessors v).isSome = true ∧ (p.direction v).isSome = true :=
      fun v hv => hl v (List.mem_cons_of_mem _ hv)
    unfold computeVectorMapLoop
    simp only [hv1, htheta]
    split
    · exact ih p hrest
    · split
      · exact ih p hrest
      · exact ih _ hrest

theorem pathExists_self {R : Type} (p : MeshPlanner R) (l : List VertexHandle)
    (h : ∀ v, v ∈ l → p.predecessors v = some v) : pathExists p l = .ok false := by
  induction l with
  | nil => rfl
  | cons x l ih =>
    unfold pathExists
    simp only [h x (List.mem_cons_self _ _), ne_eq, not_true_eq_false, if_false]
    exact ih (fun v hv => h v (List.mem_cons_of_mem _ hv))

theorem inComponent_closed {R : Type} (env : MeshMap R) (face : FaceHandle) :
    ClosedUnder env (InComponent env face) := by
  intro v w hv hj
  obtain ⟨u, hu, huv⟩ := hv
  exact ⟨u, hu, Relation.ReflTransGen.tail huv hj⟩

theorem inComponent_of_face {R : Type} (env : MeshMap R) (face : FaceHandle) (v : VertexHandle)
    (h : v ∈ faceVertices env face) : InComponent env face v :=
  ⟨v, h, Relation.ReflTransGen.refl⟩

theorem sweepMeasure_le {R : Type} [LinearOrderedField R] (env : MeshMap R) (s : Sweep R) :
    sweepMeasure env s ≤ s.pq.entries.length + 2 * env.vertices.length := by
  unfold sweepMeasure
  have := List.countP_le_length (fun v => !s.fixed v && !(s.pq.keys.contains v))
    (l := env.vertices)
  omega

/-- The state that `sweepInit` builds satisfies the invariant of the sweep
for the component of the start face. -/
theorem sweepInit_spec {R : Type} [LinearOrderedField R] (env : MeshMap R) (m : Libm R)
    (p : MeshPlanner R) (start : Vector R) (start_face : FaceHandle)
    (hpot : p.potential = VMap.empty) (hpred : p.predecessors = VMap.empty)
    (hflag : p.cancel_planning = false)
    (hsv : ∀ v, v ∈ faceVertices env start_face → v ∈ env.vertices)
    (hdir : ∀ v, v ∈ env.vertices → (p.direction v).isSome = true) :
    ∃ s0, sweepInit env m p start start_face = .ok s0 ∧
      SweepInv env (InComponent env start_face) s0 ∧
      sweepMeasure env s0 ≤ 3 + 2 * env.vertices.length ∧ s0.reads = 0 := by
  obtain ⟨h1, h2, h3, h4⟩ := initLoop_spec env.vertices { p with vector_map := VMap.empty }
  have hinv : SweepInv env (InComponent env start_face)
      ⟨initLoop env.vertices { p with vector_map := VMap.empty }, fun _ => false, ⟨[]⟩,
        false, 0⟩ :=
    { fixedC := by intro v hv; cases hv
      keysC := by intro v hv; cases hv
      keysV := by intro v hv; cases hv
      potV := by
        intro v hv
        by_contra hmem
        rw [h1 v] at hv
        simp [hmem, hpot, VMap.empty] at hv
      outside := by
        intro v _ hmem
        simp [h1 v, h2 v, hmem]
      predSome := by
        intro v hmem
        simp [h2 v, hmem]
      dirSome := by
        intro v hmem
        simp only [h3]
        exact hdir v hmem
      flag := h4.trans hflag
      potSome := by
        intro v hmem
        simp [h1 v, hmem] }
  obtain ⟨s0, hs0, hinv0, hlen0, hreads0⟩ := seedLoop_spec env m start start_face
    (InComponent env start_face) (faceVertices env start_face) _ hinv
    (fun v hv => ⟨inComponent_of_face env start_face v hv, hsv v hv⟩)
  refine ⟨s0, hs0, hinv0, ?_, hreads0⟩
  have := sweepMeasure_le env s0
  have hl : (faceVertices env start_face).length = 3 := rfl
  simp only [List.length_nil, hl] at hlen0
  omega

/-- The iterations of the sweep keep the invariant. -/
theorem sweepRun_inv {R : Type} [LinearOrderedField R] (env : MeshMap R) (m : Libm R)
    (edge_weights : EdgeHandle → FP R) (goal_face : FaceHandle) (C : VertexHandle → Prop)
    (hC : ClosedUnder env C) :
    ∀ (k : Nat) (s sk : Sweep R), SweepInv env C s →
      sweepRun env m edge_weights goal_face k s = some sk → SweepInv env C sk := by
  intro k
  induction k with
  | zero =>
    intro s sk h hrun
    simp only [sweepRun, Option.some.injEq] at hrun
    exact hrun ▸ h
  | succ k ih =>
    intro s sk h hrun
    unfold sweepRun at hrun
    split at hrun
    · next hcond =>
      simp only [Bool.and_eq_true, Bool.not_eq_true'] at hcond
      have h0 : SweepInv env C { s with reads := s.reads + 1 } :=
        ⟨h.fixedC, h.keysC, h.keysV, h.potV, h.outside, h.predSome, h.dirSome, h.flag,
          h.potSome⟩
      obtain ⟨s1, hs1, hinv1, _, _⟩ := sweepStep_step env m edge_weights goal_face C hC _ h0
        hcond.1.1
      rw [hs1] at hrun
      exact ih s1 sk hinv1 hrun
    · cases hrun

/-- C3: when no vertex of the goal face is in the connected component of
the start face (the seed face), the propagation without a call of
`cancel()` ends with `NO_PATH_FOUND` and an empty path once the fuel covers
the measure of the sweep, and every vertex of the mesh outside that
component has the distance infinity and itself as predecessor, at the end
and after every number of iterations of the sweep. -/
theorem waveFrontPropagation_unreachable {R : Type} [LinearOrderedField R]
    (codes : GetPathResult) (env : MeshMap R) (m : Libm R) (fuel : Nat) (p : MeshPlanner R)
    (start goal : Vector R) (edge_weights : EdgeHandle → FP R) (path : Path R)
    (start_face goal_face : FaceHandle)
    (hs : env.getContainingFace start (FP.fin (2 / 10)) = some start_face)
    (hg : env.getContainingFace goal (FP.fin (2 / 10)) = some goal_face)
    (hsep : ∀ w, w ∈ faceVertices env goal_face → ¬ InComponent env start_face w)
    (hsv : ∀ v, v ∈ faceVertices env start_face → v ∈ env.vertices)
    (hgv : ∀ v, v ∈ faceVertices env goal_face → v ∈ env.vertices)
    (hdir : ∀ v, v ∈ env.vertices → (p.direction v).isSome = true)
    (hfuel : 2 * env.vertices.length + 4 ≤ fuel) :
    (∃ p1, waveFrontPropagation codes env m (fun _ => false) fuel p start goal edge_weights path
          = .ok (codes.NO_PATH_FOUND, [], p1) ∧
        ∀ v, v ∈ env.vertices → ¬ InComponent env start_face v →
          p1.potential v = some FP.pinf ∧ p1.predecessors v = some v) ∧
      (∀ s0 k sk,
        sweepInit env m { p with cancel_planning := false, potential := VMap.empty,
                                 predecessors := VMap.empty } start start_face = .ok s0 →
        sweepRun env m edge_weights goal_face k s0 = some sk →
        ∀ v, v ∈ env.vertices → ¬ InComponent env start_face v →
          sk.planner.potential v = some FP.pinf ∧ sk.planner.predecessors v = some v) := by
  have hC := inComponent_closed env start_face
  obtain ⟨s0, hs0, hinv0, hm0, _⟩ := sweepInit_spec env m
    { p with cancel_planning := false, potential := VMap.empty, predecessors := VMap.empty }
    start start_face rfl rfl rfl hsv hdir
  constructor
  · have hne : goal_face ≠ start_face := by
      intro e
      have h1 : (env.getVerticesOfFace goal_face).1 ∈ faceVertices env goal_face := by
        simp [faceVertices]
      exact hsep _ h1 (inComponent_of_face env start_face _ (e ▸ h1))
    obtain ⟨s1, hs1, hinv1⟩ := sweepLoop_terminates env m edge_weights goal_face _ hC fuel s0
      hinv0 (by omega)
    obtain ⟨p1, hp1, hpot, hpred, _, _, _⟩ := computeVectorMapLoop_spec env env.vertices
      s1.planner (fun v hv => ⟨hinv1.predSome v hv, hinv1.dirSome v hv⟩)
    have hout : ∀ v, v ∈ env.vertices → ¬ InComponent env start_face v →
        p1.potential v = some FP.pinf ∧ p1.predecessors v = some v := by
      intro v hv hnc
      rw [hpot, hpred]
      exact hinv1.outside v hnc hv
    have hpe : pathExists p1 (faceVertices env goal_face) = .ok false :=
      pathExists_self p1 _ (fun v hv => (hout v (hgv v hv) (hsep v hv)).2)
    refine ⟨p1, ?_, hout⟩
    unfold waveFrontPropagation
    simp only [hs, hg, hne, if_false, hs0, hs1, observeCancel, Bool.false_eq_true, hinv1.flag,
      computeVectorMap, hp1, hpe, Bool.not_false, if_true]
  · intro s0' k sk hs0' hrun v hv hnc
    rw [hs0] at hs0'
    cases hs0'
    exact (sweepRun_inv env m edge_weights goal_face _ hC k s0 sk hinv0 hrun).outside v hnc hv

/-! ## Cancellation -/

theorem foldl_keeps {σ α : Type} (K : σ → σ → Prop) (hrefl : ∀ s, K s s)
    (htrans : ∀ s s1 s2, K s s1 → K s1 s2 → K s s2) (f : σ → α → σ)
    (hf : ∀ s x, K s (f s x)) : ∀ (l : List α) (s : σ), K s (l.foldl f s) := by
  intro l
  induction l with
  | nil => intro s; exact hrefl s
  | cons x l ih => intro s; exact htrans _ _ _ (hf s x) (ih (f s x))

theorem updateFace_keeps {R : Type} [LinearOrderedField R] (env : MeshMap R) (m : Libm R)
    (edge_weights : EdgeHandle → FP R) (s : Sweep R) (v1 v2 v3 : VertexHandle) :
    (updateFace env m edge_weights s v1 v2 v3).reads = s.reads ∧
      (updateFace env m edge_weights s v1 v2 v3).planner.cancel_planning
        = s.planner.cancel_planning := by
  have hf := waveFrontUpdate_frame env m edge_weights s.planner v1 v2 v3
  unfold updateFace
  split
  · next p heq =>
    rw [heq] at hf
    split
    · exact ⟨rfl, hf.cancel_planning⟩
    · exact ⟨rfl, hf.cancel_planning⟩
  · next p r _ heq =>
    rw [heq] at hf
    exact ⟨rfl, hf.cancel_planning⟩

theorem processFace_keeps {R : Type} [LinearOrderedField R] (env : MeshMap R) (m : Libm R)
    (edge_weights : EdgeHandle → FP R) (goal_face : FaceHandle) (s : Sweep R) (fh : FaceHandle) :
    (processFace env m edge_weights goal_face s fh).reads = s.reads ∧
      (processFace env m edge_weights goal_face s fh).planner.cancel_planning
        = s.planner.cancel_planning := by
  unfold processFace
  dsimp only
  repeat' split
  all_goals first
    | exact ⟨rfl, rfl⟩
    | exact updateFace_keeps env m edge_weights s _ _ _

theorem processNeighbour_keeps {R : Type} [LinearOrderedField R] (env : MeshMap R) (m : Libm R)
    (edge_weights : EdgeHandle → FP R) (goal_face : FaceHandle) (s : Sweep R)
    (nh : VertexHandle) :
    (processNeighbour env m edge_weights goal_face s nh).reads = s.reads ∧
      (processNeighbour env m edge_weights goal_face s nh).planner.cancel_planning
        = s.planner.cancel_planning := by
  unfold processNeighbour
  repeat' split
  all_goals first
    | exact ⟨rfl, rfl⟩
    | exact foldl_keeps
        (fun (s s1 : Sweep R) => s1.reads = s.reads ∧
          s1.planner.cancel_planning = s.planner.cancel_planning)
        (fun _ => ⟨rfl, rfl⟩)
        (fun _ _ _ h1 h2 => ⟨h2.1.trans h1.1, h2.2.trans h1.2⟩)
        _ (fun s x => processFace_keeps env m edge_weights goal_face s x) _ s

theorem sweepStep_keeps {R : Type} [LinearOrderedField R] (env : MeshMap R) (m : Libm R)
    (edge_weights : EdgeHandle → FP R) (goal_face : FaceHandle) (s s1 : Sweep R)
    (h : sweepStep env m edge_weights goal_face s = .ok s1) :
    s1.reads = s.reads ∧ s1.planner.cancel_planning = s.planner.cancel_planning := by
  unfold sweepStep at h
  split at h
  · cases h
  · dsimp only at h
    split at h
    · cases h
      exact ⟨rfl, rfl⟩
    · cases h
      exact foldl_keeps
        (fun (s s1 : Sweep R) => s1.reads = s.reads ∧
          s1.planner.cancel_planning = s.planner.cancel_planning)
        (fun _ => ⟨rfl, rfl⟩)
        (fun _ _ _ h1 h2 => ⟨h2.1.trans h1.1, h2.2.trans h1.2⟩)
        _ (fun s x => processNeighbour_keeps env m edge_weights goal_face s x) _ _

theorem seedLoop_keeps {R : Type} [LinearOrderedField R] (env : MeshMap R) (m : Libm R)
    (start : Vector R) (start_face : FaceHandle) (l : List VertexHandle) :
    ∀ (s s1 : Sweep R), seedLoop env m start start_face l s = .ok s1 →
      s1.reads = s.reads ∧ s1.planner.cancel_planning = s.planner.cancel_planning := by
  induction l with
  | nil =>
    intro s s1 h
    simp only [seedLoop, Except.ok.injEq] at h
    subst h
    exact ⟨rfl, rfl⟩
  | cons x l ih =>
    intro s s1 h
    unfold seedLoop at h
    dsimp only at h
    split at h
    · cases h
    · have := ih _ s1 h
      exact this

/-- While no read finds `cancel_planning` set, the sweep loop does the
iterations of `sweepRun`. -/
theorem sweepLoop_run {R : Type} [LinearOrderedField R] (env : MeshMap R) (m : Libm R)
    (cancelAt : Nat → Bool) (edge_weights : EdgeHandle → FP R) (goal_face : FaceHandle) :
    ∀ (k fuel : Nat) (s sk : Sweep R),
      (∀ j, j < k → cancelAt (s.reads + j) = false) →
      sweepRun env m edge_weights goal_face k s = some sk →
      sweepLoop env m cancelAt edge_weights goal_face (k + fuel) s
          = sweepLoop env m cancelAt edge_weights goal_face fuel sk ∧
        sk.reads = s.reads + k ∧ sk.planner.cancel_planning = s.planner.cancel_planning := by
  intro k
  induction k with
  | zero =>
    intro fuel s sk _ hrun
    simp only [sweepRun, Option.some.injEq] at hrun
    subst hrun
    simp
  | succ k ih =>
    intro fuel s sk hq hrun
    unfold sweepRun at hrun
    split at hrun
    · next hcond =>
      simp only [Bool.and_eq_true, Bool.not_eq_true'] at hcond
      obtain ⟨⟨hne, hflag⟩, hgff⟩ := hcond
      split at hrun
      · next s1 hs1 =>
        have hk := sweepStep_keeps env m edge_weights goal_face _ s1 hs1
        simp only at hk
        have hq0 : cancelAt s.reads = false := by simpa using hq 0 (Nat.succ_pos k)
        have hq1 : ∀ j, j < k → cancelAt (s1.reads + j) = false := by
          intro j hj
          rw [hk.1]
          have := hq (j + 1) (by omega)
          rw [show s.reads + 1 + j = s.reads + (j + 1) by omega]
          exact this
        obtain ⟨h1, h2, h3⟩ := ih fuel s1 sk hq1 hrun
        refine ⟨?_, by omega, h3.trans hk.2⟩
        rw [show k + 1 + fuel = (k + fuel) + 1 by omega]
        rw [← h1]
        conv_lhs => unfold sweepLoop
        simp only [hne, Bool.not_false, if_true, observeCancel, hq0, Bool.false_eq_true,
          if_false, hflag, hgff, Bool.and_self]
        rw [hgff] at hs1
        rw [hs1]
      · cases hrun
    · cases hrun

/-- C4: when `cancel()` is called before the read number `k` of
`cancel_planning`, with `1 ≤ k`, and the sweep runs `k` iterations until
then, the loop stops at that check and the call returns `CANCELED` with an
empty path; the planner is the one that the `k` iterations left, with the
flag set, so no further iteration was done, the vector field was not
computed and nothing was back-tracked. -/
theorem waveFrontPropagation_canceled {R : Type} [LinearOrderedField R]
    (codes : GetPathResult) (env : MeshMap R) (m : Libm R) (cancelAt : Nat → Bool)
    (fuel : Nat) (p : MeshPlanner R) (start goal : Vector R)
    (edge_weights : EdgeHandle → FP R) (path : Path R) (start_face goal_face : FaceHandle)
    (s0 sk : Sweep R) (k : Nat)
    (hs : env.getContainingFace start (FP.fin (2 / 10)) = some start_face)
    (hg : env.getContainingFace goal (FP.fin (2 / 10)) = some goal_face)
    (hne : goal_face ≠ start_face)
    (hinit : sweepInit env m { p with cancel_planning := false, potential := VMap.empty,
                                      predecessors := VMap.empty } start start_face = .ok s0)
    (hk : 1 ≤ k)
    (hrun : sweepRun env m edge_weights goal_face k s0 = some sk)
    (hrunning : sk.pq.isEmpty = false ∧ sk.goal_face_fixed = false)
    (hquiet : ∀ j, j < k → cancelAt j = false)
    (hcancel : cancelAt k = true)
    (hfuel : k < fuel) :
    waveFrontPropagation codes env m cancelAt fuel p start goal edge_weights path
      = .ok (codes.CANCELED, [], { sk.planner with cancel_planning := true }) := by
  obtain ⟨fuel1, rfl⟩ : ∃ f, fuel = k + (f + 1) := ⟨fuel - k - 1, by omega⟩
  have h0 := seedLoop_keeps env m start start_face _ _ s0 hinit
  have hflag0 : s0.planner.cancel_planning = false :=
    h0.2.trans (initLoop_spec env.vertices _).2.2.2
  have hreads0 : s0.reads = 0 := h0.1
  obtain ⟨hloop, hreads, hflag⟩ := sweepLoop_run env m cancelAt edge_weights goal_face k
    (fuel1 + 1) s0 sk (fun j hj => by rw [hreads0, Nat.zero_add]; exact hquiet j hj) hrun
  rw [hreads0, Nat.zero_add] at hreads
  have hlast : sweepLoop env m cancelAt edge_weights goal_face (fuel1 + 1) sk
      = .ok { sk with planner := { sk.planner with cancel_planning := true },
                      reads := sk.reads + 1 } := by
    unfold sweepLoop
    simp [hrunning.1, observeCancel, hreads, hcancel, MeshPlanner.cancel]
  unfold waveFrontPropagation
  simp only [hs, hg, hne, if_false, hinit, hloop, hlast]
  by_cases hc : cancelAt (sk.reads + 1) = true
  · simp [observeCancel, hc, MeshPlanner.cancel]
  · simp [observeCancel, hc]

/-! ## The examples of the sweep -/

theorem inComponent_subset {R : Type} (env : MeshMap R) (face : FaceHandle)
    (D : VertexHandle → Prop) (hD : ClosedUnder env D)
    (hface : ∀ u, u ∈ faceVertices env face → D u) (v : VertexHandle)
    (h : InComponent env face v) : D v := by
  obtain ⟨u, hu, huv⟩ := h
  induction huv with
  | refl => exact hface u hu
  | tail _ hj ih => exact hD _ _ ih hj

theorem exIslands_closed : ClosedUnder exIslands (fun v => v < 3) := by
  rintro v w hv ⟨fh, h1, h2⟩
  show w < 3
  rcases fh with _ | _ | fh
  · simp [faceVertices, exIslands, exMesh] at h2
    rcases h2 with h | h | h <;> subst h <;> decide
  · have hv1 : v < 3 := hv
    simp [faceVertices, exIslands, exMesh] at h1
    rcases h1 with h | h | h <;> subst h <;> exact absurd hv1 (by decide)
  · simp [faceVertices, exIslands, exMesh] at h2
    subst h2
    decide

/-- The two islands: from the seed `(0, 0)` in the face 0 to `(11, 1)` in
the face 1 the outcome is 54, `NO_PATH_FOUND`. -/
theorem waveFrontPropagation_unreachable_witness :
    (∃ p1, waveFrontPropagation {} exIslands exLibm (fun _ => false) 20 (exPlanner exIslands)
          (exPoint 0 0) (exPoint 11 1) exIslands.edgeDistances []
          = .ok (54, [], p1) ∧
        ∀ v, v ∈ exIslands.vertices → ¬ InComponent exIslands 0 v →
          p1.potential v = some FP.pinf ∧ p1.predecessors v = some v) ∧
      (∀ s0 k sk,
        sweepInit exIslands exLibm
          { exPlanner exIslands with cancel_planning := false, potential := VMap.empty,
                                     predecessors := VMap.empty } (exPoint 0 0) 0 = .ok s0 →
        sweepRun exIslands exLibm exIslands.edgeDistances 1 k s0 = some sk →
        ∀ v, v ∈ exIslands.vertices → ¬ InComponent exIslands 0 v →
          sk.planner.potential v = some FP.pinf ∧ sk.planner.predecessors v = some v) :=
  waveFrontPropagation_unreachable {} exIslands exLibm 20 (exPlanner exIslands)
    (exPoint 0 0) (exPoint 11 1) exIslands.edgeDistances [] 0 1
    (by decide!) (by decide!)
    (by
      intro w hw hc
      have h3 : w < 3 := inComponent_subset exIslands 0 (fun v => v < 3) exIslands_closed
        (by
          intro u hu
          show u < 3
          simp [faceVertices, exIslands, exMesh] at hu
          rcases hu with h | h | h <;> subst h <;> decide) w hc
      simp [faceVertices, exIslands, exMesh] at hw
      rcases hw with h | h | h <;> subst h <;> exact absurd h3 (by decide))
    (by
      intro v hv
      simp [faceVertices, exIslands, exMesh] at hv
      rcases hv with h | h | h <;> subst h <;> decide)
    (by
      intro v hv
      simp [faceVertices, exIslands, exMesh] at hv
      rcases hv with h | h | h <;> subst h <;> decide)
    (by
      intro v hv
      simp [exIslands, exMesh] at hv
      simp [exPlanner, MeshPlanner.initialize, MeshPlanner.reconfigureCallback, exPlanner0,
        VMap.dense, exIslands, exMesh, hv])
    (by decide)

/-- The strip, from the seed `(0, 0)` towards the face 2, with `cancel()`
called between the first and the second read of the flag: the outcome is
51, `CANCELED`, after one iteration. -/
theorem waveFrontPropagation_canceled_witness :
    waveFrontPropagation {} exStrip exLibm (fun j => j == 1) 20 (exPlanner exStrip)
        (exPoint 0 0) (exPoint 1 4) exStrip.edgeDistances []
      = .ok (51, [], { exAfterOnePop.planner with cancel_planning := true }) :=
  waveFrontPropagation_canceled {} exStrip exLibm (fun j => j == 1) 20 (exPlanner exStrip)
    (exPoint 0 0) (exPoint 1 4) exStrip.edgeDistances [] 0 2 exSeeded exAfterOnePop 1
    (by decide!) (by decide!) (by decide)
    (by
      have hok : exSeeding.isOk = true := by decide!
      show exSeeding = .ok exSeeded
      unfold exSeeded
      revert hok
      cases exSeeding with
      | ok s => intro _; rfl
      | error e => intro hok; cases hok)
    (le_refl 1)
    (by
      have hsome : (sweepRun exStrip exLibm exStrip.edgeDistances 2 1 exSeeded).isSome = true := by
        decide!
      unfold exAfterOnePop
      revert hsome
      cases sweepRun exStrip exLibm exStrip.edgeDistances 2 1 exSeeded with
      | some s => intro _; rfl
      | none => intro hsome; cases hsome)
    (by decide!)
    (by intro j hj; have : j = 0 := by omega
        subst this; rfl)
    rfl (by decide)

/-! ## The controller: goal check and fading -/

theorem le_fin {R : Type} [LinearOrderedField R] (a b : R) :
    FP.le (FP.fin a) (FP.fin b) = decide (a ≤ b) := by
  simp only [FP.le, FP.lt_fin, FP.eq_fin]
  rcases lt_trichotomy a b with h | h | h
  · simp [h, le_of_lt h]
  · simp [h]
  · simp [not_lt.mpr (le_of_lt h), ne_of_gt h, not_le.mpr h]

theorem lit_eq_fin {R : Type} [LinearOrderedField R] (n : Nat) :
    (FP.lit n : FP R) = FP.fin (n : R) := rfl

theorem distance_fin {R : Type} [LinearOrderedField R] (m : Libm R)
    (ax ay az bx b_y bz : R) :
    Vector.distance m ⟨.fin ax, .fin ay, .fin az⟩ ⟨.fin bx, .fin b_y, .fin bz⟩
      = .fin (m.sqrt ((bx - ax) ^ 2 + (b_y - ay) ^ 2 + (bz - az) ^ 2)) := by
  have h0 : 0 ≤ (bx - ax) * (bx - ax) + (b_y - ay) * (b_y - ay) + (bz - az) * (bz - az) := by
    have h1 := mul_self_nonneg (bx - ax)
    have h2 := mul_self_nonneg (b_y - ay)
    have h3 := mul_self_nonneg (bz - az)
    linarith
  simp only [Vector.distance, Vector.length, Vector.length2, Vector.dot, Vector.sub,
    FP.fin_sub, FP.fin_mul, FP.fin_add]
  rw [FP.sqrt_fin m _ h0]
  congr 2
  ring

/-- C11 as stated fails: the reference waypoint is at the goal, so the
distance 0 is within the tolerance 1, but with the heading error 1 the
result is false for the angle tolerance 1/2 and true for the angle
tolerance 2. -/
theorem isGoalReached_depends_on_angle :
    Vector.distance exLibm exAtGoal.plan_position.position exAtGoal.goal.position = .fin 0 ∧
    isGoalReached exLibm exAtGoal (.fin 1) (.fin (1 / 2)) = false ∧
    isGoalReached exLibm exAtGoal (.fin 1) (.fin 2) = true := by
  refine ⟨?_, ?_, ?_⟩ <;> decide!

/-- C11 amended: for finite positions, tolerances and heading error,
`isGoalReached` is true exactly when the distance from the reference
waypoint to the goal is at most the distance tolerance and the stored
heading error `angle` is at most the angle tolerance. -/
theorem isGoalReached_iff {R : Type} [LinearOrderedField R] (m : Libm R)
    (c : MeshController R) (px py pz gx gy gz dt a t : R)
    (hp : c.plan_position.position = ⟨.fin px, .fin py, .fin pz⟩)
    (hg : c.goal.position = ⟨.fin gx, .fin gy, .fin gz⟩)
    (ha : c.angle = .fin a) :
    isGoalReached m c (.fin dt) (.fin t) = true ↔
      m.sqrt ((gx - px) ^ 2 + (gy - py) ^ 2 + (gz - pz) ^ 2) ≤ dt ∧ a ≤ t := by
  unfold isGoalReached
  simp only [hp, hg, ha, distance_fin, le_fin]
  simp

/-- The controller at the goal with the heading error 1. -/
theorem isGoalReached_iff_witness :
    isGoalReached exLibm exAtGoal (.fin 1) (.fin 2) = true ↔
      exLibm.sqrt (((5 : ℚ) - 5) ^ 2 + ((0 : ℚ) - 0) ^ 2 + ((0 : ℚ) - 0) ^ 2) ≤ 1 ∧
        (1 : ℚ) ≤ 2 :=
  isGoalReached_iff exLibm exAtGoal 5 0 0 5 0 0 1 1 2 rfl rfl rfl

theorem pathLength_eq_foldl {R : Type} [LinearOrderedField R] (m : Libm R)
    (rest : List (PoseStamped R)) :
    ∀ (start : Vector R) (acc : FP R),
      pathLength m start rest acc
        = (segmentLengths m (start :: rest.map poseToPositionVector)).foldl
            (fun acc d => acc + d) acc := by
  induction rest with
  | nil => intro start acc; rfl
  | cons p rest ih =>
    intro start acc
    simp only [pathLength, List.map_cons, segmentLengths, List.foldl_cons]
    exact ih _ _

/-- The loop of `fadingFactor` adds up the length of the polyline through
the positions of the poses. -/
theorem pathLength_eq_polylineLength {R : Type} [LinearOrderedField R] (m : Libm R)
    (start : PoseStamped R) (rest : List (PoseStamped R)) :
    pathLength m (poseToPositionVector start) rest (FP.lit 0)
      = polylineLength m ((start :: rest).map poseToPositionVector) := by
  rw [pathLength_eq_foldl]
  rfl

/-- The value of `fadingFactor` as a function of the travelled length `d`,
the total length `L`, the fading distance `f` and the maximal velocity. -/
theorem fadingFactor_value {R : Type} [LinearOrderedField R] (m : Libm R)
    (c : MeshController R) (start : PoseStamped R) (rest : List (PoseStamped R))
    (d L f v : R)
    (hplan : c.current_plan = start :: rest)
    (hd : polylineLength m ((start :: rest.take c.plan_iter.toNat).map poseToPositionVector)
      = .fin d)
    (hL : polylineLength m ((start :: rest).map poseToPositionVector) = .fin L)
    (hcache : c.initial_dist = FP.fltMax ∨ c.initial_dist = .fin L)
    (hf : c.config.fading = .fin f) (hfpos : 0 < f)
    (hv : c.config.max_lin_velocity = .fin v) :
    ∃ c1, fadingFactor m c = .ok
      (if d < f then (if d = 0 then FP.fin (v / 10) else FP.fin (d / f))
       else if L - d < f then FP.fin ((L - d) / f) else FP.fin 1, c1) := by
  have hfne : f ≠ 0 := ne_of_gt hfpos
  have h10 : ((10 : Nat) : R) ≠ 0 := by norm_num
  rw [← pathLength_eq_polylineLength] at hd hL
  rcases c with ⟨cp, g, gs, pp, pit, cf, af, hsf, lc, llc, slv, idist, lf, ang, ide, idre, pde,
    pdre, nm, fc, cfg⟩
  simp only at hplan hd hcache hf hv
  subst hplan
  have hinit : (if FP.eq idist FP.fltMax = true then
      pathLength m (poseToPositionVector start) rest (FP.lit 0) else idist) = .fin L := by
    split
    · exact hL
    · next hne =>
      rcases hcache with h | h
      · exfalso
        apply hne
        rw [h]
        simp [FP.fltMax]
      · exact h
  simp only [lit_eq_fin, Nat.cast_zero] at hd hL hinit
  have h10' : ((10 : Nat) : R) = 10 := by norm_num
  unfold fadingFactor
  by_cases he : FP.eq idist FP.fltMax = true
  · simp only [he, if_true] at hinit
    simp only [he, if_true, hd, hinit, hf, hv, FP.lt_fin, FP.eq_fin, lit_eq_fin, Nat.cast_zero,
      Nat.cast_one, FP.fin_sub, decide_eq_true_eq, h10', FP.fin_div v 10 (by norm_num), FP.fin_div _ _ hfne]
    by_cases h1 : d < f
    · by_cases h2 : d = 0
      · simp only [h1, if_true]
        simp only [h2, if_true]
        exact ⟨_, rfl⟩
      · simp only [h1, h2, if_true, if_false]
        exact ⟨_, rfl⟩
    · by_cases h3 : L - d < f
      · simp only [h1, h3, if_true, if_false]
        exact ⟨_, rfl⟩
      · simp only [h1, h3, if_false]
        exact ⟨_, rfl⟩
  · have he' : FP.eq idist FP.fltMax = false := by simpa using he
    simp only [he', Bool.false_eq_true, if_false] at hinit
    subst hinit
    simp only [he', Bool.false_eq_true, if_false, hd, hf, hv, FP.lt_fin, FP.eq_fin, lit_eq_fin, Nat.cast_zero,
      Nat.cast_one, FP.fin_sub, decide_eq_true_eq, h10', FP.fin_div v 10 (by norm_num), FP.fin_div _ _ hfne]
    by_cases h1 : d < f
    · by_cases h2 : d = 0
      · simp only [h1, if_true]
        simp only [h2, if_true]
        exact ⟨_, rfl⟩
      · simp only [h1, h2, if_true, if_false]
        exact ⟨_, rfl⟩
    · by_cases h3 : L - d < f
      · simp only [h1, h3, if_true, if_false]
        exact ⟨_, rfl⟩
      · simp only [h1, h3, if_false]
        exact ⟨_, rfl⟩

/-- C12: with `d` the length of the polyline from waypoint 0 to the progress
index, `L` the length of the whole stored plan, `f > 0` the fading distance
and the cached length either invalid or equal to `L`, `fadingFactor`
returns `max_lin_velocity / 10` for `d = 0`, `d / f` for `0 < d < f`,
`(L - d) / f` for `d >= f` and `L - d < f`, and 1 for `d >= f` and
`L - d >= f`. -/
theorem fadingFactor_cases {R : Type} [LinearOrderedField R] (m : Libm R)
    (c : MeshController R) (start : PoseStamped R) (rest : List (PoseStamped R))
    (d L f v : R)
    (hplan : c.current_plan = start :: rest)
    (hd : polylineLength m ((start :: rest.take c.plan_iter.toNat).map poseToPositionVector)
      = .fin d)
    (hL : polylineLength m ((start :: rest).map poseToPositionVector) = .fin L)
    (hcache : c.initial_dist = FP.fltMax ∨ c.initial_dist = .fin L)
    (hf : c.config.fading = .fin f) (hfpos : 0 < f)
    (hv : c.config.max_lin_velocity = .fin v) :
    (d = 0 → ∃ c1, fadingFactor m c = .ok (FP.fin (v / 10), c1)) ∧
    (0 < d → d < f → ∃ c1, fadingFactor m c = .ok (FP.fin (d / f), c1)) ∧
    (f ≤ d → L - d < f → ∃ c1, fadingFactor m c = .ok (FP.fin ((L - d) / f), c1)) ∧
    (f ≤ d → f ≤ L - d → ∃ c1, fadingFactor m c = .ok (FP.fin 1, c1)) := by
  obtain ⟨c1, h⟩ := fadingFactor_value m c start rest d L f v hplan hd hL hcache hf hfpos hv
  refine ⟨fun h0 => ⟨c1, ?_⟩, fun h0 h1 => ⟨c1, ?_⟩, fun h0 h1 => ⟨c1, ?_⟩,
    fun h0 h1 => ⟨c1, ?_⟩⟩
  · rw [h, if_pos (h0 ▸ hfpos), if_pos h0]
  · rw [h, if_pos h1, if_neg (ne_of_gt h0)]
  · rw [h, if_neg (not_lt.mpr h0), if_pos h1]
  · rw [h, if_neg (not_lt.mpr h0), if_neg (not_lt.mpr h1)]

/-- The plan `(0, 0), (6, 0), (8, 0)` at the progress index 1 with the
fading distance 2: `d = 6`, `L = 8`. -/
theorem fadingFactor_cases_witness :
    ((6 : ℚ) = 0 → ∃ c1, fadingFactor exLibm exFading = .ok (FP.fin ((1 : ℚ) / 10), c1)) ∧
    ((0 : ℚ) < 6 → (6 : ℚ) < 2 →
      ∃ c1, fadingFactor exLibm exFading = .ok (FP.fin ((6 : ℚ) / 2), c1)) ∧
    ((2 : ℚ) ≤ 6 → (8 : ℚ) - 6 < 2 →
      ∃ c1, fadingFactor exLibm exFading = .ok (FP.fin (((8 : ℚ) - 6) / 2), c1)) ∧
    ((2 : ℚ) ≤ 6 → (2 : ℚ) ≤ 8 - 6 → ∃ c1, fadingFactor exLibm exFading = .ok (FP.fin 1, c1)) :=
  fadingFactor_cases exLibm exFading (exPose 0 0) [exPose 6 0, exPose 8 0] 6 8 2 1 rfl
    (by decide!) (by decide!) (Or.inl rfl) rfl (by norm_num) rfl

/-- C13 as stated fails: on the plan `(0, 0), (6, 0), (8, 0)` with the
fading distance 2 the travelled length at the progress index 1 is
`6 = L - f`, and `fadingFactor` returns 1, not 0. -/
theorem fadingFactor_at_fade_out_start :
    polylineLength exLibm (exFading.current_plan.map poseToPositionVector) = .fin 8 ∧
    polylineLength exLibm
      ((exFading.current_plan.take (exFading.plan_iter.toNat + 1)).map poseToPositionVector)
      = .fin 6 ∧
    exFading.config.fading = .fin 2 ∧
    (fadingFactor exLibm exFading).toOption.map (fun r => r.1) = some (FP.fin 1) := by
  refine ⟨?_, ?_, ?_, ?_⟩ <;> decide!

/-- C13 amended: for `0 < f <= L - f`, when the travelled length equals
`L - f` the value of `fadingFactor` is exactly 1, and when it equals `L`
the value is 0. -/
theorem fadingFactor_fade_out {R : Type} [LinearOrderedField R] (m : Libm R)
    (c : MeshController R) (start : PoseStamped R) (rest : List (PoseStamped R))
    (d L f v : R)
    (hplan : c.current_plan = start :: rest)
    (hd : polylineLength m ((start :: rest.take c.plan_iter.toNat).map poseToPositionVector)
      = .fin d)
    (hL : polylineLength m ((start :: rest).map poseToPositionVector) = .fin L)
    (hcache : c.initial_dist = FP.fltMax ∨ c.initial_dist = .fin L)
    (hf : c.config.fading = .fin f) (hfpos : 0 < f) (hfL : f ≤ L - f)
    (hv : c.config.max_lin_velocity = .fin v) :
    (d = L - f → ∃ c1, fadingFactor m c = .ok (FP.fin 1, c1)) ∧
    (d = L → ∃ c1, fadingFactor m c = .ok (FP.fin 0, c1)) := by
  obtain ⟨c1, h⟩ := fadingFactor_value m c start rest d L f v hplan hd hL hcache hf hfpos hv
  refine ⟨fun h0 => ⟨c1, ?_⟩, fun h0 => ⟨c1, ?_⟩⟩
  · have h1 : ¬ d < f := by rw [h0]; exact not_lt.mpr hfL
    have h2 : ¬ L - d < f := by rw [h0]; simp
    rw [h, if_neg h1, if_neg h2]
  · have h1 : ¬ d < f := by rw [h0]; linarith
    have h2 : L - d < f := by rw [h0]; simpa using hfpos
    rw [h, if_neg h1, if_pos h2, h0]
    simp

/-- The plan `(0, 0), (6, 0), (8, 0)` at the progress index 1 with the
fading distance 2. -/
theorem fadingFactor_fade_out_witness :
    ((6 : ℚ) = 8 - 2 → ∃ c1, fadingFactor exLibm exFading = .ok (FP.fin 1, c1)) ∧
    ((6 : ℚ) = 8 → ∃ c1, fadingFactor exLibm exFading = .ok (FP.fin 0, c1)) :=
  fadingFactor_fade_out exLibm exFading (exPose 0 0) [exPose 6 0, exPose 8 0] 6 8 2 1 rfl
    (by decide!) (by decide!) (Or.inl rfl) rfl (by norm_num) (by norm_num) rfl

/-! ## The controller: localisation -/

theorem searchNeighbourFacesLoop_head {R : Type} (env : MeshMap R) (pose_vec : Vector R)
    (face : FaceHandle) :
    ∀ (remaining : Nat) (tail : List FaceHandle),
      searchNeighbourFacesLoop env pose_vec (remaining + 1) (face :: tail) 0
        = if (env.barycentricCoords pose_vec face).isSome then some face else none := by
  intro remaining
  induction remaining with
  | zero =>
    intro tail
    simp only [searchNeighbourFacesLoop, List.get?_cons_zero]
    cases env.barycentricCoords pose_vec face <;> rfl
  | succ n ih =>
    intro tail
    rw [searchNeighbourFacesLoop]
    simp only [List.get?_cons_zero]
    cases h : env.barycentricCoords pose_vec face with
    | some uv => rfl
    | none =>
      simp only [List.cons_append]
      rw [ih]
      simp [h]

/-- C19 (what the code does): the iterator `current` is never advanced, so
every iteration tests the seed face again: `searchNeighbourFaces` returns
the seed face when it contains the point and nothing otherwise.  On the
strip the point `(3, 2)` lies in the face 1, a neighbour of the face 0, and
the search from the face 0 finds nothing. -/
theorem searchNeighbourFaces_only_seed {R : Type} (env : MeshMap R) (pose_vec : Vector R)
    (face : FaceHandle) :
    (searchNeighbourFaces env pose_vec face
      = if (env.barycentricCoords pose_vec face).isSome then some face else none) ∧
    ((1 : FaceHandle) ∈ exStrip.getNeighboursOfFace 0 ∧
      (exStrip.barycentricCoords (exPoint 3 2) 1).isSome = true ∧
      searchNeighbourFaces exStrip (exPoint 3 2) 0 = none) := by
  constructor
  · exact searchNeighbourFacesLoop_head env pose_vec face 39 []
  · refine ⟨?_, ?_, ?_⟩ <;> decide!

theorem searchNeighbourFacesTests_le {R : Type} (env : MeshMap R) (pose_vec : Vector R) :
    ∀ (remaining : Nat) (possible_faces : List FaceHandle) (current : Nat),
      searchNeighbourFacesTests env pose_vec remaining possible_faces current ≤ remaining := by
  intro remaining
  induction remaining with
  | zero => intro _ _; simp [searchNeighbourFacesTests]
  | succ n ih =>
    intro possible_faces current
    rw [searchNeighbourFacesTests]
    split
    · omega
    · next work_face _ =>
      split
      · omega
      · have := ih (possible_faces ++ env.getNeighboursOfFace work_face) current
        omega

theorem searchNeighbourFacesLoop_contains {R : Type} (env : MeshMap R) (pose_vec : Vector R) :
    ∀ (remaining : Nat) (possible_faces : List FaceHandle) (current : Nat) (g : FaceHandle),
      searchNeighbourFacesLoop env pose_vec remaining possible_faces current = some g →
      (env.barycentricCoords pose_vec g).isSome = true := by
  intro remaining
  induction remaining with
  | zero => intro _ _ g h; simp [searchNeighbourFacesLoop] at h
  | succ n ih =>
    intro possible_faces current g h
    rw [searchNeighbourFacesLoop] at h
    split at h
    · cases h
    · split at h
      · next uv huv =>
        cases h
        simp [huv]
      · exact ih _ _ g h

/-- C20: `setCurrentFace` ends for every position and state, two levels of
the recursion being enough for any larger bound; with no known face the
stored face is the result of the global search; with a known face it is the
result of the local search, which tests at most 40 faces, and the result of
the global search only when the local search found nothing; and a stored
face passed the containment test, the global search being one that only
returns faces that pass it. -/
theorem setCurrentFace_spec {R : Type} (env : MeshMap R) (position_vec : Vector R)
    (c : MeshController R)
    (hglobal : ∀ g, env.getContainingFaceHandle position_vec = some g →
      (env.barycentricCoords position_vec g).isSome = true) :
    (∀ depth, 2 ≤ depth →
      setCurrentFaceRec env position_vec depth c = some (setCurrentFace env position_vec c)) ∧
    (c.current_face = none →
      setCurrentFace env position_vec c
        = { c with current_face := env.getContainingFaceHandle position_vec }) ∧
    (∀ f, c.current_face = some f →
      setCurrentFace env position_vec c
        = { c with current_face :=
              match searchNeighbourFaces env position_vec f with
              | some g => some g
              | none => env.getContainingFaceHandle position_vec }) ∧
    (∀ f, searchNeighbourFacesTests env position_vec 40 [f] 0 ≤ 40) ∧
    (∀ g, (setCurrentFace env position_vec c).current_face = some g →
      (env.barycentricCoords position_vec g).isSome = true) := by
  have hnone : c.current_face = none →
      ∀ depth, setCurrentFaceRec env position_vec (depth + 1) c
        = some { c with current_face := env.getContainingFaceHandle position_vec } := by
    intro h depth
    rw [setCurrentFaceRec]
    simp [h]
  have hsome : ∀ f, c.current_face = some f →
      ∀ depth, setCurrentFaceRec env position_vec (depth + 2) c
        = some { c with current_face :=
              match searchNeighbourFaces env position_vec f with
              | some g => some g
              | none => env.getContainingFaceHandle position_vec } := by
    intro f h depth
    rw [setCurrentFaceRec]
    simp only [h]
    cases hs : searchNeighbourFaces env position_vec f with
    | some g => simp
    | none =>
      simp only [Option.isNone_none, if_true]
      rw [setCurrentFaceRec]
  have h2 : ∀ depth, 2 ≤ depth →
      setCurrentFaceRec env position_vec depth c = setCurrentFaceRec env position_vec 2 c := by
    intro depth hdepth
    obtain ⟨k, rfl⟩ : ∃ k, depth = k + 2 := ⟨depth - 2, by omega⟩
    cases hc : c.current_face with
    | none => rw [hnone hc (k + 1), hnone hc 1]
    | some f => rw [hsome f hc k, hsome f hc 0]
  have hnone' : c.current_face = none →
      setCurrentFace env position_vec c
        = { c with current_face := env.getContainingFaceHandle position_vec } := by
    intro h
    unfold setCurrentFace
    rw [hnone h 1]
    rfl
  have hsome' : ∀ f, c.current_face = some f →
      setCurrentFace env position_vec c
        = { c with current_face :=
              match searchNeighbourFaces env position_vec f with
              | some g => some g
              | none => env.getContainingFaceHandle position_vec } := by
    intro f h
    unfold setCurrentFace
    rw [hsome f h 0]
    rfl
  refine ⟨?_, hnone', hsome', ?_, ?_⟩
  · intro depth hdepth
    rw [h2 depth hdepth]
    cases hc : c.current_face with
    | none => rw [hnone hc 1, hnone' hc]
    | some f => rw [hsome f hc 0, hsome' f hc]
  · intro f
    exact searchNeighbourFacesTests_le env position_vec 40 [f] 0
  · intro g hg
    cases hc : c.current_face with
    | none =>
      rw [hnone' hc] at hg
      exact hglobal g hg
    | some f =>
      rw [hsome' f hc] at hg
      simp only at hg
      cases hs : searchNeighbourFaces env position_vec f with
      | some g1 =>
        rw [hs] at hg
        simp only [Option.some.injEq] at hg
        subst hg
        exact searchNeighbourFacesLoop_contains env position_vec 40 [f] 0 g1 hs
      | none =>
        rw [hs] at hg
        exact hglobal g hg

/-- On the strip, from the face 0 and for the point `(3, 2)` of the face 1. -/
theorem setCurrentFace_spec_witness :
    (∀ g, exStrip.getContainingFaceHandle (exPoint 3 2) = some g →
      (exStrip.barycentricCoords (exPoint 3 2) g).isSome = true) ∧
    ((∀ depth, 2 ≤ depth →
      setCurrentFaceRec exStrip (exPoint 3 2) depth exLocalised
        = some (setCurrentFace exStrip (exPoint 3 2) exLocalised)) ∧
    (exLocalised.current_face = none →
      setCurrentFace exStrip (exPoint 3 2) exLocalised
        = { exLocalised with current_face := exStrip.getContainingFaceHandle (exPoint 3 2) }) ∧
    (∀ f, exLocalised.current_face = some f →
      setCurrentFace exStrip (exPoint 3 2) exLocalised
        = { exLocalised with current_face :=
              match searchNeighbourFaces exStrip (exPoint 3 2) f with
              | some g => some g
              | none => exStrip.getContainingFaceHandle (exPoint 3 2) }) ∧
    (∀ f, searchNeighbourFacesTests exStrip (exPoint 3 2) 40 [f] 0 ≤ 40) ∧
    (∀ g, (setCurrentFace exStrip (exPoint 3 2) exLocalised).current_face = some g →
      (exStrip.barycentricCoords (exPoint 3 2) g).isSome = true)) :=
  have h : ∀ g, exStrip.getContainingFaceHandle (exPoint 3 2) = some g →
      (exStrip.barycentricCoords (exPoint 3 2) g).isSome = true := by
    intro g hg
    simp only [exStrip, exMesh] at hg ⊢
    simp [hg]
  ⟨h, setCurrentFace_spec exStrip (exPoint 3 2) exLocalised h⟩

/-! ## The controller: look-ahead -/

/-- C17 (what the code does): a step whose cost is `+inf` while
`lethal_step` is 0 is not missed, yet neither its cost nor its heading delta
is added, and the sums are still divided by the number of steps.  On the
plan `(1, 1), (2, 1)` with the costs `+inf` and 1 the look-ahead covers
two steps, none of them missed, the mean of the two costs is `+inf`, and
`lookAhead` returns the cost 1/2. -/
theorem lookAhead_skips_lethal_step :
    toInt (linValue (FP.lit 50) (FP.lit 0)
      (FP.lit 2 * (exAhead.config.max_lin_velocity * durationToSec 1000000001 1))
      (FP.fin (1 / 25) * durationToSec 1000000001 1)) = .ok 2 ∧
    costOfFace exLethalMap (some 0) (exPoint 1 1) = .ok .pinf ∧
    costOfFace exLethalMap (some 0) (exPoint 2 1) = .ok (.fin 1) ∧
    FP.eq (.pinf : FP ℚ) (-FP.lit 1) = false ∧ FP.eq (.fin 1 : FP ℚ) (-FP.lit 1) = false ∧
    ((FP.lit 0 + .pinf + .fin 1) / ofInt 2 : FP ℚ) = .pinf ∧
    (lookAhead exLethalMap exLibm 1000000001 exAhead (exPose 1 1) (.fin (1 / 25))).toOption.map
      (fun r => r.1.2) = some (.fin (1 / 2)) := by
  refine ⟨?_, ?_, ?_, ?_, ?_, ?_, ?_⟩ <;> decide!

/-- C18 (what the code does): when every step is missed the sums are divided
by `steps - missed_steps = 0`, `lookAhead` returns `NaN` for both values,
`NaN != max` holds, and the blending makes the angular velocity `NaN`; with
no look-ahead available (first call of `lookAhead`, or no linear velocity)
the same call returns the angular velocity 0. -/
theorem naiveControl_all_steps_missed :
    costOfFace exMissedMap (some 0) (exPoint 1 1) = .ok (-FP.lit 1) ∧
    costOfFace exMissedMap (some 0) (exPoint 2 1) = .ok (-FP.lit 1) ∧
    (lookAhead exMissedMap exLibm 1000000001 exAhead (exPose 1 1)
      exAhead.set_linear_velocity).toOption.map (fun r => r.1) = some (.nan, .nan) ∧
    FP.ne (.nan : FP ℚ) FP.fltMax = true ∧
    (naiveControl exMissedMap exLibm 1000000001 exAhead (exPose 1 1)
      (exPoint 1 0)).toOption.map (fun r => r.1.1) = some .nan ∧
    (naiveControl exMissedMap exLibm 1000000001 { exAhead with last_lookahead_call := 0 }
      (exPose 1 1) (exPoint 1 0)).toOption.map (fun r => r.1.1) = some (.fin 0) ∧
    (naiveControl exMissedMap exLibm 1000000001 { exAhead with set_linear_velocity := .fin 0 }
      (exPose 1 1) (exPoint 1 0)).toOption.map (fun r => r.1.1) = some (.fin 0) := by
  refine ⟨?_, ?_, ?_, ?_, ?_, ?_, ?_⟩ <;> decide!

/-! ## The controller: progress on the plan -/

/-- C22 (what the code does): `updatePlanPos` also searches backward, and
`setPlan` resets neither the progress index nor the current face.  On the
plan `(0, 0), (1, 0), (2, 0)` at the index 2 with the agent at `(0, 0)` the
index becomes 0; and `setPlan` with a plan of two poses keeps the index 2
and the face 0 for a stored plan of one pose, on which the next
`updatePlanPos` reads outside the plan. -/
theorem updatePlanPos_moves_back :
    exAtEnd.plan_iter = 2 ∧
    (updatePlanPos exLibm 1000000001 exAtEnd (exPose 0 0) (.fin 0)).toOption.map
      (fun r => r.plan_iter) = some 0 ∧
    (setPlan exAtEnd [exPose 0 0, exPose 1 0]).toOption.map
      (fun r => (r.1, r.2.current_plan, r.2.plan_iter, r.2.current_face))
      = some (true, [exPose 1 0], 2, some 0) ∧
    (match setPlan exAtEnd [exPose 0 0, exPose 1 0] with
      | .ok r => updatePlanPos exLibm 1000000001 r.2 (exPose 0 0) (.fin 0)
      | .error e => .error e) = .error .undefinedBehaviour := by
  refine ⟨?_, ?_, ?_, ?_⟩ <;> decide!

/-! ## The controller: PID mode -/

/-- C23 (what the code does): `computeVelocityCommands` calls
`pidControl(pose, pose, velocity)`, so the heading loop compares the heading
of the agent with itself.  With the agent heading `(1, 0, 0)` and the
reference waypoint heading `(-1, 0, 0)` the angle between the two headings
is `pi` (355/113 in the example library), the cycle succeeds, the reference
pose is that waypoint, and the heading error of the cycle is 0. -/
theorem pidControl_heading_error_zero :
    poseToDirectionVector (exPose 1 1) = ⟨.fin 1, .fin 0, .fin 0⟩ ∧
    poseToDirectionVector (exPoseBack 1 1) = ⟨.fin (-1), .fin 0, .fin 0⟩ ∧
    angleBetweenVectors exLibmTurn (poseToDirectionVector (exPose 1 1))
      (poseToDirectionVector (exPoseBack 1 1)) = .fin (355 / 113) ∧
    (computeVelocityCommands {} exStrip exLibmTurn 1000000001 1000000001 exPid (exPose 1 1)
      (.fin 0) ⟨.fin 0, .fin 0⟩).toOption.map
        (fun r => (r.1, r.2.2.plan_position, r.2.2.prev_dir_error))
      = some (0, exPoseBack 1 1, .fin 0) := by
  refine ⟨?_, ?_, ?_, ?_⟩ <;> decide!

theorem euclideanDistance_fin {R : Type} [LinearOrderedField R] (m : Libm R)
    (c : MeshController R) (pose : PoseStamped R) (ax ay az px py pz : R)
    (ha : pose.position = ⟨.fin ax, .fin ay, .fin az⟩)
    (hp : c.plan_position.position = ⟨.fin px, .fin py, .fin pz⟩) :
    euclideanDistance m c pose
      = .fin (m.sqrt ((px - ax) ^ 2 + (py - ay) ^ 2 + (pz - az) ^ 2)) := by
  have h0 : 0 ≤ (px - ax) * (px - ax) + (py - ay) * (py - ay) + (pz - az) * (pz - az) := by
    have h1 := mul_self_nonneg (px - ax)
    have h2 := mul_self_nonneg (py - ay)
    have h3 := mul_self_nonneg (pz - az)
    linarith
  simp only [euclideanDistance, euclideanDistanceVec, ha, hp, FP.sq, FP.fin_sub, FP.mul,
    FP.fin_add]
  rw [FP.sqrt_fin m _ h0]
  congr 2
  ring

/-- C24: with finite positions, gains, accumulated integral `I`, previous
error `e_prev` and time step `dt` other than 0, and `e` the Euclidean
distance from the agent to the reference waypoint, `pidControlDistance`
returns `Kp * e + Ki * (I + e * dt) + Kd * (e - e_prev) / dt` and leaves a
controller that differs only in the accumulated integral `I + e * dt` and
the previous error `e`. -/
theorem pidControlDistance_spec {R : Type} [LinearOrderedField R] (m : Libm R)
    (c : MeshController R) (pose : PoseStamped R) (ax ay az px py pz kp ki kd i ep dt : R)
    (ha : pose.position = ⟨.fin ax, .fin ay, .fin az⟩)
    (hp : c.plan_position.position = ⟨.fin px, .fin py, .fin pz⟩)
    (hkp : c.config.prop_dis_gain = .fin kp) (hki : c.config.int_dis_gain = .fin ki)
    (hkd : c.config.deriv_dis_gain = .fin kd) (hi : c.int_dis_error = .fin i)
    (hep : c.prev_dis_error = .fin ep) (hdt : c.config.int_time = .fin dt) (hdt0 : dt ≠ 0) :
    pidControlDistance m c pose =
      (let e := m.sqrt ((px - ax) ^ 2 + (py - ay) ^ 2 + (pz - az) ^ 2)
       (.fin (kp * e + ki * (i + e * dt) + kd * (e - ep) / dt),
        { c with int_dis_error := .fin (i + e * dt), prev_dis_error := .fin e })) := by
  unfold pidControlDistance
  simp only [euclideanDistance_fin m c pose ax ay az px py pz ha hp, hkp, hki, hkd, hi, hep, hdt,
    FP.fin_mul, FP.fin_add, FP.fin_sub, FP.fin_div _ _ hdt0]
  congr 2
  ring

/-- The controller of the examples one unit away from the reference
waypoint. -/
theorem pidControlDistance_spec_witness :
    pidControlDistance exLibm exPidAhead (exPose 0 1) =
      (let e := exLibm.sqrt (((1 : ℚ) - 0) ^ 2 + ((1 : ℚ) - 1) ^ 2 + ((0 : ℚ) - 0) ^ 2)
       (.fin (1 * e + 0 * (0 + e * 1) + 0 * (e - 0) / 1),
        { exPidAhead with int_dis_error := .fin (0 + e * 1), prev_dis_error := .fin e })) :=
  pidControlDistance_spec exLibm exPidAhead (exPose 0 1) 0 1 0 1 1 0 1 0 0 0 0 1 rfl rfl rfl rfl
    rfl rfl rfl rfl (by norm_num)

/-! ## The controller: turn direction -/

/-- C26 (what the code does): `direction` has no face among its arguments
and takes the fixed vector `(0, 0, -1)` for the normal.  For the headings
`(0, 1, 0)` and `(0, 0, 1)` on a face with the normal `(1, 0, 0)` and for
the headings `(1, 0, 0)` and `(0, 1, 0)` on a face with the normal
`(0, 0, 1)` the dot product of the normal and the cross product is 1 both
times, and `direction` returns -1 for the first and 1 for the second. -/
theorem direction_ignores_face_normal :
    Vector.dot (⟨.fin 1, .fin 0, .fin 0⟩ : Vector ℚ)
      (Vector.cross ⟨.fin 0, .fin 1, .fin 0⟩ ⟨.fin 0, .fin 0, .fin 1⟩) = .fin 1 ∧
    direction (⟨.fin 0, .fin 1, .fin 0⟩ : Vector ℚ) ⟨.fin 0, .fin 0, .fin 1⟩ = .fin (-1) ∧
    Vector.dot (⟨.fin 0, .fin 0, .fin 1⟩ : Vector ℚ)
      (Vector.cross ⟨.fin 1, .fin 0, .fin 0⟩ ⟨.fin 0, .fin 1, .fin 0⟩) = .fin 1 ∧
    direction (⟨.fin 1, .fin 0, .fin 0⟩ : Vector ℚ) ⟨.fin 0, .fin 1, .fin 0⟩ = .fin 1 := by
  refine ⟨?_, ?_, ?_, ?_⟩ <;> decide!

/-! ## The controller: absent faces -/

/-- C29 (what the code does): the agent at `(5, 0)` lies in no face of the
strip, so the current face stays absent; the plan `(0, 0), (5, 0)` is not
empty and the agent is on it; `naiveControl` then calls `cost`, which unwraps
the absent face: the call ends with the `PanicException` of lvr2 and no
outcome code. -/
theorem computeVelocityCommands_unwraps_absent_face :
    exStrip.getContainingFaceHandle (exPoint 5 0) = none ∧
    exTracking.current_plan = [exPose 0 0, exPose 5 0] ∧
    (trackPlan exStrip exLibm 1000000001 exTracking (exPose 5 0)).toOption.map
      (fun c => (c.current_face, offPlan exLibm c (exPose 5 0))) = some (none, false) ∧
    computeVelocityCommands {} exStrip exLibm 1000000001 1000000001 exTracking (exPose 5 0)
      (.fin 0) ⟨.fin 0, .fin 0⟩ = .error .panic := by
  refine ⟨?_, ?_, ?_, ?_⟩ <;> decide!

/-! ## The planner: back-tracking -/

/-- C30 (what the code does): the loop compares the squared distance
`distance2` with the step width.  At `(1/10, 0, 0)` the distance to the start
`(0, 0, 0)` is 1/10, above the step width 3/100, but its square 1/100 is not,
and the loop ends without a step. -/
theorem traceLoop_compares_squared_distance :
    Vector.distance exLibm exTrace.current_pos (exPoint 0 0) = .fin (1 / 10) ∧
    FP.gt (.fin (1 / 10) : FP ℚ) (.fin (3 / 100)) = true ∧
    Vector.distance2 exTrace.current_pos (exPoint 0 0) = .fin (1 / 100) ∧
    (traceLoop exStrip (fun _ => false) (exPoint 0 0) (.fin (3 / 100)) 5 exTrace).toOption.map
      (fun r => r.elim (fun t => (true, t.current_pos, t.path))
        (fun t => (false, t.current_pos, t.path)))
      = some (true, exPoint (1 / 10) 0, [(exPoint (1 / 10) 0, 0)]) := by
  refine ⟨?_, ?_, ?_, ?_⟩ <;> decide!

/-! ## The controller: the nonlinear law -/

theorem linValue_fin_bound {R : Type} [LinearOrderedField R] (h wd : R) (x : FP R)
    (hh : 0 ≤ h) (hwd : 0 < wd) (hx : x ≠ .nan) :
    ∃ y, linValue (.fin h) (FP.lit 0) (.fin wd) x = .fin y ∧ |y| ≤ h := by
  have h2 : ((2 : Nat) : R) ≠ 0 := by norm_num
  have hw2 : 0 < wd / ((2 : Nat) : R) := by positivity
  have hw2' : wd / ((2 : Nat) : R) ≠ 0 := ne_of_gt hw2
  cases x with
  | nan => exact absurd rfl hx
  | pinf =>
    refine ⟨h, ?_, by rw [abs_of_nonneg hh]⟩
    simp only [linValue, lit_eq_fin, FP.fin_div _ _ h2, FP.gt, FP.lt, if_true]
  | ninf =>
    refine ⟨-h, ?_, by rw [abs_neg, abs_of_nonneg hh]⟩
    simp only [linValue, lit_eq_fin, FP.fin_div _ _ h2, FP.gt, FP.lt, FP.fin_neg]
    simp
  | fin x0 =>
    simp only [linValue, lit_eq_fin, FP.fin_div _ _ h2, FP.gt_fin, FP.lt_fin, FP.fin_neg,
      FP.fin_div _ _ hw2', FP.fin_add, FP.fin_mul, FP.abs, decide_eq_true_eq]
    by_cases h1 : wd / ((2 : Nat) : R) < x0
    · rw [if_pos h1]
      exact ⟨h, rfl, by rw [abs_of_nonneg hh]⟩
    · rw [if_neg h1]
      by_cases h3 : x0 < -wd / ((2 : Nat) : R)
      · rw [if_pos h3]
        exact ⟨-h, rfl, by rw [abs_neg, abs_of_nonneg hh]⟩
      · rw [if_neg h3]
        refine ⟨_, rfl, ?_⟩
        rw [abs_abs, Nat.cast_zero, add_zero, abs_mul, abs_of_nonneg (div_nonneg hh hw2.le)]
        have hx0 : |x0| ≤ wd / ((2 : Nat) : R) := by
          rw [abs_le]
          constructor
          · have := not_lt.mp h3
            rw [neg_div] at this
            exact this
          · exact not_lt.mp h1
        calc h / (wd / ((2 : Nat) : R)) * |x0|
            ≤ h / (wd / ((2 : Nat) : R)) * (wd / ((2 : Nat) : R)) :=
              mul_le_mul_of_nonneg_left hx0 (div_nonneg hh hw2.le)
          _ = h := div_mul_cancel₀ h hw2'

theorem direction_cases {R : Type} [LinearOrderedField R] (a b : Vector R) :
    direction a b = .fin 1 ∨ direction a b = .fin (-1) := by
  unfold direction
  simp only [lit_eq_fin, Nat.cast_one, FP.fin_neg]
  split
  · exact Or.inl rfl
  · exact Or.inr rfl

/-- C28: with a finite heading error `angle` in `[0, pi]` and a finite
`max_ang_velocity >= 0`, the angular velocity of `naiveControl` before the
look-ahead is `s * max_ang_velocity * angle / pi` with `s` one of 1 and -1;
and for every `h >= 0`, `w > 0` and every `x` other than `NaN`, the value
of `linValue(h, 0, w, x)` is finite and at most `h` in magnitude. -/
theorem naiveAngVel_ramp {R : Type} [LinearOrderedField R] (m : Libm R) (c : MeshController R)
    (pose : PoseStamped R) (plan_vec : Vector R) (a w : R)
    (hang : angleBetweenVectors m (poseToDirectionVector pose) plan_vec = .fin a)
    (ha0 : 0 ≤ a) (hapi : a ≤ m.pi) (hpi : 0 < m.pi)
    (hw : c.config.max_ang_velocity = .fin w) (hw0 : 0 ≤ w) :
    (∃ s : R, (s = 1 ∨ s = -1) ∧
      naiveAngVel m c pose plan_vec = .fin (s * w * a / m.pi) ∧
      |s * w * a / m.pi| ≤ w) ∧
    (∀ (h wd : R) (x : FP R), 0 ≤ h → 0 < wd → x ≠ .nan →
      ∃ y, linValue (.fin h) (FP.lit 0) (.fin wd) x = .fin y ∧ |y| ≤ h) := by
  refine ⟨?_, fun h wd x hh hwd hx => linValue_fin_bound h wd x hh hwd hx⟩
  have h2 : ((2 : Nat) : R) ≠ 0 := by norm_num
  have h2pi : ((2 : Nat) : R) * m.pi / ((2 : Nat) : R) = m.pi := by
    rw [mul_comm, mul_div_assoc, div_self h2, mul_one]
  have hpi' : m.pi ≠ 0 := ne_of_gt hpi
  have hlin : linValue (.fin w) (FP.lit 0) (FP.lit 2 * FP.fin m.pi) (.fin a)
      = .fin (w * a / m.pi) := by
    simp only [linValue, lit_eq_fin, FP.fin_mul, FP.fin_div _ _ h2, FP.gt_fin, FP.lt_fin,
      FP.fin_neg, h2pi, neg_div, decide_eq_true_eq]
    rw [if_neg (not_lt.mpr hapi), if_neg (not_lt.mpr (by linarith))]
    simp only [FP.fin_div _ _ hpi', FP.fin_add, FP.fin_mul, FP.abs, Nat.cast_zero, add_zero]
    rw [abs_of_nonneg (mul_nonneg (div_nonneg hw0 hpi.le) ha0)]
    congr 1
    field_simp
  have hbound : |w * a / m.pi| ≤ w := by
    rw [abs_of_nonneg (div_nonneg (mul_nonneg hw0 ha0) hpi.le), div_le_iff₀ hpi]
    exact mul_le_mul_of_nonneg_left hapi hw0
  unfold naiveAngVel
  simp only [hang, hw, hlin]
  rcases direction_cases (poseToDirectionVector pose) plan_vec with hd | hd
  · refine ⟨1, Or.inl rfl, ?_, ?_⟩
    · rw [hd, FP.fin_mul]
      congr 1
      ring
    · rw [one_mul]
      exact hbound
  · refine ⟨-1, Or.inr rfl, ?_, ?_⟩
    · rw [hd, FP.fin_mul]
      congr 1
      ring
    · rw [show -1 * w * a / m.pi = -(w * a / m.pi) by ring, abs_neg]
      exact hbound

/-- The controller of the examples with the heading `(1, 0, 0)` and the
planned heading `(0, 1, 0)`: the heading error is `pi / 2`. -/
theorem naiveAngVel_ramp_witness :
    (∃ s : ℚ, (s = 1 ∨ s = -1) ∧
      naiveAngVel exLibmTurn exAhead (exPose 1 1) (exPoint 0 1)
        = .fin (s * 1 * (355 / 226) / exLibmTurn.pi) ∧
      |s * 1 * (355 / 226) / exLibmTurn.pi| ≤ 1) ∧
    (∀ (h wd : ℚ) (x : FP ℚ), 0 ≤ h → 0 < wd → x ≠ .nan →
      ∃ y, linValue (.fin h) (FP.lit 0) (.fin wd) x = .fin y ∧ |y| ≤ h) :=
  naiveAngVel_ramp exLibmTurn exAhead (exPose 1 1) (exPoint 0 1) (355 / 226) 1 (by decide!)
    (by norm_num) (by decide!) (by decide!) rfl (by norm_num)

theorem sq_fin {R : Type} [LinearOrderedField R] (x : R) :
    FP.sq (FP.fin x) = FP.fin (x * x) := rfl

theorem gaussValue_fin {R : Type} [LinearOrderedField R] (m : Libm R) (M a : R)
    (hapi : a ≤ m.pi) (hpi : 0 < m.pi)
    (hsqrt : 1 ≤ m.sqrt (2 * m.pi * (-(2 * m.pi) / 6 * (-(2 * m.pi) / 6)))) :
    gaussValue m (.fin M) (FP.lit 2 * FP.fin m.pi) (.fin a)
      = .fin (M / m.sqrt (2 * m.pi * (-(2 * m.pi) / 6 * (-(2 * m.pi) / 6))) *
          m.exp (-(a * a) * (2 * (-(2 * m.pi) / 6 * (-(2 * m.pi) / 6)) *
            (2 * (-(2 * m.pi) / 6 * (-(2 * m.pi) / 6)))))) := by
  have h2 : (2 : R) ≠ 0 := by norm_num
  have h6 : (6 : R) ≠ 0 := by norm_num
  have h2pi : (2 : R) * m.pi / 2 = m.pi := by field_simp
  have hs0 : m.sqrt (2 * m.pi * (-(2 * m.pi) / 6 * (-(2 * m.pi) / 6))) ≠ 0 := by
    intro h
    rw [h] at hsqrt
    exact absurd hsqrt (by norm_num)
  have harg : ¬ (2 * m.pi * (-(2 * m.pi) / 6 * (-(2 * m.pi) / 6)) < 0) := by
    apply not_lt.mpr
    have := mul_self_nonneg (-(2 * m.pi) / 6)
    positivity
  simp only [gaussValue, lit_eq_fin, Nat.cast_ofNat, Nat.cast_one, FP.fin_mul, FP.fin_neg,
    FP.fin_div _ _ h2, FP.fin_div _ _ h6, h2pi, FP.gt_fin, sq_fin, decide_eq_true_eq, mul_one]
  rw [if_neg (not_lt.mpr hapi)]
  simp only [FP.sqrt, if_neg harg, FP.fin_div _ _ hs0, FP.exp, FP.fin_mul]

theorem gaussValue_bounds {R : Type} [LinearOrderedField R] (m : Libm R) (M a : R)
    (hapi : a ≤ m.pi) (hpi : 0 < m.pi) (hM0 : 0 ≤ M)
    (hsqrt : 1 ≤ m.sqrt (2 * m.pi * (-(2 * m.pi) / 6 * (-(2 * m.pi) / 6))))
    (hexp : ∀ x, x ≤ 0 → 0 ≤ m.exp x ∧ m.exp x ≤ 1) :
    ∃ g, gaussValue m (.fin M) (FP.lit 2 * FP.fin m.pi) (.fin a) = .fin g ∧ 0 ≤ g ∧ g ≤ M := by
  refine ⟨_, gaussValue_fin m M a hapi hpi hsqrt, ?_, ?_⟩
  · have harg : -(a * a) * (2 * (-(2 * m.pi) / 6 * (-(2 * m.pi) / 6)) *
        (2 * (-(2 * m.pi) / 6 * (-(2 * m.pi) / 6)))) ≤ 0 := by
      have h1 := mul_self_nonneg a
      have h2 := mul_self_nonneg (2 * (-(2 * m.pi) / 6 * (-(2 * m.pi) / 6)))
      nlinarith
    have hs : 0 < m.sqrt (2 * m.pi * (-(2 * m.pi) / 6 * (-(2 * m.pi) / 6))) := by linarith
    exact mul_nonneg (div_nonneg hM0 hs.le) (hexp _ harg).1
  · have harg : -(a * a) * (2 * (-(2 * m.pi) / 6 * (-(2 * m.pi) / 6)) *
        (2 * (-(2 * m.pi) / 6 * (-(2 * m.pi) / 6)))) ≤ 0 := by
      have h1 := mul_self_nonneg a
      have h2 := mul_self_nonneg (2 * (-(2 * m.pi) / 6 * (-(2 * m.pi) / 6)))
      nlinarith
    have hs : 0 < m.sqrt (2 * m.pi * (-(2 * m.pi) / 6 * (-(2 * m.pi) / 6))) := by linarith
    have h1 : M / m.sqrt (2 * m.pi * (-(2 * m.pi) / 6 * (-(2 * m.pi) / 6))) ≤ M := by
      rw [div_le_iff₀ hs]
      calc M = M * 1 := (mul_one M).symm
        _ ≤ M * _ := mul_le_mul_of_nonneg_left hsqrt hM0
    calc _ ≤ M / m.sqrt (2 * m.pi * (-(2 * m.pi) / 6 * (-(2 * m.pi) / 6))) * 1 :=
          mul_le_mul_of_nonneg_left (hexp _ harg).2 (div_nonneg hM0 hs.le)
      _ ≤ M := by rw [mul_one]; exact h1

theorem costPenalty_bounds {R : Type} [LinearOrderedField R] (c : MeshController R)
    (M g : R) (k : FP R) (hM : c.config.max_lin_velocity = .fin M) (hM0 : 0 ≤ M)
    (hg0 : 0 ≤ g) (hgM : g ≤ M) (hk : k ≠ .nan) :
    ∃ v, costPenalty c (.fin g) k = .fin v ∧ 0 ≤ v ∧ v ≤ M := by
  have h10 : ((10 : Nat) : R) ≠ 0 := by norm_num
  unfold costPenalty
  split
  · obtain ⟨y, hy, hyb⟩ := linValue_fin_bound (M / ((10 : Nat) : R)) 2 k
      (by positivity) (by norm_num) hk
    have hlin : linValue (c.config.max_lin_velocity / FP.lit 10) (FP.lit 0) (FP.lit 2) k
        = .fin y := by
      rw [hM, lit_eq_fin 10, FP.fin_div _ _ h10, lit_eq_fin 2, Nat.cast_ofNat]
      exact hy
    simp only [hlin]
    simp only [hM, FP.fin_sub, FP.lt_fin, FP.gt_fin, lit_eq_fin, Nat.cast_zero,
      decide_eq_true_eq]
    by_cases h1 : g - y < 0
    · rw [if_pos h1]
      exact ⟨0, rfl, le_refl 0, hM0⟩
    · rw [if_neg h1]
      by_cases h2 : M < g - y
      · rw [if_pos h2]
        exact ⟨M, rfl, hM0, le_refl M⟩
      · rw [if_neg h2]
        exact ⟨g - y, rfl, not_lt.mp h1, not_lt.mp h2⟩
  · exact ⟨g, rfl, hg0, hgM⟩

/-- C27: with a finite heading error in `[0, pi]`, a finite
`max_lin_velocity >= 0`, a current face and a cost at the position other
than `NaN`, and a math library whose square root of
`2 * pi * (2 * pi / 6)^2` is at least 1 and whose exponential is in `[0, 1]`
on arguments up to 0, the linear velocity of `naiveControl` before the
look-ahead is finite and in `[0, max_lin_velocity]`; and with a heading
error not below 0.6 it is the value of `gaussValue`, whatever the cost. -/
theorem naiveLinVel_bounds {R : Type} [LinearOrderedField R] (env : MeshMap R) (m : Libm R)
    (c : MeshController R) (pose : PoseStamped R) (plan_vec : Vector R) (a M : R)
    (f : FaceHandle)
    (hang : angleBetweenVectors m (poseToDirectionVector pose) plan_vec = .fin a)
    (ha0 : 0 ≤ a) (hapi : a ≤ m.pi) (hpi : 0 < m.pi)
    (hM : c.config.max_lin_velocity = .fin M) (hM0 : 0 ≤ M)
    (hface : c.current_face = some f)
    (hcost : env.costAtPosition f (poseToPositionVector pose) ≠ .nan)
    (hsqrt : 1 ≤ m.sqrt (2 * m.pi * (-(2 * m.pi) / 6 * (-(2 * m.pi) / 6))))
    (hexp : ∀ x, x ≤ 0 → 0 ≤ m.exp x ∧ m.exp x ≤ 1) :
    (∃ v, naiveLinVel env m c pose plan_vec = .ok (.fin v) ∧ 0 ≤ v ∧ v ≤ M) ∧
    (¬ a < 6 / 10 → naiveLinVel env m c pose plan_vec
      = .ok (gaussValue m c.config.max_lin_velocity (FP.lit 2 * FP.fin m.pi) (.fin a))) := by
  obtain ⟨g, hg, hg0, hgM⟩ := gaussValue_bounds m M a hapi hpi hM0 hsqrt hexp
  unfold naiveLinVel
  simp only [hang, hM, hg, FP.lt_fin, decide_eq_true_eq, cost, costOfFace, hface]
  constructor
  · by_cases h : a < 6 / 10
    · rw [if_pos h]
      obtain ⟨v, hv, hv0, hvM⟩ := costPenalty_bounds c M g _ hM hM0 hg0 hgM hcost
      exact ⟨v, by rw [hv], hv0, hvM⟩
    · rw [if_neg h]
      exact ⟨g, rfl, hg0, hgM⟩
  · intro h
    rw [if_neg h]

theorem exLibm_sqrt_gauss :
    exLibm.sqrt (2 * exLibm.pi * (-(2 * exLibm.pi) / 6 * (-(2 * exLibm.pi) / 6)))
      = 3153 / 1201 := by
  have hx : (2 * exLibm.pi * (-(2 * exLibm.pi) / 6 * (-(2 * exLibm.pi) / 6)))
      = (89477750 / 12986073 : ℚ) := by
    simp only [exLibm]
    norm_num
  have hn : (89477750 / 12986073 : ℚ).num = 89477750 := by decide!
  have hd : (89477750 / 12986073 : ℚ).den = 12986073 := by decide!
  have h1 : Nat.sqrt 89477750 = 9459 := (Nat.eq_sqrt.2 ⟨by norm_num, by norm_num⟩).symm
  have h2 : Nat.sqrt 12986073 = 3603 := (Nat.eq_sqrt.2 ⟨by norm_num, by norm_num⟩).symm
  have h3 : Int.toNat 89477750 = 89477750 := rfl
  rw [hx]
  show ((Nat.sqrt (89477750 / 12986073 : ℚ).num.toNat : ℕ) : ℚ)
    / ((Nat.sqrt (89477750 / 12986073 : ℚ).den : ℕ) : ℚ) = 3153 / 1201
  rw [hn, hd, h3, h1, h2]
  norm_num

/-- The controller of the examples in the face 0 on the strip, where the
cost is 0: the heading error is 0. -/
theorem naiveLinVel_bounds_witness :
    (∃ v, naiveLinVel exStrip exLibm exAhead (exPose 1 1) (exPoint 1 0) = .ok (.fin v) ∧
      0 ≤ v ∧ v ≤ 1) ∧
    (¬ (0 : ℚ) < 6 / 10 → naiveLinVel exStrip exLibm exAhead (exPose 1 1) (exPoint 1 0)
      = .ok (gaussValue exLibm exAhead.config.max_lin_velocity (FP.lit 2 * FP.fin exLibm.pi)
          (.fin 0))) :=
  naiveLinVel_bounds exStrip exLibm exAhead (exPose 1 1) (exPoint 1 0) 0 1 0 (by decide!)
    (le_refl 0) (by decide!) (by decide!) rfl (by norm_num) rfl (by decide!)
    (by rw [exLibm_sqrt_gauss]; norm_num) (fun _ _ => ⟨show (0 : ℚ) ≤ 1 by norm_num, show (1 : ℚ) ≤ 1 from le_refl 1⟩)

/-! ## The controller: blending with the look-ahead -/

theorem searchWindow_head {R : Type} [LinearOrderedField R] (m : Libm R) (robot : Vector R)
    (max_dist : FP R) (p : PoseStamped R) (rest : List (PoseStamped R)) :
    p ∈ searchWindow m robot max_dist (p :: rest) := by
  unfold searchWindow
  split <;> simp

theorem searchPlan_spec {R : Type} [LinearOrderedField R] (m : Libm R) (robot : Vector R)
    (max_dist : FP R) (step : Int) (D : PoseStamped R → R) :
    ∀ (l : List (PoseStamped R)) (iter : Int) (a : R) (r : Option Int),
      (∀ p ∈ l, Vector.distance m robot (poseToPositionVector p) = .fin (D p)) →
      ∃ a' r', searchPlan m robot max_dist step l iter (.fin a, r) = (.fin a', r') ∧
        (∀ p ∈ searchWindow m robot max_dist l, a' ≤ D p) ∧
        ((a' = a ∧ r' = r) ∨
          (a' < a ∧ ∃ (k : Nat) (p : PoseStamped R), r' = some (iter + step * (k : Int)) ∧
            l.get? k = some p ∧ D p = a' ∧ p ∈ searchWindow m robot max_dist l)) := by
  intro l
  induction l with
  | nil =>
    intro iter a r _
    exact ⟨a, r, rfl, by simp [searchWindow], Or.inl ⟨rfl, rfl⟩⟩
  | cons p rest ih =>
    intro iter a r hD
    have hp : Vector.distance m robot (poseToPositionVector p) = .fin (D p) :=
      hD p (List.mem_cons_self _ _)
    have hrest : ∀ q ∈ rest, Vector.distance m robot (poseToPositionVector q) = .fin (D q) :=
      fun q hq => hD q (List.mem_cons_of_mem _ hq)
    by_cases hgt : FP.gt (.fin (D p)) max_dist = true
    · -- the loop goes on
      have hw : searchWindow m robot max_dist (p :: rest)
          = p :: searchWindow m robot max_dist rest := by
        simp only [searchWindow, hp, hgt, if_true]
      by_cases hlt : D p < a
      · have hs : searchPlan m robot max_dist step (p :: rest) iter (.fin a, r)
            = searchPlan m robot max_dist step rest (iter + step) (.fin (D p), some iter) := by
          simp only [searchPlan, hp, hgt, FP.lt_fin, hlt, decide_True, if_true]
        obtain ⟨a', r', hres, hmin, hcase⟩ := ih (iter + step) (D p) (some iter) hrest
        refine ⟨a', r', by rw [hs, hres], ?_, Or.inr ?_⟩
        · intro q hq
          rw [hw] at hq
          rcases List.mem_cons.mp hq with h | h
          · subst h
            rcases hcase with ⟨h1, _⟩ | ⟨h1, _⟩
            · exact le_of_eq h1
            · exact le_of_lt h1
          · exact hmin q h
        · rcases hcase with ⟨h1, h2⟩ | ⟨h1, k, q, h2, h3, h4, h5⟩
          · refine ⟨by rw [h1]; exact hlt, 0, p, ?_, rfl, h1.symm, searchWindow_head _ _ _ _ _⟩
            rw [h2]
            simp
          · refine ⟨lt_trans h1 hlt, k + 1, q, ?_, h3, h4, ?_⟩
            · rw [h2]
              congr 1
              push_cast
              ring
            · rw [hw]
              exact List.mem_cons_of_mem _ h5
      · have hs : searchPlan m robot max_dist step (p :: rest) iter (.fin a, r)
            = searchPlan m robot max_dist step rest (iter + step) (.fin a, r) := by
          simp only [searchPlan, hp, hgt, FP.lt_fin, hlt, decide_False, if_true]
          simp
        obtain ⟨a', r', hres, hmin, hcase⟩ := ih (iter + step) a r hrest
        refine ⟨a', r', by rw [hs, hres], ?_, ?_⟩
        · intro q hq
          rw [hw] at hq
          rcases List.mem_cons.mp hq with h | h
          · subst h
            rcases hcase with ⟨h1, _⟩ | ⟨h1, _⟩
            · rw [h1]
              exact not_lt.mp hlt
            · exact le_trans (le_of_lt h1) (not_lt.mp hlt)
          · exact hmin q h
        · rcases hcase with ⟨h1, h2⟩ | ⟨h1, k, q, h2, h3, h4, h5⟩
          · exact Or.inl ⟨h1, h2⟩
          · refine Or.inr ⟨h1, k + 1, q, ?_, h3, h4, ?_⟩
            · rw [h2]
              congr 1
              push_cast
              ring
            · rw [hw]
              exact List.mem_cons_of_mem _ h5
    · -- the loop ends at this pose
      have hw : searchWindow m robot max_dist (p :: rest) = [p] := by
        simp only [searchWindow, hp, hgt]
        simp
      by_cases hlt : D p < a
      · refine ⟨D p, some iter, ?_, ?_, Or.inr ⟨hlt, 0, p, by simp, rfl, rfl, ?_⟩⟩
        · simp only [searchPlan, hp, hgt, FP.lt_fin, hlt, decide_True, if_true]
          simp
        · intro q hq
          rw [hw] at hq
          rw [List.mem_singleton.mp hq]
        · rw [hw]
          exact List.mem_singleton_self p
      · refine ⟨a, r, ?_, ?_, Or.inl ⟨rfl, rfl⟩⟩
        · simp only [searchPlan, hp, hgt, FP.lt_fin, hlt, decide_False]
          simp
        · intro q hq
          rw [hw] at hq
          rw [List.mem_singleton.mp hq]
          exact not_lt.mp hlt

set_option linter.deprecated false

theorem vecIndex_natCast {α : Type} (v : List α) (j : Nat) (a : α) (h : v.get? j = some a) :
    vecIndex v (j : Int) = .ok a := by
  unfold vecIndex
  rw [if_neg (by omega)]
  simp only [Int.toNat_ofNat, h]

/-- What `updatePlanPos` selects: on a call after the first, with the old
index `n` inside the plan and every distance `D` from the agent to a
waypoint finite and below the float maximum, `updatePlanPos` succeeds; the
new index `j` is inside the plan, the reference pose is the waypoint at `j`,
and that waypoint is one of the waypoints that the two loops read (forward
from `n` up to the first waypoint within `max_dist = velocity * elapsed
time` of the agent, and backward likewise) and none of them is nearer to the
agent; in particular it is not farther than the waypoint at `n`. -/
theorem updatePlanPos_nearest {R : Type} [LinearOrderedField R] (m : Libm R) (now : Nat)
    (c : MeshController R) (pose : PoseStamped R) (velocity : FP R) (n : Nat)
    (D : PoseStamped R → R)
    (hcall : c.last_call ≠ 0) (hiter : c.plan_iter = (n : Int))
    (hn : n < c.current_plan.length)
    (hD : ∀ p ∈ c.current_plan,
      Vector.distance m (poseToPositionVector pose) (poseToPositionVector p) = .fin (D p))
    (hmax : ∀ p ∈ c.current_plan, D p < ((340282346638528859811704183484516925440 : Nat) : R)) :
    ∃ (j : Nat) (p p0 : PoseStamped R),
      updatePlanPos m now c pose velocity
        = .ok { c with plan_iter := (j : Int), plan_position := p, last_call := now } ∧
      c.current_plan.get? j = some p ∧ c.current_plan.get? n = some p0 ∧
      p ∈ searchWindow m (poseToPositionVector pose) (velocity * durationToSec now c.last_call)
            (c.current_plan.drop n) ++
          searchWindow m (poseToPositionVector pose) (velocity * durationToSec now c.last_call)
            ((c.current_plan.take (n + 1)).reverse) ∧
      (∀ q ∈ searchWindow m (poseToPositionVector pose)
            (velocity * durationToSec now c.last_call) (c.current_plan.drop n) ++
          searchWindow m (poseToPositionVector pose) (velocity * durationToSec now c.last_call)
            ((c.current_plan.take (n + 1)).reverse), D p ≤ D q) ∧
      D p ≤ D p0 := by
  obtain ⟨p0, hp0⟩ : ∃ p0, c.current_plan.get? n = some p0 :=
    ⟨c.current_plan.get ⟨n, hn⟩, List.get?_eq_get hn⟩
  have hp0mem : p0 ∈ c.current_plan := List.get?_mem hp0
  have hdrop : c.current_plan.drop n = p0 :: c.current_plan.drop (n + 1) := by
    rw [List.drop_eq_getElem_cons hn]
    congr 1
    have := List.get?_eq_get hn
    rw [hp0] at this
    exact (Option.some.inj this).symm
  have hDdrop : ∀ p ∈ c.current_plan.drop n,
      Vector.distance m (poseToPositionVector pose) (poseToPositionVector p) = .fin (D p) :=
    fun p hp => hD p (List.mem_of_mem_drop hp)
  have hDtake : ∀ p ∈ (c.current_plan.take (n + 1)).reverse,
      Vector.distance m (poseToPositionVector pose) (poseToPositionVector p) = .fin (D p) :=
    fun p hp => hD p (List.mem_of_mem_take (List.mem_reverse.mp hp))
  obtain ⟨a1, r1, hres1, hmin1, hcase1⟩ := searchPlan_spec m (poseToPositionVector pose)
    (velocity * durationToSec now c.last_call) 1 D (c.current_plan.drop n) (n : Int)
    ((340282346638528859811704183484516925440 : Nat) : R) none hDdrop
  have hp0w : p0 ∈ searchWindow m (poseToPositionVector pose)
      (velocity * durationToSec now c.last_call) (c.current_plan.drop n) := by
    rw [hdrop]
    exact searchWindow_head _ _ _ _ _
  have ha1 : a1 ≤ D p0 := hmin1 p0 hp0w
  obtain ⟨k1, q1, hr1, hq1, hDq1, hq1w⟩ : ∃ (k : Nat) (p : PoseStamped R),
      r1 = some ((n : Int) + 1 * (k : Int)) ∧ (c.current_plan.drop n).get? k = some p ∧
        D p = a1 ∧ p ∈ searchWindow m (poseToPositionVector pose)
          (velocity * durationToSec now c.last_call) (c.current_plan.drop n) := by
    rcases hcase1 with ⟨h1, _⟩ | ⟨_, h⟩
    · exact absurd (h1 ▸ ha1) (not_le.mpr (hmax p0 hp0mem))
    · exact h
  obtain ⟨a2, r2, hres2, hmin2, hcase2⟩ := searchPlan_spec m (poseToPositionVector pose)
    (velocity * durationToSec now c.last_call) (-1) D ((c.current_plan.take (n + 1)).reverse)
    (n : Int) a1 r1 hDtake
  have ha2 : a2 ≤ a1 := by
    rcases hcase2 with ⟨h, _⟩ | ⟨h, _⟩
    · exact le_of_eq h
    · exact le_of_lt h
  obtain ⟨j, p, hr2, hget, hDp, hpw⟩ : ∃ (j : Nat) (p : PoseStamped R),
      r2 = some (j : Int) ∧ c.current_plan.get? j = some p ∧ D p = a2 ∧
      p ∈ searchWindow m (poseToPositionVector pose) (velocity * durationToSec now c.last_call)
            (c.current_plan.drop n) ++
          searchWindow m (poseToPositionVector pose) (velocity * durationToSec now c.last_call)
            ((c.current_plan.take (n + 1)).reverse) := by
    rcases hcase2 with ⟨h1, h2⟩ | ⟨_, k2, q2, h2, h3, h4, h5⟩
    · refine ⟨n + k1, q1, ?_, ?_, by rw [hDq1, h1], List.mem_append_left _ hq1w⟩
      · rw [h2, hr1]
        congr 1
        push_cast
        ring
      · rw [List.get?_drop] at hq1
        exact hq1
    · have hlen : (c.current_plan.take (n + 1)).length = n + 1 := by
        rw [List.length_take]
        omega
      have hk2 : k2 < n + 1 := by
        have := List.get?_eq_some.mp h3
        obtain ⟨h, _⟩ := this
        rw [List.length_reverse, hlen] at h
        exact h
      refine ⟨n - k2, q2, ?_, ?_, h4, List.mem_append_right _ h5⟩
      · rw [h2]
        congr 1
        omega
      · rw [List.get?_reverse (by rw [hlen]; exact hk2), hlen,
          List.get?_take (by omega)] at h3
        have : n + 1 - 1 - k2 = n - k2 := by omega
        rw [this] at h3
        exact h3
  refine ⟨j, p, p0, ?_, hget, hp0, hpw, ?_, ?_⟩
  · unfold updatePlanPos
    rw [if_neg hcall]
    simp only [hiter, Int.toNat_ofNat, vecIndex_natCast _ _ _ hp0]
    have hflt : (FP.fltMax : FP R) = .fin ((340282346638528859811704183484516925440 : Nat) : R) :=
      rfl
    rw [hflt, hres1, hres2]
    simp only [hr2, vecIndex_natCast _ _ _ hget]
  · intro q hq
    rw [hDp]
    rcases List.mem_append.mp hq with h | h
    · exact le_trans ha2 (hmin1 q h)
    · exact hmin2 q h
  · rw [hDp]
    exact le_trans ha2 ha1

/-- The plan `(0, 0), (1, 0), (2, 0)` at the index 2 with the agent at
`(0, 0)` and the velocity 0. -/
theorem updatePlanPos_nearest_witness :
    ∃ (j : Nat) (p p0 : PoseStamped ℚ),
      updatePlanPos exLibm 1000000001 exAtEnd (exPose 0 0) (.fin 0)
        = .ok { exAtEnd with plan_iter := (j : Int), plan_position := p,
                             last_call := 1000000001 } ∧
      exAtEnd.current_plan.get? j = some p ∧ exAtEnd.current_plan.get? 2 = some p0 ∧
      p ∈ searchWindow exLibm (poseToPositionVector (exPose 0 0))
            (.fin 0 * durationToSec 1000000001 exAtEnd.last_call)
            (exAtEnd.current_plan.drop 2) ++
          searchWindow exLibm (poseToPositionVector (exPose 0 0))
            (.fin 0 * durationToSec 1000000001 exAtEnd.last_call)
            ((exAtEnd.current_plan.take (2 + 1)).reverse) ∧
      (∀ q ∈ searchWindow exLibm (poseToPositionVector (exPose 0 0))
            (.fin 0 * durationToSec 1000000001 exAtEnd.last_call)
            (exAtEnd.current_plan.drop 2) ++
          searchWindow exLibm (poseToPositionVector (exPose 0 0))
            (.fin 0 * durationToSec 1000000001 exAtEnd.last_call)
            ((exAtEnd.current_plan.take (2 + 1)).reverse), exDistance p ≤ exDistance q) ∧
      exDistance p ≤ exDistance p0 :=
  have hmem : ∀ p ∈ exAtEnd.current_plan, p = exPose 0 0 ∨ p = exPose 1 0 ∨ p = exPose 2 0 := by
    intro p hp
    have hp2 : p ∈ [exPose 0 0, exPose 1 0, exPose 2 0] := hp
    simpa using hp2
  updatePlanPos_nearest exLibm 1000000001 exAtEnd (exPose 0 0) (.fin 0) 2 exDistance
    (by decide) rfl (by decide)
    (by
      intro p hp
      rcases hmem p hp with h | h | h <;> subst h <;> decide!)
    (by
      intro p hp
      rcases hmem p hp with h | h | h <;> subst h <;> decide!)

/-! ## The sweep: the order of the pops -/

theorem fp_le_refl {R : Type} [LinearOrderedField R] (a : FP R) (ha : a ≠ .nan) :
    FP.le a a = true := by
  cases a with
  | nan => exact absurd rfl ha
  | fin x => simp [le_fin]
  | pinf => rfl
  | ninf => rfl

theorem fp_le_of_lt {R : Type} [LinearOrderedField R] (a b : FP R) (h : FP.lt a b = true) :
    FP.le a b = true := by
  simp [FP.le, h]

theorem fp_le_of_not_lt {R : Type} [LinearOrderedField R] (a b : FP R) (ha : a ≠ .nan)
    (hb : b ≠ .nan) (h : ¬ FP.lt a b = true) : FP.le b a = true := by
  cases a with
  | nan => exact absurd rfl ha
  | fin x =>
    cases b with
    | nan => exact absurd rfl hb
    | fin y =>
      simp only [FP.lt_fin, decide_eq_true_eq, not_lt] at h
      simp [le_fin, h]
    | pinf => simp [FP.lt] at h
    | ninf => rfl
  | pinf =>
    cases b with
    | nan => exact absurd rfl hb
    | fin y => rfl
    | pinf => rfl
    | ninf => rfl
  | ninf =>
    cases b with
    | nan => exact absurd rfl hb
    | fin y => simp [FP.lt] at h
    | pinf => simp [FP.lt] at h
    | ninf => rfl

theorem fp_le_trans {R : Type} [LinearOrderedField R] (a b c : FP R)
    (hab : FP.le a b = true) (hbc : FP.le b c = true) : FP.le a c = true := by
  cases a <;> cases b <;> cases c <;>
    first
    | rfl
    | (simp [FP.le, FP.lt, FP.eq] at hab; done)
    | (simp [FP.le, FP.lt, FP.eq] at hbc; done)
    | (simp only [le_fin, decide_eq_true_eq] at hab hbc ⊢; exact le_trans hab hbc)

theorem minEntry_least {R : Type} [LinearOrderedField R] :
    ∀ (rest : List (VertexHandle × FP R)) (best : VertexHandle × FP R),
      best.2 ≠ .nan → (∀ x ∈ rest, x.2 ≠ .nan) →
      Meap.minEntry best rest ∈ best :: rest ∧ (Meap.minEntry best rest).2 ≠ .nan ∧
        FP.le (Meap.minEntry best rest).2 best.2 = true ∧
        ∀ x ∈ rest, FP.le (Meap.minEntry best rest).2 x.2 = true := by
  intro rest
  induction rest with
  | nil =>
    intro best hb _
    exact ⟨List.mem_singleton_self _, hb, fp_le_refl _ hb, fun x hx => by cases hx⟩
  | cons e rest ih =>
    intro best hb hrest
    have he : e.2 ≠ .nan := hrest e (List.mem_cons_self _ _)
    have hrest2 : ∀ x ∈ rest, x.2 ≠ .nan := fun x hx => hrest x (List.mem_cons_of_mem _ hx)
    unfold Meap.minEntry
    by_cases hlt : FP.lt e.2 best.2 = true
    · rw [if_pos hlt]
      obtain ⟨h1, h2, h3, h4⟩ := ih e he hrest2
      refine ⟨List.mem_cons_of_mem _ h1, h2, fp_le_trans _ _ _ h3 (fp_le_of_lt _ _ hlt), ?_⟩
      intro x hx
      rcases List.mem_cons.mp hx with h | h
      · rw [h]
        exact h3
      · exact h4 x h
    · rw [if_neg hlt]
      obtain ⟨h1, h2, h3, h4⟩ := ih best hb hrest2
      refine ⟨?_, h2, h3, ?_⟩
      · rcases List.mem_cons.mp h1 with h | h
        · rw [h]
          exact List.mem_cons_self _ _
        · exact List.mem_cons_of_mem _ (List.mem_cons_of_mem _ h)
      · intro x hx
        rcases List.mem_cons.mp hx with h | h
        · rw [h]
          exact fp_le_trans _ _ _ h3 (fp_le_of_not_lt _ _ he hb hlt)
        · exact h4 x h

theorem popMin_least {R : Type} [LinearOrderedField R] (pq pq1 : Meap R)
    (e : VertexHandle × FP R) (h : pq.popMin = some (e, pq1))
    (hnan : ∀ x ∈ pq.entries, x.2 ≠ .nan) :
    e ∈ pq.entries ∧ ∀ x ∈ pq.entries, FP.le e.2 x.2 = true := by
  unfold Meap.popMin at h
  split at h
  · cases h
  · next e0 rest heq =>
    simp only [Option.some.injEq, Prod.mk.injEq] at h
    obtain ⟨h1, h2, h3, h4⟩ := minEntry_least rest e0
      (hnan e0 (by rw [heq]; exact List.mem_cons_self _ _))
      (fun x hx => hnan x (by rw [heq]; exact List.mem_cons_of_mem _ hx))
    rw [h.1] at h1 h3 h4
    rw [heq]
    refine ⟨h1, ?_⟩
    intro x hx
    rcases List.mem_cons.mp hx with hx0 | hx0
    · rw [hx0]
      exact h3
    · exact h4 x hx0

theorem keepsFixed_refl {R : Type} (s : Sweep R) : KeepsFixed s s := ⟨rfl, fun _ _ => rfl⟩

theorem keepsFixed_trans {R : Type} (s s1 s2 : Sweep R) (h1 : KeepsFixed s s1)
    (h2 : KeepsFixed s1 s2) : KeepsFixed s s2 :=
  ⟨h2.1.trans h1.1, fun v hv => (h2.2 v (by rw [h1.1]; exact hv)).trans (h1.2 v hv)⟩

theorem updateFace_keepsFixed {R : Type} [LinearOrderedField R] (env : MeshMap R) (m : Libm R)
    (edge_weights : EdgeHandle → FP R) (s : Sweep R) (v1 v2 v3 : VertexHandle)
    (hfix : s.fixed v3 = false) : KeepsFixed s (updateFace env m edge_weights s v1 v2 v3) := by
  have hf := waveFrontUpdate_frame env m edge_weights s.planner v1 v2 v3
  have hne : ∀ v, s.fixed v = true → v ≠ v3 := by
    intro v hv h
    rw [h, hfix] at hv
    cases hv
  unfold updateFace
  split
  · next p heq =>
    rw [heq] at hf
    split
    · exact ⟨rfl, fun v hv => hf.potential v (hne v hv)⟩
    · exact ⟨rfl, fun v hv => hf.potential v (hne v hv)⟩
  · next p r _ heq =>
    rw [heq] at hf
    exact ⟨rfl, fun v hv => hf.potential v (hne v hv)⟩

theorem processFace_keepsFixed {R : Type} [LinearOrderedField R] (env : MeshMap R) (m : Libm R)
    (edge_weights : EdgeHandle → FP R) (goal_face : FaceHandle) (s : Sweep R) (fh : FaceHandle) :
    KeepsFixed s (processFace env m edge_weights goal_face s fh) := by
  unfold processFace
  dsimp only
  split
  · exact keepsFixed_refl s
  · split
    · exact keepsFixed_refl s
    · split
      · split
        · exact ⟨rfl, fun _ _ => rfl⟩
        · exact keepsFixed_refl s
      · split
        · next hfix =>
          simp only [Bool.and_eq_true, Bool.not_eq_true'] at hfix
          exact updateFace_keepsFixed env m edge_weights s _ _ _ hfix.2
        · split
          · next hfix =>
            simp only [Bool.and_eq_true, Bool.not_eq_true'] at hfix
            exact updateFace_keepsFixed env m edge_weights s _ _ _ hfix.1.2
          · split
            · next hfix =>
              simp only [Bool.and_eq_true, Bool.not_eq_true'] at hfix
              exact updateFace_keepsFixed env m edge_weights s _ _ _ hfix.1.1
            · exact keepsFixed_refl s

theorem processNeighbour_keepsFixed {R : Type} [LinearOrderedField R] (env : MeshMap R)
    (m : Libm R) (edge_weights : EdgeHandle → FP R) (goal_face : FaceHandle) (s : Sweep R)
    (nh : VertexHandle) :
    KeepsFixed s (processNeighbour env m edge_weights goal_face s nh) := by
  unfold processNeighbour
  split
  · exact keepsFixed_refl s
  · split
    · exact keepsFixed_refl s
    · split
      · exact keepsFixed_refl s
      · exact foldl_keeps KeepsFixed keepsFixed_refl keepsFixed_trans _
          (fun s x => processFace_keepsFixed env m edge_weights goal_face s x) _ s

theorem sweepStep_keepsFixed {R : Type} [LinearOrderedField R] (env : MeshMap R) (m : Libm R)
    (edge_weights : EdgeHandle → FP R) (goal_face : FaceHandle) (s s1 : Sweep R)
    (h : sweepStep env m edge_weights goal_face s = .ok s1) :
    ∃ e pq1, s.pq.popMin = some (e, pq1) ∧
      ∀ v, (v = e.1 ∨ s.fixed v = true) →
        s1.fixed v = true ∧ s1.planner.potential v = s.planner.potential v := by
  unfold sweepStep at h
  split at h
  · cases h
  · next entry pq1 hpop =>
    refine ⟨entry, pq1, hpop, ?_⟩
    dsimp only at h
    have hmid : ∀ v, (v = entry.1 ∨ s.fixed v = true) →
        (if v = entry.1 then true else s.fixed v) = true := by
      intro v hv
      rcases hv with hv | hv
      · rw [if_pos hv]
      · split
        · rfl
        · exact hv
    split at h
    · cases h
      intro v hv
      exact ⟨hmid v hv, rfl⟩
    · next neighbours _ =>
      cases h
      have hk := foldl_keeps KeepsFixed keepsFixed_refl keepsFixed_trans _
        (fun s x => processNeighbour_keepsFixed env m edge_weights goal_face s x) neighbours
        { s with pq := pq1, fixed := fun v => if v = entry.1 then true else s.fixed v }
      intro v hv
      refine ⟨?_, ?_⟩
      · rw [hk.1]
        exact hmid v hv
      · exact hk.2 v (hmid v hv)

theorem sweepRun_keepsFixed {R : Type} [LinearOrderedField R] (env : MeshMap R) (m : Libm R)
    (edge_weights : EdgeHandle → FP R) (goal_face : FaceHandle) :
    ∀ (k : Nat) (s sk : Sweep R), sweepRun env m edge_weights goal_face k s = some sk →
      ∀ v, s.fixed v = true →
        sk.fixed v = true ∧ sk.planner.potential v = s.planner.potential v := by
  intro k
  induction k with
  | zero =>
    intro s sk hrun v hv
    simp only [sweepRun, Option.some.injEq] at hrun
    subst hrun
    exact ⟨hv, rfl⟩
  | succ k ih =>
    intro s sk hrun v hv
    unfold sweepRun at hrun
    split at hrun
    · split at hrun
      · next s1 hs1 =>
        obtain ⟨e, pq1, _, hkeep⟩ := sweepStep_keepsFixed env m edge_weights goal_face _ s1 hs1
        have h1 := hkeep v (Or.inr hv)
        have h2 := ih s1 sk hrun v h1.1
        exact ⟨h2.1, h2.2.trans h1.2⟩
      · cases hrun
    · cases hrun

/-- C14 as stated fails: on the kite, from the seed `(0, -5)` in the face 0
towards `(0, 1)` in the face 1, the seeding queues the vertices 0, 1 and 2
with the distances 16, 13 and 13; the first pop takes the vertex 1 with the
distance 13, the update of the face 1 gives the vertex 3 the distance 10,
and the second pop takes the vertex 3 with the distance 10: the vertex 3 is
fixed with a smaller distance than the vertex 1 fixed before it. -/
theorem sweepPops_not_monotone :
    exKite.getContainingFace (exPoint 0 (-5)) (.fin (2 / 10)) = some 0 ∧
    exKite.getContainingFace (exPoint 0 1) (.fin (2 / 10)) = some 1 ∧
    exKiteSeeding.isOk = true ∧
    exKiteSeeded.pq.entries = [(0, .fin 16), (1, .fin 13), (2, .fin 13)] ∧
    sweepPops exKite exLibm2 exKite.edgeDistances 1 5 exKiteSeeded
      = [(1, .fin 13), (3, .fin 10)] ∧
    FP.lt (.fin 10 : FP ℚ) (.fin 13) = true ∧
    (exKiteAfterTwoPops.fixed 1, exKiteAfterTwoPops.planner.potential 1)
      = (true, some (.fin 13)) ∧
    (exKiteAfterTwoPops.fixed 3, exKiteAfterTwoPops.planner.potential 3)
      = (true, some (.fin 10)) := by
  refine ⟨?_, ?_, ?_, ?_, ?_, ?_, ?_, ?_⟩ <;> decide!

/-- C14 amended: an iteration of the sweep pops an entry of the queue whose
distance is least among the entries of the queue at that time (no queued
distance being `NaN`) and fixes its vertex; and after any number `k` of
further iterations that vertex and the vertices fixed before it are still
fixed and have the distances that they had at the pop. -/
theorem sweepStep_pops_least {R : Type} [LinearOrderedField R] (env : MeshMap R) (m : Libm R)
    (edge_weights : EdgeHandle → FP R) (goal_face : FaceHandle) (s s1 sk : Sweep R) (k : Nat)
    (hstep : sweepStep env m edge_weights goal_face s = .ok s1)
    (hrun : sweepRun env m edge_weights goal_face k s1 = some sk)
    (hnan : ∀ x ∈ s.pq.entries, x.2 ≠ .nan) :
    ∃ e pq1, s.pq.popMin = some (e, pq1) ∧ e ∈ s.pq.entries ∧
      (∀ x ∈ s.pq.entries, FP.le e.2 x.2 = true) ∧
      ∀ v, (v = e.1 ∨ s.fixed v = true) →
        sk.fixed v = true ∧ sk.planner.potential v = s.planner.potential v := by
  obtain ⟨e, pq1, hpop, hkeep⟩ := sweepStep_keepsFixed env m edge_weights goal_face s s1 hstep
  obtain ⟨hmem, hleast⟩ := popMin_least s.pq pq1 e hpop hnan
  refine ⟨e, pq1, hpop, hmem, hleast, ?_⟩
  intro v hv
  have h1 := hkeep v hv
  have h2 := sweepRun_keepsFixed env m edge_weights goal_face k s1 sk hrun v h1.1
  exact ⟨h2.1, h2.2.trans h1.2⟩

/-- The kite after the seeding, the first iteration and one more. -/
theorem sweepStep_pops_least_witness :
    ∃ e pq1, exKiteSeeded.pq.popMin = some (e, pq1) ∧ e ∈ exKiteSeeded.pq.entries ∧
      (∀ x ∈ exKiteSeeded.pq.entries, FP.le e.2 x.2 = true) ∧
      ∀ v, (v = e.1 ∨ exKiteSeeded.fixed v = true) →
        exKiteAfterTwoPops.fixed v = true ∧
          exKiteAfterTwoPops.planner.potential v = exKiteSeeded.planner.potential v :=
  sweepStep_pops_least exKite exLibm2 exKite.edgeDistances 1 exKiteSeeded exKiteAfterOnePop
    exKiteAfterTwoPops 1
    (by
      have hok : (sweepStep exKite exLibm2 exKite.edgeDistances 1 exKiteSeeded).isOk = true := by
        decide!
      unfold exKiteAfterOnePop
      revert hok
      cases sweepStep exKite exLibm2 exKite.edgeDistances 1 exKiteSeeded with
      | ok s => intro _; rfl
      | error e => intro hok; cases hok)
    (by
      have hsome : (sweepRun exKite exLibm2 exKite.edgeDistances 1 1 exKiteAfterOnePop).isSome
          = true := by decide!
      unfold exKiteAfterTwoPops
      revert hsome
      cases sweepRun exKite exLibm2 exKite.edgeDistances 1 1 exKiteAfterOnePop with
      | some s => intro _; rfl
      | none => intro hsome; cases hsome)
    (by decide!)

/-! ## The sweep: the unfolding of a triangle -/

theorem heron_fin {R : Type} [LinearOrderedField R] (m : Libm R) (P w : R)
    (hm : ∀ z, 0 ≤ z → m.sqrt (z * z) = z) (hw : 0 ≤ w) (h : P = w * w) :
    FP.sqrt m (FP.max (FP.fin P) (FP.fin ((0 : Nat) : R))) = FP.fin w := by
  have hnn : ¬ (w * w < 0) := not_lt.mpr (mul_self_nonneg w)
  simp only [Nat.cast_zero, FP.max, FP.lt_fin, h, decide_eq_true_eq, if_neg hnn]
  rw [FP.sqrt_fin m _ (mul_self_nonneg w), hm w hw]

/-- C15: in the plane, with `v1 = (0, 0)`, `v2 = (c, 0)`, `c > 0`, the
vertex `v3 = (px, h)` above the line, `h > 0`, and the source `s = (x, y)`
on the line or below it, `y <= 0`, and with the edge lengths `a`, `b`, `c`
and the distances `u1`, `u2` of the source from `v1` and `v2`, the unfolding
of `waveFrontUpdate` recovers the coordinates of the source and of `v3`, and
its candidate distance for `v3` is the Euclidean distance `d` from `s` to
`v3`; the square root of the math library is exact on squares. -/
theorem unfoldTriangle_exact {R : Type} [LinearOrderedField R] (m : Libm R)
    (c h px x y u1 u2 a b d : R)
    (hm : ∀ z, 0 ≤ z → m.sqrt (z * z) = z)
    (hc : 0 < c) (hh : 0 < h) (hy : y ≤ 0)
    (hu1 : 0 ≤ u1 ∧ u1 * u1 = x * x + y * y)
    (hu2 : 0 ≤ u2 ∧ u2 * u2 = (x - c) * (x - c) + y * y)
    (ha : 0 ≤ a ∧ a * a = (px - c) * (px - c) + h * h)
    (hb : 0 ≤ b ∧ b * b = px * px + h * h)
    (hd : 0 ≤ d ∧ d * d = (px - x) * (px - x) + (h - y) * (h - y)) :
    (unfoldTriangle m (.fin u1) (.fin u2) (.fin a) (.fin b) (.fin c)).sx = .fin x ∧
    (unfoldTriangle m (.fin u1) (.fin u2) (.fin a) (.fin b) (.fin c)).sy = .fin y ∧
    (unfoldTriangle m (.fin u1) (.fin u2) (.fin a) (.fin b) (.fin c)).p = .fin px ∧
    (unfoldTriangle m (.fin u1) (.fin u2) (.fin a) (.fin b) (.fin c)).hc = .fin h ∧
    (unfoldTriangle m (.fin u1) (.fin u2) (.fin a) (.fin b) (.fin c)).u3tmp = .fin d := by
  have h2c : (2 : R) * c ≠ 0 := by positivity
  have hc0 : c ≠ 0 := ne_of_gt hc
  have hP1 : (-u1 + u2 + c) * (u1 - u2 + c) * (u1 + u2 - c) * (u1 + u2 + c)
      = (2 * c * (-y)) * (2 * c * (-y)) := by
    have e : (-u1 + u2 + c) * (u1 - u2 + c) * (u1 + u2 - c) * (u1 + u2 + c)
        = 2 * (u1 * u1) * (u2 * u2) + 2 * (c * c) * (u1 * u1) + 2 * (c * c) * (u2 * u2)
          - (u1 * u1) * (u1 * u1) - (u2 * u2) * (u2 * u2) - (c * c) * (c * c) := by ring
    rw [e, hu1.2, hu2.2]
    ring
  have hP2 : (-a + b + c) * (a - b + c) * (a + b - c) * (a + b + c)
      = (2 * c * h) * (2 * c * h) := by
    have e : (-a + b + c) * (a - b + c) * (a + b - c) * (a + b + c)
        = 2 * (a * a) * (b * b) + 2 * (c * c) * (a * a) + 2 * (c * c) * (b * b)
          - (a * a) * (a * a) - (b * b) * (b * b) - (c * c) * (c * c) := by ring
    rw [e, ha.2, hb.2]
    ring
  have hA := heron_fin m _ (2 * c * (-y)) hm
    (mul_nonneg (by positivity) (neg_nonneg.mpr hy)) hP1
  have hB := heron_fin m _ (2 * c * h) hm (by positivity) hP2
  have hsx : (c * c + u1 * u1 - u2 * u2) / (2 * c) = x := by
    rw [hu1.2, hu2.2]
    field_simp
    ring
  have hsy : -(2 * c * (-y)) / (2 * c) = y := by
    field_simp
  have hp : (-(a * a) + b * b + c * c) / (2 * c) = px := by
    rw [ha.2, hb.2]
    field_simp
    ring
  have hhc : 2 * c * h / (2 * c) = h := by
    field_simp
  have hdy : (2 * c * (-y) + 2 * c * h) / (2 * c) = h - y := by
    field_simp
    ring
  unfold unfoldTriangle
  simp only [hA, hB, FP.fin_neg, FP.fin_add, FP.fin_sub, FP.fin_mul, lit_eq_fin,
    Nat.cast_ofNat, FP.fin_div _ _ h2c, hsx, hsy, hp, hhc, hdy]
  rw [← hd.2, FP.sqrt_fin m _ (mul_self_nonneg d), hm d hd.1]
  simp

theorem exLibm_sqrt_sq (z : ℚ) (hz : 0 ≤ z) : exLibm.sqrt (z * z) = z := by
  show ((Nat.sqrt (z * z).num.toNat : ℕ) : ℚ) / ((Nat.sqrt (z * z).den : ℕ) : ℚ) = z
  have hn : 0 ≤ z.num := Rat.num_nonneg.mpr hz
  obtain ⟨n, hn2⟩ := Int.eq_ofNat_of_zero_le hn
  have h1 : (z.num * z.num).toNat = n * n := by
    rw [hn2, ← Int.natCast_mul, Int.toNat_natCast]
  rw [Rat.mul_self_num, Rat.mul_self_den, h1, Nat.sqrt_eq, Nat.sqrt_eq]
  have h2 : ((n : ℕ) : ℚ) = ((z.num : ℤ) : ℚ) := by
    rw [hn2]
    rfl
  rw [h2]
  exact Rat.num_div_den z

/-- The edge from `(0, 0)` to `(24, 0)` with the vertex `(12, 5)` above it
and the source `(12, -5)` below it: the edges and the distances of the
source are 13 and the distance from the source to the vertex is 10. -/
theorem unfoldTriangle_exact_witness :
    (unfoldTriangle exLibm (.fin 13) (.fin 13) (.fin 13) (.fin 13) (.fin 24)).sx = .fin 12 ∧
    (unfoldTriangle exLibm (.fin 13) (.fin 13) (.fin 13) (.fin 13) (.fin 24)).sy = .fin (-5) ∧
    (unfoldTriangle exLibm (.fin 13) (.fin 13) (.fin 13) (.fin 13) (.fin 24)).p = .fin 12 ∧
    (unfoldTriangle exLibm (.fin 13) (.fin 13) (.fin 13) (.fin 13) (.fin 24)).hc = .fin 5 ∧
    (unfoldTriangle exLibm (.fin 13) (.fin 13) (.fin 13) (.fin 13) (.fin 24)).u3tmp = .fin 10 :=
  unfoldTriangle_exact exLibm 24 5 12 12 (-5) 13 13 13 13 10 exLibm_sqrt_sq (by norm_num)
    (by norm_num) (by norm_num) ⟨by norm_num, by norm_num⟩ ⟨by norm_num, by norm_num⟩
    ⟨by norm_num, by norm_num⟩ ⟨by norm_num, by norm_num⟩ ⟨by norm_num, by norm_num⟩

/-! ## The sweep: the cost limit -/

theorem storeCuttingFace_true {R : Type} [LinearOrderedField R] (env : MeshMap R)
    (p : MeshPlanner R) (v3 : VertexHandle) (S : FP R) (f0 : FaceHandle)
    (f1 : Option FaceHandle) (dir1 : FP R)
    (h : (storeCuttingFace env p v3 S f0 f1 dir1).2 = some true) :
    FP.le (env.vertexCosts v3) p.config.cost_limit = true := by
  unfold storeCuttingFace at h
  dsimp only at h
  split at h
  · split at h
    · cases h
    · simpa using h
  · split at h
    · simpa using h
    · simpa using h

theorem writePredecessor_true {R : Type} [LinearOrderedField R] (env : MeshMap R) (m : Libm R)
    (p1 : MeshPlanner R) (v1 v2 v3 : VertexHandle) (a b c : FP R) (g : Unfolding R)
    (h : (writePredecessor env m p1 v1 v2 v3 a b c g).2 = some true) :
    FP.le (env.vertexCosts v3) p1.config.cost_limit = true := by
  unfold writePredecessor at h
  split at h
  · cases h
  · split at h
    · dsimp only at h
      split at h
      · cases h
      · split at h
        · cases h
        · split at h
          · cases h
          · have h2 := storeCuttingFace_true _ _ _ _ _ _ _ h
            exact h2
    · cases h

theorem waveFrontUpdate_true {R : Type} [LinearOrderedField R] (env : MeshMap R) (m : Libm R)
    (edge_weights : EdgeHandle → FP R) (p : MeshPlanner R) (v1 v2 v3 : VertexHandle)
    (h : (waveFrontUpdate env m edge_weights p v1 v2 v3).2 = some true) :
    FP.le (env.vertexCosts v3) p.config.cost_limit = true := by
  unfold waveFrontUpdate at h
  split at h
  · split at h
    · dsimp only at h
      split at h
      · have h2 := writePredecessor_true _ _ _ _ _ _ _ _ _ _ h
        exact h2
      · cases h
    · cases h
  · cases h

theorem updateFace_core {R : Type} [LinearOrderedField R] (env : MeshMap R) (m : Libm R)
    (edge_weights : EdgeHandle → FP R) (S T : VertexHandle → Prop) (limit : FP R)
    (s : Sweep R) (v1 v2 v3 : VertexHandle) (h : SweepInv env T s) (hc : SweepCore S limit s)
    (hT : T v3) (hfix : s.fixed v3 = false)
    (hS : FP.le (env.vertexCosts v3) limit = true → S v3) :
    StepCore env S T limit s (updateFace env m edge_weights s v1 v2 v3) := by
  refine ⟨updateFace_step env m edge_weights T s v1 v2 v3 h hT hfix, ?_⟩
  have hf := waveFrontUpdate_frame env m edge_weights s.planner v1 v2 v3
  have ht := waveFrontUpdate_true env m edge_weights s.planner v1 v2 v3
  unfold updateFace
  split
  · next p hr =>
    rw [hr] at hf ht
    have hS3 : S v3 := hS (hc.limit ▸ ht rfl)
    split
    · refine ⟨hc.fixedS, ?_, hf.config ▸ hc.limit⟩
      intro v hv
      rcases (meap_keys_insert _ _ _ _).mp hv with h1 | h1
      · exact hc.keysS v h1
      · exact h1 ▸ hS3
    · exact ⟨hc.fixedS, hc.keysS, hf.config ▸ hc.limit⟩
  · next p r hr heq =>
    rw [heq] at hf
    exact ⟨hc.fixedS, hc.keysS, hf.config ▸ hc.limit⟩

theorem stepCore_refl {R : Type} [LinearOrderedField R] (env : MeshMap R)
    (S T : VertexHandle → Prop) (limit : FP R) (s : Sweep R) (h : SweepInv env T s)
    (hc : SweepCore S limit s) : StepCore env S T limit s s :=
  ⟨step_refl env T s h, hc⟩

theorem foldl_stepCore {R : Type} [LinearOrderedField R] {α : Type} (env : MeshMap R)
    (S T : VertexHandle → Prop) (limit : FP R) (f : Sweep R → α → Sweep R)
    (hf : ∀ s x, SweepInv env T s → SweepCore S limit s → StepCore env S T limit s (f s x)) :
    ∀ (l : List α) (s : Sweep R), SweepInv env T s → SweepCore S limit s →
      StepCore env S T limit s (l.foldl f s) := by
  intro l
  induction l with
  | nil => intro s h hc; exact stepCore_refl env S T limit s h hc
  | cons x l ih =>
    intro s h hc
    have h1 := hf s x h hc
    have h2 := ih (f s x) h1.step.inv h1.core
    exact ⟨step_trans h1.step h2.step, h2.core⟩

theorem processFace_core {R : Type} [LinearOrderedField R] (env : MeshMap R) (m : Libm R)
    (edge_weights : EdgeHandle → FP R) (goal_face : FaceHandle) (S T : VertexHandle → Prop)
    (limit : FP R) (hJ : ∀ v w, S v → Joined env v w → T w)
    (hJS : ∀ v w, S v → Joined env v w → FP.le (env.vertexCosts w) limit = true → S w)
    (s : Sweep R) (fh : FaceHandle) (h : SweepInv env T s) (hc : SweepCore S limit s) :
    StepCore env S T limit s (processFace env m edge_weights goal_face s fh) := by
  have ha : (env.getVerticesOfFace fh).1 ∈ faceVertices env fh := by simp [faceVertices]
  have hb : (env.getVerticesOfFace fh).2.1 ∈ faceVertices env fh := by simp [faceVertices]
  have hcc : (env.getVerticesOfFace fh).2.2 ∈ faceVertices env fh := by simp [faceVertices]
  unfold processFace
  dsimp only
  split
  · exact stepCore_refl env S T limit s h hc
  · split
    · exact stepCore_refl env S T limit s h hc
    · split
      · split
        · exact ⟨⟨⟨h.fixedC, h.keysC, h.keysV, h.potV, h.outside, h.predSome, h.dirSome, h.flag,
            h.potSome⟩, le_refl _, rfl, rfl⟩, ⟨hc.fixedS, hc.keysS, hc.limit⟩⟩
        · exact stepCore_refl env S T limit s h hc
      · split
        · next hfix =>
          simp only [Bool.and_eq_true, Bool.not_eq_true'] at hfix
          exact updateFace_core env m edge_weights S T limit s _ _ _ h hc
            (hJ _ _ (hc.fixedS _ hfix.1.1) ⟨fh, ha, hcc⟩) hfix.2
            (hJS _ _ (hc.fixedS _ hfix.1.1) ⟨fh, ha, hcc⟩)
        · split
          · next hfix =>
            simp only [Bool.and_eq_true, Bool.not_eq_true'] at hfix
            exact updateFace_core env m edge_weights S T limit s _ _ _ h hc
              (hJ _ _ (hc.fixedS _ hfix.1.1) ⟨fh, ha, hb⟩) hfix.1.2
              (hJS _ _ (hc.fixedS _ hfix.1.1) ⟨fh, ha, hb⟩)
          · split
            · next hfix =>
              simp only [Bool.and_eq_true, Bool.not_eq_true'] at hfix
              exact updateFace_core env m edge_weights S T limit s _ _ _ h hc
                (hJ _ _ (hc.fixedS _ hfix.2) ⟨fh, hcc, ha⟩) hfix.1.1
                (hJS _ _ (hc.fixedS _ hfix.2) ⟨fh, hcc, ha⟩)
            · exact stepCore_refl env S T limit s h hc

theorem processNeighbour_core {R : Type} [LinearOrderedField R] (env : MeshMap R) (m : Libm R)
    (edge_weights : EdgeHandle → FP R) (goal_face : FaceHandle) (S T : VertexHandle → Prop)
    (limit : FP R) (hJ : ∀ v w, S v → Joined env v w → T w)
    (hJS : ∀ v w, S v → Joined env v w → FP.le (env.vertexCosts w) limit = true → S w)
    (s : Sweep R) (nh : VertexHandle) (h : SweepInv env T s) (hc : SweepCore S limit s) :
    StepCore env S T limit s (processNeighbour env m edge_weights goal_face s nh) := by
  unfold processNeighbour
  split
  · exact stepCore_refl env S T limit s h hc
  · split
    · exact stepCore_refl env S T limit s h hc
    · split
      · exact stepCore_refl env S T limit s h hc
      · exact foldl_stepCore env S T limit _ (fun s x hs hcs => processFace_core env m
          edge_weights goal_face S T limit hJ hJS s x hs hcs) _ s h hc

theorem sweepStep_core {R : Type} [LinearOrderedField R] (env : MeshMap R) (m : Libm R)
    (edge_weights : EdgeHandle → FP R) (goal_face : FaceHandle) (S T : VertexHandle → Prop)
    (limit : FP R) (hST : ∀ v, S v → T v) (hJ : ∀ v w, S v → Joined env v w → T w)
    (hJS : ∀ v w, S v → Joined env v w → FP.le (env.vertexCosts w) limit = true → S w)
    (s : Sweep R) (h : SweepInv env T s) (hc : SweepCore S limit s)
    (hne : s.pq.isEmpty = false) :
    ∃ s1, sweepStep env m edge_weights goal_face s = .ok s1 ∧ SweepInv env T s1 ∧
      SweepCore S limit s1 ∧ sweepMeasure env s1 + 1 ≤ sweepMeasure env s := by
  obtain ⟨entry, pq1, hpop⟩ := meap_popMin_none s.pq hne
  obtain ⟨hmem, hkeys, hlen⟩ := meap_popMin _ _ _ hpop
  have hm := sweepMeasure_pop env s entry pq1 hpop
  have hinv : SweepInv env T { s with pq := pq1,
                                      fixed := (fun v => if v = entry.1 then true
                                                         else s.fixed v) } :=
    { fixedC := by
        intro v hv
        by_cases hve : v = entry.1
        · exact hve ▸ h.keysC _ hmem
        · simp only [hve, if_false] at hv
          exact h.fixedC v hv
      keysC := fun v hv => h.keysC v ((hkeys v).mp hv).1
      keysV := fun v hv => h.keysV v ((hkeys v).mp hv).1
      potV := h.potV
      outside := h.outside
      predSome := h.predSome
      dirSome := h.dirSome
      flag := h.flag
      potSome := h.potSome }
  have hcore : SweepCore S limit { s with pq := pq1,
                                          fixed := (fun v => if v = entry.1 then true
                                                             else s.fixed v) } :=
    { fixedS := by
        intro v hv
        by_cases hve : v = entry.1
        · exact hve ▸ hc.keysS _ hmem
        · simp only [hve, if_false] at hv
          exact hc.fixedS v hv
      keysS := fun v hv => hc.keysS v ((hkeys v).mp hv).1
      limit := hc.limit }
  unfold sweepStep
  rw [hpop]
  dsimp only
  split
  · exact ⟨_, rfl, hinv, hcore, hm⟩
  · next neighbours _ =>
    have hs := foldl_stepCore env S T limit _ (fun s x hs hcs => processNeighbour_core env m
      edge_weights goal_face S T limit hJ hJS s x hs hcs) neighbours _ hinv hcore
    exact ⟨_, rfl, hs.step.inv, hs.core, le_trans (Nat.add_le_add_right hs.step.measure 1) hm⟩

theorem sweepLoop_core {R : Type} [LinearOrderedField R] (env : MeshMap R) (m : Libm R)
    (edge_weights : EdgeHandle → FP R) (goal_face : FaceHandle) (S T : VertexHandle → Prop)
    (limit : FP R) (hST : ∀ v, S v → T v) (hJ : ∀ v w, S v → Joined env v w → T w)
    (hJS : ∀ v w, S v → Joined env v w → FP.le (env.vertexCosts w) limit = true → S w) :
    ∀ (fuel : Nat) (s : Sweep R), SweepInv env T s → SweepCore S limit s →
      sweepMeasure env s < fuel →
      ∃ s1, sweepLoop env m (fun _ => false) edge_weights goal_face fuel s = .ok s1 ∧
        SweepInv env T s1 := by
  intro fuel
  induction fuel with
  | zero => intro s _ _ hlt; omega
  | succ fuel ih =>
    intro s h hc hlt
    unfold sweepLoop
    by_cases hne : s.pq.isEmpty = true
    · simp only [hne, Bool.not_true, Bool.false_eq_true, if_false]
      exact ⟨s, rfl, h⟩
    · have hne1 : s.pq.isEmpty = false := by simpa using hne
      simp only [hne1, Bool.not_false, if_true, observeCancel, Bool.false_eq_true, if_false]
      have h0 : SweepInv env T { s with planner := s.planner, reads := s.reads + 1 } :=
        ⟨h.fixedC, h.keysC, h.keysV, h.potV, h.outside, h.predSome, h.dirSome, h.flag, h.potSome⟩
      have hc0 : SweepCore S limit { s with planner := s.planner, reads := s.reads + 1 } :=
        ⟨hc.fixedS, hc.keysS, hc.limit⟩
      by_cases hg : s.goal_face_fixed = true
      · simp only [h.flag, hg, Bool.not_true, Bool.and_false, Bool.false_eq_true, if_false]
        exact ⟨_, rfl, ⟨h.fixedC, h.keysC, h.keysV, h.potV, h.outside, h.predSome, h.dirSome,
          h.flag, h.potSome⟩⟩
      · have hg1 : s.goal_face_fixed = false := by simpa using hg
        simp only [h.flag, hg1, Bool.not_false, Bool.and_self, if_true]
        obtain ⟨s1, hs1, hinv1, hcore1, hm1⟩ := sweepStep_core env m edge_weights goal_face S T
          limit hST hJ hJS { s with planner := s.planner, reads := s.reads + 1 } h0 hc0 hne1
        rw [hg1] at hs1
        rw [hs1]
        dsimp only
        have hms : sweepMeasure env { s with planner := s.planner, reads := s.reads + 1 }
            = sweepMeasure env s := rfl
        exact ih s1 hinv1 hcore1 (by omega)

theorem seedLoop_core {R : Type} [LinearOrderedField R] (env : MeshMap R) (m : Libm R)
    (start : Vector R) (start_face : FaceHandle) (S : VertexHandle → Prop) (limit : FP R)
    (l : List VertexHandle) :
    ∀ s s1 : Sweep R, SweepCore S limit s → (∀ v, v ∈ l → S v) →
      seedLoop env m start start_face l s = .ok s1 → SweepCore S limit s1 := by
  induction l with
  | nil =>
    intro s s1 hc _ hs
    simp only [seedLoop, Except.ok.injEq] at hs
    exact hs ▸ hc
  | cons x l ih =>
    intro s s1 hc hl hs
    have hSx := hl x (List.mem_cons_self _ _)
    unfold seedLoop at hs
    dsimp only at hs
    split at hs
    · cases hs
    · refine ih _ s1 ?_ (fun v hv => hl v (List.mem_cons_of_mem _ hv)) hs
      refine ⟨?_, ?_, hc.limit⟩
      · intro v hv
        by_cases hvx : v = x
        · exact hvx ▸ hSx
        · simp only [hvx, if_false] at hv
          exact hc.fixedS v hv
      · intro v hv
        rcases (meap_keys_insert _ _ _ _).mp hv with h1 | h1
        · exact hc.keysS v h1
        · exact h1 ▸ hSx

theorem sweepInit_core {R : Type} [LinearOrderedField R] (env : MeshMap R) (m : Libm R)
    (p : MeshPlanner R) (start : Vector R) (start_face : FaceHandle)
    (S T : VertexHandle → Prop) (hST : ∀ v, S v → T v)
    (hseed : ∀ v, v ∈ faceVertices env start_face → S v)
    (hpot : p.potential = VMap.empty) (hpred : p.predecessors = VMap.empty)
    (hflag : p.cancel_planning = false)
    (hsv : ∀ v, v ∈ faceVertices env start_face → v ∈ env.vertices)
    (hdir : ∀ v, v ∈ env.vertices → (p.direction v).isSome = true) :
    ∃ s0, sweepInit env m p start start_face = .ok s0 ∧ SweepInv env T s0 ∧
      SweepCore S p.config.cost_limit s0 ∧ sweepMeasure env s0 ≤ 3 + 2 * env.vertices.length := by
  obtain ⟨h1, h2, h3, h4⟩ := initLoop_spec env.vertices { p with vector_map := VMap.empty }
  have hinv : SweepInv env T
      ⟨initLoop env.vertices { p with vector_map := VMap.empty }, fun _ => false, ⟨[]⟩,
        false, 0⟩ :=
    { fixedC := by intro v hv; cases hv
      keysC := by intro v hv; cases hv
      keysV := by intro v hv; cases hv
      potV := by
        intro v hv
        by_contra hmem
        rw [h1 v] at hv
        simp [hmem, hpot, VMap.empty] at hv
      outside := by
        intro v _ hmem
        simp [h1 v, h2 v, hmem]
      predSome := by
        intro v hmem
        simp [h2 v, hmem]
      dirSome := by
        intro v hmem
        simp only [h3]
        exact hdir v hmem
      flag := h4.trans hflag
      potSome := by
        intro v hmem
        simp [h1 v, hmem] }
  have hcfg : ∀ (l : List VertexHandle) (q : MeshPlanner R), (initLoop l q).config = q.config := by
    intro l
    induction l with
    | nil => intro q; rfl
    | cons x l ih =>
      intro q
      unfold initLoop
      rw [ih]
  have hcore : SweepCore S p.config.cost_limit
      ⟨initLoop env.vertices { p with vector_map := VMap.empty }, fun _ => false, ⟨[]⟩,
        false, 0⟩ :=
    { fixedS := by intro v hv; cases hv
      keysS := by intro v hv; cases hv
      limit := by
        show (initLoop env.vertices { p with vector_map := VMap.empty }).config.cost_limit = _
        rw [hcfg] }
  obtain ⟨s0, hs0, hinv0, hlen0, _⟩ := seedLoop_spec env m start start_face T
    (faceVertices env start_face) _ hinv (fun v hv => ⟨hST v (hseed v hv), hsv v hv⟩)
  have hcore0 := seedLoop_core env m start start_face S p.config.cost_limit
    (faceVertices env start_face) _ s0 hcore hseed hs0
  refine ⟨s0, hs0, hinv0, hcore0, ?_⟩
  have := sweepMeasure_le env s0
  have hl : (faceVertices env start_face).length = 3 := rfl
  simp only [List.length_nil, hl] at hlen0
  omega

/-- C16 as stated fails: on the strip with the cost 2, above the limit 1,
at the vertices 1, 2 and 3, every face from the seed face 0 to the target
face 1 has a vertex above the limit (the face 1 has nothing else); the
seeds are fixed whatever their cost, the update of the face 1 writes the
predecessor of the vertex 3, and the outcome is 0, `SUCCESS`, with the path
from the seed `(2, 29/20)` to the target `(2, 31/20)`. -/
theorem waveFrontPropagation_through_lethal :
    exLethalStrip.getContainingFace (exPoint 2 (29 / 20)) (.fin (2 / 10)) = some 0 ∧
    exLethalStrip.getContainingFace (exPoint 2 (31 / 20)) (.fin (2 / 10)) = some 1 ∧
    faceVertices exLethalStrip 0 = [0, 1, 2] ∧ faceVertices exLethalStrip 1 = [1, 3, 2] ∧
    (exPlanner exLethalStrip).config.cost_limit = .fin 1 ∧
    ([1, 2, 3].map exLethalStrip.vertexCosts) = [.fin 2, .fin 2, .fin 2] ∧
    (waveFrontPropagation3 {} exLethalStrip exLibm2 (fun _ => false) 20
      (exPlanner exLethalStrip) (exPoint 2 (29 / 20)) (exPoint 2 (31 / 20)) []).toOption.map
        (fun r => (r.1, r.2.1, r.2.2.predecessors 3))
      = some (0, [(exPoint 2 (29 / 20), 0), (exPoint 2 (31 / 20), 1)], some 1) := by
  refine ⟨?_, ?_, ?_, ?_, ?_, ?_, ?_⟩ <;> decide!

/-- C16 amended: the sweep fixes the vertices of the seed face whatever
their cost and spreads from a fixed vertex to the vertices of its faces
whose cost is up to the limit (`Spread`); it writes the vertices of the
faces of fixed vertices (`Touched`).  When no vertex of the target face is
touched, the propagation without a call of `cancel()` ends with
`NO_PATH_FOUND` and an empty path once the fuel covers the measure of the
sweep, and every vertex of the mesh that is not touched has the distance
infinity and itself as predecessor. -/
theorem waveFrontPropagation_blocked {R : Type} [LinearOrderedField R]
    (codes : GetPathResult) (env : MeshMap R) (m : Libm R) (fuel : Nat) (p : MeshPlanner R)
    (start goal : Vector R) (edge_weights : EdgeHandle → FP R) (path : Path R)
    (start_face goal_face : FaceHandle)
    (hs : env.getContainingFace start (FP.fin (2 / 10)) = some start_face)
    (hg : env.getContainingFace goal (FP.fin (2 / 10)) = some goal_face)
    (hsep : ∀ w, w ∈ faceVertices env goal_face →
      ¬ Touched env p.config.cost_limit start_face w)
    (hsv : ∀ v, v ∈ faceVertices env start_face → v ∈ env.vertices)
    (hgv : ∀ v, v ∈ faceVertices env goal_face → v ∈ env.vertices)
    (hdir : ∀ v, v ∈ env.vertices → (p.direction v).isSome = true)
    (hfuel : 2 * env.vertices.length + 4 ≤ fuel) :
    ∃ p1, waveFrontPropagation codes env m (fun _ => false) fuel p start goal edge_weights path
        = .ok (codes.NO_PATH_FOUND, [], p1) ∧
      ∀ v, v ∈ env.vertices → ¬ Touched env p.config.cost_limit start_face v →
        p1.potential v = some FP.pinf ∧ p1.predecessors v = some v := by
  have hST : ∀ v, Spread env p.config.cost_limit start_face v →
      Touched env p.config.cost_limit start_face v := fun v hv => Or.inl hv
  have hJ : ∀ v w, Spread env p.config.cost_limit start_face v → Joined env v w →
      Touched env p.config.cost_limit start_face w := fun v w hv hj => Or.inr ⟨v, hv, hj⟩
  have hJS : ∀ v w, Spread env p.config.cost_limit start_face v → Joined env v w →
      FP.le (env.vertexCosts w) p.config.cost_limit = true →
      Spread env p.config.cost_limit start_face w := fun v w hv hj hc => Spread.step v w hv hj hc
  obtain ⟨s0, hs0, hinv0, hcore0, hm0⟩ := sweepInit_core env m
    { p with cancel_planning := false, potential := VMap.empty, predecessors := VMap.empty }
    start start_face _ _ hST (fun v hv => Spread.seed v hv) rfl rfl rfl hsv hdir
  have hne : goal_face ≠ start_face := by
    intro e
    have h1 : (env.getVerticesOfFace goal_face).1 ∈ faceVertices env goal_face := by
      simp [faceVertices]
    exact hsep _ h1 (Or.inl (Spread.seed _ (e ▸ h1)))
  obtain ⟨s1, hs1, hinv1⟩ := sweepLoop_core env m edge_weights goal_face _ _ _ hST hJ hJS fuel
    s0 hinv0 hcore0 (by omega)
  obtain ⟨p1, hp1, hpot, hpred, _, _, _⟩ := computeVectorMapLoop_spec env env.vertices
    s1.planner (fun v hv => ⟨hinv1.predSome v hv, hinv1.dirSome v hv⟩)
  have hout : ∀ v, v ∈ env.vertices → ¬ Touched env p.config.cost_limit start_face v →
      p1.potential v = some FP.pinf ∧ p1.predecessors v = some v := by
    intro v hv hnc
    rw [hpot, hpred]
    exact hinv1.outside v hnc hv
  have hpe : pathExists p1 (faceVertices env goal_face) = .ok false :=
    pathExists_self p1 _ (fun v hv => (hout v (hgv v hv) (hsep v hv)).2)
  refine ⟨p1, ?_, hout⟩
  unfold waveFrontPropagation
  simp only [hs, hg, hne, if_false, hs0, hs1, observeCancel, Bool.false_eq_true, hinv1.flag,
    computeVectorMap, hp1, hpe, Bool.not_false, if_true]

theorem exBarrier_joined (v w : Nat) (hv : v = 0 ∨ v = 1 ∨ v = 2) (hj : Joined exBarrier v w) :
    w = 0 ∨ w = 1 ∨ w = 2 ∨ w = 3 ∨ w = 4 := by
  obtain ⟨fh, h1, h2⟩ := hj
  rcases fh with _ | _ | _ | _ | _ | _ | fh
  · simp [faceVertices, exBarrier, exMesh] at h2
    rcases h2 with h | h | h <;> subst h <;> simp
  · simp [faceVertices, exBarrier, exMesh] at h2
    rcases h2 with h | h | h <;> subst h <;> simp
  · simp [faceVertices, exBarrier, exMesh] at h2
    rcases h2 with h | h | h <;> subst h <;> simp
  · simp [faceVertices, exBarrier, exMesh] at h1
    rcases hv with h | h | h <;> subst h <;> simp at h1
  · simp [faceVertices, exBarrier, exMesh] at h1
    rcases hv with h | h | h <;> subst h <;> simp at h1
  · simp [faceVertices, exBarrier, exMesh] at h1
    rcases hv with h | h | h <;> subst h <;> simp at h1
  · simp [faceVertices, exBarrier, exMesh] at h2
    exact Or.inl h2

theorem exBarrier_spread (v : Nat) (h : Spread exBarrier (.fin 1) 0 v) :
    v = 0 ∨ v = 1 ∨ v = 2 := by
  induction h with
  | seed v h =>
    simp [faceVertices, exBarrier, exMesh] at h
    exact h
  | step v w _ hj hc ih =>
    rcases exBarrier_joined v w ih hj with h | h | h | h | h
    · exact Or.inl h
    · exact Or.inr (Or.inl h)
    · exact Or.inr (Or.inr h)
    · subst h
      exact absurd hc (by decide!)
    · subst h
      exact absurd hc (by decide!)

theorem exBarrier_touched (w : Nat)
    (h : Touched exBarrier (exPlanner exBarrier).config.cost_limit 0 w) :
    w = 0 ∨ w = 1 ∨ w = 2 ∨ w = 3 ∨ w = 4 := by
  have hl : (exPlanner exBarrier).config.cost_limit = .fin 1 := rfl
  rw [hl] at h
  rcases h with h | ⟨v, hv, hj⟩
  · rcases exBarrier_spread w h with h | h | h
    · exact Or.inl h
    · exact Or.inr (Or.inl h)
    · exact Or.inr (Or.inr (Or.inl h))
  · exact exBarrier_joined v w (exBarrier_spread v hv) hj

/-- The strip of six faces with the cost 2 at the vertices 3 and 4: from the
seed `(1, 1)` in the face 0 to `(3, 8)` in the face 5 the outcome is 54,
`NO_PATH_FOUND`. -/
theorem waveFrontPropagation_blocked_witness :
    ∃ p1, waveFrontPropagation {} exBarrier exLibm (fun _ => false) 20 (exPlanner exBarrier)
        (exPoint 1 1) (exPoint 3 8) exBarrier.edgeDistances []
        = .ok (54, [], p1) ∧
      ∀ v, v ∈ exBarrier.vertices →
        ¬ Touched exBarrier (exPlanner exBarrier).config.cost_limit 0 v →
        p1.potential v = some FP.pinf ∧ p1.predecessors v = some v :=
  waveFrontPropagation_blocked {} exBarrier exLibm 20 (exPlanner exBarrier)
    (exPoint 1 1) (exPoint 3 8) exBarrier.edgeDistances [] 0 5
    (by decide!) (by decide!)
    (by
      intro w hw ht
      have h5 := exBarrier_touched w ht
      simp [faceVertices, exBarrier, exMesh] at hw
      rcases hw with h | h | h <;> subst h <;> simp at h5)
    (by
      intro v hv
      simp [faceVertices, exBarrier, exMesh] at hv
      rcases hv with h | h | h <;> subst h <;> decide)
    (by
      intro v hv
      simp [faceVertices, exBarrier, exMesh] at hv
      rcases hv with h | h | h <;> subst h <;> decide)
    (by
      intro v hv
      simp [exBarrier, exMesh] at hv
      simp [exPlanner, MeshPlanner.initialize, MeshPlanner.reconfigureCallback, exPlanner0,
        VMap.dense, exBarrier, exMesh, hv])
    (by decide)

/-! ## The sweep: the argument of the arccosine -/

/-- C34 (what the code does): the radicands of the two roots are clamped,
the argument of the arccosine is not.  On the strip seeded at `(0, 0)`, with
the lengths 1/4, 1/4 and 5 for the edges of the face 1, the update of the
vertex 3 from the vertices 2 and 1 is accepted with the distance 5/2; the
argument of the arccosine is -43/20, the half-plane value is -6, and the
angle stored for the vertex 3 is NaN, also at the end of the whole call. -/
theorem waveFrontUpdate_stores_nan_angle :
    exSeeded.planner.potential 2 = some (.fin 3) ∧
    exSeeded.planner.potential 1 = some (.fin 4) ∧
    exThinUnfolding.u3tmp = .fin (5 / 2) ∧
    (exThinUnfolding.u3tmp_sq + exThinUnfolding.b_sq - exThinUnfolding.sx_sq
        - exThinUnfolding.sy_sq) / (FP.lit 2 * exThinUnfolding.u3tmp * .fin (1 / 4))
      = .fin (-43 / 20) ∧
    halfPlane exThinUnfolding (.fin 5) true = .fin (-6) ∧
    (waveFrontUpdate exStrip exLibm2 exThinWeights exSeeded.planner 2 1 3).2 = some true ∧
    (waveFrontUpdate exStrip exLibm2 exThinWeights exSeeded.planner 2 1 3).1.potential 3
      = some (.fin (5 / 2)) ∧
    (waveFrontUpdate exStrip exLibm2 exThinWeights exSeeded.planner 2 1 3).1.predecessors 3
      = some 2 ∧
    (waveFrontUpdate exStrip exLibm2 exThinWeights exSeeded.planner 2 1 3).1.direction 3
      = some .nan ∧
    (waveFrontPropagation {} exStrip exLibm2 (fun _ => false) 30 (exPlanner exStrip)
      (exPoint 0 0) (exPoint 1 5) exThinWeights []).toOption.map
        (fun r => (r.2.2.potential 3, r.2.2.predecessors 3, r.2.2.direction 3))
      = some (some (.fin (5 / 2)), some 2, some .nan) := by
  refine ⟨?_, ?_, ?_, ?_, ?_, ?_, ?_, ?_, ?_, ?_⟩ <;> decide!

/-! ## The controller: the progress index across plans -/

/-- C39 (what the code does): `setPlan` keeps the progress index.  After a
plan of five poses, of which four are stored, and two calls of
`updatePlanPos`, the index is 2; `setPlan` with a plan of two poses stores
one pose and leaves the index 2, and the next `updatePlanPos` reads
`current_plan[2]` outside the stored plan. -/
theorem updatePlanPos_reads_outside_shorter_plan :
    (∀ (c : MeshController ℚ) (plan : List (PoseStamped ℚ)),
      ((setPlan c plan).toOption.map (fun r => r.2.plan_iter)).getD c.plan_iter
        = c.plan_iter) ∧
    exReplanned.toOption.map (fun c => (c.current_plan, c.plan_iter))
      = some ([exPose 1 0], 2) ∧
    (match exReplanned with
      | .ok c => updatePlanPos exLibm2 2000000001 c (exPose 1 0) (.fin 0)
      | .error e => .error e) = .error .undefinedBehaviour := by
  refine ⟨?_, ?_, ?_⟩
  · intro c plan
    unfold setPlan
    by_cases h : (!plan.isEmpty) = true
    · simp only [h, if_true]
      cases (plan.eraseIdx 0).getLast? <;> rfl
    · simp only [h]
      rfl
  · decide!
  · decide!

/-! ## The planner: the poses of the plan -/

theorem posesOfPath_eq_posesAlong {R : Type} (env : MeshMap R) (header : Header) :
    ∀ (rest : Path R) (vec : Vector R) (fH : FaceHandle) (plan : List (PoseStamped R)),
      posesOfPath env header vec fH rest plan
        = plan ++ posesAlong env header ((vec, fH) :: rest) := by
  intro rest
  induction rest with
  | nil => intro vec fH plan; simp [posesOfPath, posesAlong]
  | cons next rest ih =>
    intro vec fH plan
    unfold posesOfPath
    dsimp only
    rw [ih]
    simp [posesAlong]

theorem posesAlong_length {R : Type} (env : MeshMap R) (header : Header) :
    ∀ (pts : Path R), (posesAlong env header pts).length = pts.length - 1 := by
  intro pts
  induction pts with
  | nil => rfl
  | cons a rest ih =>
    cases rest with
    | nil => rfl
    | cons b rest =>
      simp only [posesAlong, List.length_cons, ih]
      simp

theorem posesAlong_get {R : Type} (env : MeshMap R) (header : Header) :
    ∀ (pts : Path R) (i : Nat) (a b : Vector R × FaceHandle),
      pts.get? i = some a → pts.get? (i + 1) = some b →
      (posesAlong env header pts).get? i
        = some ⟨header, (env.calculatePoseFromPosition a.1 b.1 (env.faceNormals a.2)).1,
            (env.calculatePoseFromPosition a.1 b.1 (env.faceNormals a.2)).2⟩ := by
  intro pts
  induction pts with
  | nil => intro i a b ha; simp at ha
  | cons x rest ih =>
    intro i a b ha hb
    cases rest with
    | nil => simp at hb
    | cons y rest =>
      cases i with
      | zero =>
        simp only [List.get?_cons_zero, Option.some.injEq] at ha
        simp only [List.get?_cons_succ, List.get?_cons_zero, Option.some.injEq] at hb
        subst ha
        subst hb
        simp [posesAlong]
      | succ i =>
        simp only [List.get?_cons_succ] at ha hb
        have h := ih i a b ha (by simpa using hb)
        simpa [posesAlong] using h

theorem traceLoop_path {R : Type} [LinearOrderedField R] (env : MeshMap R)
    (cancelAt : Nat → Bool) (start : Vector R) (step_width : FP R) :
    ∀ (fuel : Nat) (t r : Trace R),
      traceLoop env cancelAt start step_width fuel t = .ok (.inl r) →
      ∃ pre, r.path = pre ++ t.path := by
  intro fuel
  induction fuel with
  | zero => intro t r h; simp [traceLoop] at h
  | succ fuel ih =>
    intro t r h
    unfold traceLoop at h
    split at h
    · dsimp only at h
      split at h
      · split at h
        · next pos face _ =>
          obtain ⟨pre, hpre⟩ := ih _ _ h
          exact ⟨pre ++ [(pos, face)], by rw [hpre]; simp⟩
        · cases h
      · simp only [Except.ok.injEq, Sum.inl.injEq] at h
        exact ⟨[], by rw [← h]; rfl⟩
    · simp only [Except.ok.injEq, Sum.inl.injEq] at h
      exact ⟨[], by rw [← h]; rfl⟩

/-- On the outcome `SUCCESS` the path of `waveFrontPropagation` begins at
its start and ends at its goal. -/
theorem waveFrontPropagation_success_path {R : Type} [LinearOrderedField R]
    (codes : GetPathResult) (env : MeshMap R) (m : Libm R) (cancelAt : Nat → Bool)
    (fuel : Nat) (p : MeshPlanner R) (start goal : Vector R)
    (edge_weights : EdgeHandle → FP R) (path0 : Path R)
    (path : Path R) (p1 : MeshPlanner R)
    (hcodes : codes.SUCCESS ∉
      [codes.INVALID_START, codes.INVALID_GOAL, 1, codes.CANCELED, codes.NO_PATH_FOUND])
    (hw : waveFrontPropagation codes env m cancelAt fuel p start goal edge_weights path0
      = .ok (codes.SUCCESS, path, p1)) :
    ∃ sf gf mid, path = (start, sf) :: mid ++ [(goal, gf)] := by
  simp only [List.mem_cons, List.mem_singleton, List.not_mem_nil, or_false, not_or] at hcodes
  obtain ⟨h1, h2, h3, h4, h5⟩ := hcodes
  unfold waveFrontPropagation at hw
  dsimp only at hw
  split at hw
  · simp only [Except.ok.injEq, Prod.mk.injEq] at hw
    exact absurd hw.1.symm h1
  · next start_face _ =>
    split at hw
    · simp only [Except.ok.injEq, Prod.mk.injEq] at hw
      exact absurd hw.1.symm h2
    · next goal_face _ =>
      split at hw
      · simp only [Except.ok.injEq, Prod.mk.injEq] at hw
        exact absurd hw.1.symm h3
      · split at hw
        · cases hw
        · split at hw
          · cases hw
          · split at hw
            · simp only [Except.ok.injEq, Prod.mk.injEq] at hw
              exact absurd hw.1.symm h4
            · split at hw
              · cases hw
              · split at hw
                · cases hw
                · split at hw
                  · simp only [Except.ok.injEq, Prod.mk.injEq] at hw
                    exact absurd hw.1.symm h5
                  · split at hw
                    · cases hw
                    · simp only [Except.ok.injEq, Prod.mk.injEq] at hw
                      exact absurd hw.1.symm h5
                    · next t ht =>
                      obtain ⟨pre, hpre⟩ := traceLoop_path env cancelAt _ _ _ _ _ ht
                      split at hw
                      · simp only [Except.ok.injEq, Prod.mk.injEq] at hw
                        exact absurd hw.1.symm h4
                      · simp only [Except.ok.injEq, Prod.mk.injEq] at hw
                        refine ⟨start_face, goal_face, pre, ?_⟩
                        rw [← hw.2.1, hpre]
                        rfl

/-- C35: `makePlan` returns the outcome of the propagation unchanged and
appends to the plan the poses along the reversed path: one pose for every
point but the last, the pose number `i` computed from the point number `i`,
the point number `i + 1` and the normal of the face of the point number
`i`.  On the outcome `SUCCESS` the reversed path begins at the position of
the start pose and ends at the position of the goal pose. -/
theorem makePlan_poses_along_path {R : Type} [LinearOrderedField R]
    (codes : GetPathResult) (env : MeshMap R) (m : Libm R) (cancelAt : Nat → Bool)
    (fuel : Nat) (now : Nat) (p : MeshPlanner R) (start goal : PoseStamped R)
    (tolerance : FP R) (plan : List (PoseStamped R))
    (outcome : Nat) (path : Path R) (p1 : MeshPlanner R)
    (hcodes : codes.SUCCESS ∉
      [codes.INVALID_START, codes.INVALID_GOAL, 1, codes.CANCELED, codes.NO_PATH_FOUND])
    (hw : waveFrontPropagation3 codes env m cancelAt fuel p goal.position start.position []
      = .ok (outcome, path, p1)) :
    makePlan codes env m cancelAt fuel now p start goal tolerance plan
      = .ok (outcome, plan ++ posesAlong env ⟨now, env.mapFrame⟩ path.reverse, FP.lit 0, p1) ∧
    (posesAlong env ⟨now, env.mapFrame⟩ path.reverse).length = path.length - 1 ∧
    (∀ (i : Nat) (a b : Vector R × FaceHandle),
      path.reverse.get? i = some a → path.reverse.get? (i + 1) = some b →
      (posesAlong env ⟨now, env.mapFrame⟩ path.reverse).get? i
        = some ⟨⟨now, env.mapFrame⟩,
            (env.calculatePoseFromPosition a.1 b.1 (env.faceNormals a.2)).1,
            (env.calculatePoseFromPosition a.1 b.1 (env.faceNormals a.2)).2⟩) ∧
    (outcome = codes.SUCCESS →
      ∃ start_face goal_face mid,
        path.reverse = (start.position, start_face) :: mid ++ [(goal.position, goal_face)]) := by
  refine ⟨?_, ?_, ?_, ?_⟩
  · unfold makePlan
    dsimp only
    rw [hw]
    dsimp only
    cases hr : path.reverse with
    | nil => simp [posesAlong]
    | cons front rest =>
      dsimp only
      rw [posesOfPath_eq_posesAlong]
  · rw [posesAlong_length, List.length_reverse]
  · exact posesAlong_get env _ _
  · intro hout
    subst hout
    obtain ⟨sf, gf, mid, hpath⟩ := waveFrontPropagation_success_path codes env m cancelAt fuel
      p goal.position start.position env.edgeDistances [] path p1 hcodes hw
    refine ⟨gf, sf, mid.reverse, ?_⟩
    rw [hpath]
    simp

theorem exPlanRun_eq : exPlanRun = .ok (0, [(exPoint 2 (29 / 20), 0), (exPoint 2 (31 / 20), 1)],
    exPlanned) := by
  have hok : exPlanRun.toOption.map (fun r => (r.1, r.2.1))
      = some (0, [(exPoint 2 (29 / 20), 0), (exPoint 2 (31 / 20), 1)]) := by decide!
  unfold exPlanned
  revert hok
  cases exPlanRun with
  | ok r =>
    intro hok
    simp only [Except.toOption, Option.map_some', Option.some.injEq, Prod.mk.injEq] at hok
    obtain ⟨r1, r2, r3⟩ := r
    simp only at hok
    rw [hok.1, hok.2]
  | error e => intro hok; cases hok

theorem makePlan_poses_along_path_witness :
    makePlan {} exLethalStrip exLibm2 (fun _ => false) 20 7 (exPlanner exLethalStrip)
        (exPose 2 (31 / 20)) (exPose 2 (29 / 20)) (.fin 0) []
      = .ok (0, [] ++ posesAlong exLethalStrip ⟨7, exLethalStrip.mapFrame⟩
          [(exPoint 2 (29 / 20), 0), (exPoint 2 (31 / 20), 1)].reverse, FP.lit 0, exPlanned) ∧
    (posesAlong exLethalStrip ⟨7, exLethalStrip.mapFrame⟩
      [(exPoint 2 (29 / 20), 0), (exPoint 2 (31 / 20), 1)].reverse).length = 2 - 1 ∧
    (∀ (i : Nat) (a b : Vector ℚ × FaceHandle),
      [(exPoint 2 (29 / 20), 0), (exPoint 2 (31 / 20), 1)].reverse.get? i = some a →
      [(exPoint 2 (29 / 20), 0), (exPoint 2 (31 / 20), 1)].reverse.get? (i + 1) = some b →
      (posesAlong exLethalStrip ⟨7, exLethalStrip.mapFrame⟩
        [(exPoint 2 (29 / 20), 0), (exPoint 2 (31 / 20), 1)].reverse).get? i
        = some ⟨⟨7, exLethalStrip.mapFrame⟩,
            (exLethalStrip.calculatePoseFromPosition a.1 b.1 (exLethalStrip.faceNormals a.2)).1,
            (exLethalStrip.calculatePoseFromPosition a.1 b.1
              (exLethalStrip.faceNormals a.2)).2⟩) ∧
    ((0 : Nat) = ({} : GetPathResult).SUCCESS →
      ∃ start_face goal_face mid,
        [(exPoint 2 (29 / 20), 0), (exPoint 2 (31 / 20), 1)].reverse
          = ((exPose 2 (31 / 20)).position, start_face) :: mid
              ++ [((exPose 2 (29 / 20)).position, goal_face)]) :=
  makePlan_poses_along_path {} exLethalStrip exLibm2 (fun _ => false) 20 7
    (exPlanner exLethalStrip) (exPose 2 (31 / 20)) (exPose 2 (29 / 20)) (.fin 0) []
    0 [(exPoint 2 (29 / 20), 0), (exPoint 2 (31 / 20), 1)] exPlanned (by decide) exPlanRun_eq

/-! ## The sweep: termination -/

/-- Whatever the calls of `cancel()`, the sweep loop ends when the fuel
exceeds the measure. -/
theorem sweepLoop_ends {R : Type} [LinearOrderedField R] (env : MeshMap R) (m : Libm R)
    (cancelAt : Nat → Bool) (edge_weights : EdgeHandle → FP R) (goal_face : FaceHandle)
    (C : VertexHandle → Prop) (hC : ClosedUnder env C) :
    ∀ (fuel : Nat) (s : Sweep R), SweepInv env C s → sweepMeasure env s < fuel →
      ∃ s1, sweepLoop env m cancelAt edge_weights goal_face fuel s = .ok s1 := by
  intro fuel
  induction fuel with
  | zero => intro s _ hlt; omega
  | succ fuel ih =>
    intro s h hlt
    unfold sweepLoop
    by_cases hne : s.pq.isEmpty = true
    · simp only [hne, Bool.not_true, Bool.false_eq_true, if_false]
      exact ⟨s, rfl⟩
    · have hne1 : s.pq.isEmpty = false := by simpa using hne
      simp only [hne1, Bool.not_false, if_true]
      by_cases hc : cancelAt s.reads = true
      · simp only [observeCancel, hc, if_true, MeshPlanner.cancel, Bool.not_true,
          Bool.false_and, Bool.false_eq_true, if_false]
        exact ⟨_, rfl⟩
      · have hc1 : cancelAt s.reads = false := by simpa using hc
        simp only [observeCancel, hc1, Bool.false_eq_true, if_false]
        have h0 : SweepInv env C { s with planner := s.planner, reads := s.reads + 1 } :=
          ⟨h.fixedC, h.keysC, h.keysV, h.potV, h.outside, h.predSome, h.dirSome, h.flag,
            h.potSome⟩
        by_cases hg : s.goal_face_fixed = true
        · simp only [h.flag, hg, Bool.not_true, Bool.and_false, Bool.false_eq_true, if_false]
          exact ⟨_, rfl⟩
        · have hg1 : s.goal_face_fixed = false := by simpa using hg
          simp only [h.flag, hg1, Bool.not_false, Bool.and_self, if_true]
          obtain ⟨s1, hs1, hinv1, hm1, _⟩ := sweepStep_step env m edge_weights goal_face C hC
            { s with planner := s.planner, reads := s.reads + 1 } h0 hne1
          rw [hg1] at hs1
          rw [hs1]
          dsimp only
          have hms : sweepMeasure env { s with planner := s.planner, reads := s.reads + 1 }
              = sweepMeasure env s := rfl
          exact ih s1 hinv1 (by omega)

/-- The pops of the sweep loop are at most as many as the measure. -/
theorem sweepPops_length {R : Type} [LinearOrderedField R] (env : MeshMap R) (m : Libm R)
    (edge_weights : EdgeHandle → FP R) (goal_face : FaceHandle) (C : VertexHandle → Prop)
    (hC : ClosedUnder env C) :
    ∀ (k : Nat) (s : Sweep R), SweepInv env C s →
      (sweepPops env m edge_weights goal_face k s).length ≤ sweepMeasure env s := by
  intro k
  induction k with
  | zero => intro s h; simp [sweepPops]
  | succ k ih =>
    intro s h
    unfold sweepPops
    split
    · next hcond =>
      simp only [Bool.and_eq_true, Bool.not_eq_true'] at hcond
      have h0 : SweepInv env C { s with reads := s.reads + 1 } :=
        ⟨h.fixedC, h.keysC, h.keysV, h.potV, h.outside, h.predSome, h.dirSome, h.flag,
          h.potSome⟩
      obtain ⟨s1, hs1, hinv1, hm1, _⟩ := sweepStep_step env m edge_weights goal_face C hC _ h0
        hcond.1.1
      have hms : sweepMeasure env { s with reads := s.reads + 1 } = sweepMeasure env s := rfl
      split
      · simp
      · rw [hs1]
        dsimp only
        have h2 := ih s1 hinv1
        simp only [List.length_cons]
        omega
    · simp

/-- C38: on every mesh, which has finitely many vertices, and whatever the
calls of `cancel()`, the sweep that follows the seeding ends: with a fuel of
`2 * |V| + 4` iterations the loop returns, and the loop pops at most
`2 * |V| + 3` entries from the queue.  The vertices of the start face are
vertices of the mesh and `initialize` has sized the map `direction`. -/
theorem sweepLoop_terminates_on_every_mesh {R : Type} [LinearOrderedField R]
    (env : MeshMap R) (m : Libm R) (cancelAt : Nat → Bool) (edge_weights : EdgeHandle → FP R)
    (goal_face : FaceHandle) (p : MeshPlanner R) (start : Vector R) (start_face : FaceHandle)
    (fuel : Nat)
    (hsv : ∀ v, v ∈ faceVertices env start_face → v ∈ env.vertices)
    (hdir : ∀ v, v ∈ env.vertices → (p.direction v).isSome = true)
    (hfuel : 2 * env.vertices.length + 4 ≤ fuel) :
    ∃ s0, sweepInit env m { p with cancel_planning := false, potential := VMap.empty,
                                   predecessors := VMap.empty } start start_face = .ok s0 ∧
      (∃ s1, sweepLoop env m cancelAt edge_weights goal_face fuel s0 = .ok s1) ∧
      (∀ k, (sweepPops env m edge_weights goal_face k s0).length
        ≤ 2 * env.vertices.length + 3) := by
  obtain ⟨s0, hs0, hinv, hm, _⟩ := sweepInit_spec env m
    { p with cancel_planning := false, potential := VMap.empty, predecessors := VMap.empty }
    start start_face rfl rfl rfl hsv hdir
  refine ⟨s0, hs0, ?_, ?_⟩
  · exact sweepLoop_ends env m cancelAt edge_weights goal_face _ (inComponent_closed env _)
      fuel s0 hinv (by omega)
  · intro k
    have h := sweepPops_length env m edge_weights goal_face _ (inComponent_closed env _)
      k s0 hinv
    omega

theorem sweepLoop_terminates_on_every_mesh_witness :
    ∃ s0, sweepInit exStrip exLibm
        { exPlanner exStrip with cancel_planning := false, potential := VMap.empty,
                                 predecessors := VMap.empty } (exPoint 0 0) 0 = .ok s0 ∧
      (∃ s1, sweepLoop exStrip exLibm (fun j => j == 2) exStrip.edgeDistances 2 14 s0
        = .ok s1) ∧
      (∀ k, (sweepPops exStrip exLibm exStrip.edgeDistances 2 k s0).length
        ≤ 2 * exStrip.vertices.length + 3) :=
  sweepLoop_terminates_on_every_mesh exStrip exLibm (fun j => j == 2) exStrip.edgeDistances 2
    (exPlanner exStrip) (exPoint 0 0) 0 14
    (by intro v hv; revert hv; revert v; decide)
    (by intro v hv; revert hv; revert v; decide)
    (by decide)

/-! ## The sweep: what every iteration keeps -/

theorem foldl_invariant {σ α : Type} (I : σ → Prop) (f : σ → α → σ)
    (hf : ∀ s x, I s → I (f s x)) : ∀ (l : List α) (s : σ), I s → I (l.foldl f s) := by
  intro l
  induction l with
  | nil => intro s h; exact h
  | cons x rest ih => intro s h; exact ih _ (hf s x h)

/-- A property of the state of the sweep that the writes of a face keep is
kept by the body of the loop over the faces: the update is only called with
two fixed vertices and one that is not fixed. -/
theorem processFace_invariant {R : Type} [LinearOrderedField R] (env : MeshMap R) (m : Libm R)
    (edge_weights : EdgeHandle → FP R) (goal_face : FaceHandle) (I : Sweep R → Prop)
    (hupd : ∀ s v1 v2 v3, I s → s.fixed v1 = true → s.fixed v2 = true → s.fixed v3 = false →
      I (updateFace env m edge_weights s v1 v2 v3))
    (hgoal : ∀ s, I s → I { s with goal_face_fixed := true })
    (s : Sweep R) (fh : FaceHandle) (h : I s) :
    I (processFace env m edge_weights goal_face s fh) := by
  unfold processFace
  dsimp only
  split
  · exact h
  · split
    · exact h
    · split
      · split
        · exact hgoal s h
        · exact h
      · split
        · next hc =>
          simp only [Bool.and_eq_true, Bool.not_eq_true'] at hc
          exact hupd s _ _ _ h hc.1.1 hc.1.2 hc.2
        · split
          · next hc =>
            simp only [Bool.and_eq_true, Bool.not_eq_true'] at hc
            exact hupd s _ _ _ h hc.2 hc.1.1 hc.1.2
          · split
            · next hc =>
              simp only [Bool.and_eq_true, Bool.not_eq_true'] at hc
              exact hupd s _ _ _ h hc.1.2 hc.2 hc.1.1
            · exact h

theorem processNeighbour_invariant {R : Type} [LinearOrderedField R] (env : MeshMap R)
    (m : Libm R) (edge_weights : EdgeHandle → FP R) (goal_face : FaceHandle)
    (I : Sweep R → Prop)
    (hupd : ∀ s v1 v2 v3, I s → s.fixed v1 = true → s.fixed v2 = true → s.fixed v3 = false →
      I (updateFace env m edge_weights s v1 v2 v3))
    (hgoal : ∀ s, I s → I { s with goal_face_fixed := true })
    (s : Sweep R) (nh : VertexHandle) (h : I s) :
    I (processNeighbour env m edge_weights goal_face s nh) := by
  unfold processNeighbour
  split
  · exact h
  · split
    · exact h
    · split
      · exact h
      · exact foldl_invariant I _
          (fun s x hs => processFace_invariant env m edge_weights goal_face I hupd hgoal s x hs)
          _ s h

theorem sweepStep_invariant {R : Type} [LinearOrderedField R] (env : MeshMap R)
    (m : Libm R) (edge_weights : EdgeHandle → FP R) (goal_face : FaceHandle)
    (I : Sweep R → Prop)
    (hupd : ∀ s v1 v2 v3, I s → s.fixed v1 = true → s.fixed v2 = true → s.fixed v3 = false →
      I (updateFace env m edge_weights s v1 v2 v3))
    (hgoal : ∀ s, I s → I { s with goal_face_fixed := true })
    (hpop : ∀ s entry pq1, I s → s.pq.popMin = some (entry, pq1) →
      I { s with pq := pq1, fixed := fun v => if v = entry.1 then true else s.fixed v })
    (s s1 : Sweep R) (h : I s)
    (hstep : sweepStep env m edge_weights goal_face s = .ok s1) : I s1 := by
  unfold sweepStep at hstep
  split at hstep
  · cases hstep
  · next entry pq1 hpopeq =>
    dsimp only at hstep
    have h1 := hpop s entry pq1 h hpopeq
    split at hstep
    · simp only [Except.ok.injEq] at hstep
      exact hstep ▸ h1
    · simp only [Except.ok.injEq] at hstep
      rw [← hstep]
      exact foldl_invariant I _
        (fun s x hs => processNeighbour_invariant env m edge_weights goal_face I hupd hgoal
          s x hs) _ _ h1

/-- A property of the state of the sweep that a pop, a write of
`goal_face_fixed`, a read of `cancel_planning` and an update with two fixed
vertices and one that is not fixed keep, holds after every number of
iterations. -/
theorem sweepRun_invariant {R : Type} [LinearOrderedField R] (env : MeshMap R)
    (m : Libm R) (edge_weights : EdgeHandle → FP R) (goal_face : FaceHandle)
    (I : Sweep R → Prop)
    (hupd : ∀ s v1 v2 v3, I s → s.fixed v1 = true → s.fixed v2 = true → s.fixed v3 = false →
      I (updateFace env m edge_weights s v1 v2 v3))
    (hgoal : ∀ s, I s → I { s with goal_face_fixed := true })
    (hpop : ∀ s entry pq1, I s → s.pq.popMin = some (entry, pq1) →
      I { s with pq := pq1, fixed := fun v => if v = entry.1 then true else s.fixed v })
    (hreads : ∀ s, I s → I { s with reads := s.reads + 1 }) :
    ∀ (k : Nat) (s sk : Sweep R), I s →
      sweepRun env m edge_weights goal_face k s = some sk → I sk := by
  intro k
  induction k with
  | zero =>
    intro s sk h hrun
    simp only [sweepRun, Option.some.injEq] at hrun
    exact hrun ▸ h
  | succ k ih =>
    intro s sk h hrun
    unfold sweepRun at hrun
    split at hrun
    · split at hrun
      · next s1 hs1 =>
        exact ih s1 sk (sweepStep_invariant env m edge_weights goal_face I hupd hgoal hpop
          _ s1 (hreads s h) hs1) hrun
      · cases hrun
    · cases hrun

/-! ## The sweep: the magnitude of the costs -/

theorem updateFace_config {R : Type} [LinearOrderedField R] (env : MeshMap R) (m : Libm R)
    (edge_weights : EdgeHandle → FP R) (s : Sweep R) (v1 v2 v3 : VertexHandle) :
    (updateFace env m edge_weights s v1 v2 v3).planner.config = s.planner.config := by
  have hf := waveFrontUpdate_frame env m edge_weights s.planner v1 v2 v3
  unfold updateFace
  split
  · next p heq =>
    rw [heq] at hf
    split <;> exact hf.config
  · next p r _ heq =>
    rw [heq] at hf
    exact hf.config

theorem initLoop_config {R : Type} (l : List VertexHandle) :
    ∀ p : MeshPlanner R, (initLoop l p).config = p.config := by
  induction l with
  | nil => intro p; rfl
  | cons v rest ih => intro p; unfold initLoop; rw [ih]

theorem seedLoop_config {R : Type} [LinearOrderedField R] (env : MeshMap R) (m : Libm R)
    (start : Vector R) (start_face : FaceHandle) (l : List VertexHandle) :
    ∀ (s s1 : Sweep R), seedLoop env m start start_face l s = .ok s1 →
      s1.planner.config = s.planner.config := by
  induction l with
  | nil =>
    intro s s1 h
    simp only [seedLoop, Except.ok.injEq] at h
    rw [← h]
  | cons v rest ih =>
    intro s s1 h
    unfold seedLoop at h
    dsimp only at h
    split at h
    · cases h
    · have h2 := ih _ _ h
      exact h2

theorem sweepInit_config {R : Type} [LinearOrderedField R] (env : MeshMap R) (m : Libm R)
    (p : MeshPlanner R) (start : Vector R) (start_face : FaceHandle) (s0 : Sweep R)
    (h : sweepInit env m p start start_face = .ok s0) : s0.planner.config = p.config := by
  unfold sweepInit at h
  dsimp only at h
  rw [seedLoop_config env m start start_face _ _ _ h]
  exact initLoop_config _ _

theorem storeCuttingFace_costs {R : Type} [LinearOrderedField R] (env : MeshMap R)
    (costs2 : VertexHandle → FP R) (p : MeshPlanner R) (v3 : VertexHandle) (S : FP R)
    (f0 : FaceHandle) (f1 : Option FaceHandle) (dir1 : FP R)
    (hagree : ∀ v, FP.le (costs2 v) p.config.cost_limit
      = FP.le (env.vertexCosts v) p.config.cost_limit) :
    storeCuttingFace { env with vertexCosts := costs2 } p v3 S f0 f1 dir1
      = storeCuttingFace env p v3 S f0 f1 dir1 := by
  unfold storeCuttingFace
  dsimp only
  rw [hagree v3]

theorem writePredecessor_costs {R : Type} [LinearOrderedField R] (env : MeshMap R)
    (costs2 : VertexHandle → FP R) (m : Libm R) (p1 : MeshPlanner R)
    (v1 v2 v3 : VertexHandle) (a b c : FP R) (g : Unfolding R)
    (hagree : ∀ v, FP.le (costs2 v) p1.config.cost_limit
      = FP.le (env.vertexCosts v) p1.config.cost_limit) :
    writePredecessor { env with vertexCosts := costs2 } m p1 v1 v2 v3 a b c g
      = writePredecessor env m p1 v1 v2 v3 a b c g := by
  unfold writePredecessor
  dsimp only
  split
  · rfl
  · split
    · split
      · rfl
      · split
        · rfl
        · split
          · rfl
          · exact storeCuttingFace_costs env costs2 _ _ _ _ _ _ hagree
    · rfl

theorem waveFrontUpdate_costs {R : Type} [LinearOrderedField R] (env : MeshMap R)
    (costs2 : VertexHandle → FP R) (m : Libm R) (edge_weights : EdgeHandle → FP R)
    (p : MeshPlanner R) (v1 v2 v3 : VertexHandle)
    (hagree : ∀ v, FP.le (costs2 v) p.config.cost_limit
      = FP.le (env.vertexCosts v) p.config.cost_limit) :
    waveFrontUpdate { env with vertexCosts := costs2 } m edge_weights p v1 v2 v3
      = waveFrontUpdate env m edge_weights p v1 v2 v3 := by
  unfold waveFrontUpdate
  dsimp only
  split
  · split
    · split
      · exact writePredecessor_costs env costs2 m _ _ _ _ _ _ _ _ hagree
      · rfl
    · rfl
  · rfl

theorem updateFace_costs {R : Type} [LinearOrderedField R] (env : MeshMap R)
    (costs2 : VertexHandle → FP R) (m : Libm R) (edge_weights : EdgeHandle → FP R)
    (s : Sweep R) (v1 v2 v3 : VertexHandle)
    (hagree : ∀ v, FP.le (costs2 v) s.planner.config.cost_limit
      = FP.le (env.vertexCosts v) s.planner.config.cost_limit) :
    updateFace { env with vertexCosts := costs2 } m edge_weights s v1 v2 v3
      = updateFace env m edge_weights s v1 v2 v3 := by
  unfold updateFace
  rw [waveFrontUpdate_costs env costs2 m edge_weights s.planner v1 v2 v3 hagree]

theorem processFace_costs {R : Type} [LinearOrderedField R] (env : MeshMap R)
    (costs2 : VertexHandle → FP R) (m : Libm R) (edge_weights : EdgeHandle → FP R)
    (goal_face : FaceHandle) (s : Sweep R) (fh : FaceHandle)
    (hagree : ∀ v, FP.le (costs2 v) s.planner.config.cost_limit
      = FP.le (env.vertexCosts v) s.planner.config.cost_limit) :
    processFace { env with vertexCosts := costs2 } m edge_weights goal_face s fh
      = processFace env m edge_weights goal_face s fh := by
  unfold processFace
  dsimp only
  simp only [updateFace_costs env costs2 m edge_weights s _ _ _ hagree]

theorem foldl_congr_invariant {σ α : Type} (I : σ → Prop) (f g : σ → α → σ)
    (hfg : ∀ s x, I s → f s x = g s x) (hI : ∀ s x, I s → I (g s x)) :
    ∀ (l : List α) (s : σ), I s → l.foldl f s = l.foldl g s := by
  intro l
  induction l with
  | nil => intro s _; rfl
  | cons x rest ih =>
    intro s h
    simp only [List.foldl_cons]
    rw [hfg s x h]
    exact ih _ (hI s x h)

theorem processFace_config {R : Type} [LinearOrderedField R] (env : MeshMap R) (m : Libm R)
    (edge_weights : EdgeHandle → FP R) (goal_face : FaceHandle) (cfg : MeshPlannerConfig R)
    (s : Sweep R) (fh : FaceHandle) (h : s.planner.config = cfg) :
    (processFace env m edge_weights goal_face s fh).planner.config = cfg :=
  processFace_invariant env m edge_weights goal_face (fun s => s.planner.config = cfg)
    (fun s v1 v2 v3 hs _ _ _ => (updateFace_config env m edge_weights s v1 v2 v3).trans hs)
    (fun s hs => hs) s fh h

theorem processNeighbour_config {R : Type} [LinearOrderedField R] (env : MeshMap R)
    (m : Libm R) (edge_weights : EdgeHandle → FP R) (goal_face : FaceHandle)
    (cfg : MeshPlannerConfig R) (s : Sweep R) (nh : VertexHandle)
    (h : s.planner.config = cfg) :
    (processNeighbour env m edge_weights goal_face s nh).planner.config = cfg :=
  processNeighbour_invariant env m edge_weights goal_face (fun s => s.planner.config = cfg)
    (fun s v1 v2 v3 hs _ _ _ => (updateFace_config env m edge_weights s v1 v2 v3).trans hs)
    (fun s hs => hs) s nh h

theorem sweepStep_config {R : Type} [LinearOrderedField R] (env : MeshMap R)
    (m : Libm R) (edge_weights : EdgeHandle → FP R) (goal_face : FaceHandle)
    (cfg : MeshPlannerConfig R) (s s1 : Sweep R) (h : s.planner.config = cfg)
    (hstep : sweepStep env m edge_weights goal_face s = .ok s1) : s1.planner.config = cfg :=
  sweepStep_invariant env m edge_weights goal_face (fun s => s.planner.config = cfg)
    (fun s v1 v2 v3 hs _ _ _ => (updateFace_config env m edge_weights s v1 v2 v3).trans hs)
    (fun s hs => hs) (fun s _ _ hs _ => hs) s s1 h hstep

theorem processNeighbour_costs {R : Type} [LinearOrderedField R] (env : MeshMap R)
    (costs2 : VertexHandle → FP R) (m : Libm R) (edge_weights : EdgeHandle → FP R)
    (goal_face : FaceHandle) (cfg : MeshPlannerConfig R)
    (hagree : ∀ v, FP.le (costs2 v) cfg.cost_limit = FP.le (env.vertexCosts v) cfg.cost_limit)
    (s : Sweep R) (nh : VertexHandle) (h : s.planner.config = cfg) :
    processNeighbour { env with vertexCosts := costs2 } m edge_weights goal_face s nh
      = processNeighbour env m edge_weights goal_face s nh := by
  unfold processNeighbour
  dsimp only
  split
  · rfl
  · split
    · rfl
    · split
      · rfl
      · exact foldl_congr_invariant (fun s => s.planner.config = cfg) _ _
          (fun s x hs => processFace_costs env costs2 m edge_weights goal_face s x
            (by rw [hs]; exact hagree))
          (fun s x hs => processFace_config env m edge_weights goal_face cfg s x hs) _ s h

theorem sweepStep_costs {R : Type} [LinearOrderedField R] (env : MeshMap R)
    (costs2 : VertexHandle → FP R) (m : Libm R) (edge_weights : EdgeHandle → FP R)
    (goal_face : FaceHandle) (cfg : MeshPlannerConfig R)
    (hagree : ∀ v, FP.le (costs2 v) cfg.cost_limit = FP.le (env.vertexCosts v) cfg.cost_limit)
    (s : Sweep R) (h : s.planner.config = cfg) :
    sweepStep { env with vertexCosts := costs2 } m edge_weights goal_face s
      = sweepStep env m edge_weights goal_face s := by
  unfold sweepStep
  dsimp only
  split
  · rfl
  · split
    · rfl
    · congr 1
      exact foldl_congr_invariant (fun s => s.planner.config = cfg) _ _
        (fun s x hs => processNeighbour_costs env costs2 m edge_weights goal_face cfg hagree
          s x hs)
        (fun s x hs => processNeighbour_config env m edge_weights goal_face cfg s x hs) _ _ h

theorem sweepLoop_costs {R : Type} [LinearOrderedField R] (env : MeshMap R)
    (costs2 : VertexHandle → FP R) (m : Libm R) (cancelAt : Nat → Bool)
    (edge_weights : EdgeHandle → FP R)
    (goal_face : FaceHandle) (cfg : MeshPlannerConfig R)
    (hagree : ∀ v, FP.le (costs2 v) cfg.cost_limit
      = FP.le (env.vertexCosts v) cfg.cost_limit) :
    ∀ (fuel : Nat) (s : Sweep R), s.planner.config = cfg →
      sweepLoop { env with vertexCosts := costs2 } m cancelAt edge_weights goal_face fuel s
        = sweepLoop env m cancelAt edge_weights goal_face fuel s := by
  intro fuel
  induction fuel with
  | zero => intro s _; rfl
  | succ fuel ih =>
    intro s h
    unfold sweepLoop
    dsimp only
    have h0 : (observeCancel cancelAt s.reads s.planner).config = cfg := by
      unfold observeCancel
      split
      · exact h
      · exact h
    rw [sweepStep_costs env costs2 m edge_weights goal_face cfg hagree
      { s with planner := observeCancel cancelAt s.reads s.planner, reads := s.reads + 1 } h0]
    split
    · split
      · cases hstep : sweepStep env m edge_weights goal_face
            { s with planner := observeCancel cancelAt s.reads s.planner,
                     reads := s.reads + 1 } with
        | error e => rfl
        | ok s1 =>
          exact ih s1 (sweepStep_config env m edge_weights goal_face cfg _ s1 h0 hstep)
      · rfl
    · rfl

theorem seedLoop_costs {R : Type} [LinearOrderedField R] (env : MeshMap R)
    (costs2 : VertexHandle → FP R) (m : Libm R) (start : Vector R) (start_face : FaceHandle)
    (l : List VertexHandle) :
    ∀ (s : Sweep R), seedLoop { env with vertexCosts := costs2 } m start start_face l s
      = seedLoop env m start start_face l s := by
  induction l with
  | nil => intro s; rfl
  | cons v rest ih =>
    intro s
    unfold seedLoop
    dsimp only
    split
    · rfl
    · exact ih _

theorem computeVectorMapLoop_costs {R : Type} [LinearOrderedField R] (env : MeshMap R)
    (costs2 : VertexHandle → FP R) (l : List VertexHandle) :
    ∀ (p : MeshPlanner R), computeVectorMapLoop { env with vertexCosts := costs2 } l p
      = computeVectorMapLoop env l p := by
  induction l with
  | nil => intro p; rfl
  | cons v rest ih =>
    intro p
    unfold computeVectorMapLoop
    dsimp only
    split
    · rfl
    · split
      · exact ih _
      · split
        · exact ih _
        · split
          · rfl
          · exact ih _

theorem traceLoop_costs {R : Type} [LinearOrderedField R] (env : MeshMap R)
    (costs2 : VertexHandle → FP R) (cancelAt : Nat → Bool) (start : Vector R)
    (step_width : FP R) :
    ∀ (fuel : Nat) (t : Trace R),
      traceLoop { env with vertexCosts := costs2 } cancelAt start step_width fuel t
        = traceLoop env cancelAt start step_width fuel t := by
  intro fuel
  induction fuel with
  | zero => intro t; rfl
  | succ fuel ih =>
    intro t
    unfold traceLoop
    dsimp only
    split
    · split
      · split
        · exact ih _
        · rfl
      · rfl
    · rfl

/-- C40: the propagation does not depend on the magnitude of the vertex
costs.  For a second cost field that agrees with the costs of the map on
which vertices have a cost up to `cost_limit`, `waveFrontPropagation`
returns the same outcome, the same path and the same planner, with the same
distances, predecessors, cutting faces and angles. -/
theorem waveFrontPropagation_cost_magnitude {R : Type} [LinearOrderedField R]
    (codes : GetPathResult) (env : MeshMap R) (m : Libm R) (cancelAt : Nat → Bool)
    (fuel : Nat) (p : MeshPlanner R) (start goal : Vector R)
    (edge_weights : EdgeHandle → FP R) (path : Path R) (costs2 : VertexHandle → FP R)
    (hagree : ∀ v, FP.le (costs2 v) p.config.cost_limit
      = FP.le (env.vertexCosts v) p.config.cost_limit) :
    waveFrontPropagation codes { env with vertexCosts := costs2 } m cancelAt fuel p start goal
        edge_weights path
      = waveFrontPropagation codes env m cancelAt fuel p start goal edge_weights path := by
  unfold waveFrontPropagation
  dsimp only
  split
  · rfl
  · split
    · rfl
    · split
      · rfl
      · next start_face _ _ goal_face _ _ =>
        have hinit : sweepInit { env with vertexCosts := costs2 } m
            { p with cancel_planning := false, potential := VMap.empty,
                     predecessors := VMap.empty } start start_face
            = sweepInit env m
              { p with cancel_planning := false, potential := VMap.empty,
                       predecessors := VMap.empty } start start_face := by
          unfold sweepInit
          dsimp only
          exact seedLoop_costs env costs2 m start start_face _ _
        rw [hinit]
        cases hs0 : sweepInit env m
            { p with cancel_planning := false, potential := VMap.empty,
                     predecessors := VMap.empty } start start_face with
        | error e => rfl
        | ok s0 =>
          dsimp only
          have hcfg : s0.planner.config = p.config := by
            have h2 := sweepInit_config env m _ start start_face s0 hs0
            exact h2
          rw [sweepLoop_costs env costs2 m cancelAt edge_weights goal_face p.config hagree
            fuel s0 hcfg]
          cases hs1 : sweepLoop env m cancelAt edge_weights goal_face fuel s0 with
          | error e => rfl
          | ok s1 =>
            dsimp only
            have hvm : ∀ q, computeVectorMap { env with vertexCosts := costs2 } q
                = computeVectorMap env q := by
              intro q
              unfold computeVectorMap
              exact computeVectorMapLoop_costs env costs2 _ q
            have hfv : ∀ fh, faceVertices { env with vertexCosts := costs2 } fh
                = faceVertices env fh := fun _ => rfl
            simp only [hvm, hfv, traceLoop_costs]

theorem waveFrontPropagation_cost_magnitude_witness :
    waveFrontPropagation {} { exLethalStrip with vertexCosts := exOtherCosts } exLibm2
        (fun _ => false) 20 (exPlanner exLethalStrip) (exPoint 0 0) (exPoint 1 5)
        exLethalStrip.edgeDistances []
      = waveFrontPropagation {} exLethalStrip exLibm2 (fun _ => false) 20
        (exPlanner exLethalStrip) (exPoint 0 0) (exPoint 1 5) exLethalStrip.edgeDistances [] :=
  waveFrontPropagation_cost_magnitude {} exLethalStrip exLibm2 (fun _ => false) 20
    (exPlanner exLethalStrip) (exPoint 0 0) (exPoint 1 5) exLethalStrip.edgeDistances []
    exOtherCosts
    (by
      intro v
      show FP.le (if v = 1 ∨ v = 2 ∨ v = 3 then FP.fin 7 else FP.fin (1 / 2)) (FP.fin 1)
        = FP.le (if v = 1 ∨ v = 2 ∨ v = 3 then FP.fin 2 else FP.fin 0) (FP.fin 1)
      by_cases h : v = 1 ∨ v = 2 ∨ v = 3
      · simp only [h, if_true]
        decide!
      · simp only [h, if_false]
        decide!)

/-! ## The sweep: what an accepted update writes -/

theorem fp_lt_asymm {R : Type} [LinearOrderedField R] (a b : FP R)
    (h : FP.lt a b = true) : FP.lt b a = false := by
  cases a <;> cases b <;> simp_all [FP.lt]
  exact le_of_lt h

/-- The planner after the last statements of `waveFrontUpdate`: distances
and predecessors stay, and the cutting face and the angle of `v3` are
stored by the sign of `S`. -/
theorem storeCuttingFace_fields {R : Type} [LinearOrderedField R] (env : MeshMap R)
    (p : MeshPlanner R) (v3 : VertexHandle) (S : FP R) (f0 : FaceHandle)
    (f1 : Option FaceHandle) (dir1 : FP R) :
    (storeCuttingFace env p v3 S f0 f1 dir1).1.potential = p.potential ∧
    (storeCuttingFace env p v3 S f0 f1 dir1).1.predecessors = p.predecessors ∧
    (∀ f, FP.gt S (FP.lit 0) = true → f1 = some f →
      (storeCuttingFace env p v3 S f0 f1 dir1).2
          = some (FP.le (env.vertexCosts v3) p.config.cost_limit) ∧
        (storeCuttingFace env p v3 S f0 f1 dir1).1.cutting_faces v3 = some f ∧
        (storeCuttingFace env p v3 S f0 f1 dir1).1.direction v3 = some dir1) ∧
    (FP.gt S (FP.lit 0) = true → f1 = none →
      (storeCuttingFace env p v3 S f0 f1 dir1).2 = none ∧
        (storeCuttingFace env p v3 S f0 f1 dir1).1.cutting_faces = p.cutting_faces ∧
        (storeCuttingFace env p v3 S f0 f1 dir1).1.direction v3 = some dir1) ∧
    (FP.gt S (FP.lit 0) = false → FP.lt S (FP.lit 0) = true →
      (storeCuttingFace env p v3 S f0 f1 dir1).2
          = some (FP.le (env.vertexCosts v3) p.config.cost_limit) ∧
        (storeCuttingFace env p v3 S f0 f1 dir1).1.cutting_faces v3 = some f0 ∧
        (storeCuttingFace env p v3 S f0 f1 dir1).1.direction v3
          = some (dir1 * -FP.lit 1)) ∧
    (FP.gt S (FP.lit 0) = false → FP.lt S (FP.lit 0) = false →
      (storeCuttingFace env p v3 S f0 f1 dir1).2
          = some (FP.le (env.vertexCosts v3) p.config.cost_limit) ∧
        (storeCuttingFace env p v3 S f0 f1 dir1).1.cutting_faces v3 = some f0 ∧
        (storeCuttingFace env p v3 S f0 f1 dir1).1.direction v3 = some (FP.lit 0)) := by
  unfold storeCuttingFace
  dsimp only
  by_cases hgt : FP.gt S (FP.lit 0) = true
  · simp only [hgt, if_true]
    cases f1 with
    | none => simp [VMap.insert]
    | some f => simp [VMap.insert]
  · have hgt1 : FP.gt S (FP.lit 0) = false := by simpa using hgt
    simp only [hgt1, Bool.false_eq_true, if_false]
    by_cases hlt : FP.lt S (FP.lit 0) = true
    · simp [hlt, VMap.insert]
    · have hlt1 : FP.lt S (FP.lit 0) = false := by simpa using hlt
      simp [hlt1, VMap.insert]

/-- An accepted update in normal form: when the three distances and the
three edges exist, the candidate is finite and below the distance of `v3`,
the face between the vertices exists, `v3` has a predecessor and an angle,
and `v3` is neither `v1` nor `v2`, then the update stores the candidate as
the distance of `v3`, the nearer of `v1` and `v2` as its predecessor, and
ends with the last statements on the faces of the edge from the
predecessor to `v3`. -/
theorem waveFrontUpdate_accepted {R : Type} [LinearOrderedField R] (env : MeshMap R)
    (m : Libm R) (edge_weights : EdgeHandle → FP R) (p : MeshPlanner R)
    (v1 v2 v3 : VertexHandle) (u1 u2 u3 : FP R) (e12 e13 e23 : EdgeHandle) (f0 : FaceHandle)
    (hu1 : p.potential v1 = some u1) (hu2 : p.potential v2 = some u2)
    (hu3 : p.potential v3 = some u3)
    (he12 : env.getEdgeBetween v1 v2 = some e12) (he13 : env.getEdgeBetween v1 v3 = some e13)
    (he23 : env.getEdgeBetween v2 v3 = some e23)
    (hacc : (FP.isfinite (unfoldTriangle m u1 u2 (edge_weights e23) (edge_weights e13)
        (edge_weights e12)).u3tmp &&
      FP.lt (unfoldTriangle m u1 u2 (edge_weights e23) (edge_weights e13)
        (edge_weights e12)).u3tmp u3) = true)
    (hf0 : env.getFaceBetween v1 v2 v3 = some f0)
    (hpred : (p.predecessors v3).isSome = true) (hdir : (p.direction v3).isSome = true)
    (h13 : v1 ≠ v3) (h23 : v2 ≠ v3) :
    waveFrontUpdate env m edge_weights p v1 v2 v3
      = storeCuttingFace env
          { p with
            potential := VMap.insert p.potential v3
              (unfoldTriangle m u1 u2 (edge_weights e23) (edge_weights e13)
                (edge_weights e12)).u3tmp,
            predecessors := VMap.insert p.predecessors v3 (if FP.lt u1 u2 then v1 else v2),
            direction := VMap.insert p.direction v3
              (turnAngle m (unfoldTriangle m u1 u2 (edge_weights e23) (edge_weights e13)
                (edge_weights e12)) (edge_weights e23) (edge_weights e13) (edge_weights e12)
                (FP.lt u1 u2)) }
          v3
          (halfPlane (unfoldTriangle m u1 u2 (edge_weights e23) (edge_weights e13)
            (edge_weights e12)) (edge_weights e12) (FP.lt u1 u2))
          f0
          (otherFace (env.getFacesOfEdge (if FP.lt u1 u2 then e13 else e23)) f0
            (turnAngle m (unfoldTriangle m u1 u2 (edge_weights e23) (edge_weights e13)
              (edge_weights e12)) (edge_weights e23) (edge_weights e13) (edge_weights e12)
              (FP.lt u1 u2))).1
          (otherFace (env.getFacesOfEdge (if FP.lt u1 u2 then e13 else e23)) f0
            (turnAngle m (unfoldTriangle m u1 u2 (edge_weights e23) (edge_weights e13)
              (edge_weights e12)) (edge_weights e23) (edge_weights e13) (edge_weights e12)
              (FP.lt u1 u2))).2 := by
  unfold waveFrontUpdate
  simp only [hu1, hu2, hu3, he12, he13, he23, hacc, if_true]
  unfold writePredecessor
  simp only [hf0, VMap.insert, h13, h23, if_false, hu1, hu2, VMap.assign]
  cases hp : p.predecessors v3 with
  | none => rw [hp] at hpred; cases hpred
  | some x =>
    dsimp only
    cases hd : p.direction v3 with
    | none => rw [hd] at hdir; cases hdir
    | some y =>
      by_cases hn : FP.lt u1 u2 = true
      · simp only [hn, if_true, he13, hd]
      · have hn1 : FP.lt u1 u2 = false := by simpa using hn
        simp only [hn1, Bool.false_eq_true, if_false, he23, hd]

theorem lit_zero_mul_neg_one {R : Type} [LinearOrderedField R] :
    (FP.lit 0 * -FP.lit 1 : FP R) = FP.lit 0 := by
  show FP.mul (FP.lit 0) (FP.neg (FP.lit 1)) = FP.lit 0
  simp [FP.lit, FP.mul, FP.neg]

theorem otherFace_boundary {R : Type} [LinearOrderedField R]
    (faces : Option FaceHandle × Option FaceHandle) (f0 : FaceHandle) (gamma : FP R)
    (h : faces.1 = none ∨ faces.2 = none) :
    otherFace faces f0 gamma = (some f0, FP.lit 0) := by
  obtain ⟨fa, fb⟩ := faces
  unfold otherFace
  rcases h with h | h
  · simp only at h
    subst h
    rfl
  · simp only at h
    subst h
    cases fa <;> rfl

theorem otherFace_first {R : Type} [LinearOrderedField R]
    (fa fb f0 : FaceHandle) (gamma : FP R) (h : fa ≠ f0) :
    otherFace (some fa, some fb) f0 gamma = (some fa, gamma) := by
  simp [otherFace, h]

theorem otherFace_second {R : Type} [LinearOrderedField R]
    (fa fb f0 : FaceHandle) (gamma : FP R) (h : fa = f0) (h2 : fb ≠ f0) :
    otherFace (some fa, some fb) f0 gamma = (some fb, gamma) := by
  simp [otherFace, h, h2]

theorem otherFace_angle {R : Type} [LinearOrderedField R]
    (fa fb f0 : FaceHandle) (gamma : FP R) :
    (otherFace (some fa, some fb) f0 gamma).2 = gamma := by
  unfold otherFace
  dsimp only
  split
  · rfl
  · split <;> rfl

/-- C32: an accepted update of the vertex `v3` from the vertices `v1` and
`v2` in the face `f0` stores the candidate as the distance of `v3` and, as
its predecessor, `v1` when the distance of `v1` is below that of `v2` and
`v2` otherwise.  With `S` neither above nor below 0 the cutting face is `f0`
and the angle 0; with `S` below 0 the cutting face is `f0` and the angle is
multiplied by -1; with `S` above 0 the cutting face is the other face of the
edge from the predecessor to `v3` with the angle `gamma`, or `f0` with the
angle 0 when that edge has one face only. -/
theorem waveFrontUpdate_predecessor_and_cutting_face {R : Type} [LinearOrderedField R]
    (env : MeshMap R) (m : Libm R) (edge_weights : EdgeHandle → FP R) (p : MeshPlanner R)
    (v1 v2 v3 : VertexHandle) (u1 u2 u3 : FP R) (e12 e13 e23 : EdgeHandle) (f0 : FaceHandle)
    (g : Unfolding R) (S gamma : FP R) (faces : Option FaceHandle × Option FaceHandle)
    (hu1 : p.potential v1 = some u1) (hu2 : p.potential v2 = some u2)
    (hu3 : p.potential v3 = some u3)
    (he12 : env.getEdgeBetween v1 v2 = some e12) (he13 : env.getEdgeBetween v1 v3 = some e13)
    (he23 : env.getEdgeBetween v2 v3 = some e23)
    (hg : g = unfoldTriangle m u1 u2 (edge_weights e23) (edge_weights e13) (edge_weights e12))
    (hacc : (FP.isfinite g.u3tmp && FP.lt g.u3tmp u3) = true)
    (hf0 : env.getFaceBetween v1 v2 v3 = some f0)
    (hpred : (p.predecessors v3).isSome = true) (hdir : (p.direction v3).isSome = true)
    (h13 : v1 ≠ v3) (h23 : v2 ≠ v3)
    (hS : S = halfPlane g (edge_weights e12) (FP.lt u1 u2))
    (hgamma : gamma = turnAngle m g (edge_weights e23) (edge_weights e13) (edge_weights e12)
      (FP.lt u1 u2))
    (hfaces : faces = env.getFacesOfEdge (if FP.lt u1 u2 then e13 else e23)) :
    (waveFrontUpdate env m edge_weights p v1 v2 v3).1.potential v3 = some g.u3tmp ∧
    (waveFrontUpdate env m edge_weights p v1 v2 v3).1.predecessors v3
      = some (if FP.lt u1 u2 then v1 else v2) ∧
    env.getEdgeBetween (if FP.lt u1 u2 then v1 else v2) v3
      = some (if FP.lt u1 u2 then e13 else e23) ∧
    (FP.gt S (FP.lit 0) = false → FP.lt S (FP.lit 0) = false →
      (waveFrontUpdate env m edge_weights p v1 v2 v3).1.cutting_faces v3 = some f0 ∧
      (waveFrontUpdate env m edge_weights p v1 v2 v3).1.direction v3 = some (FP.lit 0)) ∧
    (∀ fa fb, FP.lt S (FP.lit 0) = true → faces = (some fa, some fb) →
      (waveFrontUpdate env m edge_weights p v1 v2 v3).1.cutting_faces v3 = some f0 ∧
      (waveFrontUpdate env m edge_weights p v1 v2 v3).1.direction v3
        = some (gamma * -FP.lit 1)) ∧
    (FP.lt S (FP.lit 0) = true → faces.1 = none ∨ faces.2 = none →
      (waveFrontUpdate env m edge_weights p v1 v2 v3).1.cutting_faces v3 = some f0 ∧
      (waveFrontUpdate env m edge_weights p v1 v2 v3).1.direction v3 = some (FP.lit 0)) ∧
    (∀ fa fb, FP.gt S (FP.lit 0) = true → faces = (some fa, some fb) → fa ≠ f0 →
      (waveFrontUpdate env m edge_weights p v1 v2 v3).1.cutting_faces v3 = some fa ∧
      (waveFrontUpdate env m edge_weights p v1 v2 v3).1.direction v3 = some gamma) ∧
    (∀ fa fb, FP.gt S (FP.lit 0) = true → faces = (some fa, some fb) → fa = f0 → fb ≠ f0 →
      (waveFrontUpdate env m edge_weights p v1 v2 v3).1.cutting_faces v3 = some fb ∧
      (waveFrontUpdate env m edge_weights p v1 v2 v3).1.direction v3 = some gamma) ∧
    (FP.gt S (FP.lit 0) = true → faces.1 = none ∨ faces.2 = none →
      (waveFrontUpdate env m edge_weights p v1 v2 v3).1.cutting_faces v3 = some f0 ∧
      (waveFrontUpdate env m edge_weights p v1 v2 v3).1.direction v3 = some (FP.lit 0)) := by
  subst hg
  have hnf := waveFrontUpdate_accepted env m edge_weights p v1 v2 v3 u1 u2 u3 e12 e13 e23 f0
    hu1 hu2 hu3 he12 he13 he23 hacc hf0 hpred hdir h13 h23
  rw [← hS, ← hgamma, ← hfaces] at hnf
  rw [hnf]
  obtain ⟨hpot, hprd, hpos, _, hneg, hzero⟩ := storeCuttingFace_fields env
    { p with
      potential := VMap.insert p.potential v3
        (unfoldTriangle m u1 u2 (edge_weights e23) (edge_weights e13)
          (edge_weights e12)).u3tmp,
      predecessors := VMap.insert p.predecessors v3 (if FP.lt u1 u2 then v1 else v2),
      direction := VMap.insert p.direction v3 gamma }
    v3 S f0 (otherFace faces f0 gamma).1 (otherFace faces f0 gamma).2
  refine ⟨?_, ?_, ?_, ?_, ?_, ?_, ?_, ?_, ?_⟩
  · rw [hpot]
    exact vmap_insert_same _ _ _
  · rw [hprd]
    exact vmap_insert_same _ _ _
  · by_cases hn : FP.lt u1 u2 = true
    · simp only [hn, if_true]
      exact he13
    · simp only [hn, if_false]
      exact he23
  · intro h1 h2
    exact (hzero h1 h2).2
  · intro fa fb h1 hfs
    have h2 := (hneg (fp_lt_asymm _ _ h1) h1).2
    rw [hfs] at h2 ⊢
    rw [otherFace_angle] at h2 ⊢
    exact h2
  · intro h1 hb
    have h2 := (hneg (fp_lt_asymm _ _ h1) h1).2
    rw [otherFace_boundary faces f0 gamma hb] at h2
    rw [otherFace_boundary faces f0 gamma hb]
    rw [lit_zero_mul_neg_one] at h2
    exact h2
  · intro fa fb h1 hfs hne
    have h2 := (hpos fa h1 (by rw [hfs, otherFace_first fa fb f0 gamma hne])).2
    rw [hfs, otherFace_first fa fb f0 gamma hne] at h2
    rw [hfs, otherFace_first fa fb f0 gamma hne]
    exact h2
  · intro fa fb h1 hfs he hne
    have h2 := (hpos fb h1 (by rw [hfs, otherFace_second fa fb f0 gamma he hne])).2
    rw [hfs, otherFace_second fa fb f0 gamma he hne] at h2
    rw [hfs, otherFace_second fa fb f0 gamma he hne]
    exact h2
  · intro h1 hb
    have h2 := (hpos f0 h1 (by rw [otherFace_boundary faces f0 gamma hb])).2
    rw [otherFace_boundary faces f0 gamma hb] at h2
    rw [otherFace_boundary faces f0 gamma hb]
    exact h2

theorem waveFrontUpdate_predecessor_and_cutting_face_witness :
    (waveFrontUpdate exStrip exLibm3 exLethalStrip.edgeDistances exSeeded.planner 2 1 3).1.potential
        3 = some exUpdate.u3tmp ∧
    (waveFrontUpdate exStrip exLibm3 exLethalStrip.edgeDistances exSeeded.planner 2 1
        3).1.predecessors 3
      = some (if FP.lt (FP.fin (3 : ℚ)) (FP.fin 4) then 2 else 1) ∧
    exStrip.getEdgeBetween (if FP.lt (FP.fin (3 : ℚ)) (FP.fin 4) then 2 else 1) 3
      = some (if FP.lt (FP.fin (3 : ℚ)) (FP.fin 4) then 13 else 8) ∧
    (FP.gt (FP.fin (-12 : ℚ)) (FP.lit 0) = false → FP.lt (FP.fin (-12 : ℚ)) (FP.lit 0) = false →
      (waveFrontUpdate exStrip exLibm3 exLethalStrip.edgeDistances exSeeded.planner 2 1
          3).1.cutting_faces 3 = some 1 ∧
      (waveFrontUpdate exStrip exLibm3 exLethalStrip.edgeDistances exSeeded.planner 2 1
          3).1.direction 3 = some (FP.lit 0)) ∧
    (∀ fa fb, FP.lt (FP.fin (-12 : ℚ)) (FP.lit 0) = true →
      ((some 1, some 2) : Option FaceHandle × Option FaceHandle) = (some fa, some fb) →
      (waveFrontUpdate exStrip exLibm3 exLethalStrip.edgeDistances exSeeded.planner 2 1
          3).1.cutting_faces 3 = some 1 ∧
      (waveFrontUpdate exStrip exLibm3 exLethalStrip.edgeDistances exSeeded.planner 2 1
          3).1.direction 3 = some (FP.fin (-71 / 226 : ℚ) * -FP.lit 1)) ∧
    (FP.lt (FP.fin (-12 : ℚ)) (FP.lit 0) = true →
      ((some 1, some 2) : Option FaceHandle × Option FaceHandle).1 = none ∨
        ((some 1, some 2) : Option FaceHandle × Option FaceHandle).2 = none →
      (waveFrontUpdate exStrip exLibm3 exLethalStrip.edgeDistances exSeeded.planner 2 1
          3).1.cutting_faces 3 = some 1 ∧
      (waveFrontUpdate exStrip exLibm3 exLethalStrip.edgeDistances exSeeded.planner 2 1
          3).1.direction 3 = some (FP.lit 0)) ∧
    (∀ fa fb, FP.gt (FP.fin (-12 : ℚ)) (FP.lit 0) = true →
      ((some 1, some 2) : Option FaceHandle × Option FaceHandle) = (some fa, some fb) →
      fa ≠ 1 →
      (waveFrontUpdate exStrip exLibm3 exLethalStrip.edgeDistances exSeeded.planner 2 1
          3).1.cutting_faces 3 = some fa ∧
      (waveFrontUpdate exStrip exLibm3 exLethalStrip.edgeDistances exSeeded.planner 2 1
          3).1.direction 3 = some (FP.fin (-71 / 226 : ℚ))) ∧
    (∀ fa fb, FP.gt (FP.fin (-12 : ℚ)) (FP.lit 0) = true →
      ((some 1, some 2) : Option FaceHandle × Option FaceHandle) = (some fa, some fb) →
      fa = 1 → fb ≠ 1 →
      (waveFrontUpdate exStrip exLibm3 exLethalStrip.edgeDistances exSeeded.planner 2 1
          3).1.cutting_faces 3 = some fb ∧
      (waveFrontUpdate exStrip exLibm3 exLethalStrip.edgeDistances exSeeded.planner 2 1
          3).1.direction 3 = some (FP.fin (-71 / 226 : ℚ))) ∧
    (FP.gt (FP.fin (-12 : ℚ)) (FP.lit 0) = true →
      ((some 1, some 2) : Option FaceHandle × Option FaceHandle).1 = none ∨
        ((some 1, some 2) : Option FaceHandle × Option FaceHandle).2 = none →
      (waveFrontUpdate exStrip exLibm3 exLethalStrip.edgeDistances exSeeded.planner 2 1
          3).1.cutting_faces 3 = some 1 ∧
      (waveFrontUpdate exStrip exLibm3 exLethalStrip.edgeDistances exSeeded.planner 2 1
          3).1.direction 3 = some (FP.lit 0)) :=
  waveFrontUpdate_predecessor_and_cutting_face exStrip exLibm3 exLethalStrip.edgeDistances
    exSeeded.planner 2 1 3 (.fin 3) (.fin 4) .pinf 7 13 8 1 exUpdate (.fin (-12))
    (.fin (-71 / 226)) (some 1, some 2)
    (by decide!) (by decide!) (by decide!) (by decide!) (by decide!) (by decide!) rfl
    (by decide!) (by decide!) (by decide!) (by decide!) (by decide) (by decide)
    (by decide!) (by decide!) (by decide!)

/-! ## The sweep: the cost limit at the time of the update -/

/-- The update inserts into the queue only a vertex of a cost up to the
limit, so the set `S` of the vertices that are fixed or queued stays inside
any set that has the vertices of a cost up to the limit. -/
theorem updateFace_sweepCore {R : Type} [LinearOrderedField R] (env : MeshMap R) (m : Libm R)
    (edge_weights : EdgeHandle → FP R) (S : VertexHandle → Prop) (limit : FP R)
    (hS : ∀ v, FP.le (env.vertexCosts v) limit = true → S v)
    (s : Sweep R) (v1 v2 v3 : VertexHandle) (h : SweepCore S limit s) :
    SweepCore S limit (updateFace env m edge_weights s v1 v2 v3) := by
  have hcfg := updateFace_config env m edge_weights s v1 v2 v3
  have ht := waveFrontUpdate_true env m edge_weights s.planner v1 v2 v3
  refine ⟨?_, ?_, by rw [hcfg]; exact h.limit⟩
  · unfold updateFace
    split
    · split <;> exact h.fixedS
    · exact h.fixedS
  · unfold updateFace
    split
    · next q heq =>
      rw [heq] at ht
      split
      · intro v hv
        rcases (meap_keys_insert _ _ _ _).mp hv with hk | hk
        · exact h.keysS v hk
        · subst hk
          exact hS _ (by rw [← h.limit]; exact ht rfl)
      · exact h.keysS
    · exact h.keysS

theorem otherFace_some {R : Type} [LinearOrderedField R]
    (faces : Option FaceHandle × Option FaceHandle) (f0 : FaceHandle) (gamma : FP R)
    (h : faces ≠ (some f0, some f0)) : ∃ f, (otherFace faces f0 gamma).1 = some f := by
  obtain ⟨fa, fb⟩ := faces
  unfold otherFace
  cases fa with
  | none => exact ⟨f0, rfl⟩
  | some fa =>
    cases fb with
    | none => exact ⟨f0, rfl⟩
    | some fb =>
      dsimp only
      by_cases h1 : fa = f0
      · by_cases h2 : fb = f0
        · subst h1
          subst h2
          exact absurd rfl h
        · exact ⟨fb, by simp [h1, h2]⟩
      · exact ⟨fa, by simp [h1]⟩

theorem sweepRun_sweepCore {R : Type} [LinearOrderedField R] (env : MeshMap R) (m : Libm R)
    (edge_weights : EdgeHandle → FP R) (goal_face : FaceHandle) (S : VertexHandle → Prop)
    (limit : FP R) (hS : ∀ v, FP.le (env.vertexCosts v) limit = true → S v) :
    ∀ (k : Nat) (s sk : Sweep R), SweepCore S limit s →
      sweepRun env m edge_weights goal_face k s = some sk → SweepCore S limit sk :=
  sweepRun_invariant env m edge_weights goal_face (SweepCore S limit)
    (fun s v1 v2 v3 hs _ _ _ => updateFace_sweepCore env m edge_weights S limit hS s v1 v2 v3 hs)
    (fun s hs => ⟨hs.fixedS, hs.keysS, hs.limit⟩)
    (fun s entry pq1 hs hpop => by
      obtain ⟨hmem, hkeys, _⟩ := meap_popMin _ _ _ hpop
      refine ⟨?_, ?_, hs.limit⟩
      · intro v hv
        by_cases hve : v = entry.1
        · exact hve ▸ hs.keysS _ hmem
        · simp only [hve, if_false] at hv
          exact hs.fixedS v hv
      · intro v hv
        exact hs.keysS v ((hkeys v).mp hv).1)
    (fun s hs => ⟨hs.fixedS, hs.keysS, hs.limit⟩)

/-- C33: in every state of the sweep, an update whose candidate is finite
and below the distance of the free vertex `v3` writes the distance and the
predecessor of `v3` whatever its cost, returns whether the cost of `v3` is
at most `cost_limit`, and `v3` is inserted into the queue exactly then; and
every vertex that is fixed or in the queue is a vertex of the seed face or
has a cost of at most `cost_limit`.  The edge from the predecessor to `v3`
is not twice an edge of the face `f0`. -/
theorem waveFrontUpdate_cost_ceiling {R : Type} [LinearOrderedField R]
    (env : MeshMap R) (m : Libm R) (edge_weights : EdgeHandle → FP R) (goal_face : FaceHandle)
    (p0 : MeshPlanner R) (start : Vector R) (start_face : FaceHandle) (k : Nat)
    (s0 s : Sweep R)
    (v1 v2 v3 : VertexHandle) (u1 u2 u3 : FP R) (e12 e13 e23 : EdgeHandle) (f0 : FaceHandle)
    (g : Unfolding R)
    (hsv : ∀ v, v ∈ faceVertices env start_face → v ∈ env.vertices)
    (hdir : ∀ v, v ∈ env.vertices → (p0.direction v).isSome = true)
    (hinit : sweepInit env m { p0 with cancel_planning := false, potential := VMap.empty,
                                       predecessors := VMap.empty } start start_face = .ok s0)
    (hrun : sweepRun env m edge_weights goal_face k s0 = some s)
    (hu1 : s.planner.potential v1 = some u1) (hu2 : s.planner.potential v2 = some u2)
    (hu3 : s.planner.potential v3 = some u3)
    (he12 : env.getEdgeBetween v1 v2 = some e12) (he13 : env.getEdgeBetween v1 v3 = some e13)
    (he23 : env.getEdgeBetween v2 v3 = some e23)
    (hg : g = unfoldTriangle m u1 u2 (edge_weights e23) (edge_weights e13) (edge_weights e12))
    (hacc : (FP.isfinite g.u3tmp && FP.lt g.u3tmp u3) = true)
    (hf0 : env.getFaceBetween v1 v2 v3 = some f0)
    (h13 : v1 ≠ v3) (h23 : v2 ≠ v3)
    (hother : env.getFacesOfEdge (if FP.lt u1 u2 then e13 else e23) ≠ (some f0, some f0)) :
    (waveFrontUpdate env m edge_weights s.planner v1 v2 v3).1.potential v3 = some g.u3tmp ∧
    (waveFrontUpdate env m edge_weights s.planner v1 v2 v3).1.predecessors v3
      = some (if FP.lt u1 u2 then v1 else v2) ∧
    (waveFrontUpdate env m edge_weights s.planner v1 v2 v3).2
      = some (FP.le (env.vertexCosts v3) p0.config.cost_limit) ∧
    (updateFace env m edge_weights s v1 v2 v3).pq
      = (if FP.le (env.vertexCosts v3) p0.config.cost_limit = true
          then s.pq.insert v3 g.u3tmp else s.pq) ∧
    (updateFace env m edge_weights s v1 v2 v3).fixed = s.fixed ∧
    (∀ v, s.fixed v = true ∨ v ∈ s.pq.keys →
      v ∈ faceVertices env start_face ∨
        FP.le (env.vertexCosts v) p0.config.cost_limit = true) := by
  subst hg
  obtain ⟨s0', hs0', hinv0, hcore0, _⟩ := sweepInit_core env m
    { p0 with cancel_planning := false, potential := VMap.empty, predecessors := VMap.empty }
    start start_face
    (fun v => v ∈ faceVertices env start_face ∨
      FP.le (env.vertexCosts v) p0.config.cost_limit = true)
    (fun _ => True) (fun _ _ => trivial) (fun v hv => Or.inl hv) rfl rfl rfl hsv hdir
  rw [hinit] at hs0'
  simp only [Except.ok.injEq] at hs0'
  subst hs0'
  have hinv := sweepRun_inv env m edge_weights goal_face (fun _ => True)
    (fun _ _ _ _ => trivial) k s0 s hinv0 hrun
  have hcore := sweepRun_sweepCore env m edge_weights goal_face _ p0.config.cost_limit
    (fun v hv => Or.inr hv) k s0 s hcore0 hrun
  have hv3 : v3 ∈ env.vertices := hinv.potV v3 (by rw [hu3]; rfl)
  have hnf := waveFrontUpdate_accepted env m edge_weights s.planner v1 v2 v3 u1 u2 u3 e12 e13
    e23 f0 hu1 hu2 hu3 he12 he13 he23 hacc hf0 (hinv.predSome v3 hv3) (hinv.dirSome v3 hv3)
    h13 h23
  obtain ⟨f, hf⟩ := otherFace_some (env.getFacesOfEdge (if FP.lt u1 u2 then e13 else e23)) f0
    (turnAngle m (unfoldTriangle m u1 u2 (edge_weights e23) (edge_weights e13)
      (edge_weights e12)) (edge_weights e23) (edge_weights e13) (edge_weights e12)
      (FP.lt u1 u2)) hother
  obtain ⟨hpot, hprd, hpos, _, hneg, hzero⟩ := storeCuttingFace_fields env
    { s.planner with
      potential := VMap.insert s.planner.potential v3
        (unfoldTriangle m u1 u2 (edge_weights e23) (edge_weights e13)
          (edge_weights e12)).u3tmp,
      predecessors := VMap.insert s.planner.predecessors v3 (if FP.lt u1 u2 then v1 else v2),
      direction := VMap.insert s.planner.direction v3
        (turnAngle m (unfoldTriangle m u1 u2 (edge_weights e23) (edge_weights e13)
          (edge_weights e12)) (edge_weights e23) (edge_weights e13) (edge_weights e12)
          (FP.lt u1 u2)) }
    v3
    (halfPlane (unfoldTriangle m u1 u2 (edge_weights e23) (edge_weights e13)
      (edge_weights e12)) (edge_weights e12) (FP.lt u1 u2))
    f0
    (otherFace (env.getFacesOfEdge (if FP.lt u1 u2 then e13 else e23)) f0
      (turnAngle m (unfoldTriangle m u1 u2 (edge_weights e23) (edge_weights e13)
        (edge_weights e12)) (edge_weights e23) (edge_weights e13) (edge_weights e12)
        (FP.lt u1 u2))).1
    (otherFace (env.getFacesOfEdge (if FP.lt u1 u2 then e13 else e23)) f0
      (turnAngle m (unfoldTriangle m u1 u2 (edge_weights e23) (edge_weights e13)
        (edge_weights e12)) (edge_weights e23) (edge_weights e13) (edge_weights e12)
        (FP.lt u1 u2))).2
  rw [← hnf] at hpot hprd hpos hneg hzero
  have h1 : (waveFrontUpdate env m edge_weights s.planner v1 v2 v3).1.potential v3
      = some (unfoldTriangle m u1 u2 (edge_weights e23) (edge_weights e13)
        (edge_weights e12)).u3tmp := by
    rw [hpot]
    exact vmap_insert_same _ _ _
  have h2 : (waveFrontUpdate env m edge_weights s.planner v1 v2 v3).1.predecessors v3
      = some (if FP.lt u1 u2 then v1 else v2) := by
    rw [hprd]
    exact vmap_insert_same _ _ _
  have h3 : (waveFrontUpdate env m edge_weights s.planner v1 v2 v3).2
      = some (FP.le (env.vertexCosts v3) p0.config.cost_limit) := by
    have hl : s.planner.config.cost_limit = p0.config.cost_limit := hcore.limit
    rw [← hl]
    by_cases hgt : FP.gt (halfPlane (unfoldTriangle m u1 u2 (edge_weights e23)
        (edge_weights e13) (edge_weights e12)) (edge_weights e12) (FP.lt u1 u2)) (FP.lit 0)
        = true
    · exact (hpos f hgt hf).1
    · have hgt1 := Bool.eq_false_iff.mpr hgt
      by_cases hlt : FP.lt (halfPlane (unfoldTriangle m u1 u2 (edge_weights e23)
          (edge_weights e13) (edge_weights e12)) (edge_weights e12) (FP.lt u1 u2)) (FP.lit 0)
          = true
      · exact (hneg hgt1 hlt).1
      · exact (hzero hgt1 (Bool.eq_false_iff.mpr hlt)).1
  refine ⟨h1, h2, h3, ?_, ?_, ?_⟩
  · unfold updateFace
    rcases hr : waveFrontUpdate env m edge_weights s.planner v1 v2 v3 with ⟨q, o⟩
    rw [hr] at h1 h3
    simp only at h1 h3
    subst h3
    by_cases hle : FP.le (env.vertexCosts v3) p0.config.cost_limit = true
    · simp only [hle, h1, if_true]
    · have hle1 := Bool.eq_false_iff.mpr hle
      simp only [hle1, Bool.false_eq_true, if_false]
  · unfold updateFace
    split
    · split <;> rfl
    · rfl
  · intro v hv
    rcases hv with hv | hv
    · exact hcore.fixedS v hv
    · exact hcore.keysS v hv

theorem exLethalSeeded_eq :
    sweepInit exLethalStrip exLibm3
      { exPlanner exLethalStrip with cancel_planning := false, potential := VMap.empty,
                                     predecessors := VMap.empty } (exPoint 0 0) 0
      = .ok exLethalSeeded := by
  have hok : (sweepInit exLethalStrip exLibm3
      { exPlanner exLethalStrip with cancel_planning := false, potential := VMap.empty,
                                     predecessors := VMap.empty } (exPoint 0 0) 0).isOk
      = true := by decide!
  unfold exLethalSeeded
  revert hok
  cases sweepInit exLethalStrip exLibm3
      { exPlanner exLethalStrip with cancel_planning := false, potential := VMap.empty,
                                     predecessors := VMap.empty } (exPoint 0 0) 0 with
  | ok s => intro _; rfl
  | error e => intro hok; cases hok

/-- The strip with the cost 2 at the vertex 3 and the limit 1, after the
seeding: the update of the vertex 3 writes the distance 5 and the
predecessor 2, returns false, and leaves the queue as it is. -/
theorem waveFrontUpdate_cost_ceiling_witness :
    (waveFrontUpdate exLethalStrip exLibm3 exLethalStrip.edgeDistances exLethalSeeded.planner
        2 1 3).1.potential 3 = some exUpdate.u3tmp ∧
    (waveFrontUpdate exLethalStrip exLibm3 exLethalStrip.edgeDistances exLethalSeeded.planner
        2 1 3).1.predecessors 3 = some (if FP.lt (FP.fin (3 : ℚ)) (FP.fin 4) then 2 else 1) ∧
    (waveFrontUpdate exLethalStrip exLibm3 exLethalStrip.edgeDistances exLethalSeeded.planner
        2 1 3).2
      = some (FP.le (exLethalStrip.vertexCosts 3) (exPlanner exLethalStrip).config.cost_limit) ∧
    (updateFace exLethalStrip exLibm3 exLethalStrip.edgeDistances exLethalSeeded 2 1 3).pq
      = (if FP.le (exLethalStrip.vertexCosts 3) (exPlanner exLethalStrip).config.cost_limit
            = true
          then exLethalSeeded.pq.insert 3 exUpdate.u3tmp else exLethalSeeded.pq) ∧
    (updateFace exLethalStrip exLibm3 exLethalStrip.edgeDistances exLethalSeeded 2 1 3).fixed
      = exLethalSeeded.fixed ∧
    (∀ v, exLethalSeeded.fixed v = true ∨ v ∈ exLethalSeeded.pq.keys →
      v ∈ faceVertices exLethalStrip 0 ∨
        FP.le (exLethalStrip.vertexCosts v) (exPlanner exLethalStrip).config.cost_limit
          = true) :=
  waveFrontUpdate_cost_ceiling exLethalStrip exLibm3 exLethalStrip.edgeDistances 2
    (exPlanner exLethalStrip) (exPoint 0 0) 0 0 exLethalSeeded exLethalSeeded
    2 1 3 (.fin 3) (.fin 4) .pinf 7 13 8 1 exUpdate
    (by intro v hv; revert hv; revert v; decide)
    (by intro v hv; revert hv; revert v; decide)
    exLethalSeeded_eq rfl
    (by decide!) (by decide!) (by decide!) (by decide!) (by decide!) (by decide!) rfl
    (by decide!) (by decide!) (by decide) (by decide) (by decide!)

/-- The example of the cost limit in numbers: the cost of the vertex 3 is
above the limit, the candidate is 5, and the update returns false. -/
theorem exLethalSeeded_update :
    FP.le (exLethalStrip.vertexCosts 3) (exPlanner exLethalStrip).config.cost_limit = false ∧
    exUpdate.u3tmp = .fin 5 ∧
    (waveFrontUpdate exLethalStrip exLibm3 exLethalStrip.edgeDistances exLethalSeeded.planner
        2 1 3).2 = some false ∧
    exLethalSeeded.pq.keys = [0, 1, 2] := by
  refine ⟨?_, ?_, ?_, ?_⟩ <;> decide!

/-! ## The sweep: a fixed vertex is not written again -/

/-- The state after the `try` block on a face: the planner differs at `v3`
only, and the queue is the same or has `v3` inserted. -/
theorem updateFace_shape {R : Type} [LinearOrderedField R] (env : MeshMap R) (m : Libm R)
    (edge_weights : EdgeHandle → FP R) (s : Sweep R) (v1 v2 v3 : VertexHandle) :
    FrameAt v3 s.planner (updateFace env m edge_weights s v1 v2 v3).planner ∧
    (updateFace env m edge_weights s v1 v2 v3).fixed = s.fixed ∧
    (updateFace env m edge_weights s v1 v2 v3).goal_face_fixed = s.goal_face_fixed ∧
    ((updateFace env m edge_weights s v1 v2 v3).pq = s.pq ∨
      ((waveFrontUpdate env m edge_weights s.planner v1 v2 v3).2 = some true ∧
        ∃ d, (updateFace env m edge_weights s v1 v2 v3).planner.potential v3 = some d ∧
          (updateFace env m edge_weights s v1 v2 v3).pq = s.pq.insert v3 d)) := by
  have hf := waveFrontUpdate_frame env m edge_weights s.planner v1 v2 v3
  unfold updateFace
  split
  · next q heq =>
    rw [heq] at hf
    split
    · next d hd => exact ⟨hf, rfl, rfl, Or.inr ⟨by rw [heq], d, hd, rfl⟩⟩
    · exact ⟨hf, rfl, rfl, Or.inl rfl⟩
  · next q r _ heq =>
    rw [heq] at hf
    exact ⟨hf, rfl, rfl, Or.inl rfl⟩

theorem frozen_refl {R : Type} (s : Sweep R) : Frozen s s :=
  ⟨fun _ h => h, fun _ _ => rfl, fun _ _ => rfl, fun _ _ => rfl, fun _ _ => rfl,
    fun _ _ h => h⟩

theorem frozen_trans {R : Type} {s0 s1 s2 : Sweep R} (h1 : Frozen s0 s1) (h2 : Frozen s1 s2) :
    Frozen s0 s2 where
  fixed := fun v hv => h2.fixed v (h1.fixed v hv)
  potential := fun v hv => (h2.potential v (h1.fixed v hv)).trans (h1.potential v hv)
  predecessors := fun v hv => (h2.predecessors v (h1.fixed v hv)).trans (h1.predecessors v hv)
  cutting_faces := fun v hv =>
    (h2.cutting_faces v (h1.fixed v hv)).trans (h1.cutting_faces v hv)
  direction := fun v hv => (h2.direction v (h1.fixed v hv)).trans (h1.direction v hv)
  queue := fun v hv hk => h1.queue v hv (h2.queue v (h1.fixed v hv) hk)

theorem updateFace_frozen {R : Type} [LinearOrderedField R] (env : MeshMap R) (m : Libm R)
    (edge_weights : EdgeHandle → FP R) (s : Sweep R) (v1 v2 v3 : VertexHandle)
    (hfix : s.fixed v3 = false) :
    Frozen s (updateFace env m edge_weights s v1 v2 v3) := by
  obtain ⟨hf, hfx, _, hq⟩ := updateFace_shape env m edge_weights s v1 v2 v3
  have hne : ∀ v, s.fixed v = true → v ≠ v3 := by
    intro v hv h
    rw [h, hfix] at hv
    cases hv
  refine ⟨?_, ?_, ?_, ?_, ?_, ?_⟩
  · intro v hv
    rw [hfx]
    exact hv
  · exact fun v hv => hf.potential v (hne v hv)
  · exact fun v hv => hf.predecessors v (hne v hv)
  · exact fun v hv => hf.cutting_faces v (hne v hv)
  · exact fun v hv => hf.direction v (hne v hv)
  · intro v hv hk
    rcases hq with hq | ⟨_, d, _, hq⟩
    · rw [hq] at hk
      exact hk
    · rw [hq] at hk
      rcases (meap_keys_insert _ _ _ _).mp hk with h | h
      · exact h
      · exact absurd h (hne v hv)

theorem pop_frozen {R : Type} [LinearOrderedField R] (s : Sweep R)
    (entry : VertexHandle × FP R) (pq1 : Meap R) (hpop : s.pq.popMin = some (entry, pq1)) :
    Frozen s { s with pq := pq1, fixed := fun v => if v = entry.1 then true else s.fixed v } := by
  obtain ⟨_, hkeys, _⟩ := meap_popMin _ _ _ hpop
  refine ⟨?_, fun _ _ => rfl, fun _ _ => rfl, fun _ _ => rfl, fun _ _ => rfl, ?_⟩
  · intro v hv
    show (if v = entry.1 then true else s.fixed v) = true
    split
    · rfl
    · exact hv
  · intro v _ hk
    exact ((hkeys v).mp hk).1

/-- After every number of iterations of the sweep loop the vertices that
were fixed at the start are fixed, have the distance, the predecessor, the
cutting face and the angle of the start, and are in the queue only if they
were in the queue at the start. -/
theorem sweepRun_frozen {R : Type} [LinearOrderedField R] (env : MeshMap R)
    (m : Libm R) (edge_weights : EdgeHandle → FP R) (goal_face : FaceHandle)
    (s0 : Sweep R) :
    ∀ (k : Nat) (s sk : Sweep R), Frozen s0 s →
      sweepRun env m edge_weights goal_face k s = some sk → Frozen s0 sk :=
  sweepRun_invariant env m edge_weights goal_face (Frozen s0)
    (fun s v1 v2 v3 hs _ _ h3 =>
      frozen_trans hs (updateFace_frozen env m edge_weights s v1 v2 v3 h3))
    (fun s hs => ⟨hs.fixed, hs.potential, hs.predecessors, hs.cutting_faces, hs.direction,
      hs.queue⟩)
    (fun s entry pq1 hs hpop => frozen_trans hs (pop_frozen s entry pq1 hpop))
    (fun s hs => ⟨hs.fixed, hs.potential, hs.predecessors, hs.cutting_faces, hs.direction,
      hs.queue⟩)

/-- The body of the loop over the faces does nothing, sets
`goal_face_fixed`, or calls the update with two fixed vertices and one that
is not fixed. -/
theorem processFace_calls {R : Type} [LinearOrderedField R] (env : MeshMap R) (m : Libm R)
    (edge_weights : EdgeHandle → FP R) (goal_face : FaceHandle) (t : Sweep R)
    (fh : FaceHandle) :
    processFace env m edge_weights goal_face t fh = t ∨
    processFace env m edge_weights goal_face t fh = { t with goal_face_fixed := true } ∨
    ∃ v1 v2 v3, t.fixed v1 = true ∧ t.fixed v2 = true ∧ t.fixed v3 = false ∧
      processFace env m edge_weights goal_face t fh
        = updateFace env m edge_weights t v1 v2 v3 := by
  unfold processFace
  dsimp only
  split
  · exact Or.inl rfl
  · split
    · exact Or.inl rfl
    · split
      · split
        · exact Or.inr (Or.inl rfl)
        · exact Or.inl rfl
      · split
        · next hc =>
          simp only [Bool.and_eq_true, Bool.not_eq_true'] at hc
          exact Or.inr (Or.inr ⟨_, _, _, hc.1.1, hc.1.2, hc.2, rfl⟩)
        · split
          · next hc =>
            simp only [Bool.and_eq_true, Bool.not_eq_true'] at hc
            exact Or.inr (Or.inr ⟨_, _, _, hc.2, hc.1.1, hc.1.2, rfl⟩)
          · split
            · next hc =>
              simp only [Bool.and_eq_true, Bool.not_eq_true'] at hc
              exact Or.inr (Or.inr ⟨_, _, _, hc.1.2, hc.2, hc.1.1, rfl⟩)
            · exact Or.inl rfl

/-- C31: a vertex that is fixed, by the seeding or by an earlier pop, or
that an iteration of the sweep loop pops and fixes, stays fixed after every
number of further iterations, with the distance, the predecessor, the
cutting face and the angle that it had; it is in the queue afterwards only
if it was in the queue before and is not the popped vertex.  The body of the
loop over the faces calls the update only with two fixed vertices and one
that is not fixed. -/
theorem sweep_fixed_vertex_not_reconsidered {R : Type} [LinearOrderedField R]
    (env : MeshMap R) (m : Libm R) (edge_weights : EdgeHandle → FP R) (goal_face : FaceHandle)
    (s s1 sk : Sweep R) (k : Nat)
    (hstep : sweepStep env m edge_weights goal_face s = .ok s1)
    (hrun : sweepRun env m edge_weights goal_face k s1 = some sk) :
    ∃ e pq1, s.pq.popMin = some (e, pq1) ∧
      (∀ v, v = e.1 ∨ s.fixed v = true →
        sk.fixed v = true ∧
        sk.planner.potential v = s.planner.potential v ∧
        sk.planner.predecessors v = s.planner.predecessors v ∧
        sk.planner.cutting_faces v = s.planner.cutting_faces v ∧
        sk.planner.direction v = s.planner.direction v ∧
        (v ∈ sk.pq.keys → v ∈ s.pq.keys ∧ v ≠ e.1)) ∧
      (∀ (t : Sweep R) (fh : FaceHandle),
        processFace env m edge_weights goal_face t fh = t ∨
        processFace env m edge_weights goal_face t fh = { t with goal_face_fixed := true } ∨
        ∃ v1 v2 v3, t.fixed v1 = true ∧ t.fixed v2 = true ∧ t.fixed v3 = false ∧
          processFace env m edge_weights goal_face t fh
            = updateFace env m edge_weights t v1 v2 v3) := by
  unfold sweepStep at hstep
  split at hstep
  · cases hstep
  · next e pq1 hpop =>
    dsimp only at hstep
    obtain ⟨_, hkeys, _⟩ := meap_popMin _ _ _ hpop
    have h1 : Frozen { s with pq := pq1,
                              fixed := fun v => if v = e.1 then true else s.fixed v } s1 := by
      split at hstep
      · simp only [Except.ok.injEq] at hstep
        rw [← hstep]
        exact frozen_refl _
      · simp only [Except.ok.injEq] at hstep
        rw [← hstep]
        exact foldl_invariant (Frozen _) _
          (fun t x ht => processNeighbour_invariant env m edge_weights goal_face (Frozen _)
            (fun s v1 v2 v3 hs _ _ h3 =>
              frozen_trans hs (updateFace_frozen env m edge_weights s v1 v2 v3 h3))
            (fun s hs => ⟨hs.fixed, hs.potential, hs.predecessors, hs.cutting_faces,
              hs.direction, hs.queue⟩) t x ht) _ _ (frozen_refl _)
    have h2 := sweepRun_frozen env m edge_weights goal_face _ k s1 sk h1 hrun
    refine ⟨e, pq1, hpop, ?_, processFace_calls env m edge_weights goal_face⟩
    intro v hv
    have hfix : (if v = e.1 then true else s.fixed v) = true := by
      rcases hv with hv | hv
      · simp [hv]
      · split
        · rfl
        · exact hv
    refine ⟨h2.fixed v hfix, h2.potential v hfix, h2.predecessors v hfix,
      h2.cutting_faces v hfix, h2.direction v hfix, ?_⟩
    intro hk
    have hk1 := h2.queue v hfix hk
    exact (hkeys v).mp hk1

theorem sweep_fixed_vertex_not_reconsidered_witness :
    ∃ e pq1, exKiteSeeded.pq.popMin = some (e, pq1) ∧
      (∀ v, v = e.1 ∨ exKiteSeeded.fixed v = true →
        exKiteAfterTwoPops.fixed v = true ∧
        exKiteAfterTwoPops.planner.potential v = exKiteSeeded.planner.potential v ∧
        exKiteAfterTwoPops.planner.predecessors v = exKiteSeeded.planner.predecessors v ∧
        exKiteAfterTwoPops.planner.cutting_faces v = exKiteSeeded.planner.cutting_faces v ∧
        exKiteAfterTwoPops.planner.direction v = exKiteSeeded.planner.direction v ∧
        (v ∈ exKiteAfterTwoPops.pq.keys → v ∈ exKiteSeeded.pq.keys ∧ v ≠ e.1)) ∧
      (∀ (t : Sweep ℚ) (fh : FaceHandle),
        processFace exKite exLibm2 exKite.edgeDistances 1 t fh = t ∨
        processFace exKite exLibm2 exKite.edgeDistances 1 t fh
          = { t with goal_face_fixed := true } ∨
        ∃ v1 v2 v3, t.fixed v1 = true ∧ t.fixed v2 = true ∧ t.fixed v3 = false ∧
          processFace exKite exLibm2 exKite.edgeDistances 1 t fh
            = updateFace exKite exLibm2 exKite.edgeDistances t v1 v2 v3) :=
  sweep_fixed_vertex_not_reconsidered exKite exLibm2 exKite.edgeDistances 1 exKiteSeeded
    exKiteAfterOnePop exKiteAfterTwoPops 1
    (by
      have hok : (sweepStep exKite exLibm2 exKite.edgeDistances 1 exKiteSeeded).isOk = true := by
        decide!
      unfold exKiteAfterOnePop
      revert hok
      cases sweepStep exKite exLibm2 exKite.edgeDistances 1 exKiteSeeded with
      | ok s => intro _; rfl
      | error e => intro hok; cases hok)
    (by
      have hsome : (sweepRun exKite exLibm2 exKite.edgeDistances 1 1 exKiteAfterOnePop).isSome
          = true := by decide!
      unfold exKiteAfterTwoPops
      revert hsome
      cases sweepRun exKite exLibm2 exKite.edgeDistances 1 1 exKiteAfterOnePop with
      | some s => intro _; rfl
      | none => intro hsome; cases hsome)

/-! ## The sweep: the structure of the predecessors -/

theorem isfinite_eq_fin {R : Type} (a : FP R) (h : FP.isfinite a = true) : ∃ x, a = .fin x := by
  cases a with
  | fin x => exact ⟨x, rfl⟩
  | pinf => cases h
  | ninf => cases h
  | nan => cases h

theorem storeCuttingFace_potential {R : Type} [LinearOrderedField R] (env : MeshMap R)
    (p : MeshPlanner R) (v3 : VertexHandle) (S : FP R) (f0 : FaceHandle)
    (f1 : Option FaceHandle) (dir1 : FP R) :
    (storeCuttingFace env p v3 S f0 f1 dir1).1.potential = p.potential :=
  (storeCuttingFace_fields env p v3 S f0 f1 dir1).1

theorem storeCuttingFace_predecessors {R : Type} [LinearOrderedField R] (env : MeshMap R)
    (p : MeshPlanner R) (v3 : VertexHandle) (S : FP R) (f0 : FaceHandle)
    (f1 : Option FaceHandle) (dir1 : FP R) :
    (storeCuttingFace env p v3 S f0 f1 dir1).1.predecessors = p.predecessors :=
  (storeCuttingFace_fields env p v3 S f0 f1 dir1).2.1

theorem writePredecessor_writes {R : Type} [LinearOrderedField R] (env : MeshMap R)
    (m : Libm R) (p1 : MeshPlanner R) (v1 v2 v3 : VertexHandle) (a b c : FP R)
    (g : Unfolding R) :
    (writePredecessor env m p1 v1 v2 v3 a b c g).1.potential = p1.potential ∧
    (((writePredecessor env m p1 v1 v2 v3 a b c g).1.predecessors = p1.predecessors ∧
        (writePredecessor env m p1 v1 v2 v3 a b c g).2 = none) ∨
      (writePredecessor env m p1 v1 v2 v3 a b c g).1.predecessors v3 = some v1 ∨
      (writePredecessor env m p1 v1 v2 v3 a b c g).1.predecessors v3 = some v2) := by
  unfold writePredecessor
  split
  · exact ⟨rfl, Or.inl ⟨rfl, rfl⟩⟩
  · split
    · next d1 d2 _ _ =>
      dsimp only
      split
      · exact ⟨rfl, Or.inl ⟨rfl, rfl⟩⟩
      · next preds hassign =>
        obtain ⟨hpreds, _⟩ := vmap_assign_eq_some hassign
        have hv3 : preds v3 = some v1 ∨ preds v3 = some v2 := by
          rw [hpreds, vmap_insert_same]
          by_cases hn : FP.lt d1 d2 = true
          · simp [hn]
          · simp [hn]
        split
        · exact ⟨rfl, Or.inr hv3⟩
        · split
          · exact ⟨rfl, Or.inr hv3⟩
          · rw [storeCuttingFace_potential, storeCuttingFace_predecessors]
            exact ⟨rfl, Or.inr hv3⟩
    · exact ⟨rfl, Or.inl ⟨rfl, rfl⟩⟩

/-- What an update writes to the distance and the predecessor of `v3`: the
distance stays or becomes finite, the predecessor stays or becomes `v1` or
`v2`, and an update that returns true has written both. -/
theorem waveFrontUpdate_writes {R : Type} [LinearOrderedField R] (env : MeshMap R)
    (m : Libm R) (edge_weights : EdgeHandle → FP R) (p : MeshPlanner R)
    (v1 v2 v3 : VertexHandle) :
    ((waveFrontUpdate env m edge_weights p v1 v2 v3).1.potential v3 = p.potential v3 ∨
      ∃ x, (waveFrontUpdate env m edge_weights p v1 v2 v3).1.potential v3 = some (.fin x)) ∧
    ((waveFrontUpdate env m edge_weights p v1 v2 v3).1.predecessors v3 = p.predecessors v3 ∨
      (waveFrontUpdate env m edge_weights p v1 v2 v3).1.predecessors v3 = some v1 ∨
      (waveFrontUpdate env m edge_weights p v1 v2 v3).1.predecessors v3 = some v2) ∧
    ((waveFrontUpdate env m edge_weights p v1 v2 v3).2 = some true →
      ((waveFrontUpdate env m edge_weights p v1 v2 v3).1.predecessors v3 = some v1 ∨
        (waveFrontUpdate env m edge_weights p v1 v2 v3).1.predecessors v3 = some v2) ∧
      ∃ x, (waveFrontUpdate env m edge_weights p v1 v2 v3).1.potential v3 = some (.fin x)) := by
  unfold waveFrontUpdate
  split
  · split
    · dsimp only
      split
      · rename_i _ _ _ u1 u2 u3 _ _ _ _ _ _ e12h e13h e23h _ _ _ hacc
        simp only [Bool.and_eq_true] at hacc
        obtain ⟨x, hx⟩ := isfinite_eq_fin _ hacc.1
        generalize unfoldTriangle m u1 u2 (edge_weights e23h) (edge_weights e13h)
          (edge_weights e12h) = g at hx ⊢
        obtain ⟨hpot, hprd⟩ := writePredecessor_writes env m
          { p with potential := VMap.insert p.potential v3 g.u3tmp }
          v1 v2 v3 (edge_weights e23h) (edge_weights e13h) (edge_weights e12h) g
        have hfin : ∃ x, (writePredecessor env m
            { p with potential := VMap.insert p.potential v3 g.u3tmp }
            v1 v2 v3 (edge_weights e23h) (edge_weights e13h) (edge_weights e12h)
            g).1.potential v3 = some (.fin x) := by
          rw [hpot]
          exact ⟨x, by rw [← hx]; exact vmap_insert_same _ _ _⟩
        refine ⟨Or.inr hfin, ?_, ?_⟩
        · rcases hprd with ⟨h, _⟩ | h
          · exact Or.inl (by rw [h])
          · exact Or.inr h
        · intro hret
          rcases hprd with ⟨_, h⟩ | h
          · rw [h] at hret
            cases hret
          · exact ⟨h, hfin⟩
      · exact ⟨Or.inl rfl, Or.inl rfl, fun h => by cases h⟩
    · exact ⟨Or.inl rfl, Or.inl rfl, fun h => by cases h⟩
  · exact ⟨Or.inl rfl, Or.inl rfl, fun h => by cases h⟩

theorem updateFace_planner {R : Type} [LinearOrderedField R] (env : MeshMap R) (m : Libm R)
    (edge_weights : EdgeHandle → FP R) (s : Sweep R) (v1 v2 v3 : VertexHandle) :
    (updateFace env m edge_weights s v1 v2 v3).planner
      = (waveFrontUpdate env m edge_weights s.planner v1 v2 v3).1 := by
  unfold updateFace
  split
  · next q heq =>
    rw [heq]
    split <;> rfl
  · next q r _ heq =>
    rw [heq]

theorem updateFace_predInv {R : Type} [LinearOrderedField R] (env : MeshMap R) (m : Libm R)
    (edge_weights : EdgeHandle → FP R) (start_face : FaceHandle) (rank : VertexHandle → Nat)
    (s : Sweep R) (v1 v2 v3 : VertexHandle) (h : PredInv env start_face rank s)
    (hf1 : s.fixed v1 = true) (hf2 : s.fixed v2 = true) (hf3 : s.fixed v3 = false) :
    PredInv env start_face rank (updateFace env m edge_weights s v1 v2 v3) := by
  obtain ⟨hf, hfx, _, hq⟩ := updateFace_shape env m edge_weights s v1 v2 v3
  have hpl := updateFace_planner env m edge_weights s v1 v2 v3
  obtain ⟨hwpot, hwprd, hwtrue⟩ := waveFrontUpdate_writes env m edge_weights s.planner v1 v2 v3
  rw [← hpl] at hwpot hwprd hwtrue
  have hne : ∀ v, s.fixed v = true → v ≠ v3 := by
    intro v hv h
    rw [h, hf3] at hv
    cases hv
  have hkeys : ∀ v, v ≠ v3 → v ∈ (updateFace env m edge_weights s v1 v2 v3).pq.keys →
      v ∈ s.pq.keys := by
    intro v hv hk
    rcases hq with hq | ⟨_, d, _, hq⟩
    · rw [hq] at hk
      exact hk
    · rw [hq] at hk
      rcases (meap_keys_insert _ _ _ _).mp hk with h | h
      · exact h
      · exact absurd h hv
  have hprd3 : ∀ u, (updateFace env m edge_weights s v1 v2 v3).planner.predecessors v3 = some u →
      s.planner.predecessors v3 = some u ∨ u = v1 ∨ u = v2 := by
    intro u hu
    rcases hwprd with h | h | h
    · exact Or.inl (by rw [← h]; exact hu)
    · rw [h] at hu
      exact Or.inr (Or.inl (Option.some.inj hu).symm)
    · rw [h] at hu
      exact Or.inr (Or.inr (Option.some.inj hu).symm)
  refine ⟨?_, ?_, ?_, ?_, ?_, ?_⟩
  · intro v hv
    obtain ⟨hp, hfv⟩ := h.seedSelf v hv
    refine ⟨by rw [hf.predecessors v (hne v hfv)]; exact hp, by rw [hfx]; exact hfv⟩
  · intro v hv
    rw [hfx] at hv
    rw [hf.potential v (hne v hv)]
    exact h.fixedFinite v hv
  · intro v hv
    by_cases hv3 : v = v3
    · subst hv3
      rcases hwpot with hsame | hfin
      · rcases hq with hq | ⟨htrue, _⟩
        · rw [hq] at hv
          rw [hsame]
          exact h.queuedFinite v hv
        · exact (hwtrue htrue).2
      · exact hfin
    · rw [hf.potential v hv3]
      exact h.queuedFinite v (hkeys v hv3 hv)
  · intro v u hu hne2
    rw [hfx]
    by_cases hv3 : v = v3
    · subst hv3
      rcases hprd3 u hu with h1 | h1 | h1
      · exact h.predFixed v u h1 hne2
      · rw [h1]
        exact hf1
      · rw [h1]
        exact hf2
    · rw [hf.predecessors v hv3] at hu
      exact h.predFixed v u hu hne2
  · intro v u hv hu hne2
    rw [hfx] at hv
    rw [hf.predecessors v (hne v hv)] at hu
    exact h.rankDec v u hv hu hne2
  · intro v hv hns
    by_cases hv3 : v = v3
    · subst hv3
      have hold : v ∈ s.pq.keys → ∃ u, (updateFace env m edge_weights s v1 v2 v
          ).planner.predecessors v = some u ∧ u ≠ v := by
        intro hk
        obtain ⟨u, hu, hne2⟩ := h.nonseed v (Or.inr hk) hns
        rcases hwprd with h1 | h1 | h1
        · exact ⟨u, by rw [h1]; exact hu, hne2⟩
        · exact ⟨v1, h1, hne v1 hf1⟩
        · exact ⟨v2, h1, hne v2 hf2⟩
      rcases hv with hv | hv
      · rw [hfx, hf3] at hv
        cases hv
      · rcases hq with hq | ⟨htrue, _⟩
        · rw [hq] at hv
          exact hold hv
        · rcases (hwtrue htrue).1 with h1 | h1
          · exact ⟨v1, h1, hne v1 hf1⟩
          · exact ⟨v2, h1, hne v2 hf2⟩
    · rw [hf.predecessors v hv3]
      refine h.nonseed v ?_ hns
      rcases hv with hv | hv
      · rw [hfx] at hv
        exact Or.inl hv
      · exact Or.inr (hkeys v hv3 hv)

theorem pop_predInv {R : Type} [LinearOrderedField R] (env : MeshMap R)
    (start_face : FaceHandle) (rank : VertexHandle → Nat) (s : Sweep R)
    (entry : VertexHandle × FP R) (pq1 : Meap R) (h : PredInv env start_face rank s)
    (hpop : s.pq.popMin = some (entry, pq1)) :
    ∃ rank1, PredInv env start_face rank1
      { s with pq := pq1, fixed := fun v => if v = entry.1 then true else s.fixed v } := by
  obtain ⟨hmem, hkeys, _⟩ := meap_popMin _ _ _ hpop
  have hfx : ∀ v, (if v = entry.1 then true else s.fixed v) = true →
      v = entry.1 ∨ s.fixed v = true := by
    intro v hv
    by_cases hve : v = entry.1
    · exact Or.inl hve
    · simp only [hve, if_false] at hv
      exact Or.inr hv
  have hfx2 : ∀ v, s.fixed v = true → (if v = entry.1 then true else s.fixed v) = true := by
    intro v hv
    split
    · rfl
    · exact hv
  by_cases hfe : s.fixed entry.1 = true
  · refine ⟨rank, ?_, ?_, ?_, ?_, ?_, ?_⟩
    · intro v hv
      exact ⟨(h.seedSelf v hv).1, hfx2 v (h.seedSelf v hv).2⟩
    · intro v hv
      rcases hfx v hv with hv | hv
      · rw [hv]
        exact h.queuedFinite _ hmem
      · exact h.fixedFinite v hv
    · intro v hv
      exact h.queuedFinite v ((hkeys v).mp hv).1
    · intro v u hu hne
      exact hfx2 u (h.predFixed v u hu hne)
    · intro v u hv hu hne
      rcases hfx v hv with hv | hv
      · exact h.rankDec v u (hv ▸ hfe) hu hne
      · exact h.rankDec v u hv hu hne
    · intro v hv hns
      refine h.nonseed v ?_ hns
      rcases hv with hv | hv
      · rcases hfx v hv with hv | hv
        · exact Or.inr (hv ▸ hmem)
        · exact Or.inl hv
      · exact Or.inr ((hkeys v).mp hv).1
  · have hfe1 : s.fixed entry.1 = false := by simpa using hfe
    refine ⟨fun v => if v = entry.1
      then rank ((s.planner.predecessors entry.1).getD entry.1) + 1 else rank v,
      ?_, ?_, ?_, ?_, ?_, ?_⟩
    · intro v hv
      exact ⟨(h.seedSelf v hv).1, hfx2 v (h.seedSelf v hv).2⟩
    · intro v hv
      rcases hfx v hv with hv | hv
      · rw [hv]
        exact h.queuedFinite _ hmem
      · exact h.fixedFinite v hv
    · intro v hv
      exact h.queuedFinite v ((hkeys v).mp hv).1
    · intro v u hu hne
      exact hfx2 u (h.predFixed v u hu hne)
    · intro v u hv hu hne
      have hufix := h.predFixed v u hu hne
      have hue : u ≠ entry.1 := by
        intro hue
        rw [hue, hfe1] at hufix
        cases hufix
      simp only [hue, if_false]
      by_cases hve : v = entry.1
      · simp only [hve, if_true]
        rw [hve] at hu
        rw [hu]
        simp
      · simp only [hve, if_false]
        rcases hfx v hv with hv | hv
        · exact absurd hv hve
        · exact h.rankDec v u hv hu hne
    · intro v hv hns
      refine h.nonseed v ?_ hns
      rcases hv with hv | hv
      · rcases hfx v hv with hv | hv
        · exact Or.inr (hv ▸ hmem)
        · exact Or.inl hv
      · exact Or.inr ((hkeys v).mp hv).1

theorem sweepRun_predInv {R : Type} [LinearOrderedField R] (env : MeshMap R)
    (m : Libm R) (edge_weights : EdgeHandle → FP R) (goal_face : FaceHandle)
    (start_face : FaceHandle) :
    ∀ (k : Nat) (s sk : Sweep R), (∃ rank, PredInv env start_face rank s) →
      sweepRun env m edge_weights goal_face k s = some sk →
      ∃ rank, PredInv env start_face rank sk :=
  sweepRun_invariant env m edge_weights goal_face
    (fun s => ∃ rank, PredInv env start_face rank s)
    (fun s v1 v2 v3 hs h1 h2 h3 => by
      obtain ⟨rank, hr⟩ := hs
      exact ⟨rank, updateFace_predInv env m edge_weights start_face rank s v1 v2 v3 hr h1 h2 h3⟩)
    (fun s hs => by
      obtain ⟨rank, hr⟩ := hs
      exact ⟨rank, hr.seedSelf, hr.fixedFinite, hr.queuedFinite, hr.predFixed, hr.rankDec,
        hr.nonseed⟩)
    (fun s entry pq1 hs hpop => by
      obtain ⟨rank, hr⟩ := hs
      exact pop_predInv env start_face rank s entry pq1 hr hpop)
    (fun s hs => by
      obtain ⟨rank, hr⟩ := hs
      exact ⟨rank, hr.seedSelf, hr.fixedFinite, hr.queuedFinite, hr.predFixed, hr.rankDec,
        hr.nonseed⟩)

/-- Following the predecessors from a fixed vertex leads to a vertex of the
seed face. -/
theorem followPred_reaches_seed {R : Type} [LinearOrderedField R] (env : MeshMap R)
    (start_face : FaceHandle) (rank : VertexHandle → Nat) (s : Sweep R)
    (h : PredInv env start_face rank s) :
    ∀ (n : Nat) (u : VertexHandle), s.fixed u = true → rank u ≤ n →
      ∃ j, followPred s.planner j u ∈ faceVertices env start_face := by
  intro n
  induction n with
  | zero =>
    intro u hu hr
    by_cases hs : u ∈ faceVertices env start_face
    · exact ⟨0, hs⟩
    · obtain ⟨w, hw, hne⟩ := h.nonseed u (Or.inl hu) hs
      have := h.rankDec u w hu hw hne
      omega
  | succ n ih =>
    intro u hu hr
    by_cases hs : u ∈ faceVertices env start_face
    · exact ⟨0, hs⟩
    · obtain ⟨w, hw, hne⟩ := h.nonseed u (Or.inl hu) hs
      have hlt := h.rankDec u w hu hw hne
      obtain ⟨j, hj⟩ := ih w (h.predFixed u w hw hne) (by omega)
      refine ⟨j + 1, ?_⟩
      show followPred s.planner j ((s.planner.predecessors u).getD u) ∈ _
      rw [hw]
      exact hj

/-- The seeding loop keeps the predecessors, fixes the vertices of the list
and no others, queues only vertices of the list, and gives a fixed vertex a
finite distance when the distances of the seeds are finite. -/
theorem seedLoop_fixes {R : Type} [LinearOrderedField R] (env : MeshMap R) (m : Libm R)
    (start : Vector R) (start_face : FaceHandle) (l : List VertexHandle) :
    ∀ (s s1 : Sweep R), seedLoop env m start start_face l s = .ok s1 →
      (∀ v, v ∈ l → ∃ x, Vector.length m (Vector.sub start (env.getVertexPosition v))
        = .fin x) →
      s1.planner.predecessors = s.planner.predecessors ∧
      (∀ v, s1.fixed v = true ↔ v ∈ l ∨ s.fixed v = true) ∧
      (∀ v, v ∈ s1.pq.keys → v ∈ l ∨ v ∈ s.pq.keys) ∧
      ((∀ v, s.fixed v = true → ∃ x, s.planner.potential v = some (.fin x)) →
        ∀ v, s1.fixed v = true → ∃ x, s1.planner.potential v = some (.fin x)) := by
  induction l with
  | nil =>
    intro s s1 h _
    simp only [seedLoop, Except.ok.injEq] at h
    subst h
    exact ⟨rfl, fun v => by simp, fun v hv => Or.inr hv, fun hfin => hfin⟩
  | cons vH rest ih =>
    intro s s1 h hfin
    unfold seedLoop at h
    dsimp only at h
    split at h
    · cases h
    · next potential hassign =>
      obtain ⟨hpot, _⟩ := vmap_assign_eq_some hassign
      have h2 := ih _ _ h (fun v hv => hfin v (List.mem_cons_of_mem _ hv))
      obtain ⟨hp, hfx, hk, hf⟩ := h2
      refine ⟨hp, ?_, ?_, ?_⟩
      · intro v
        rw [hfx v]
        by_cases hv : v = vH
        · simp [hv]
        · simp [hv]
      · intro v hv
        rcases hk v hv with h3 | h3
        · exact Or.inl (List.mem_cons_of_mem _ h3)
        · rcases (meap_keys_insert _ _ _ _).mp h3 with h4 | h4
          · exact Or.inr h4
          · exact Or.inl (h4 ▸ List.mem_cons_self _ _)
      · intro hs
        apply hf
        intro v hv
        by_cases hve : v = vH
        · subst hve
          obtain ⟨x, hx⟩ := hfin v (List.mem_cons_self _ _)
          refine ⟨x, ?_⟩
          show potential v = _
          rw [hpot, vmap_insert_same, hx]
        · simp only [hve, if_false] at hv
          obtain ⟨x, hx⟩ := hs v hv
          refine ⟨x, ?_⟩
          show potential v = _
          rw [hpot, vmap_insert_of_ne _ _ _ _ hve]
          exact hx

/-- After the seeding the invariant of the predecessors holds with the rank
0 for every vertex. -/
theorem sweepInit_predInv {R : Type} [LinearOrderedField R] (env : MeshMap R) (m : Libm R)
    (p : MeshPlanner R) (start : Vector R) (start_face : FaceHandle) (s0 : Sweep R)
    (hpred : p.predecessors = VMap.empty)
    (hsv : ∀ v, v ∈ faceVertices env start_face → v ∈ env.vertices)
    (hfin : ∀ v, v ∈ faceVertices env start_face →
      ∃ x, Vector.length m (Vector.sub start (env.getVertexPosition v)) = .fin x)
    (hinit : sweepInit env m p start start_face = .ok s0) :
    PredInv env start_face (fun _ => 0) s0 := by
  unfold sweepInit at hinit
  dsimp only at hinit
  obtain ⟨_, h2, _, _⟩ := initLoop_spec env.vertices { p with vector_map := VMap.empty }
  obtain ⟨hp, hfx, hk, hf⟩ := seedLoop_fixes env m start start_face _ _ _ hinit hfin
  have hself : ∀ v u, s0.planner.predecessors v = some u → u = v := by
    intro v u hu
    rw [hp] at hu
    have h3 := h2 v
    simp only at h3
    rw [h3] at hu
    by_cases hv : v ∈ env.vertices
    · simp only [hv, if_true, Option.some.injEq] at hu
      exact hu.symm
    · simp only [hv, if_false, hpred] at hu
      cases hu
  have hfixed : ∀ v, s0.fixed v = true → v ∈ faceVertices env start_face := by
    intro v hv
    rcases (hfx v).mp hv with h3 | h3
    · exact h3
    · cases h3
  refine ⟨?_, ?_, ?_, ?_, ?_, ?_⟩
  · intro v hv
    refine ⟨?_, (hfx v).mpr (Or.inl hv)⟩
    rw [hp]
    have h3 := h2 v
    simp only at h3
    rw [h3]
    simp [hsv v hv]
  · exact hf (fun v hv => by cases hv)
  · intro v hv
    rcases hk v hv with h3 | h3
    · exact hf (fun v hv => by cases hv) v ((hfx v).mpr (Or.inl h3))
    · cases h3
  · intro v u hu hne
    exact absurd (hself v u hu) hne
  · intro v u _ hu hne
    exact absurd (hself v u hu) hne
  · intro v hv hns
    rcases hv with hv | hv
    · exact absurd (hfixed v hv) hns
    · rcases hk v hv with h3 | h3
      · exact absurd h3 hns
      · cases h3

/-- C36 (amended): after the seeding and after every number of iterations
of the sweep loop, a predecessor that differs from its vertex is a fixed
vertex with a finite distance, every vertex of the seed face is its own
predecessor, and following the predecessors from a vertex that is fixed or
whose predecessor differs from itself reaches a vertex of the seed face
after finitely many steps.  The vertices of the seed face are vertices of
the mesh and have finite distances from the start. -/
theorem sweep_predecessor_structure {R : Type} [LinearOrderedField R]
    (env : MeshMap R) (m : Libm R) (edge_weights : EdgeHandle → FP R) (goal_face : FaceHandle)
    (p0 : MeshPlanner R) (start : Vector R) (start_face : FaceHandle) (k : Nat)
    (s0 sk : Sweep R)
    (hsv : ∀ v, v ∈ faceVertices env start_face → v ∈ env.vertices)
    (hfin : ∀ v, v ∈ faceVertices env start_face →
      ∃ x, Vector.length m (Vector.sub start (env.getVertexPosition v)) = .fin x)
    (hinit : sweepInit env m { p0 with cancel_planning := false, potential := VMap.empty,
                                       predecessors := VMap.empty } start start_face = .ok s0)
    (hrun : sweepRun env m edge_weights goal_face k s0 = some sk) :
    (∀ v u, sk.planner.predecessors v = some u → u ≠ v →
      sk.fixed u = true ∧ (∃ x, sk.planner.potential u = some (.fin x))) ∧
    (∀ v, v ∈ faceVertices env start_face → sk.planner.predecessors v = some v) ∧
    (∀ v, (sk.fixed v = true ∨ ∃ u, sk.planner.predecessors v = some u ∧ u ≠ v) →
      ∃ n, followPred sk.planner n v ∈ faceVertices env start_face) := by
  have h0 := sweepInit_predInv env m _ start start_face s0 rfl hsv hfin hinit
  obtain ⟨rank, h⟩ := sweepRun_predInv env m edge_weights goal_face start_face k s0 sk
    ⟨_, h0⟩ hrun
  refine ⟨?_, ?_, ?_⟩
  · intro v u hu hne
    exact ⟨h.predFixed v u hu hne, h.fixedFinite u (h.predFixed v u hu hne)⟩
  · intro v hv
    exact (h.seedSelf v hv).1
  · intro v hv
    rcases hv with hv | ⟨u, hu, hne⟩
    · exact followPred_reaches_seed env start_face rank sk h (rank v) v hv (le_refl _)
    · obtain ⟨j, hj⟩ := followPred_reaches_seed env start_face rank sk h (rank u) u
        (h.predFixed v u hu hne) (le_refl _)
      refine ⟨j + 1, ?_⟩
      show followPred sk.planner j ((sk.planner.predecessors v).getD v) ∈ _
      rw [hu]
      exact hj

theorem exSeeded_eq :
    sweepInit exStrip exLibm
      { exPlanner exStrip with cancel_planning := false, potential := VMap.empty,
                               predecessors := VMap.empty } (exPoint 0 0) 0 = .ok exSeeded := by
  have hok : exSeeding.isOk = true := by decide!
  unfold exSeeded
  revert hok
  unfold exSeeding
  cases sweepInit exStrip exLibm
      { exPlanner exStrip with cancel_planning := false, potential := VMap.empty,
                               predecessors := VMap.empty } (exPoint 0 0) 0 with
  | ok s => intro _; rfl
  | error e => intro hok; cases hok

theorem exAfterOnePop_eq :
    sweepRun exStrip exLibm exStrip.edgeDistances 2 1 exSeeded = some exAfterOnePop := by
  have hsome : (sweepRun exStrip exLibm exStrip.edgeDistances 2 1 exSeeded).isSome = true := by
    decide!
  unfold exAfterOnePop
  revert hsome
  cases sweepRun exStrip exLibm exStrip.edgeDistances 2 1 exSeeded with
  | some s => intro _; rfl
  | none => intro hsome; cases hsome

/-- The strip after the seeding at `(0, 0)` and one iteration. -/
theorem sweep_predecessor_structure_witness :
    (∀ v u, exAfterOnePop.planner.predecessors v = some u → u ≠ v →
      exAfterOnePop.fixed u = true ∧
        (∃ x, exAfterOnePop.planner.potential u = some (.fin x))) ∧
    (∀ v, v ∈ faceVertices exStrip 0 → exAfterOnePop.planner.predecessors v = some v) ∧
    (∀ v, (exAfterOnePop.fixed v = true ∨
        ∃ u, exAfterOnePop.planner.predecessors v = some u ∧ u ≠ v) →
      ∃ n, followPred exAfterOnePop.planner n v ∈ faceVertices exStrip 0) :=
  sweep_predecessor_structure exStrip exLibm exStrip.edgeDistances 2 (exPlanner exStrip)
    (exPoint 0 0) 0 1 exSeeded exAfterOnePop
    (by intro v hv; revert hv; revert v; decide)
    (by
      intro v hv
      simp [faceVertices, exStrip, exMesh] at hv
      rcases hv with h | h | h
      · exact ⟨0, by subst h; decide!⟩
      · exact ⟨4, by subst h; decide!⟩
      · exact ⟨3, by subst h; decide!⟩)
    exSeeded_eq exAfterOnePop_eq

/-- C36 (as stated): on the strip after the seeding at `(0, 0)` and one
iteration, the vertex 3 has the predecessor 2, and the vertex 4, which is
not a vertex of the seed face, is its own predecessor: following the
predecessors from the vertex 4 stays at the vertex 4 and reaches no vertex
of the seed face. -/
theorem followPred_of_untouched_vertex :
    exAfterOnePop.planner.predecessors 3 = some 2 ∧
    exAfterOnePop.planner.predecessors 4 = some 4 ∧
    faceVertices exStrip 0 = [0, 1, 2] ∧
    (∀ n, followPred exAfterOnePop.planner n 4 = 4) ∧
    (∀ n, followPred exAfterOnePop.planner n 4 ∉ faceVertices exStrip 0) := by
  have h4 : exAfterOnePop.planner.predecessors 4 = some 4 := by decide!
  have hstay : ∀ n, followPred exAfterOnePop.planner n 4 = 4 := by
    intro n
    induction n with
    | zero => rfl
    | succ n ih =>
      show followPred exAfterOnePop.planner n ((exAfterOnePop.planner.predecessors 4).getD 4) = 4
      rw [h4]
      exact ih
  refine ⟨by decide!, h4, by decide, hstay, ?_⟩
  intro n
  rw [hstay n]
  decide

/-! ## The sweep: the cutting face and the angle of a predecessor -/

/-- The values that the last statements of `waveFrontUpdate` store for
`v3` when the other face exists: they depend on `S`, the faces and the angle
only, not on the planner. -/
theorem storeCuttingFace_at {R : Type} [LinearOrderedField R] (env : MeshMap R)
    (p : MeshPlanner R) (v3 : VertexHandle) (S : FP R) (f0 f : FaceHandle) (dir1 : FP R) :
    (storeCuttingFace env p v3 S f0 (some f) dir1).2.isSome = true ∧
    (storeCuttingFace env p v3 S f0 (some f) dir1).1.cutting_faces v3
      = some (if FP.gt S (FP.lit 0) = true then f else f0) ∧
    (storeCuttingFace env p v3 S f0 (some f) dir1).1.direction v3
      = some (if FP.gt S (FP.lit 0) = true then dir1
          else if FP.lt S (FP.lit 0) = true then dir1 * -FP.lit 1 else FP.lit 0) := by
  obtain ⟨_, _, hpos, _, hneg, hzero⟩ := storeCuttingFace_fields env p v3 S f0 (some f) dir1
  by_cases hgt : FP.gt S (FP.lit 0) = true
  · obtain ⟨h1, h2, h3⟩ := hpos f hgt rfl
    simp only [hgt, if_true]
    exact ⟨by rw [h1]; rfl, h2, h3⟩
  · have hgt1 := Bool.eq_false_iff.mpr hgt
    simp only [hgt1, Bool.false_eq_true, if_false]
    by_cases hlt : FP.lt S (FP.lit 0) = true
    · obtain ⟨h1, h2, h3⟩ := hneg hgt1 hlt
      simp only [hlt, if_true]
      exact ⟨by rw [h1]; rfl, h2, h3⟩
    · have hlt1 := Bool.eq_false_iff.mpr hlt
      obtain ⟨h1, h2, h3⟩ := hzero hgt1 hlt1
      simp only [hlt1, Bool.false_eq_true, if_false]
      exact ⟨by rw [h1]; rfl, h2, h3⟩

theorem otherFace_mem {R : Type} [LinearOrderedField R]
    (faces : Option FaceHandle × Option FaceHandle) (f0 f : FaceHandle) (gamma : FP R)
    (h : (otherFace faces f0 gamma).1 = some f) :
    f = f0 ∨ faces.1 = some f ∨ faces.2 = some f := by
  obtain ⟨fa, fb⟩ := faces
  unfold otherFace at h
  cases fa with
  | none =>
    simp only [Option.some.injEq] at h
    exact Or.inl h.symm
  | some fa =>
    cases fb with
    | none =>
      simp only [Option.some.injEq] at h
      exact Or.inl h.symm
    | some fb =>
      dsimp only at h
      split at h
      · simp only [Option.some.injEq] at h
        exact Or.inr (Or.inl (by rw [h]))
      · split at h
        · simp only [Option.some.injEq] at h
          exact Or.inr (Or.inr (by rw [h]))
        · cases h

/-- An update writes neither predecessor, cutting face nor angle, or it is
an accepted update in normal form.  The vertex `v3` is neither `v1` nor
`v2`, and has an angle when it has a distance. -/
theorem waveFrontUpdate_cases {R : Type} [LinearOrderedField R] (env : MeshMap R)
    (m : Libm R) (edge_weights : EdgeHandle → FP R) (p : MeshPlanner R)
    (v1 v2 v3 : VertexHandle) (h13 : v1 ≠ v3) (h23 : v2 ≠ v3)
    (hdir : (p.potential v3).isSome = true → (p.direction v3).isSome = true) :
    ((waveFrontUpdate env m edge_weights p v1 v2 v3).1.predecessors = p.predecessors ∧
      (waveFrontUpdate env m edge_weights p v1 v2 v3).1.cutting_faces = p.cutting_faces ∧
      (waveFrontUpdate env m edge_weights p v1 v2 v3).1.direction = p.direction) ∨
    ∃ u1 u2 u3 e12 e13 e23 f0,
      p.potential v1 = some u1 ∧ p.potential v2 = some u2 ∧ p.potential v3 = some u3 ∧
      env.getEdgeBetween v1 v2 = some e12 ∧ env.getEdgeBetween v1 v3 = some e13 ∧
      env.getEdgeBetween v2 v3 = some e23 ∧
      (FP.isfinite (unfoldTriangle m u1 u2 (edge_weights e23) (edge_weights e13)
          (edge_weights e12)).u3tmp &&
        FP.lt (unfoldTriangle m u1 u2 (edge_weights e23) (edge_weights e13)
          (edge_weights e12)).u3tmp u3) = true ∧
      env.getFaceBetween v1 v2 v3 = some f0 ∧
      (p.predecessors v3).isSome = true ∧ (p.direction v3).isSome = true := by
  cases hu1 : p.potential v1 with
  | none => left; simp [waveFrontUpdate, hu1]
  | some u1 =>
    cases hu2 : p.potential v2 with
    | none => left; simp [waveFrontUpdate, hu1, hu2]
    | some u2 =>
      cases hu3 : p.potential v3 with
      | none => left; simp [waveFrontUpdate, hu1, hu2, hu3]
      | some u3 =>
        cases he12 : env.getEdgeBetween v1 v2 with
        | none => left; simp [waveFrontUpdate, hu1, hu2, hu3, he12]
        | some e12 =>
          cases he13 : env.getEdgeBetween v1 v3 with
          | none => left; simp [waveFrontUpdate, hu1, hu2, hu3, he12, he13]
          | some e13 =>
            cases he23 : env.getEdgeBetween v2 v3 with
            | none => left; simp [waveFrontUpdate, hu1, hu2, hu3, he12, he13, he23]
            | some e23 =>
              by_cases hacc : (FP.isfinite (unfoldTriangle m u1 u2 (edge_weights e23)
                  (edge_weights e13) (edge_weights e12)).u3tmp &&
                FP.lt (unfoldTriangle m u1 u2 (edge_weights e23) (edge_weights e13)
                  (edge_weights e12)).u3tmp u3) = true
              · cases hf0 : env.getFaceBetween v1 v2 v3 with
                | none =>
                  left
                  simp only [waveFrontUpdate, hu1, hu2, hu3, he12, he13, he23, hacc, if_true,
                    writePredecessor, hf0]
                  exact ⟨trivial, trivial, trivial⟩
                | some f0 =>
                  cases hp : p.predecessors v3 with
                  | none =>
                    left
                    simp only [waveFrontUpdate, hu1, hu2, hu3, he12, he13, he23, hacc, if_true,
                      writePredecessor, hf0, VMap.insert, h13, h23, if_false, VMap.assign, hp]
                    exact ⟨trivial, trivial, trivial⟩
                  | some x =>
                    right
                    exact ⟨u1, u2, u3, e12, e13, e23, f0, rfl, rfl, rfl, rfl, rfl, rfl, hacc,
                      rfl, rfl, hdir (by rw [hu3]; rfl)⟩
              · left
                simp only [waveFrontUpdate, hu1, hu2, hu3, he12, he13, he23, hacc]
                exact ⟨rfl, rfl, rfl⟩

/-- The values that an accepted update stores for `v3`, when `f` is the
face that `otherFace` chooses: they are the same for every planner with the
distances `u1` and `u2`. -/
theorem waveFrontUpdate_values {R : Type} [LinearOrderedField R] (env : MeshMap R)
    (m : Libm R) (edge_weights : EdgeHandle → FP R) (p : MeshPlanner R)
    (v1 v2 v3 : VertexHandle) (u1 u2 u3 : FP R) (e12 e13 e23 : EdgeHandle) (f0 f : FaceHandle)
    (g : Unfolding R) (S gamma : FP R) (faces : Option FaceHandle × Option FaceHandle)
    (hu1 : p.potential v1 = some u1) (hu2 : p.potential v2 = some u2)
    (hu3 : p.potential v3 = some u3)
    (he12 : env.getEdgeBetween v1 v2 = some e12) (he13 : env.getEdgeBetween v1 v3 = some e13)
    (he23 : env.getEdgeBetween v2 v3 = some e23)
    (hg : g = unfoldTriangle m u1 u2 (edge_weights e23) (edge_weights e13) (edge_weights e12))
    (hacc : (FP.isfinite g.u3tmp && FP.lt g.u3tmp u3) = true)
    (hf0 : env.getFaceBetween v1 v2 v3 = some f0)
    (hpred : (p.predecessors v3).isSome = true) (hdir : (p.direction v3).isSome = true)
    (h13 : v1 ≠ v3) (h23 : v2 ≠ v3)
    (hS : S = halfPlane g (edge_weights e12) (FP.lt u1 u2))
    (hgamma : gamma = turnAngle m g (edge_weights e23) (edge_weights e13) (edge_weights e12)
      (FP.lt u1 u2))
    (hfaces : faces = env.getFacesOfEdge (if FP.lt u1 u2 then e13 else e23))
    (hf : (otherFace faces f0 gamma).1 = some f) :
    (waveFrontUpdate env m edge_weights p v1 v2 v3).2.isSome = true ∧
    (waveFrontUpdate env m edge_weights p v1 v2 v3).1.predecessors v3
      = some (if FP.lt u1 u2 then v1 else v2) ∧
    (waveFrontUpdate env m edge_weights p v1 v2 v3).1.cutting_faces v3
      = some (if FP.gt S (FP.lit 0) = true then f else f0) ∧
    (waveFrontUpdate env m edge_weights p v1 v2 v3).1.direction v3
      = some (if FP.gt S (FP.lit 0) = true then (otherFace faces f0 gamma).2
          else if FP.lt S (FP.lit 0) = true then (otherFace faces f0 gamma).2 * -FP.lit 1
          else FP.lit 0) := by
  subst hg
  have hnf := waveFrontUpdate_accepted env m edge_weights p v1 v2 v3 u1 u2 u3 e12 e13 e23 f0
    hu1 hu2 hu3 he12 he13 he23 hacc hf0 hpred hdir h13 h23
  rw [← hS, ← hgamma, ← hfaces, hf] at hnf
  rw [hnf]
  obtain ⟨h1, h2, h3⟩ := storeCuttingFace_at env
    { p with
      potential := VMap.insert p.potential v3
        (unfoldTriangle m u1 u2 (edge_weights e23) (edge_weights e13)
          (edge_weights e12)).u3tmp,
      predecessors := VMap.insert p.predecessors v3 (if FP.lt u1 u2 then v1 else v2),
      direction := VMap.insert p.direction v3 gamma }
    v3 S f0 f (otherFace faces f0 gamma).2
  refine ⟨h1, ?_, h2, h3⟩
  rw [storeCuttingFace_predecessors]
  exact vmap_insert_same _ _ _

/-- The freshness of the values of a vertex passes to a state in which the
fixed vertices are fixed with the same distances and the vertex has the same
values. -/
theorem freshAt_transfer {R : Type} [LinearOrderedField R] (env : MeshMap R) (m : Libm R)
    (edge_weights : EdgeHandle → FP R) (s s1 : Sweep R) (v : VertexHandle)
    (h : FreshAt env m edge_weights s v)
    (hfix : ∀ w, s.fixed w = true →
      s1.fixed w = true ∧ s1.planner.potential w = s.planner.potential w)
    (hp : s1.planner.predecessors v = s.planner.predecessors v)
    (hc : s1.planner.cutting_faces v = s.planner.cutting_faces v)
    (hd : s1.planner.direction v = s.planner.direction v) :
    FreshAt env m edge_weights s1 v := by
  obtain ⟨v1, v2, hf1, hf2, hn1, hn2, hq⟩ := h
  refine ⟨v1, v2, (hfix v1 hf1).1, (hfix v2 hf2).1, hn1, hn2, ?_⟩
  intro q hq1 hq2 hq3 hq4 hq5
  rw [(hfix v1 hf1).2] at hq1
  rw [(hfix v2 hf2).2] at hq2
  rw [hp, hc, hd]
  exact hq q hq1 hq2 hq3 hq4 hq5

theorem updateFace_cutInv {R : Type} [LinearOrderedField R] (env : MeshMap R) (m : Libm R)
    (edge_weights : EdgeHandle → FP R) (hsane : SaneMesh env)
    (s : Sweep R) (v1 v2 v3 : VertexHandle) (h : CutInv env m edge_weights s)
    (hf1 : s.fixed v1 = true) (hf2 : s.fixed v2 = true) (hf3 : s.fixed v3 = false) :
    CutInv env m edge_weights (updateFace env m edge_weights s v1 v2 v3) := by
  obtain ⟨hf, hfx, _, _⟩ := updateFace_shape env m edge_weights s v1 v2 v3
  have hpl := updateFace_planner env m edge_weights s v1 v2 v3
  have hstep := updateFace_step env m edge_weights (fun _ => True) s v1 v2 v3 h.inv trivial hf3
  have hne : ∀ v, s.fixed v = true → v ≠ v3 := by
    intro v hv h
    rw [h, hf3] at hv
    cases hv
  have hfix : ∀ w, s.fixed w = true →
      (updateFace env m edge_weights s v1 v2 v3).fixed w = true ∧
      (updateFace env m edge_weights s v1 v2 v3).planner.potential w
        = s.planner.potential w := by
    intro w hw
    exact ⟨by rw [hfx]; exact hw, hf.potential w (hne w hw)⟩
  have hother : ∀ v u, v ≠ v3 →
      (updateFace env m edge_weights s v1 v2 v3).planner.predecessors v = some u → u ≠ v →
      FreshAt env m edge_weights (updateFace env m edge_weights s v1 v2 v3) v ∧
      ∃ f, (updateFace env m edge_weights s v1 v2 v3).planner.cutting_faces v = some f ∧
        v ∈ faceVertices env f ∧ u ∈ faceVertices env f := by
    intro v u hv hu hne2
    rw [hf.predecessors v hv] at hu
    refine ⟨freshAt_transfer env m edge_weights s _ v (h.fresh v u hu hne2) hfix
      (hf.predecessors v hv) (hf.cutting_faces v hv) (hf.direction v hv), ?_⟩
    rw [hf.cutting_faces v hv]
    exact h.incident v u hu hne2
  have hat3 : ∀ u,
      (updateFace env m edge_weights s v1 v2 v3).planner.predecessors v3 = some u → u ≠ v3 →
      FreshAt env m edge_weights (updateFace env m edge_weights s v1 v2 v3) v3 ∧
      ∃ f, (updateFace env m edge_weights s v1 v2 v3).planner.cutting_faces v3 = some f ∧
        v3 ∈ faceVertices env f ∧ u ∈ faceVertices env f := by
    intro u hu hne2
    rcases waveFrontUpdate_cases env m edge_weights s.planner v1 v2 v3 (hne v1 hf1)
      (hne v2 hf2) (fun hp => h.inv.dirSome v3 (h.inv.potV v3 hp)) with hsame | hnew
    · obtain ⟨hp, hc, hd⟩ := hsame
      rw [← hpl] at hp hc hd
      rw [hp] at hu
      refine ⟨freshAt_transfer env m edge_weights s _ v3 (h.fresh v3 u hu hne2) hfix
        (by rw [hp]) (by rw [hc]) (by rw [hd]), ?_⟩
      rw [hc]
      exact h.incident v3 u hu hne2
    · obtain ⟨u1, u2, u3, e12, e13, e23, f0, hu1, hu2, hu3, he12, he13, he23, hacc, hf0,
        hpred, hdir⟩ := hnew
      obtain ⟨f, hf⟩ := otherFace_some (env.getFacesOfEdge (if FP.lt u1 u2 then e13 else e23))
        f0 (turnAngle m (unfoldTriangle m u1 u2 (edge_weights e23) (edge_weights e13)
          (edge_weights e12)) (edge_weights e23) (edge_weights e13) (edge_weights e12)
          (FP.lt u1 u2)) (hsane.distinct _ f0)
      obtain ⟨hx⟩ := isfinite_eq_fin _ (by
        simp only [Bool.and_eq_true] at hacc
        exact hacc.1)
      have hval := waveFrontUpdate_values env m edge_weights s.planner v1 v2 v3 u1 u2 u3
        e12 e13 e23 f0 f _ _ _ _ hu1 hu2 hu3 he12 he13 he23 rfl hacc hf0 hpred hdir
        (hne v1 hf1) (hne v2 hf2) rfl rfl rfl hf
      rw [← hpl] at hval
      obtain ⟨_, hvp, hvc, hvd⟩ := hval
      refine ⟨⟨v1, v2, (hfix v1 hf1).1, (hfix v2 hf2).1, hne v1 hf1, hne v2 hf2, ?_⟩, ?_⟩
      · intro q hq1 hq2 hq3 hq4 hq5
        rw [(hfix v1 hf1).2, hu1] at hq1
        rw [(hfix v2 hf2).2, hu2] at hq2
        have hacc2 : (FP.isfinite (unfoldTriangle m u1 u2 (edge_weights e23)
            (edge_weights e13) (edge_weights e12)).u3tmp &&
            FP.lt (unfoldTriangle m u1 u2 (edge_weights e23) (edge_weights e13)
              (edge_weights e12)).u3tmp FP.pinf) = true := by
          simp only [Bool.and_eq_true] at hacc ⊢
          refine ⟨hacc.1, ?_⟩
          obtain ⟨x, hx⟩ := isfinite_eq_fin _ hacc.1
          rw [hx]
          rfl
        have hval2 := waveFrontUpdate_values env m edge_weights q v1 v2 v3 u1 u2 FP.pinf
          e12 e13 e23 f0 f _ _ _ _ hq1 hq2 hq3 he12 he13 he23 rfl hacc2 hf0 hq4 hq5
          (hne v1 hf1) (hne v2 hf2) rfl rfl rfl hf
        obtain ⟨h1, h2, h3, h4⟩ := hval2
        exact ⟨h1, by rw [h2, hvp], by rw [h3, hvc], by rw [h4, hvd]⟩
      · rw [hvp] at hu
        simp only [Option.some.injEq] at hu
        rw [hvc]
        refine ⟨_, rfl, ?_⟩
        obtain ⟨ha, hb, hc⟩ := hsane.faceBetween v1 v2 v3 f0 hf0
        have hpf0 : u ∈ faceVertices env f0 := by
          rw [← hu]
          by_cases hn : FP.lt u1 u2 = true
          · simp only [hn, if_true]
            exact ha
          · simp only [hn, if_false]
            exact hb
        by_cases hgt : FP.gt (halfPlane (unfoldTriangle m u1 u2 (edge_weights e23)
            (edge_weights e13) (edge_weights e12)) (edge_weights e12) (FP.lt u1 u2))
            (FP.lit 0) = true
        · simp only [hgt, if_true]
          rcases otherFace_mem _ _ _ _ hf with h0 | hfe
          · rw [h0]
            exact ⟨hc, hpf0⟩
          · have hedge : env.getEdgeBetween u v3
                = some (if FP.lt u1 u2 then e13 else e23) := by
              rw [← hu]
              by_cases hn : FP.lt u1 u2 = true
              · simp only [hn, if_true]
                exact he13
              · simp only [hn, if_false]
                exact he23
            obtain ⟨hx1, hx2⟩ := hsane.facesOfEdge u v3 _ f hedge hfe
            exact ⟨hx2, hx1⟩
        · simp only [hgt, if_false]
          exact ⟨hc, hpf0⟩
  refine ⟨hstep.inv, ?_, ?_⟩
  · intro v u hu hne2
    by_cases hv : v = v3
    · subst hv
      exact (hat3 u hu hne2).1
    · exact (hother v u hv hu hne2).1
  · intro v u hu hne2
    by_cases hv : v = v3
    · subst hv
      exact (hat3 u hu hne2).2
    · exact (hother v u hv hu hne2).2

theorem pop_cutInv {R : Type} [LinearOrderedField R] (env : MeshMap R) (m : Libm R)
    (edge_weights : EdgeHandle → FP R) (s : Sweep R)
    (entry : VertexHandle × FP R) (pq1 : Meap R) (h : CutInv env m edge_weights s)
    (hpop : s.pq.popMin = some (entry, pq1)) :
    CutInv env m edge_weights
      { s with pq := pq1, fixed := fun v => if v = entry.1 then true else s.fixed v } := by
  obtain ⟨hmem, hkeys, _⟩ := meap_popMin _ _ _ hpop
  refine ⟨?_, ?_, h.incident⟩
  · exact
      { fixedC := fun _ _ => trivial
        keysC := fun _ _ => trivial
        keysV := fun v hv => h.inv.keysV v ((hkeys v).mp hv).1
        potV := h.inv.potV
        outside := h.inv.outside
        predSome := h.inv.predSome
        dirSome := h.inv.dirSome
        flag := h.inv.flag
        potSome := h.inv.potSome }
  · intro v u hu hne
    refine freshAt_transfer env m edge_weights s _ v (h.fresh v u hu hne) ?_ rfl rfl rfl
    intro w hw
    refine ⟨?_, rfl⟩
    show (if w = entry.1 then true else s.fixed w) = true
    split
    · rfl
    · exact hw

theorem sweepRun_cutInv {R : Type} [LinearOrderedField R] (env : MeshMap R)
    (m : Libm R) (edge_weights : EdgeHandle → FP R) (goal_face : FaceHandle)
    (hsane : SaneMesh env) :
    ∀ (k : Nat) (s sk : Sweep R), CutInv env m edge_weights s →
      sweepRun env m edge_weights goal_face k s = some sk → CutInv env m edge_weights sk :=
  sweepRun_invariant env m edge_weights goal_face (CutInv env m edge_weights)
    (fun s v1 v2 v3 hs h1 h2 h3 => updateFace_cutInv env m edge_weights hsane s v1 v2 v3 hs
      h1 h2 h3)
    (fun s hs =>
      ⟨⟨hs.inv.fixedC, hs.inv.keysC, hs.inv.keysV, hs.inv.potV, hs.inv.outside,
        hs.inv.predSome, hs.inv.dirSome, hs.inv.flag, hs.inv.potSome⟩,
        fun v u hu hne => freshAt_transfer env m edge_weights s _ v (hs.fresh v u hu hne)
          (fun w hw => ⟨hw, rfl⟩) rfl rfl rfl,
        hs.incident⟩)
    (fun s entry pq1 hs hpop => pop_cutInv env m edge_weights s entry pq1 hs hpop)
    (fun s hs =>
      ⟨⟨hs.inv.fixedC, hs.inv.keysC, hs.inv.keysV, hs.inv.potV, hs.inv.outside,
        hs.inv.predSome, hs.inv.dirSome, hs.inv.flag, hs.inv.potSome⟩,
        fun v u hu hne => freshAt_transfer env m edge_weights s _ v (hs.fresh v u hu hne)
          (fun w hw => ⟨hw, rfl⟩) rfl rfl rfl,
        hs.incident⟩)

theorem seedLoop_predecessors {R : Type} [LinearOrderedField R] (env : MeshMap R) (m : Libm R)
    (start : Vector R) (start_face : FaceHandle) (l : List VertexHandle) :
    ∀ (s s1 : Sweep R), seedLoop env m start start_face l s = .ok s1 →
      s1.planner.predecessors = s.planner.predecessors := by
  induction l with
  | nil =>
    intro s s1 h
    simp only [seedLoop, Except.ok.injEq] at h
    rw [← h]
  | cons v rest ih =>
    intro s s1 h
    unfold seedLoop at h
    dsimp only at h
    split at h
    · cases h
    · have h2 := ih _ _ h
      exact h2

/-- After the seeding every vertex with a predecessor is its own
predecessor. -/
theorem sweepInit_predecessors {R : Type} [LinearOrderedField R] (env : MeshMap R)
    (m : Libm R) (p : MeshPlanner R) (start : Vector R) (start_face : FaceHandle)
    (s0 : Sweep R) (hpred : p.predecessors = VMap.empty)
    (hinit : sweepInit env m p start start_face = .ok s0) :
    ∀ v u, s0.planner.predecessors v = some u → u = v := by
  unfold sweepInit at hinit
  dsimp only at hinit
  obtain ⟨_, h2, _, _⟩ := initLoop_spec env.vertices { p with vector_map := VMap.empty }
  have hp := seedLoop_predecessors env m start start_face _ _ _ hinit
  intro v u hu
  rw [hp] at hu
  have h3 := h2 v
  simp only at h3
  rw [h3] at hu
  by_cases hv : v ∈ env.vertices
  · simp only [hv, if_true, Option.some.injEq] at hu
    exact hu.symm
  · simp only [hv, if_false, hpred] at hu
    cases hu

/-- C37: on a mesh whose queries agree with its faces, after the seeding and
after every number of iterations of the sweep loop, whatever the maps
`cutting_faces` and `direction` held before the call, a vertex whose
predecessor is another vertex has a cutting face with that vertex and its
predecessor among its vertices, and its predecessor, cutting face and angle
are those that `waveFrontUpdate` writes from two fixed vertices into any
planner with the distances of these two vertices.  The vertices of the seed
face are vertices of the mesh and `initialize` has sized the map
`direction`. -/
theorem sweep_cutting_face_fresh_and_incident {R : Type} [LinearOrderedField R]
    (env : MeshMap R) (m : Libm R) (edge_weights : EdgeHandle → FP R) (goal_face : FaceHandle)
    (p0 : MeshPlanner R) (start : Vector R) (start_face : FaceHandle) (k : Nat)
    (s0 sk : Sweep R) (hsane : SaneMesh env)
    (hsv : ∀ v, v ∈ faceVertices env start_face → v ∈ env.vertices)
    (hdir : ∀ v, v ∈ env.vertices → (p0.direction v).isSome = true)
    (hinit : sweepInit env m { p0 with cancel_planning := false, potential := VMap.empty,
                                       predecessors := VMap.empty } start start_face = .ok s0)
    (hrun : sweepRun env m edge_weights goal_face k s0 = some sk) :
    ∀ v u, sk.planner.predecessors v = some u → u ≠ v →
      (∃ f, sk.planner.cutting_faces v = some f ∧ v ∈ faceVertices env f ∧
        u ∈ faceVertices env f) ∧
      FreshAt env m edge_weights sk v := by
  obtain ⟨s0', hs0', hinv0, _, _⟩ := sweepInit_core env m
    { p0 with cancel_planning := false, potential := VMap.empty, predecessors := VMap.empty }
    start start_face (fun _ => True) (fun _ => True) (fun _ _ => trivial)
    (fun _ _ => trivial) rfl rfl rfl hsv hdir
  rw [hinit] at hs0'
  simp only [Except.ok.injEq] at hs0'
  subst hs0'
  have hself := sweepInit_predecessors env m _ start start_face s0 rfl hinit
  have h0 : CutInv env m edge_weights s0 :=
    ⟨hinv0, fun v u hu hne => absurd (hself v u hu) hne,
      fun v u hu hne => absurd (hself v u hu) hne⟩
  have hk := sweepRun_cutInv env m edge_weights goal_face hsane k s0 sk h0 hrun
  intro v u hu hne
  exact ⟨hk.incident v u hu hne, hk.fresh v u hu hne⟩

theorem exHas_mem (t : Nat × Nat × Nat) (a : Nat) (h : exHas t a = true) :
    a ∈ [t.1, t.2.1, t.2.2] := by
  simp only [exHas, Bool.or_eq_true, beq_iff_eq] at h
  simp only [List.mem_cons, List.mem_singleton, List.not_mem_nil, or_false]
  rcases h with (h | h) | h
  · exact Or.inl h
  · exact Or.inr (Or.inl h)
  · exact Or.inr (Or.inr h)

theorem exStrip_edge_bound (a b e : Nat) (h : exStrip.getEdgeBetween a b = some e) :
    a < 5 ∧ b < 5 := by
  have h2 : (a ≠ b ∧ [(0, 1, 2), (1, 3, 2), (2, 3, 4)].any
      (fun f => exHas f a && exHas f b) = true) := by
    by_contra hc
    have : exStrip.getEdgeBetween a b = none := if_neg hc
    rw [this] at h
    cases h
  obtain ⟨_, h3⟩ := h2
  simp only [List.any_cons, List.any_nil, Bool.or_false, Bool.or_eq_true, Bool.and_eq_true,
    exHas, beq_iff_eq] at h3
  omega

theorem exStrip_edge_faces :
    ∀ a, a < 5 → ∀ b, b < 5 →
      (match exStrip.getEdgeBetween a b with
        | none => true
        | some e =>
          (match (exStrip.getFacesOfEdge e).1 with
            | none => true
            | some f => decide (a ∈ faceVertices exStrip f) &&
                decide (b ∈ faceVertices exStrip f)) &&
          (match (exStrip.getFacesOfEdge e).2 with
            | none => true
            | some f => decide (a ∈ faceVertices exStrip f) &&
                decide (b ∈ faceVertices exStrip f))) = true := by
  decide

theorem nodup_get_ne (l : List Nat) (hn : l.Nodup) (f : Nat) :
    (l.get? 0, l.get? 1) ≠ (some f, some f) := by
  intro h
  cases l with
  | nil => simp at h
  | cons a rest =>
    cases rest with
    | nil => simp at h
    | cons b rest =>
      simp only [List.get?_cons_zero, List.get?_cons_succ, Prod.mk.injEq,
        Option.some.injEq] at h
      rw [h.1, h.2] at hn
      simp at hn

/-- The queries of the strip agree with its faces. -/
theorem exStrip_sane : SaneMesh exStrip where
  faceBetween := by
    intro a b c f h
    have h2 := List.find?_some h
    simp only [Bool.and_eq_true] at h2
    exact ⟨exHas_mem _ a h2.1.1, exHas_mem _ b h2.1.2, exHas_mem _ c h2.2⟩
  facesOfEdge := by
    intro a b e f he hf
    obtain ⟨ha, hb⟩ := exStrip_edge_bound a b e he
    have h := exStrip_edge_faces a ha b hb
    rw [he] at h
    simp only [Bool.and_eq_true] at h
    rcases hf with hf | hf
    · have h1 := h.1
      rw [hf] at h1
      simp only [Bool.and_eq_true, decide_eq_true_eq] at h1
      exact h1
    · have h1 := h.2
      rw [hf] at h1
      simp only [Bool.and_eq_true, decide_eq_true_eq] at h1
      exact h1
  distinct := by
    intro e f
    exact nodup_get_ne _ (List.Nodup.filter _ (List.nodup_range 3)) f

/-- The strip after the seeding at `(0, 0)` and one iteration, in which the
vertex 3 gets the predecessor 2. -/
theorem sweep_cutting_face_fresh_and_incident_witness :
    (∃ f, exAfterOnePop.planner.cutting_faces 3 = some f ∧ 3 ∈ faceVertices exStrip f ∧
      2 ∈ faceVertices exStrip f) ∧
    FreshAt exStrip exLibm exStrip.edgeDistances exAfterOnePop 3 :=
  sweep_cutting_face_fresh_and_incident exStrip exLibm exStrip.edgeDistances 2
    (exPlanner exStrip) (exPoint 0 0) 0 1 exSeeded exAfterOnePop exStrip_sane
    (by intro v hv; revert hv; revert v; decide)
    (by intro v hv; revert hv; revert v; decide)
    exSeeded_eq exAfterOnePop_eq 3 2 (by decide!) (by decide)

/-- The numbers of the example: after one iteration the vertex 3 has the
predecessor 2 and the cutting face 1, which has the vertices 1, 3 and 2. -/
theorem exAfterOnePop_cutting_face :
    exAfterOnePop.planner.predecessors 3 = some 2 ∧
    exAfterOnePop.planner.cutting_faces 3 = some 1 ∧
    faceVertices exStrip 1 = [1, 3, 2] := by
  refine ⟨?_, ?_, ?_⟩ <;> decide!

/-! ## The controller: the window of the search on the plan -/

/-- C21 (what the code does): the loops of `updatePlanPos` run while the
waypoint just read is farther from the agent than `max_dist = velocity *
elapsed time`, so the window of the search is not bounded by the possible
travel and shrinks as the speed grows.  On the plan `(0, 0), ..., (4, 0)` at
the index 0 with the agent at `(4, 0)`, one second after the last call: at
the velocity 0 the possible travel is 0, the forward loop reads all five
waypoints and the index becomes 4; at the velocity 10 the possible travel is
10, the loop reads the waypoint at the index 0 only, and the index stays 0
at the distance 4 from the agent although the waypoint at the index 4 is at
the distance 0. -/
theorem updatePlanPos_window_not_bounded_by_travel :
    exAtStart.plan_iter = 0 ∧
    (FP.fin 0 * durationToSec 1000000001 exAtStart.last_call : FP ℚ) = .fin 0 ∧
    searchWindow exLibm2 (poseToPositionVector (exPose 4 0))
        (FP.fin 0 * durationToSec 1000000001 exAtStart.last_call)
        (exAtStart.current_plan.drop 0)
      = [exPose 0 0, exPose 1 0, exPose 2 0, exPose 3 0, exPose 4 0] ∧
    (updatePlanPos exLibm2 1000000001 exAtStart (exPose 4 0) (.fin 0)).toOption.map
        (fun r => (r.plan_iter, r.plan_position)) = some (4, exPose 4 0) ∧
    (FP.fin 10 * durationToSec 1000000001 exAtStart.last_call : FP ℚ) = .fin 10 ∧
    searchWindow exLibm2 (poseToPositionVector (exPose 4 0))
        (FP.fin 10 * durationToSec 1000000001 exAtStart.last_call)
        (exAtStart.current_plan.drop 0)
      = [exPose 0 0] ∧
    (updatePlanPos exLibm2 1000000001 exAtStart (exPose 4 0) (.fin 10)).toOption.map
        (fun r => (r.plan_iter, r.plan_position)) = some (0, exPose 0 0) ∧
    Vector.distance exLibm2 (poseToPositionVector (exPose 4 0))
        (poseToPositionVector (exPose 0 0)) = .fin 4 ∧
    Vector.distance exLibm2 (poseToPositionVector (exPose 4 0))
        (poseToPositionVector (exPose 4 0)) = .fin 0 := by
  refine ⟨?_, ?_, ?_, ?_, ?_, ?_, ?_, ?_, ?_⟩ <;> decide!

end MeshNav
